import Mathlib

namespace oocmd

/-- Text of a command-line argument, key or message: the characters of a C string. -/
abbrev Str := List Char

/-- The value type `nlohmann::json`; numbers are the integers (no floating point). -/
inductive Json where
  | null
  | boolean (b : Bool)
  | number (i : Int)
  | string (s : Str)
  | array (items : List Json)
  | object (items : List (Str × Json))

/-- The constant `NO_VALUE` of `parse_cmdline` and `match_config`. -/
def NO_VALUE : Int := -1

/-- Conversion of an integer to a 32-bit `int` (`(int)x`, `get<int>()`). -/
def to_int (n : Int) : Int := (n + 2147483648) % 4294967296 - 2147483648

/-- Order of `std::string` keys in a JSON object (`std::map`): lexicographic. -/
def str_lt : Str → Str → Bool
  | [], [] => false
  | [], _ :: _ => true
  | _ :: _, [] => false
  | a :: as, b :: bs =>
    if a.toNat < b.toNat then true
    else if b.toNat < a.toNat then false
    else str_lt as bs

/-- Lookup of a key among the members of an object. -/
def kv_find {β : Type} (k : Str) : List (Str × β) → Option β
  | [] => none
  | (k1, v1) :: rest => if k1 = k then some v1 else kv_find k rest

/-- Assignment to the value of the first member with key `k`. -/
def kv_replace {β : Type} (k : Str) (v : β) : List (Str × β) → List (Str × β)
  | [] => []
  | (k1, v1) :: rest => if k1 = k then (k, v) :: rest else (k1, v1) :: kv_replace k v rest

/-- Insertion of a new key at its place in key order. -/
def kv_insert_new {β : Type} (k : Str) (v : β) : List (Str × β) → List (Str × β)
  | [] => [(k, v)]
  | (k1, v1) :: rest =>
    if str_lt k k1 then (k, v) :: (k1, v1) :: rest else (k1, v1) :: kv_insert_new k v rest

/-- Assignment `m[k] = v` on the members of an object (a `std::map`): the value
of an existing key is replaced, a new key is inserted at its place in key order. -/
def kv_insert {β : Type} (k : Str) (v : β) (kvs : List (Str × β)) : List (Str × β) :=
  if (kv_find k kvs).isSome then kv_replace k v kvs else kv_insert_new k v kvs

/-- Removal `m.erase(k)` on the members of an object. -/
def kv_erase {β : Type} (k : Str) : List (Str × β) → List (Str × β)
  | [] => []
  | (k1, v1) :: rest => if k1 = k then rest else (k1, v1) :: kv_erase k rest

namespace Json

def is_null : Json → Bool
  | .null => true
  | _ => false

def is_boolean : Json → Bool
  | .boolean _ => true
  | _ => false

def is_number : Json → Bool
  | .number _ => true
  | _ => false

def is_string : Json → Bool
  | .string _ => true
  | _ => false

def is_array : Json → Bool
  | .array _ => true
  | _ => false

def is_object : Json → Bool
  | .object _ => true
  | _ => false

/-- The call `get<int>()` on a number. -/
def get_int : Json → Int
  | .number i => to_int i
  | _ => 0

/-- The call `j.contains(key)`. -/
def contains (j : Json) (k : Str) : Bool :=
  match j with
  | .object kvs => (kv_find k kvs).isSome
  | _ => false

/-- The value `j[key]` of an existing key. -/
def get (j : Json) (k : Str) : Option Json :=
  match j with
  | .object kvs => kv_find k kvs
  | _ => none

/-- The assignment `j[key] = v`; `operator[]` turns `null` into an object first.
On any other non-object value the library throws; no caller reaches that. -/
def set (j : Json) (k : Str) (v : Json) : Json :=
  match j with
  | .object kvs => .object (kv_insert k v kvs)
  | .null => .object [(k, v)]
  | other => other

/-- The call `j.erase(key)` on an object. -/
def erase (j : Json) (k : Str) : Json :=
  match j with
  | .object kvs => .object (kv_erase k kvs)
  | other => other

/-- The call `j.empty()`. -/
def empty : Json → Bool
  | .null => true
  | .array [] => true
  | .object [] => true
  | _ => false

/-- The call `j.push_back(v)`; `null` becomes an array first. -/
def push_back (j : Json) (v : Json) : Json :=
  match j with
  | .array xs => .array (xs ++ [v])
  | .null => .array [v]
  | other => other

/-- The value a pointer into the tree refers to; the pointer is the list of keys
leading from the root to the value. -/
def get_path : Json → List Str → Option Json
  | j, [] => some j
  | j, k :: ks =>
    match j.get k with
    | some v => get_path v ks
    | none => none

/-- Write through a pointer into the tree: the value at the end of the key path
is replaced by `f` of it. -/
def modify_path (f : Json → Json) : List Str → Json → Json
  | [], j => f j
  | k :: ks, j =>
    match j.get k with
    | some v => j.set k (modify_path f ks v)
    | none => j

end Json

/-- The function `iequals` of bool_string.hpp. -/
def iequals : Str → Str → Bool
  | c1 :: s1, c2 :: s2 => if c1.toLower ≠ c2.toLower then false else iequals s1 s2
  | s1, s2 => s1.isEmpty && s2.isEmpty

def string_contains_true (s : Str) : Bool :=
  iequals s "1".toList || iequals s "on".toList || iequals s "true".toList

def string_contains_false (s : Str) : Bool :=
  iequals s "0".toList || iequals s "off".toList || iequals s "false".toList

/-- Result of the context-free command line parsing. -/
structure CmdlineConfig where
  json : Json
  args : List (Option Str)

/-- The lambda `set_or_make_list` of `parse_cmdline`, as a function of the old value. -/
def set_or_make_list (obj : Json) (value : Json) : Json :=
  if obj.is_null || (obj.is_number && obj.get_int == NO_VALUE) then value
  else (Json.null.push_back obj).push_back value

/-- The local variables of `parse_cmdline` between two arguments. The pointer
`current_param` is the key path from the root `obj` to the value it points to. -/
structure ParseState where
  obj : Json
  args : List (Option Str)
  current_param : Option (List Str)
  errors : List Str

def err_already_assigned (argv_i : Str) (parent : Str) : Str :=
  "error parsing argument \"".toList ++ argv_i
    ++ "\": already assigned a value to alleged parent ".toList
    ++ "\"".toList ++ parent ++ "\"".toList

def err_sub_param (argv_i : Str) : Str :=
  "error parsing argument \"".toList ++ argv_i
    ++ "\": cannot assign value because a sub parameter has already been defined".toList

def err_use_assignment (arg : Str) : Str :=
  "error parsing argument \"".toList ++ arg
    ++ "\": in case you are trying to explicitly set a value, use the '=' operator instead, e.g., \"--x=".toList
    ++ arg ++ "\" instead of \"--x ".toList ++ arg ++ "\"".toList
    ++ " (if you actually have an input file named \"".toList ++ arg
    ++ "\", please consider using a different file name ...)".toList

/-- State of the inner `while(*arg)` loop over a long parameter name. -/
structure LongState where
  obj : Json
  current_obj : List Str
  current_name : Str
  errors : List Str
  value : Option Str

/-- The loop `while(*arg)` over the characters of a long parameter name.
`seen` is the text of `argv[i]` before the current character. -/
def parse_long_name (argv_i : Str) : List Char → Str → LongState → LongState
  | [], _, st => st
  | c :: rest, seen, st =>
    if c = '=' then
      { st with value := some rest }
    else if c = '.' then
      let cur := (st.obj.get_path st.current_obj).getD Json.null
      let st1 : LongState :=
        if cur.contains st.current_name then
          match cur.get st.current_name with
          | some (Json.object _) =>
            { st with current_obj := st.current_obj ++ [st.current_name] }
          | _ =>
            { st with errors := st.errors ++ [err_already_assigned argv_i seen] }
        else
          { st with
            obj := st.obj.modify_path (fun o => o.set st.current_name (Json.object [])) st.current_obj
            current_obj := st.current_obj ++ [st.current_name] }
      parse_long_name argv_i rest (seen ++ [c]) { st1 with current_name := [] }
    else
      parse_long_name argv_i rest (seen ++ [c]) { st with current_name := st.current_name ++ [c] }

/-- The loop `while(*arg)` over the characters of a short parameter argument. -/
def parse_short_names : List Char → ParseState → ParseState
  | [], st => st
  | c :: rest, st =>
    parse_short_names rest
      { st with obj := st.obj.set [c] (Json.number NO_VALUE), current_param := some [[c]] }

/-- The branch of `parse_cmdline` for an argument that is a value: `value` is
`some v` after an assignment operator (`assign_value`), `none` for a bare argument
`arg`. -/
def parse_value (argv_i : Str) (arg : Str) (assign_value : Bool) (st : ParseState) : ParseState :=
  let st1 : ParseState :=
    match st.current_param with
    | some p =>
      let cur := (st.obj.get_path p).getD Json.null
      let errors := if cur.is_object then st.errors ++ [err_sub_param argv_i] else st.errors
      let value := if assign_value then Json.string arg else Json.number (to_int st.args.length)
      { st with
        obj := st.obj.modify_path (fun o => set_or_make_list o value) p
        errors := errors
        current_param := none }
    | none => st
  if !assign_value then
    let errors :=
      if string_contains_true arg || string_contains_false arg then
        st1.errors ++ [err_use_assignment arg]
      else st1.errors
    { st1 with errors := errors, args := st1.args ++ [some arg] }
  else st1

/-- One command-line argument `argv[i]` of the loop of `parse_cmdline` (both
iterations when the argument holds an assignment operator). -/
def parse_arg (st : ParseState) (argv_i : Str) : ParseState :=
  match argv_i with
  | '-' :: '-' :: name =>
    let ls := parse_long_name argv_i name ['-', '-']
      { obj := st.obj, current_obj := [], current_name := [], errors := st.errors, value := none }
    let cur := (ls.obj.get_path ls.current_obj).getD Json.null
    let path := ls.current_obj ++ [ls.current_name]
    let obj1 :=
      if cur.contains ls.current_name then ls.obj
      else ls.obj.modify_path (fun o => o.set ls.current_name (Json.number NO_VALUE)) ls.current_obj
    let st1 : ParseState :=
      { obj := obj1, args := st.args, current_param := some path, errors := ls.errors }
    match ls.value with
    | some v => parse_value argv_i v true st1
    | none => st1
  | '-' :: names => parse_short_names names st
  | _ => parse_value argv_i argv_i false st

/-- The function `parse_cmdline`: `argv` holds all `argc` arguments, the first is skipped. -/
def parse_cmdline (argv : List Str) (errors : List Str) : CmdlineConfig × List Str :=
  let st := (argv.drop 1).foldl parse_arg
    { obj := Json.null, args := [], current_param := none, errors := errors }
  ({ json := st.obj, args := st.args }, st.errors)


/-! ### Parameter adapters and config objects -/

/-- The test `isspace` of the C locale: the space and the characters 9 to 13. -/
def isspace (c : Char) : Bool :=
  c.toNat = 32 || (9 ≤ c.toNat && c.toNat ≤ 13)

/-- The test `isdigit`. -/
def isdigit (c : Char) : Bool := 48 ≤ c.toNat && c.toNat ≤ 57

/-- The function `toupper` of the C locale. -/
def toupper (c : Char) : Char := c.toUpper

/-- Value of a run of decimal digits. -/
def digits_value (ds : List Char) : Nat :=
  ds.foldl (fun acc d => 10 * acc + (d.toNat - 48)) 0

/-- The subject sequence the `strtol` family reads in base 10: optional white
space, an optional sign, a non-empty run of digits. The result is the sign, the
magnitude and the rest of the text (`endptr`); `none` when no conversion can be
performed. -/
def scan_integer (s : Str) : Option (Bool × Nat × Str) :=
  let s1 := s.dropWhile isspace
  let signed : Bool × Str :=
    match s1 with
    | '-' :: r => (true, r)
    | '+' :: r => (false, r)
    | _ => (false, s1)
  let ds := signed.2.takeWhile isdigit
  if ds.isEmpty then none
  else some (signed.1, digits_value ds, signed.2.dropWhile isdigit)

/-- The call `std::stoi(s)`; `none` stands for the exceptions `invalid_argument`
and `out_of_range`. -/
def stoi (s : Str) : Option Int :=
  match scan_integer s with
  | none => none
  | some (neg, m, _) =>
    let v : Int := if neg then -(m : Int) else (m : Int)
    if -2147483648 ≤ v ∧ v ≤ 2147483647 then some v else none

/-- The call `std::stoul(s)` with a 64-bit `unsigned long`; `none` stands for the
exceptions `invalid_argument` and `out_of_range`. A negative numeral wraps. -/
def stoul (s : Str) : Option Nat :=
  match scan_integer s with
  | none => none
  | some (neg, m, _) =>
    if 18446744073709551615 < m then none
    else some (if neg then (18446744073709551616 - m) % 18446744073709551616 else m)

/-- The call `std::strtoull(str, &p, 10)`: the value and the end pointer. Without
a conversion the value is 0 and the end pointer is `str`; an overflow yields
`ULLONG_MAX`. -/
def strtoull (s : Str) : Nat × Str :=
  match scan_integer s with
  | none => (0, s)
  | some (neg, m, rest) =>
    if 18446744073709551615 < m then (18446744073709551615, rest)
    else (if neg then (18446744073709551616 - m) % 18446744073709551616 else m, rest)

/-- The character `*p` of a C string: the terminating 0 at the end. -/
def peek (p : Str) : Char := p.headD (Char.ofNat 0)

/-- The function `parse_si_iec_string`: the success flag and `out_v`. The end
pointer of `strtoull` is never null, so the first test never fires. -/
def parse_si_iec_string (str : Str) : Bool × Nat :=
  let r := strtoull str
  let p1 := r.2.dropWhile (fun c => c = ' ')
  let power : Nat :=
    if toupper (peek p1) = 'K' then 1
    else if toupper (peek p1) = 'M' then 2
    else if toupper (peek p1) = 'G' then 3
    else if toupper (peek p1) = 'T' then 4
    else if toupper (peek p1) = 'P' then 5
    else 0
  let p2 := if power ≠ 0 then p1.drop 1 else p1
  let iec : Bool := power ≠ 0 && toupper (peek p2) = 'I'
  let base : Nat := if iec then 1024 else 1000
  let p3 := if iec then p2.drop 1 else p2
  let out_v := (r.1 * base ^ power) % 18446744073709551616
  let p4 := if power = 0 && toupper (peek p3) = 'B' then p3.drop 1 else p3
  let p5 := p4.dropWhile (fun c => c = ' ')
  (p5.isEmpty, out_v)

/-- The table `SI_UNITS` of `make_si_iec_string`. -/
def SI_UNITS : List Str :=
  ["K".toList, "M".toList, "G".toList, "T".toList, "P".toList, "E".toList]

/-- The table `IEC_UNITS` of `make_si_iec_string`. -/
def IEC_UNITS : List Str :=
  ["Ki".toList, "Mi".toList, "Gi".toList, "Ti".toList, "Pi".toList, "Ei".toList]

/-- The loop `do { ++order; v /= base; } while(v > 0 && v % base == 0)` of
`make_si_iec_string`, as a function of `order` and `v` before it. `fuel` bounds
the number of iterations; `none` when it runs out. -/
def divide_loop (base : Nat) : Nat → Nat → Nat → Option (Nat × Nat)
  | 0, _, _ => none
  | fuel + 1, order, v =>
    if 0 < v / base ∧ (v / base) % base = 0 then divide_loop base fuel (order + 1) (v / base)
    else some (order + 1, v / base)

/-- The read `units[order - 1]` with a `size_t` index; `none` outside the table. -/
def unit_at (units : List Str) (order : Nat) : Option Str :=
  units.get? ((order + 18446744073709551616 - 1) % 18446744073709551616)

/-- The function `make_si_iec_string` on a 64-bit value `v`; `std::to_string` is
the decimal text. `none` when a loop runs out of `fuel` or the index into a table
of units is out of bounds. -/
def make_si_iec_string (fuel : Nat) (v : Nat) : Option Str :=
  if 0 < v ∧ v % 1000 = 0 then
    match divide_loop 1000 fuel 0 v with
    | some (order, v1) => (unit_at SI_UNITS order).map (fun u => (Nat.repr v1).toList ++ u)
    | none => none
  else if 0 < v ∧ v % 1024 = 0 then
    match divide_loop 1024 fuel 0 v with
    | some (order, v1) => (unit_at IEC_UNITS order).map (fun u => (Nat.repr v1).toList ++ u)
    | none => none
  else some (Nat.repr v).toList

mutual
/-- The classes derived from `ConfigParam` (the floating point adapters are left
out). `ref` is the variable the parameter is bound to. -/
inductive ConfigParam where
  | FlagParam (short_name : Char) (name desc : Str) (ref default_value : Bool)
  | IntParam (short_name : Char) (name desc : Str) (ref default_value : Int)
  | UIntParam (short_name : Char) (name desc : Str) (ref default_value : Nat)
  | BytesParam (short_name : Char) (name desc : Str) (ref default_value : Nat)
  | StringParam (short_name : Char) (name desc : Str) (ref default_value : Str)
  | StringListParam (short_name : Char) (name desc : Str) (ref default_value : List Str)
  | NestedParam (short_name : Char) (name desc : Str) (object : ConfigObject)
/-- The class `ConfigObject`: `params` holds the values of the map `params_`,
each found under its own name; `short_params` is the map `short_params_`. -/
inductive ConfigObject where
  | mk (type_name desc : Str) (params : List ConfigParam) (short_params : List (Char × Str))
end

namespace ConfigParam

def short_name : ConfigParam → Char
  | FlagParam c _ _ _ _ => c
  | IntParam c _ _ _ _ => c
  | UIntParam c _ _ _ _ => c
  | BytesParam c _ _ _ _ => c
  | StringParam c _ _ _ _ => c
  | StringListParam c _ _ _ _ => c
  | NestedParam c _ _ _ => c

def name : ConfigParam → Str
  | FlagParam _ n _ _ _ => n
  | IntParam _ n _ _ _ => n
  | UIntParam _ n _ _ _ => n
  | BytesParam _ n _ _ _ => n
  | StringParam _ n _ _ _ => n
  | StringListParam _ n _ _ _ => n
  | NestedParam _ n _ _ => n

def has_short_name (p : ConfigParam) : Bool := p.short_name ≠ Char.ofNat 0

def is_flag : ConfigParam → Bool
  | FlagParam _ _ _ _ _ => true
  | _ => false

def is_list : ConfigParam → Bool
  | StringListParam _ _ _ _ _ => true
  | _ => false

/-- Whether `dynamic_cast<ObjectParam const*>` succeeds. -/
def is_object : ConfigParam → Bool
  | NestedParam _ _ _ _ => true
  | _ => false

end ConfigParam

namespace ConfigObject

def type_name : ConfigObject → Str
  | mk t _ _ _ => t

def params : ConfigObject → List ConfigParam
  | mk _ _ ps _ => ps

def short_params : ConfigObject → List (Char × Str)
  | mk _ _ _ sp => sp

/-- The method `get_param(std::string const&)`. -/
def get_param (x : ConfigObject) (name : Str) : Option ConfigParam :=
  x.params.find? (fun p => p.name = name)

/-- The method `get_param(char)`. -/
def get_param_short (x : ConfigObject) (short_name : Char) : Option ConfigParam :=
  match x.short_params.find? (fun e => e.1 = short_name) with
  | some e => x.get_param e.2
  | none => none

/-- The method `make_param`: both `emplace` calls keep an entry that is already there. -/
def make_param (x : ConfigObject) (p : ConfigParam) : ConfigObject :=
  let sp :=
    if p.has_short_name && (x.short_params.find? (fun e => e.1 = p.short_name)).isNone then
      x.short_params ++ [(p.short_name, p.name)]
    else x.short_params
  let ps := if (x.get_param p.name).isNone then x.params ++ [p] else x.params
  match x with
  | mk t d _ _ => mk t d ps sp

end ConfigObject

/-- The loop of `StringListParam::configure` over the items of an array: `none`
when an item is not a string. -/
def string_items : List Json → Option (List Str)
  | [] => some []
  | Json.string s :: rest =>
    match string_items rest with
    | some l => some (s :: l)
    | none => none
  | _ :: _ => none

mutual
/-- The virtual method `ConfigParam::configure`: the parameter after the call and
the returned flag. -/
def ConfigParam.configure (json : Json) : ConfigParam → ConfigParam × Bool
  | .FlagParam c n d ref dv =>
    if json.contains n then
      match json.get n with
      | some (Json.boolean b) => (.FlagParam c n d b dv, true)
      | some (Json.string s) => (.FlagParam c n d (string_contains_true s) dv, true)
      | _ => (.FlagParam c n d ref dv, false)
    else (.FlagParam c n d ref dv, false)
  | .IntParam c n d ref dv =>
    if json.contains n then
      match json.get n with
      | some (Json.string s) =>
        match stoi s with
        | some v => (.IntParam c n d v dv, true)
        | none => (.IntParam c n d ref dv, false)
      | some (Json.number i) => (.IntParam c n d (to_int i) dv, true)
      | _ => (.IntParam c n d ref dv, false)
    else (.IntParam c n d ref dv, false)
  | .UIntParam c n d ref dv =>
    if json.contains n then
      match json.get n with
      | some (Json.string s) =>
        match stoul s with
        | some v => (.UIntParam c n d (v % 4294967296) dv, true)
        | none => (.UIntParam c n d ref dv, false)
      | some (Json.number i) => (.UIntParam c n d (i % 4294967296).toNat dv, true)
      | _ => (.UIntParam c n d ref dv, false)
    else (.UIntParam c n d ref dv, false)
  | .BytesParam c n d ref dv =>
    if json.contains n then
      match json.get n with
      | some (Json.number i) => (.BytesParam c n d (i % 18446744073709551616).toNat dv, true)
      | some (Json.string s) =>
        if (parse_si_iec_string s).1 then (.BytesParam c n d (parse_si_iec_string s).2 dv, true)
        else (.BytesParam c n d ref dv, false)
      | _ => (.BytesParam c n d ref dv, false)
    else (.BytesParam c n d ref dv, false)
  | .StringParam c n d ref dv =>
    if json.contains n then
      match json.get n with
      | some (Json.string s) => (.StringParam c n d s dv, true)
      | _ => (.StringParam c n d ref dv, false)
    else (.StringParam c n d ref dv, false)
  | .StringListParam c n d ref dv =>
    if json.contains n then
      match json.get n with
      | some (Json.array items) =>
        match string_items items with
        | some l => (.StringListParam c n d l dv, true)
        | none => (.StringListParam c n d ref dv, false)
      | some (Json.string s) => (.StringListParam c n d [s] dv, true)
      | _ => (.StringListParam c n d ref dv, false)
    else (.StringListParam c n d ref dv, false)
  | .NestedParam c n d object =>
    if json.contains n then
      match json.get n with
      | some v =>
        if v.is_object && !v.empty then (.NestedParam c n d (ConfigObject.configure v object), true)
        else (.NestedParam c n d object, true)
      | none => (.NestedParam c n d object, true)
    else (.NestedParam c n d object, false)
/-- The method `ConfigObject::configure`; the flags returned by the parameters are dropped. -/
def ConfigObject.configure (json : Json) : ConfigObject → ConfigObject
  | .mk t d ps sp => .mk t d (configure_params json ps) sp
/-- The loop of `ConfigObject::configure` over `params_`. -/
def configure_params (json : Json) : List ConfigParam → List ConfigParam
  | [] => []
  | p :: ps => (ConfigParam.configure json p).1 :: configure_params json ps
end

/-! ### match_config -/

/-- The method `type_name()` of a JSON value. -/
def Json.type_name : Json → Str
  | .null => "null".toList
  | .boolean _ => "boolean".toList
  | .number _ => "number".toList
  | .string _ => "string".toList
  | .array _ => "array".toList
  | .object _ => "object".toList

/-- The lambda `print_error_context` of `match_config`. -/
def print_error_context (x : ConfigObject) (context : Str) : Str :=
  if !context.isEmpty then
    "object ".toList ++ context ++ " (of type ".toList ++ x.type_name ++ ")".toList
  else
    "root object (of type ".toList ++ x.type_name ++ ")".toList

def err_list_given (x : ConfigObject) (context key : Str) : Str :=
  "configuration parameter \"".toList ++ key ++ "\" for ".toList
    ++ print_error_context x context ++ " expects a single value, but a list was given".toList

def err_object_value (x : ConfigObject) (context key : Str) : Str :=
  "cannot assign a value to object parameter \"".toList ++ key ++ "\" of ".toList
    ++ print_error_context x context

def err_array_item (x : ConfigObject) (context key : Str) (index : Nat) (item : Json) : Str :=
  "array item ".toList ++ (Nat.repr index).toList ++ " of configuration parameter \"".toList
    ++ key ++ "\" for ".toList ++ print_error_context x context
    ++ " is of unsupported type ".toList ++ item.type_name

def err_no_value (x : ConfigObject) (context key : Str) : Str :=
  "configuration parameter \"".toList ++ key ++ "\" for ".toList
    ++ print_error_context x context ++ " expects a value, but none was given".toList

def err_unknown (x : ConfigObject) (context key : Str) : Str :=
  "unknown configuration parameter \"".toList ++ key ++ "\" for ".toList
    ++ print_error_context x context

/-- The read `args[i]` used as a C string: `none` when the index is out of range
or the entry is already `nullptr` (undefined behaviour in the source). -/
def args_at (args : List (Option Str)) (i : Int) : Option Str :=
  if 0 ≤ i then (args.get? i.toNat).join else none

/-- The local variables of `match_config` that the loop over the items changes. -/
structure MatchState where
  matched : Json
  matched_keys : List Str
  args : List (Option Str)
  errors : List Str

/-- What a call of `match_config` leaves behind: the returned JSON `matched` and
the reference arguments `config`, `args` and `errors` after the call. -/
structure MatchResult where
  matched : Json
  config : Json
  args : List (Option Str)
  errors : List Str

/-- The inner loop of `match_config` over the items of an array value. `none`
when the assertion fails or `args[i]` is not a valid string. -/
def match_list_items (x : ConfigObject) (context key : Str) :
    List Json → Nat → Json → List (Option Str) → List Str →
    Option (Json × List (Option Str) × List Str)
  | [], _, list, args, errors => some (list, args, errors)
  | item :: rest, index, list, args, errors =>
    match item with
    | Json.string _ => match_list_items x context key rest (index + 1) (list.push_back item) args errors
    | Json.number _ =>
      if item.get_int = NO_VALUE then none
      else
        match args_at args item.get_int with
        | some s =>
          match_list_items x context key rest (index + 1) (list.push_back (Json.string s))
            (args.set item.get_int.toNat none) errors
        | none => none
    | _ =>
      match_list_items x context key rest (index + 1) list args
        (errors ++ [err_array_item x context key index item])

/-- The lookup at the head of the loop body of `match_config`: by name, and for a
key of length one that is no name, by short name. -/
def find_param (cfgobj : ConfigObject) (key : Str) : Option ConfigParam :=
  match cfgobj.get_param key with
  | some p => some p
  | none =>
    match key with
    | [c] => cfgobj.get_param_short c
    | _ => none

/-- The body of the loop of `match_config` for the item `key`, `v`. `sub` is the
result of the recursive call for an object parameter with an object value. The
result is the state after the iteration and the value `v` after it. -/
def match_item (cfgobj : ConfigObject) (key : Str) (v : Json) (ignore_unknown_params : Bool)
    (context : Str) (sub : Option MatchResult) (st : MatchState) : Option (MatchState × Json) :=
  match find_param cfgobj key with
  | some p =>
    if v.is_array && !p.is_list then
      some ({ st with errors := st.errors ++ [err_list_given cfgobj context key] }, v)
    else
      match p with
      | ConfigParam.NestedParam _ _ _ _ =>
        if v.is_object then
          match sub with
          | some r =>
            some ({ matched := st.matched.set p.name r.matched
                    matched_keys := st.matched_keys ++ [key]
                    args := r.args
                    errors := r.errors }, r.config)
          | none => none
        else
          some ({ st with errors := st.errors ++ [err_object_value cfgobj context key] }, v)
      | _ =>
        if p.is_flag then
          if v.is_string then
            some ({ st with matched := st.matched.set p.name v
                            matched_keys := st.matched_keys ++ [key] }, v)
          else
            some ({ st with matched := st.matched.set p.name (Json.boolean true)
                            matched_keys := st.matched_keys ++ [key] }, v)
        else
          match v with
          | Json.string _ =>
            some ({ st with matched := st.matched.set p.name v
                            matched_keys := st.matched_keys ++ [key] }, v)
          | Json.number _ =>
            if v.get_int ≠ NO_VALUE then
              match args_at st.args v.get_int with
              | some s =>
                some ({ st with matched := st.matched.set p.name (Json.string s)
                                matched_keys := st.matched_keys ++ [key]
                                args := st.args.set v.get_int.toNat none }, v)
              | none => none
            else
              some ({ st with errors := st.errors ++ [err_no_value cfgobj context key] }, v)
          | Json.array items =>
            match match_list_items cfgobj context key items 0 Json.null st.args st.errors with
            | some (list, args, errors) =>
              some ({ matched := st.matched.set p.name list
                      matched_keys := st.matched_keys ++ [key]
                      args := args
                      errors := errors }, v)
            | none => none
          | _ =>
            some ({ st with errors := st.errors ++ [err_no_value cfgobj context key] }, v)
  | none =>
    if !ignore_unknown_params then
      some ({ st with errors := st.errors ++ [err_unknown cfgobj context key] }, v)
    else some (st, v)

/-- The object a key resolves to when it names an object parameter. -/
def nested_object (cfgobj : ConfigObject) (key : Str) : Option ConfigObject :=
  match find_param cfgobj key with
  | some (ConfigParam.NestedParam _ _ _ o) => some o
  | _ => none

/-- The context string of the recursive call. -/
def sub_context (context key : Str) : Str :=
  if context.isEmpty then key else context ++ ".".toList ++ key

mutual
/-- The function `match_config`. `none` stands for undefined behaviour or a failed
assertion inside it. -/
def match_config (cfgobj : ConfigObject) (config : Json) (args : List (Option Str))
    (ignore_unknown_params : Bool) (context : Str) (errors : List Str) : Option MatchResult :=
  match config with
  | Json.null => some { matched := Json.null, config := Json.null, args := args, errors := errors }
  | Json.object kvs =>
    match match_object_items cfgobj kvs ignore_unknown_params context
        { matched := Json.null, matched_keys := [], args := args, errors := errors } with
    | some (st, kvs1) =>
      some { matched := st.matched
             config := Json.object (st.matched_keys.foldl (fun m k => kv_erase k m) kvs1)
             args := st.args
             errors := st.errors }
    | none => none
  | Json.array xs =>
    match match_array_items cfgobj xs 0 ignore_unknown_params context
        { matched := Json.null, matched_keys := [], args := args, errors := errors } with
    | some (st, xs1) =>
      some { matched := st.matched, config := Json.array xs1, args := st.args, errors := st.errors }
    | none => none
  | v =>
    match match_item cfgobj [] v ignore_unknown_params context none
        { matched := Json.null, matched_keys := [], args := args, errors := errors } with
    | some (st, v1) =>
      some { matched := st.matched, config := v1, args := st.args, errors := st.errors }
    | none => none
/-- The loop `for(auto& p : config.items())` over the members of an object. -/
def match_object_items (cfgobj : ConfigObject) (items : List (Str × Json))
    (ignore_unknown_params : Bool) (context : Str) (st : MatchState) :
    Option (MatchState × List (Str × Json)) :=
  match items with
  | [] => some (st, [])
  | (key, v) :: rest =>
    let sub : Option MatchResult :=
      match nested_object cfgobj key with
      | some o => match_config o v st.args ignore_unknown_params (sub_context context key) st.errors
      | none => none
    match match_item cfgobj key v ignore_unknown_params context sub st with
    | some (st1, v1) =>
      match match_object_items cfgobj rest ignore_unknown_params context st1 with
      | some (st2, rest1) => some (st2, (key, v1) :: rest1)
      | none => none
    | none => none
/-- The loop `for(auto& p : config.items())` over the items of an array; the key
of an item is its index. -/
def match_array_items (cfgobj : ConfigObject) (items : List Json) (index : Nat)
    (ignore_unknown_params : Bool) (context : Str) (st : MatchState) :
    Option (MatchState × List Json) :=
  match items with
  | [] => some (st, [])
  | v :: rest =>
    let key := (Nat.repr index).toList
    let sub : Option MatchResult :=
      match nested_object cfgobj key with
      | some o => match_config o v st.args ignore_unknown_params (sub_context context key) st.errors
      | none => none
    match match_item cfgobj key v ignore_unknown_params context sub st with
    | some (st1, v1) =>
      match match_array_items cfgobj rest (index + 1) ignore_unknown_params context st1 with
      | some (st2, rest1) => some (st2, v1 :: rest1)
      | none => none
    | none => none
end

/-- The recursive call in the loop body of `match_config` for the member `key`,
`v`: made when the key resolves to an object parameter. -/
def object_sub (cfgobj : ConfigObject) (key : Str) (v : Json) (args : List (Option Str))
    (ignore_unknown_params : Bool) (context : Str) (errors : List Str) : Option MatchResult :=
  match nested_object cfgobj key with
  | some o => match_config o v args ignore_unknown_params (sub_context context key) errors
  | none => none

/-! ### Application -/

/-- The observable members of `Application` after its constructor. -/
structure Application where
  good_ : Bool
  args_ : List Str
  help_ : Bool
  binary_ : Str

/-- A run of the constructor of `Application`: the application, the target
object `x` after it and the lines written to `std::cerr`. -/
structure Run where
  app : Application
  x : ConfigObject
  cerr : List Str

/-- The `ConfigObject` base of an `Application` after `param('h', "help", help_, ...)`. -/
def Application.base (help_ : Bool) : ConfigObject :=
  (ConfigObject.mk "Application".toList "Command line parser of oocmd".toList [] []).make_param
    (ConfigParam.FlagParam 'h' "help".toList "Shows this help.".toList help_ help_)

/-- The member `help_`, the variable of the parameter `help` of the base object. -/
def Application.help_of (base : ConfigObject) : Bool :=
  match base.get_param "help".toList with
  | some (ConfigParam.FlagParam _ _ _ ref _) => ref
  | _ => false

/-- The function `report_errors`: whether there is anything to print. -/
def report_errors (errors : List Str) : Bool := !errors.isEmpty

/-- The constructor `Application(x, argc, argv)`. `none` stands for undefined
behaviour or a failed assertion. -/
def Application.new (x : ConfigObject) (argv : List Str) : Option Run :=
  let binary := argv.headD []
  let cmdline := parse_cmdline argv []
  if report_errors cmdline.2 then
    some { app := { good_ := false, args_ := [], help_ := false, binary_ := binary }
           x := x, cerr := cmdline.2 }
  else
    match match_config (Application.base false) cmdline.1.json cmdline.1.args true [] cmdline.2 with
    | none => none
    | some r1 =>
      if report_errors r1.errors then
        some { app := { good_ := false, args_ := [], help_ := false, binary_ := binary }
               x := x, cerr := r1.errors }
      else
        let help := Application.help_of ((Application.base false).configure r1.matched)
        match match_config x r1.config r1.args false [] r1.errors with
        | none => none
        | some r2 =>
          if report_errors r2.errors then
            some { app := { good_ := false, args_ := [], help_ := help, binary_ := binary }
                   x := x, cerr := r2.errors }
          else if !r2.config.empty then none
          else
            some { app := { good_ := !help
                            args_ := r2.args.filterMap id
                            help_ := help
                            binary_ := binary }
                   x := x.configure r2.matched, cerr := [] }

/-! ### Token references: notions used to state the properties -/

mutual
/-- Number of places at which a tree holds the number `n`. -/
def Json.count (n : Int) : Json → Nat
  | Json.number i => if i = n then 1 else 0
  | Json.array xs => count_items n xs
  | Json.object kvs => count_members n kvs
  | _ => 0
/-- Number of places at which the items of an array hold the number `n`. -/
def count_items (n : Int) : List Json → Nat
  | [] => 0
  | x :: xs => Json.count n x + count_items n xs
/-- Number of places at which the members of an object hold the number `n`. -/
def count_members (n : Int) : List (Str × Json) → Nat
  | [] => 0
  | (_, v) :: rest => Json.count n v + count_members n rest
end

mutual
/-- Every number of the tree is `NO_VALUE` or an index below `len`, and no item
of an array is `NO_VALUE`. -/
def Json.refs_ok (len : Nat) : Json → Bool
  | Json.number i => i = NO_VALUE || (0 ≤ i && i < len)
  | Json.array xs => refs_ok_items len xs
  | Json.object kvs => refs_ok_members len kvs
  | _ => true
/-- The items of an array: see `Json.refs_ok`. -/
def refs_ok_items (len : Nat) : List Json → Bool
  | [] => true
  | Json.number i :: xs => (0 ≤ i && i < len) && refs_ok_items len xs
  | x :: xs => Json.refs_ok len x && refs_ok_items len xs
/-- The members of an object: see `Json.refs_ok`. -/
def refs_ok_members (len : Nat) : List (Str × Json) → Bool
  | [] => true
  | (_, v) :: rest => Json.refs_ok len v && refs_ok_members len rest
end

/-- The token indices among the items of a list value. -/
def item_refs : List Json → List Nat
  | [] => []
  | Json.number i :: rest => (to_int i).toNat :: item_refs rest
  | _ :: rest => item_refs rest

/-- The token indices a provisional value hands to a valued parameter: the index
of a token reference, or the indices among the items of a list. -/
def value_refs : Json → List Nat
  | Json.number i => if to_int i ≠ NO_VALUE then [(to_int i).toNat] else []
  | Json.array items => item_refs items
  | _ => []

/-- The token indices that one member `key`, `v` of a tree binds as the value of
a scalar or list parameter of the object `x`; `sub` are the indices bound inside
`v` when the key resolves to an object parameter. -/
def member_refs (x : ConfigObject) (key : Str) (v : Json) (sub : List Nat) : List Nat :=
  match find_param x key with
  | some p =>
    if v.is_array && !p.is_list then []
    else if p.is_object then sub
    else if p.is_flag then []
    else value_refs v
  | none => []

mutual
/-- The indices of the tokens that a tree binds as the value of a scalar or list
parameter of the object `x`: the references stored under a key that resolves to
a parameter that is neither a flag nor an object (a list only for a list
parameter), at the root and inside the objects of object parameters. -/
def bound_refs (x : ConfigObject) : Json → List Nat
  | Json.object kvs => bound_refs_members x kvs
  | _ => []
/-- The members of an object: see `bound_refs`. -/
def bound_refs_members (x : ConfigObject) : List (Str × Json) → List Nat
  | [] => []
  | (key, v) :: rest =>
    member_refs x key v
      (match nested_object x key with
        | some o => bound_refs o v
        | none => []) ++ bound_refs_members x rest
end

/-- The token indices bound inside the value `v` of the member `key` when the key
resolves to an object parameter. -/
def nested_refs (x : ConfigObject) (key : Str) (v : Json) : List Nat :=
  match nested_object x key with
  | some o => bound_refs o v
  | none => []

/-- The token list after the entries at the given indices are set to `nullptr`. -/
def clear_all (indices : List Nat) (args : List (Option Str)) : List (Option Str) :=
  indices.foldl (fun a i => a.set i none) args

/-- Whether the member `key`, `v` of a tree is one that the loop body of
`match_config` binds for the object `x`: the key resolves to a parameter and the
value has a form that the kind of the parameter takes (a list only for a list
parameter, an object for an object parameter, anything else for a flag, a text, a
token reference or a list for a valued parameter). -/
def member_binds (x : ConfigObject) (key : Str) (v : Json) : Bool :=
  match find_param x key with
  | some p =>
    if v.is_array && !p.is_list then false
    else if p.is_object then v.is_object
    else if p.is_flag then true
    else
      match v with
      | Json.string _ => true
      | Json.number i => decide (to_int i ≠ NO_VALUE)
      | Json.array _ => true
      | _ => false
  | none => false

/-- The diagnostics of the loop body of `match_config` for a member that it does
not bind: none for an unresolved key when unknown parameters are ignored, else the
one message of the case. -/
def member_diagnostic (x : ConfigObject) (context key : Str) (v : Json)
    (ignore_unknown_params : Bool) : List Str :=
  match find_param x key with
  | some p =>
    if v.is_array && !p.is_list then [err_list_given x context key]
    else if p.is_object then [err_object_value x context key]
    else [err_no_value x context key]
  | none => if ignore_unknown_params then [] else [err_unknown x context key]

/-- The keys of an object are pairwise different, as in a `std::map`. -/
def Json.keys_differ : Json → Bool
  | Json.object kvs => decide ((kvs.map Prod.fst).Nodup)
  | _ => true

/-- A sequence of calls of `match_config` that share the reference arguments
`config`, `args` and `errors`, as the two calls in the constructor of
`Application` do: each call is given by its object, its flag
`ignore_unknown_params` and its context, and works on what the call before it
left behind. The result lists what every call leaves behind; `none` when a call is
undefined. -/
def match_calls : List (ConfigObject × Bool × Str) → Json → List (Option Str) → List Str →
    Option (List MatchResult)
  | [], _, _, _ => some []
  | (x, ign, context) :: rest, config, args, errors =>
    match match_config x config args ign context errors with
    | some r => (match_calls rest r.config r.args r.errors).map (fun rs => r :: rs)
    | none => none

/-- The token indices bound as parameter values in a sequence of calls of
`match_config` on the tree `config`, call after call; `rs` are the results of the
calls. -/
def calls_refs : List (ConfigObject × Bool × Str) → Json → List MatchResult → List Nat
  | (x, _, _) :: rest, config, r :: rs => bound_refs x config ++ calls_refs rest r.config rs
  | _, _, _ => []

/-- What a later token list `later` of a run keeps of an earlier one `earlier`:
the length, every consumed entry consumed, and the text of every entry that is
not consumed. -/
def keeps_tokens (earlier later : List (Option Str)) : Prop :=
  later.length = earlier.length
  ∧ (∀ n : Nat, earlier[n]? = some none → later[n]? = some none)
  ∧ (∀ (n : Nat) (s : Str), later[n]? = some (some s) → earlier[n]? = some (some s))

/-- The bare arguments of a command line: the arguments after `argv[0]` that do
not begin with a dash. -/
def bare_arguments (argv : List Str) : List Str :=
  (argv.drop 1).filter (fun a => a.head? ≠ some '-')

/-- The tokens, from position `start` on, whose index is not among `bound`. -/
def free_from (bound : List Nat) : Nat → List Str → List Str
  | _, [] => []
  | start, t :: rest =>
    if start ∈ bound then free_from bound (start + 1) rest
    else t :: free_from bound (start + 1) rest

/-- The free arguments: the bare arguments, in their order, whose index is not
among the bound ones. -/
def free_arguments (bare : List Str) (bound : List Nat) : List Str :=
  free_from bound 0 bare

/-! ### Arguments that do not refer to a parameter -/

/-- The segments of a long parameter name: the pieces between the dots, up to an
assignment sign. `current` is the piece read so far. -/
def long_segments : List Char → Str → List Str
  | [], current => [current]
  | c :: rest, current =>
    if c = '=' then [current]
    else if c = '.' then current :: long_segments rest []
    else long_segments rest (current ++ [c])

/-- The keys a command-line argument can name: the segments of a long name, the
characters of a short form, nothing for a bare argument. -/
def arg_keys (arg : Str) : List Str :=
  match arg with
  | '-' :: '-' :: name => long_segments name []
  | '-' :: names => names.map (fun c => [c])
  | _ => []

/-- Whether the key `k` refers to the parameter `tag` of the object `x`: it is its
name or is resolved to it (by its short name). -/
def refers_to (x : ConfigObject) (tag : Str) (k : Str) : Bool :=
  k = tag ||
    (match find_param x k with
      | some p => p.name = tag
      | none => false)

/-- An argument that is unrelated to the parameter `tag`: none of the keys it can
name refers to the parameter. -/
def unrelated (x : ConfigObject) (tag : Str) (arg : Str) : Bool :=
  (arg_keys arg).all (fun k => !refers_to x tag k)

/-- The root of the tree is an object that holds `value` under the key `tag`, has
pairwise different keys, and has no other key that refers to the parameter `tag`. -/
def tag_frame (x : ConfigObject) (tag : Str) (value : Json) (obj : Json) : Prop :=
  match obj with
  | Json.object kvs =>
    kv_find tag kvs = some value ∧ (kvs.map Prod.fst).Nodup
      ∧ ∀ kv ∈ kvs, kv.1 ≠ tag → refers_to x tag kv.1 = false
  | _ => False

/-! ### Reading the configuration of an object -/

mutual
/-- The virtual method `ConfigParam::read_config`: the JSON `dst` after the call. -/
def ConfigParam.read_config (dst : Json) : ConfigParam → Json
  | .FlagParam _ n _ ref _ => dst.set n (Json.boolean ref)
  | .IntParam _ n _ ref _ => dst.set n (Json.number ref)
  | .UIntParam _ n _ ref _ => dst.set n (Json.number ref)
  | .BytesParam _ n _ ref _ => dst.set n (Json.number ref)
  | .StringParam _ n _ ref _ => dst.set n (Json.string ref)
  | .StringListParam _ n _ ref _ => dst.set n (Json.array (ref.map Json.string))
  | .NestedParam _ n _ object =>
    if !(ConfigObject.config object).is_null then dst.set n (ConfigObject.config object) else dst
/-- The method `ConfigObject::config`. The loop runs over `params_` in the order
of declaration; the map of the source has no order of its own, and the result
does not depend on one when the names are pairwise different. -/
def ConfigObject.config : ConfigObject → Json
  | .mk _ _ ps _ => read_params Json.null ps
/-- The loop of `ConfigObject::config` over `params_`. -/
def read_params (dst : Json) : List ConfigParam → Json
  | [] => dst
  | p :: ps => read_params (ConfigParam.read_config dst p) ps
end

/-- Whether the names of the parameters (the keys of the map `params_`) are
pairwise different. -/
def names_differ (ps : List ConfigParam) : Bool :=
  decide ((ps.map ConfigParam.name).Nodup)

mutual
/-- A state that the variables of the source can hold: an `int`, an `unsigned int`
and a `uint64_t` are in their ranges, in the object and in its member objects, and
the names of the parameters of an object (the keys of the map `params_`) are
pairwise different. -/
def ConfigParam.wf : ConfigParam → Bool
  | .IntParam _ _ _ ref _ => decide (-2147483648 ≤ ref) && decide (ref < 2147483648)
  | .UIntParam _ _ _ ref _ => decide (ref < 4294967296)
  | .BytesParam _ _ _ ref _ => decide (ref < 18446744073709551616)
  | .NestedParam _ _ _ object => ConfigObject.wf object
  | _ => true
/-- See `ConfigParam.wf`. -/
def ConfigObject.wf : ConfigObject → Bool
  | .mk _ _ ps _ => names_differ ps && wf_params ps
/-- See `ConfigParam.wf`. -/
def wf_params : List ConfigParam → Bool
  | [] => true
  | p :: ps => ConfigParam.wf p && wf_params ps
end

mutual
/-- Two parameters of the same declaration: they agree in everything but the
value of the variable (for an object parameter: of the variables of the member
object). -/
def ConfigParam.same_schema : ConfigParam → ConfigParam → Bool
  | .FlagParam c n d _ dv, .FlagParam c1 n1 d1 _ dv1 =>
    decide (c = c1) && decide (n = n1) && decide (d = d1) && decide (dv = dv1)
  | .IntParam c n d _ dv, .IntParam c1 n1 d1 _ dv1 =>
    decide (c = c1) && decide (n = n1) && decide (d = d1) && decide (dv = dv1)
  | .UIntParam c n d _ dv, .UIntParam c1 n1 d1 _ dv1 =>
    decide (c = c1) && decide (n = n1) && decide (d = d1) && decide (dv = dv1)
  | .BytesParam c n d _ dv, .BytesParam c1 n1 d1 _ dv1 =>
    decide (c = c1) && decide (n = n1) && decide (d = d1) && decide (dv = dv1)
  | .StringParam c n d _ dv, .StringParam c1 n1 d1 _ dv1 =>
    decide (c = c1) && decide (n = n1) && decide (d = d1) && decide (dv = dv1)
  | .StringListParam c n d _ dv, .StringListParam c1 n1 d1 _ dv1 =>
    decide (c = c1) && decide (n = n1) && decide (d = d1) && decide (dv = dv1)
  | .NestedParam c n d o, .NestedParam c1 n1 d1 o1 =>
    decide (c = c1) && decide (n = n1) && decide (d = d1) && ConfigObject.same_schema o o1
  | _, _ => false
/-- Two objects of the same class: see `ConfigParam.same_schema`. -/
def ConfigObject.same_schema : ConfigObject → ConfigObject → Bool
  | .mk t d ps sp, .mk t1 d1 ps1 sp1 =>
    decide (t = t1) && decide (d = d1) && decide (sp = sp1) && same_schema_params ps ps1
/-- See `ConfigParam.same_schema`. -/
def same_schema_params : List ConfigParam → List ConfigParam → Bool
  | [], [] => true
  | p :: ps, q :: qs => ConfigParam.same_schema p q && same_schema_params ps qs
  | _, _ => false
end

/-! ### Configurations in interchange form -/

/-- Whether a list of keys is in the order of a `std::map`: every key is less
than every later one. -/
def keys_sorted : List Str → Bool
  | [] => true
  | k :: rest => rest.all (fun k2 => str_lt k k2) && keys_sorted rest

mutual
/-- A configuration in interchange form for the object `x`: a non-empty object
with its keys in order, every key a declared long name and every value of the
shape of the parameter kind. -/
def Json.shape_ok (x : ConfigObject) : Json → Bool
  | Json.object kvs =>
    !kvs.isEmpty && keys_sorted (kvs.map Prod.fst) && shape_members x kvs
  | _ => false
/-- The members of a configuration in interchange form: a flag holds `true`, a
list parameter a non-empty list of strings, an object parameter a configuration
for its object, every other parameter a string. -/
def shape_members (x : ConfigObject) : List (Str × Json) → Bool
  | [] => true
  | (k, v) :: rest =>
    (match x.get_param k with
      | some (ConfigParam.FlagParam _ _ _ _ _) =>
        (match v with
          | Json.boolean b => b
          | _ => false)
      | some (ConfigParam.StringListParam _ _ _ _ _) =>
        (match v with
          | Json.array items => !items.isEmpty && items.all Json.is_string
          | _ => false)
      | some (ConfigParam.NestedParam _ _ _ o) => Json.shape_ok o v
      | some _ => v.is_string
      | none => false) && shape_members x rest
end

/-! ### Example objects -/

/-- The class `A` of test/application.cpp: one flag `x`. -/
def example_A : ConfigObject :=
  (ConfigObject.mk "A".toList "Entity A".toList [] []).make_param
    (ConfigParam.FlagParam (Char.ofNat 0) "x".toList [] false false)

/-- The class `Test<A>` of test/application.cpp without its two floating point
parameters. -/
def example_Test : ConfigObject :=
  (((((((ConfigObject.mk "Test".toList "A test executable".toList [] []).make_param
    (ConfigParam.FlagParam (Char.ofNat 0) "bool".toList [] false false)).make_param
    (ConfigParam.IntParam (Char.ofNat 0) "int".toList [] 0 0)).make_param
    (ConfigParam.UIntParam (Char.ofNat 0) "uint".toList [] 0 0)).make_param
    (ConfigParam.BytesParam (Char.ofNat 0) "bytes".toList [] 0 0)).make_param
    (ConfigParam.StringParam (Char.ofNat 0) "string".toList [] [] [])).make_param
    (ConfigParam.StringListParam (Char.ofNat 0) "stringlist".toList [] [] [])).make_param
    (ConfigParam.NestedParam (Char.ofNat 0) "object".toList [] example_A)

/-- An object with two string parameters `a` and `b`. -/
def example_pair : ConfigObject :=
  ((ConfigObject.mk "Pair".toList [] [] []).make_param
    (ConfigParam.StringParam (Char.ofNat 0) "a".toList [] [] [])).make_param
    (ConfigParam.StringParam (Char.ofNat 0) "b".toList [] [] [])

/-- An object with one object parameter `obj` holding an `example_pair`. -/
def example_outer : ConfigObject :=
  (ConfigObject.mk "Outer".toList [] [] []).make_param
    (ConfigParam.NestedParam (Char.ofNat 0) "obj".toList [] example_pair)

/-- An object with one string list parameter `p`. -/
def example_list : ConfigObject :=
  (ConfigObject.mk "List".toList [] [] []).make_param
    (ConfigParam.StringListParam (Char.ofNat 0) "p".toList [] [] [])

/-- An object with one string parameter `x`. -/
def example_x : ConfigObject :=
  (ConfigObject.mk "X".toList [] [] []).make_param
    (ConfigParam.StringParam (Char.ofNat 0) "x".toList [] [] [])

/-- The class `Addition` of examples/add.cpp: the integer parameters `first` and
`second` with the short names `a` and `b`. -/
def example_Addition : ConfigObject :=
  ((ConfigObject.mk "Addition".toList "Adds two numbers and prints the result".toList [] []).make_param
    (ConfigParam.IntParam 'a' "first".toList "The first summand.".toList 0 0)).make_param
    (ConfigParam.IntParam 'b' "second".toList "The second summand.".toList 0 0)

/-- An object with one flag named `help` whose short name is `x`. -/
def example_help : ConfigObject :=
  (ConfigObject.mk "Help".toList [] [] []).make_param
    (ConfigParam.FlagParam 'x' "help".toList [] false false)

/-! ## Theorems -/

/-! ### Basic facts about the parser and the registry -/

theorem filterMap_id_map_some (l : List Str) : (l.map some).filterMap id = l := by
  induction l with
  | nil => rfl
  | cons a l ih => simp [List.filterMap_cons, ih]

theorem parse_arg_bare (st : ParseState) (a : Str) (h : a.head? ≠ some '-') :
    parse_arg st a = parse_value a a false st := by
  unfold parse_arg
  split
  · simp at h
  · simp at h
  · rfl

theorem parse_value_bare_none (st : ParseState) (a : Str) (h : st.current_param = none) :
    parse_value a a false st =
      { st with
        errors := if string_contains_true a || string_contains_false a then
            st.errors ++ [err_use_assignment a] else st.errors
        args := st.args ++ [some a] } := by
  unfold parse_value
  simp [h]

theorem foldl_parse_arg_bare (l : List Str) (h : ∀ a ∈ l, a.head? ≠ some '-') (st : ParseState)
    (hc : st.current_param = none) :
    (l.foldl parse_arg st).obj = st.obj ∧ (l.foldl parse_arg st).args = st.args ++ l.map some
      ∧ (l.foldl parse_arg st).current_param = none := by
  induction l generalizing st with
  | nil => simp [hc]
  | cons a l ih =>
    have ha : a.head? ≠ some '-' := h a (List.mem_cons_self _ _)
    have hl : ∀ b ∈ l, b.head? ≠ some '-' := fun b hb => h b (List.mem_cons_of_mem _ hb)
    rw [List.foldl_cons, parse_arg_bare st a ha, parse_value_bare_none st a hc]
    obtain ⟨h1, h2, h3⟩ := ih hl
      { st with
        errors := if string_contains_true a || string_contains_false a then
            st.errors ++ [err_use_assignment a] else st.errors
        args := st.args ++ [some a] } hc
    refine ⟨h1, ?_, h3⟩
    rw [h2]
    simp

theorem match_config_null (x : ConfigObject) (args : List (Option Str)) (b : Bool) (c : Str)
    (e : List Str) :
    match_config x Json.null args b c e
      = some { matched := Json.null, config := Json.null, args := args, errors := e } := by
  simp [match_config]

theorem get_param_name (x : ConfigObject) (n : Str) (p : ConfigParam)
    (h : x.get_param n = some p) : p.name = n := by
  unfold ConfigObject.get_param at h
  have := List.find?_some h
  simpa using this

theorem parse_long_name_plain (a : Str) (n : Str) (hd : '.' ∉ n) (he : '=' ∉ n)
    (seen : Str) (st : LongState) :
    parse_long_name a n seen st = { st with current_name := st.current_name ++ n } := by
  induction n generalizing seen st with
  | nil => simp [parse_long_name]
  | cons c n ih =>
    have hc1 : c ≠ '=' := fun h => he (h ▸ List.mem_cons_self _ _)
    have hc2 : c ≠ '.' := fun h => hd (h ▸ List.mem_cons_self _ _)
    have hd1 : '.' ∉ n := fun h => hd (List.mem_cons_of_mem _ h)
    have he1 : '=' ∉ n := fun h => he (List.mem_cons_of_mem _ h)
    rw [parse_long_name]
    simp only [hc1, hc2, if_false]
    rw [ih hd1 he1]
    simp

theorem parse_arg_long_plain (st : ParseState) (n : Str) (hd : '.' ∉ n) (he : '=' ∉ n) :
    parse_arg st ('-' :: '-' :: n) =
      { obj := if st.obj.contains n then st.obj else st.obj.set n (Json.number NO_VALUE)
        args := st.args
        current_param := some [n]
        errors := st.errors } := by
  unfold parse_arg
  simp only [parse_long_name_plain _ n hd he]
  simp [Json.get_path, Json.modify_path]

theorem parse_cmdline_long_bare (argv0 n t : Str) (hd : '.' ∉ n) (he : '=' ∉ n)
    (ht : t.head? ≠ some '-') :
    parse_cmdline [argv0, '-' :: '-' :: n, t] [] =
      ({ json := Json.object [(n, Json.number 0)], args := [some t] },
        if string_contains_true t || string_contains_false t then [err_use_assignment t] else []) := by
  simp only [parse_cmdline, List.drop_succ_cons, List.drop_zero, List.foldl_cons, List.foldl_nil]
  rw [parse_arg_long_plain _ n hd he, parse_arg_bare _ t ht]
  simp [parse_value, Json.contains, Json.set, Json.get_path, Json.get, kv_find, Json.modify_path,
    set_or_make_list, Json.is_null, Json.is_number, Json.get_int, to_int, NO_VALUE, kv_insert,
    kv_replace, kv_insert_new, Json.is_object]

/-! ### The cases of the loop body of `match_config` -/

theorem match_item_unknown (cfgobj : ConfigObject) (key : Str) (v : Json) (ign : Bool)
    (context : Str) (sub : Option MatchResult) (st : MatchState)
    (h : find_param cfgobj key = none) :
    match_item cfgobj key v ign context sub st =
      some (if ign then st
            else { st with errors := st.errors ++ [err_unknown cfgobj context key] }, v) := by
  cases ign <;> simp [match_item, h]

theorem match_item_list_given (cfgobj : ConfigObject) (key : Str) (items : List Json) (ign : Bool)
    (context : Str) (sub : Option MatchResult) (st : MatchState) (p : ConfigParam)
    (h : find_param cfgobj key = some p) (hl : p.is_list = false) :
    match_item cfgobj key (Json.array items) ign context sub st =
      some ({ st with errors := st.errors ++ [err_list_given cfgobj context key] },
        Json.array items) := by
  simp [match_item, h, hl, Json.is_array]

theorem match_item_nested_object (cfgobj : ConfigObject) (key : Str) (kvs : List (Str × Json))
    (ign : Bool) (context : Str) (sub : Option MatchResult) (st : MatchState) (p : ConfigParam)
    (h : find_param cfgobj key = some p) (ho : p.is_object = true) :
    match_item cfgobj key (Json.object kvs) ign context sub st =
      sub.map (fun r =>
        ({ matched := st.matched.set p.name r.matched
           matched_keys := st.matched_keys ++ [key]
           args := r.args
           errors := r.errors }, r.config)) := by
  cases p <;> simp [ConfigParam.is_object] at ho
  cases sub <;> simp [match_item, h, Json.is_array, Json.is_object]

theorem match_item_nested_value (cfgobj : ConfigObject) (key : Str) (v : Json)
    (ign : Bool) (context : Str) (sub : Option MatchResult) (st : MatchState) (p : ConfigParam)
    (h : find_param cfgobj key = some p) (ho : p.is_object = true)
    (hv : v.is_object = false) (ha : v.is_array = false) :
    match_item cfgobj key v ign context sub st =
      some ({ st with errors := st.errors ++ [err_object_value cfgobj context key] }, v) := by
  cases p <;> simp [ConfigParam.is_object] at ho
  simp [match_item, h, ha, hv]

theorem match_item_flag (cfgobj : ConfigObject) (key : Str) (v : Json)
    (ign : Bool) (context : Str) (sub : Option MatchResult) (st : MatchState) (p : ConfigParam)
    (h : find_param cfgobj key = some p) (hf : p.is_flag = true) (ha : v.is_array = false) :
    match_item cfgobj key v ign context sub st =
      some ({ st with
              matched := st.matched.set p.name (if v.is_string then v else Json.boolean true)
              matched_keys := st.matched_keys ++ [key] }, v) := by
  cases p <;> simp [ConfigParam.is_flag] at hf
  cases hs : v.is_string <;> simp [match_item, h, ha, hs, ConfigParam.is_flag]

theorem match_item_value_string (cfgobj : ConfigObject) (key : Str) (s : Str)
    (ign : Bool) (context : Str) (sub : Option MatchResult) (st : MatchState) (p : ConfigParam)
    (h : find_param cfgobj key = some p) (hf : p.is_flag = false) (ho : p.is_object = false) :
    match_item cfgobj key (Json.string s) ign context sub st =
      some ({ st with matched := st.matched.set p.name (Json.string s)
                      matched_keys := st.matched_keys ++ [key] }, Json.string s) := by
  cases p <;> simp [ConfigParam.is_flag, ConfigParam.is_object] at hf ho <;>
    simp [match_item, h, Json.is_array, ConfigParam.is_flag]

theorem match_item_value_ref (cfgobj : ConfigObject) (key : Str) (i : Int)
    (ign : Bool) (context : Str) (sub : Option MatchResult) (st : MatchState) (p : ConfigParam)
    (h : find_param cfgobj key = some p) (hf : p.is_flag = false) (ho : p.is_object = false)
    (hi : to_int i ≠ NO_VALUE) :
    match_item cfgobj key (Json.number i) ign context sub st =
      (args_at st.args (to_int i)).map (fun s =>
        ({ st with matched := st.matched.set p.name (Json.string s)
                   matched_keys := st.matched_keys ++ [key]
                   args := st.args.set (to_int i).toNat none }, Json.number i)) := by
  cases p <;> simp [ConfigParam.is_flag, ConfigParam.is_object] at hf ho <;>
    cases ha : args_at st.args (to_int i) <;>
    simp [match_item, h, Json.is_array, ConfigParam.is_flag, Json.get_int, hi, ha]

theorem match_item_value_none (cfgobj : ConfigObject) (key : Str) (i : Int)
    (ign : Bool) (context : Str) (sub : Option MatchResult) (st : MatchState) (p : ConfigParam)
    (h : find_param cfgobj key = some p) (hf : p.is_flag = false) (ho : p.is_object = false)
    (hi : to_int i = NO_VALUE) :
    match_item cfgobj key (Json.number i) ign context sub st =
      some ({ st with errors := st.errors ++ [err_no_value cfgobj context key] },
        Json.number i) := by
  cases p <;> simp [ConfigParam.is_flag, ConfigParam.is_object] at hf ho <;>
    simp [match_item, h, Json.is_array, ConfigParam.is_flag, Json.get_int, hi]

theorem match_item_value_list (cfgobj : ConfigObject) (key : Str) (items : List Json)
    (ign : Bool) (context : Str) (sub : Option MatchResult) (st : MatchState) (p : ConfigParam)
    (h : find_param cfgobj key = some p) (hl : p.is_list = true) :
    match_item cfgobj key (Json.array items) ign context sub st =
      (match_list_items cfgobj context key items 0 Json.null st.args st.errors).map (fun r =>
        ({ matched := st.matched.set p.name r.1
           matched_keys := st.matched_keys ++ [key]
           args := r.2.1
           errors := r.2.2 }, Json.array items)) := by
  cases p <;> simp [ConfigParam.is_list] at hl
  cases hr : match_list_items cfgobj context key items 0 Json.null st.args st.errors <;>
    simp [match_item, h, Json.is_array, ConfigParam.is_flag, ConfigParam.is_list, hr]

theorem match_item_value_other (cfgobj : ConfigObject) (key : Str) (v : Json)
    (ign : Bool) (context : Str) (sub : Option MatchResult) (st : MatchState) (p : ConfigParam)
    (h : find_param cfgobj key = some p) (hf : p.is_flag = false) (ho : p.is_object = false)
    (hs : v.is_string = false) (hn : v.is_number = false) (ha : v.is_array = false) :
    match_item cfgobj key v ign context sub st =
      some ({ st with errors := st.errors ++ [err_no_value cfgobj context key] }, v) := by
  cases p <;> simp [ConfigParam.is_flag, ConfigParam.is_object] at hf ho <;>
    cases v <;> simp [Json.is_string, Json.is_number, Json.is_array] at hs hn ha <;>
    simp [match_item, h, Json.is_array, ConfigParam.is_flag]

theorem nested_object_of_find (cfgobj : ConfigObject) (key : Str) (p : ConfigParam)
    (h : find_param cfgobj key = some p) (ho : p.is_object = false) :
    nested_object cfgobj key = none := by
  cases p <;> simp [ConfigParam.is_object] at ho <;> simp [nested_object, h]

theorem nested_object_of_get (cfgobj : ConfigObject) (key : Str) (c : Char) (n d : Str)
    (o : ConfigObject) (h : cfgobj.get_param key = some (ConfigParam.NestedParam c n d o)) :
    nested_object cfgobj key = some o := by
  unfold nested_object find_param
  rw [h]

theorem nested_object_unknown (cfgobj : ConfigObject) (key : Str)
    (h : find_param cfgobj key = none) : nested_object cfgobj key = none := by
  simp [nested_object, h]

/-! ### Facts about the loop of `match_config` -/

theorem find_param_cases (cfgobj : ConfigObject) (key : Str) (p : ConfigParam)
    (h : find_param cfgobj key = some p) :
    cfgobj.get_param key = some p ∨
      ∃ c, key = [c] ∧ cfgobj.get_param key = none ∧ cfgobj.get_param_short c = some p := by
  unfold find_param at h
  cases hg : cfgobj.get_param key with
  | some q =>
    rw [hg] at h
    simp at h
    exact Or.inl (by rw [h])
  | none =>
    rw [hg] at h
    right
    rcases key with _ | ⟨c, _ | ⟨d, t⟩⟩
    · simp at h
    · exact ⟨c, rfl, rfl, by simpa using h⟩
    · simp at h

theorem get_param_short_name_known (cfgobj : ConfigObject) (c : Char) (p : ConfigParam)
    (h : cfgobj.get_param_short c = some p) : cfgobj.get_param p.name = some p := by
  unfold ConfigObject.get_param_short at h
  cases hf : List.find? (fun e => decide (e.1 = c)) cfgobj.short_params with
  | none => rw [hf] at h; simp at h
  | some e =>
    rw [hf] at h
    simp only at h
    rw [get_param_name _ _ _ h]
    exact h

theorem find_param_name_known (cfgobj : ConfigObject) (key : Str) (p : ConfigParam)
    (h : find_param cfgobj key = some p) : cfgobj.get_param p.name = some p := by
  rcases find_param_cases cfgobj key p h with h1 | ⟨c, _, _, h1⟩
  · rw [get_param_name _ _ _ h1]
    exact h1
  · exact get_param_short_name_known cfgobj c p h1

theorem find_param_none_of (cfgobj : ConfigObject) (k : Str)
    (hlong : cfgobj.get_param k = none)
    (hshort : ∀ c, k = [c] → cfgobj.get_param_short c = none) :
    find_param cfgobj k = none := by
  unfold find_param
  rw [hlong]
  rcases k with _ | ⟨c, _ | ⟨d, t⟩⟩
  · rfl
  · exact hshort c rfl
  · rfl

theorem kv_find_replace {β : Type} (n k : Str) (val : β) (kvs : List (Str × β))
    (h : (kv_find n kvs).isSome = true) :
    kv_find k (kv_replace n val kvs) = if n = k then some val else kv_find k kvs := by
  induction kvs with
  | nil => simp [kv_find] at h
  | cons kv kvs ih =>
    obtain ⟨k1, v1⟩ := kv
    by_cases h1 : k1 = n
    · subst h1
      by_cases h3 : k1 = k <;> simp [kv_replace, kv_find, h3]
    · have h' : (kv_find n kvs).isSome = true := by simpa [kv_find, h1] using h
      by_cases h3 : k1 = k
      · subst h3
        simp [kv_replace, kv_find, h1, Ne.symm h1]
      · simp [kv_replace, kv_find, h1, h3, ih h']

theorem kv_find_insert_new {β : Type} (n k : Str) (val : β) (kvs : List (Str × β))
    (h : kv_find n kvs = none) :
    kv_find k (kv_insert_new n val kvs) = if n = k then some val else kv_find k kvs := by
  induction kvs with
  | nil => simp [kv_insert_new, kv_find]
  | cons kv kvs ih =>
    obtain ⟨k1, v1⟩ := kv
    have h1 : k1 ≠ n := by
      intro e
      simp [kv_find, e] at h
    have h' : kv_find n kvs = none := by simpa [kv_find, h1] using h
    by_cases h2 : str_lt n k1 = true
    · simp [kv_insert_new, h2, kv_find]
    · by_cases h3 : k1 = k
      · subst h3
        simp [kv_insert_new, h2, kv_find, Ne.symm h1]
      · simp [kv_insert_new, h2, kv_find, h3, ih h']

theorem kv_find_insert {β : Type} (n k : Str) (val : β) (kvs : List (Str × β)) :
    kv_find k (kv_insert n val kvs) = if n = k then some val else kv_find k kvs := by
  unfold kv_insert
  cases h : kv_find n kvs with
  | none => simpa using kv_find_insert_new n k val kvs h
  | some v => simpa using kv_find_replace n k val kvs (by simp [h])

theorem kv_find_erase_ne {β : Type} (n k : Str) (kvs : List (Str × β)) (h : n ≠ k) :
    kv_find k (kv_erase n kvs) = kv_find k kvs := by
  induction kvs with
  | nil => simp [kv_erase]
  | cons kv kvs ih =>
    obtain ⟨k1, v1⟩ := kv
    simp only [kv_erase]
    by_cases h1 : k1 = n
    · subst h1
      simp [kv_find, h]
    · simp [h1, kv_find, ih]

theorem contains_set (j : Json) (n k : Str) (val : Json) (h : (j.set n val).contains k = true) :
    n = k ∨ j.contains k = true := by
  cases j <;> simp [Json.set, Json.contains] at h ⊢
  · simp [kv_find] at h
    exact h
  · rw [kv_find_insert] at h
    by_cases hn : n = k
    · exact Or.inl hn
    · right
      simpa [hn] using h


theorem match_object_items_nil (cfgobj : ConfigObject) (ign : Bool) (context : Str)
    (st : MatchState) : match_object_items cfgobj [] ign context st = some (st, []) := by
  rw [match_object_items]

theorem match_object_items_cons_eq (cfgobj : ConfigObject) (key : Str) (v : Json)
    (rest : List (Str × Json)) (ign : Bool) (context : Str) (st : MatchState) :
    match_object_items cfgobj ((key, v) :: rest) ign context st =
      (match_item cfgobj key v ign context
          (object_sub cfgobj key v st.args ign context st.errors) st).bind
        (fun r => (match_object_items cfgobj rest ign context r.1).map
          (fun q => (q.1, (key, r.2) :: q.2))) := by
  rw [match_object_items]
  split
  · rename_i st1 v1 hm
    have hm1 : match_item cfgobj key v ign context
        (object_sub cfgobj key v st.args ign context st.errors) st = some (st1, v1) := hm
    rw [hm1]
    simp only [Option.some_bind]
    split
    · rename_i st2 rest1 hr
      rw [hr]
      rfl
    · rename_i hr
      rw [hr]
      rfl
  · rename_i hm
    have hm1 : match_item cfgobj key v ign context
        (object_sub cfgobj key v st.args ign context st.errors) st = none := hm
    rw [hm1]
    rfl

theorem match_config_object_eq (cfgobj : ConfigObject) (kvs : List (Str × Json))
    (args : List (Option Str)) (ign : Bool) (context : Str) (errors : List Str) :
    match_config cfgobj (Json.object kvs) args ign context errors =
      (match_object_items cfgobj kvs ign context
          { matched := Json.null, matched_keys := [], args := args, errors := errors }).map
        (fun r => { matched := r.1.matched
                    config := Json.object (r.1.matched_keys.foldl (fun m k => kv_erase k m) r.2)
                    args := r.1.args
                    errors := r.1.errors }) := by
  rw [match_config]
  split
  · rename_i st kvs1 hm
    rw [hm]
    rfl
  · rename_i hm
    rw [hm]
    rfl

theorem bound_refs_members_cons_eq (x : ConfigObject) (key : Str) (v : Json)
    (rest : List (Str × Json)) :
    bound_refs_members x ((key, v) :: rest) =
      member_refs x key v (nested_refs x key v) ++ bound_refs_members x rest := by
  rw [bound_refs_members]
  rfl

theorem object_sub_of (cfgobj o : ConfigObject) (key : Str) (v : Json) (args : List (Option Str))
    (ign : Bool) (context : Str) (errors : List Str) (h : nested_object cfgobj key = some o) :
    object_sub cfgobj key v args ign context errors =
      match_config o v args ign (sub_context context key) errors := by
  unfold object_sub
  rw [h]

theorem nested_refs_of (x o : ConfigObject) (key : Str) (v : Json)
    (h : nested_object x key = some o) : nested_refs x key v = bound_refs o v := by
  unfold nested_refs
  rw [h]

theorem match_item_keys (cfgobj : ConfigObject) (key : Str) (v : Json) (ign : Bool)
    (context : Str) (sub : Option MatchResult) (st st1 : MatchState) (v1 : Json)
    (h : match_item cfgobj key v ign context sub st = some (st1, v1)) :
    (st1.matched = st.matched ∧ st1.matched_keys = st.matched_keys ∧ v1 = v) ∨
      ∃ p val, find_param cfgobj key = some p ∧ st1.matched = st.matched.set p.name val
        ∧ st1.matched_keys = st.matched_keys ++ [key] := by
  unfold match_item at h
  cases hf : find_param cfgobj key with
  | none =>
    rw [hf] at h
    left
    cases ign <;> simp at h <;> obtain ⟨rfl, rfl⟩ := h <;> simp
  | some p =>
    rw [hf] at h
    simp only at h
    repeat' split at h
    all_goals first
      | contradiction
      | (left; simp at h; obtain ⟨rfl, rfl⟩ := h; simp; done)
      | (right; simp at h; obtain ⟨rfl, rfl⟩ := h; exact ⟨_, _, rfl, rfl, rfl⟩)


theorem match_object_items_cons (cfgobj : ConfigObject) (key : Str) (v : Json)
    (rest : List (Str × Json)) (ign : Bool) (context : Str) (st st2 : MatchState)
    (items1 : List (Str × Json))
    (h : match_object_items cfgobj ((key, v) :: rest) ign context st = some (st2, items1)) :
    ∃ st1 v1 rest1,
      match_item cfgobj key v ign context
          (object_sub cfgobj key v st.args ign context st.errors) st = some (st1, v1)
      ∧ match_object_items cfgobj rest ign context st1 = some (st2, rest1)
      ∧ items1 = (key, v1) :: rest1 := by
  rw [match_object_items_cons_eq] at h
  cases hm : match_item cfgobj key v ign context
      (object_sub cfgobj key v st.args ign context st.errors) st with
  | none => rw [hm] at h; simp at h
  | some r =>
    obtain ⟨st1, v1⟩ := r
    rw [hm] at h
    simp only [Option.some_bind] at h
    cases hr : match_object_items cfgobj rest ign context st1 with
    | none => rw [hr] at h; simp at h
    | some q =>
      obtain ⟨st2', rest1⟩ := q
      rw [hr] at h
      simp at h
      obtain ⟨rfl, rfl⟩ := h
      exact ⟨st1, v1, rest1, rfl, hr, rfl⟩

theorem match_object_items_keys (cfgobj : ConfigObject) (items : List (Str × Json))
    (ign : Bool) (context : Str) (st st1 : MatchState) (items1 : List (Str × Json))
    (h : match_object_items cfgobj items ign context st = some (st1, items1)) :
    (∀ k, st1.matched.contains k = true →
        st.matched.contains k = true ∨ cfgobj.get_param k ≠ none)
    ∧ (∀ k ∈ st1.matched_keys, k ∈ st.matched_keys ∨ find_param cfgobj k ≠ none)
    ∧ (∀ k, find_param cfgobj k = none → kv_find k items1 = kv_find k items) := by
  induction items generalizing st st1 items1 with
  | nil =>
    rw [match_object_items] at h
    simp at h
    obtain ⟨rfl, rfl⟩ := h
    exact ⟨fun k hk => Or.inl hk, fun k hk => Or.inl hk, fun k _ => rfl⟩
  | cons kv rest ih =>
    obtain ⟨key, v⟩ := kv
    obtain ⟨st', v1, rest1, hm, hr, rfl⟩ := match_object_items_cons _ _ _ _ _ _ _ _ _ h
    obtain ⟨ih1, ih2, ih3⟩ := ih _ _ _ hr
    rcases match_item_keys _ _ _ _ _ _ _ _ _ hm with ⟨e1, e2, e3⟩ | ⟨p, val, hp, e1, e2⟩
    · refine ⟨fun k hk => ?_, fun k hk => ?_, fun k hk => ?_⟩
      · rw [← e1]; exact ih1 k hk
      · rw [← e2]; exact ih2 k hk
      · subst e3
        simp [kv_find, ih3 k hk]
    · refine ⟨fun k hk => ?_, fun k hk => ?_, fun k hk => ?_⟩
      · rcases ih1 k hk with h1 | h1
        · rw [e1] at h1
          rcases contains_set _ _ _ _ h1 with h2 | h2
          · right
            rw [← h2, find_param_name_known _ _ _ hp]
            simp
          · exact Or.inl h2
        · exact Or.inr h1
      · rcases ih2 k hk with h1 | h1
        · rw [e2] at h1
          rcases List.mem_append.mp h1 with h2 | h2
          · exact Or.inl h2
          · right
            simp at h2
            subst h2
            simp [hp]
        · exact Or.inr h1
      · have hne : key ≠ k := by
          intro e
          subst e
          rw [hp] at hk
          exact absurd hk (by simp)
        simp [kv_find, hne, ih3 k hk]

theorem kv_find_erase_all {β : Type} (keys : List Str) (k : Str) (kvs : List (Str × β))
    (h : k ∉ keys) :
    kv_find k (keys.foldl (fun m n => kv_erase n m) kvs) = kv_find k kvs := by
  induction keys generalizing kvs with
  | nil => rfl
  | cons n keys ih =>
    simp only [List.foldl_cons]
    rw [ih _ (fun hk => h (List.mem_cons_of_mem _ hk))]
    exact kv_find_erase_ne n k kvs (fun e => h (e ▸ List.mem_cons_self _ _))

theorem match_nested_two_refs (x o : ConfigObject) (ko ka kb s0 s1 : Str) (pobj pa pb : ConfigParam)
    (hobj : x.get_param ko = some pobj) (ho : nested_object x ko = some o)
    (ha : o.get_param ka = some pa) (haf : pa.is_flag = false) (hao : pa.is_object = false)
    (hb : o.get_param kb = some pb) (hbf : pb.is_flag = false) (hbo : pb.is_object = false)
    (hne : ka ≠ kb) (hlt : str_lt kb ka = false)
    (ign : Bool) (context : Str) (errors : List Str) :
    match_config x
        (Json.object [(ko, Json.object [(ka, Json.number 0), (kb, Json.number 1)])])
        [some s0, some s1] ign context errors
      = some { matched := Json.object [(ko, Json.object [(ka, Json.string s0), (kb, Json.string s1)])]
               config := Json.object []
               args := [none, none]
               errors := errors } := by
  have hfo : find_param x ko = some pobj := by simp [find_param, hobj]
  have hfa : find_param o ka = some pa := by simp [find_param, ha]
  have hfb : find_param o kb = some pb := by simp [find_param, hb]
  have hna := get_param_name _ _ _ ha
  have hnb := get_param_name _ _ _ hb
  have hno := get_param_name _ _ _ hobj
  have hpo : pobj.is_object = true := by
    unfold nested_object at ho
    rw [hfo] at ho
    cases pobj <;> simp at ho <;> rfl
  have inner : match_config o
      (Json.object [(ka, Json.number 0), (kb, Json.number 1)])
      [some s0, some s1] ign (sub_context context ko) errors =
      some { matched := Json.object [(ka, Json.string s0), (kb, Json.string s1)]
             config := Json.object [], args := [none, none], errors := errors } := by
    rw [match_config]
    simp only [match_object_items, nested_object_of_find _ _ _ hfa hao,
      nested_object_of_find _ _ _ hfb hbo]
    rw [match_item_value_ref _ _ _ _ _ _ _ _ hfa haf hao (by decide)]
    have e0 : args_at [some s0, some s1] (to_int 0) = some s0 := rfl
    rw [e0]
    simp only [Option.map_some']
    rw [match_item_value_ref _ _ _ _ _ _ _ _ hfb hbf hbo (by decide)]
    have e1 : args_at ([some s0, some s1].set (to_int 0).toNat none) (to_int 1) = some s1 := rfl
    simp only [e1]
    have e2 : (to_int 0).toNat = 0 := rfl
    have e3 : (to_int 1).toNat = 1 := rfl
    simp [hna, hnb, Json.set, kv_insert, kv_insert_new, kv_find, kv_erase, hne, hlt, e2, e3,
      Ne.symm hne]
  rw [match_config]
  simp only [match_object_items, ho, inner]
  rw [match_item_nested_object _ _ _ _ _ _ _ _ hfo hpo]
  simp [hno, Json.set, kv_erase]

/-! ### Induction over trees -/

theorem Json.induction (P : Json → Prop)
    (hnull : P Json.null) (hbool : ∀ b, P (Json.boolean b)) (hnum : ∀ i, P (Json.number i))
    (hstr : ∀ s, P (Json.string s))
    (harr : ∀ xs : List Json, (∀ x ∈ xs, P x) → P (Json.array xs))
    (hobj : ∀ kvs : List (Str × Json), (∀ kv ∈ kvs, P kv.2) → P (Json.object kvs)) :
    ∀ j, P j :=
  @Json.rec P (fun xs => ∀ x ∈ xs, P x) (fun kvs => ∀ kv ∈ kvs, P kv.2) (fun kv => P kv.2)
    hnull hbool hnum hstr harr hobj
    (fun _ h => absurd h (List.not_mem_nil _))
    (fun _ _ hx hxs y hy => by
      rcases List.mem_cons.mp hy with e | e
      · exact e ▸ hx
      · exact hxs y e)
    (fun _ h => absurd h (List.not_mem_nil _))
    (fun _ _ hx hxs y hy => by
      rcases List.mem_cons.mp hy with e | e
      · exact e ▸ hx
      · exact hxs y e)
    (fun _ _ h => h)

/-! ### The tokens consumed by `match_config` -/

theorem clear_all_append (a b : List Nat) (args : List (Option Str)) :
    clear_all (a ++ b) args = clear_all b (clear_all a args) := by
  simp [clear_all, List.foldl_append]

theorem clear_all_cons (i : Nat) (b : List Nat) (args : List (Option Str)) :
    clear_all (i :: b) args = clear_all b (args.set i none) := rfl

theorem match_list_items_args (x : ConfigObject) (context key : Str) (items : List Json)
    (index : Nat) (list : Json) (args : List (Option Str)) (errors : List Str)
    (r : Json × List (Option Str) × List Str)
    (h : match_list_items x context key items index list args errors = some r) :
    r.2.1 = clear_all (item_refs items) args := by
  induction items generalizing index list args errors with
  | nil =>
    simp [match_list_items] at h
    subst h
    rfl
  | cons item rest ih =>
    cases item with
    | number i =>
      simp only [match_list_items] at h
      split at h
      · contradiction
      · split at h
        · rw [ih _ _ _ _ h]
          simp [item_refs, clear_all_cons, Json.get_int]
        · contradiction
    | null => simp only [match_list_items] at h; rw [ih _ _ _ _ h]; rfl
    | boolean b => simp only [match_list_items] at h; rw [ih _ _ _ _ h]; rfl
    | string s => simp only [match_list_items] at h; rw [ih _ _ _ _ h]; rfl
    | array xs => simp only [match_list_items] at h; rw [ih _ _ _ _ h]; rfl
    | object kvs => simp only [match_list_items] at h; rw [ih _ _ _ _ h]; rfl


theorem bound_refs_not_object (o : ConfigObject) (v : Json) (h : v.is_object = false) :
    bound_refs o v = [] := by
  cases v <;> simp [Json.is_object] at h <;> simp [bound_refs]

theorem nested_object_of_is_object (x : ConfigObject) (key : Str) (p : ConfigParam)
    (h : find_param x key = some p) (ho : p.is_object = true) :
    ∃ o, nested_object x key = some o := by
  cases p <;> simp [ConfigParam.is_object] at ho
  rename_i c n d o
  exact ⟨o, by simp [nested_object, h]⟩

theorem is_list_not_object (p : ConfigParam) (h : p.is_list = true) : p.is_object = false := by
  cases p <;> simp [ConfigParam.is_list] at h <;> rfl

theorem is_list_not_flag (p : ConfigParam) (h : p.is_list = true) : p.is_flag = false := by
  cases p <;> simp [ConfigParam.is_list] at h <;> rfl

theorem match_item_args (x : ConfigObject) (key : Str) (v : Json) (ign : Bool) (context : Str)
    (sub : Option MatchResult) (st st1 : MatchState) (v1 : Json)
    (hsub : ∀ r, sub = some r → v.is_object = true → ∀ o, nested_object x key = some o →
      r.args = clear_all (bound_refs o v) st.args)
    (h : match_item x key v ign context sub st = some (st1, v1)) :
    st1.args = clear_all (member_refs x key v (nested_refs x key v)) st.args := by
  unfold member_refs
  cases hf : find_param x key with
  | none =>
    rw [match_item_unknown _ _ _ _ _ _ _ hf] at h
    simp at h
    obtain ⟨rfl, rfl⟩ := h
    cases ign <;> rfl
  | some p =>
    simp only
    by_cases hal : (v.is_array && !p.is_list) = true
    · simp only [hal, if_true]
      simp at hal
      obtain ⟨ha, hl⟩ := hal
      cases v <;> simp [Json.is_array] at ha
      rw [match_item_list_given _ _ _ _ _ _ _ _ hf hl] at h
      simp at h
      obtain ⟨rfl, rfl⟩ := h
      rfl
    · simp only [hal, if_false]
      by_cases ho : p.is_object = true
      · simp only [ho, if_true]
        obtain ⟨o, hno⟩ := nested_object_of_is_object _ _ _ hf ho
        rw [nested_refs_of _ _ _ _ hno]
        have hl : p.is_list = false := by
          cases p <;> simp [ConfigParam.is_object] at ho <;> rfl
        by_cases hv : v.is_object = true
        · cases v <;> simp [Json.is_object] at hv
          rw [match_item_nested_object _ _ _ _ _ _ _ _ hf ho] at h
          cases sub with
          | none => simp at h
          | some r =>
            simp at h
            obtain ⟨rfl, rfl⟩ := h
            exact hsub r rfl rfl o hno
        · simp at hv
          have ha : v.is_array = false := by simpa [hl] using hal
          rw [match_item_nested_value _ _ _ _ _ _ _ _ hf ho hv ha] at h
          simp at h
          obtain ⟨rfl, rfl⟩ := h
          rw [bound_refs_not_object o v hv]
          rfl
      · simp at ho
        simp only [ho, Bool.false_eq_true, if_false]
        by_cases hfl : p.is_flag = true
        · simp only [hfl, if_true]
          have hl : p.is_list = false := by
            cases p <;> simp [ConfigParam.is_flag] at hfl <;> rfl
          have ha : v.is_array = false := by simpa [hl] using hal
          rw [match_item_flag _ _ _ _ _ _ _ _ hf hfl ha] at h
          simp at h
          obtain ⟨rfl, rfl⟩ := h
          rfl
        · simp at hfl
          simp only [hfl, Bool.false_eq_true, if_false]
          cases v with
          | string s =>
            rw [match_item_value_string _ _ _ _ _ _ _ _ hf hfl ho] at h
            simp at h
            obtain ⟨rfl, rfl⟩ := h
            rfl
          | number i =>
            by_cases hi : to_int i = NO_VALUE
            · rw [match_item_value_none _ _ _ _ _ _ _ _ hf hfl ho hi] at h
              simp at h
              obtain ⟨rfl, rfl⟩ := h
              simp [value_refs, hi, clear_all]
            · rw [match_item_value_ref _ _ _ _ _ _ _ _ hf hfl ho hi] at h
              cases ha : args_at st.args (to_int i) with
              | none => simp [ha] at h
              | some s =>
                simp [ha] at h
                obtain ⟨rfl, rfl⟩ := h
                simp [value_refs, hi, clear_all]
          | array items =>
            have hl : p.is_list = true := by simpa [Json.is_array] using hal
            rw [match_item_value_list _ _ _ _ _ _ _ _ hf hl] at h
            cases hr : match_list_items x context key items 0 Json.null st.args st.errors with
            | none => simp [hr] at h
            | some r =>
              simp [hr] at h
              obtain ⟨rfl, rfl⟩ := h
              simp only [value_refs]
              exact match_list_items_args _ _ _ _ _ _ _ _ _ hr
          | null =>
            rw [match_item_value_other x key Json.null _ _ _ _ _ hf hfl ho rfl rfl rfl] at h
            simp at h
            obtain ⟨rfl, rfl⟩ := h
            rfl
          | boolean b =>
            rw [match_item_value_other x key (Json.boolean b) _ _ _ _ _ hf hfl ho rfl rfl rfl] at h
            simp at h
            obtain ⟨rfl, rfl⟩ := h
            rfl
          | object kvs =>
            rw [match_item_value_other x key (Json.object kvs) _ _ _ _ _ hf hfl ho rfl rfl rfl] at h
            simp at h
            obtain ⟨rfl, rfl⟩ := h
            rfl


theorem match_config_args (tree : Json) :
    ∀ (x : ConfigObject) (args : List (Option Str)) (ign : Bool) (context : Str)
      (errors : List Str) (r : MatchResult),
      tree.is_object = true ∨ tree = Json.null →
      match_config x tree args ign context errors = some r →
      r.args = clear_all (bound_refs x tree) args := by
  induction tree using Json.induction with
  | hnull =>
    intro x args ign context errors r _ h
    rw [match_config_null] at h
    simp at h
    subst h
    rfl
  | hbool b => intro x args ign context errors r ht; simp [Json.is_object] at ht
  | hnum i => intro x args ign context errors r ht; simp [Json.is_object] at ht
  | hstr s => intro x args ign context errors r ht; simp [Json.is_object] at ht
  | harr xs _ => intro x args ign context errors r ht; simp [Json.is_object] at ht
  | hobj kvs ih =>
    intro x args ign context errors r _ h
    have key : ∀ (items : List (Str × Json)), (∀ kv ∈ items, kv ∈ kvs) →
        ∀ (st0 st1 : MatchState) (items1 : List (Str × Json)),
        match_object_items x items ign context st0 = some (st1, items1) →
        st1.args = clear_all (bound_refs_members x items) st0.args := by
      intro items
      induction items with
      | nil =>
        intro _ st0 st1 items1 h0
        rw [match_object_items_nil] at h0
        simp at h0
        obtain ⟨rfl, rfl⟩ := h0
        rfl
      | cons kv rest ihl =>
        intro hsubset st0 st1 items1 h0
        obtain ⟨k, v⟩ := kv
        obtain ⟨st', v', rest1, hmi, hrest, _⟩ := match_object_items_cons _ _ _ _ _ _ _ _ _ h0
        rw [bound_refs_members_cons_eq, clear_all_append,
          ihl (fun kv hkv => hsubset kv (List.mem_cons_of_mem _ hkv)) _ _ _ hrest]
        rw [match_item_args x k v ign context _ st0 st' v' ?_ hmi]
        intro r hr hvo o ho
        rw [object_sub_of _ _ _ _ _ _ _ _ ho] at hr
        exact ih (k, v) (hsubset _ (List.mem_cons_self _ _)) o st0.args ign _ st0.errors r
          (Or.inl hvo) hr
    rw [match_config_object_eq] at h
    cases hm : match_object_items x kvs ign context
        { matched := Json.null, matched_keys := [], args := args, errors := errors } with
    | none => rw [hm] at h; simp at h
    | some q =>
      rw [hm] at h
      simp at h
      subst h
      simp only [bound_refs]
      exact key kvs (fun _ h => h) _ _ _ hm

/-! ### Counting references under the updates of the parser -/

theorem count_members_replace (n : Int) (k : Str) (v v1 : Json) (kvs : List (Str × Json))
    (h : kv_find k kvs = some v) :
    count_members n (kv_replace k v1 kvs) + Json.count n v
      = count_members n kvs + Json.count n v1 := by
  induction kvs with
  | nil => simp [kv_find] at h
  | cons kv kvs ih =>
    obtain ⟨k1, w⟩ := kv
    by_cases h1 : k1 = k
    · subst h1
      simp [kv_find] at h
      subst h
      simp [kv_replace, count_members]
      omega
    · have h' : kv_find k kvs = some v := by simpa [kv_find, h1] using h
      have := ih h'
      simp [kv_replace, h1, count_members]
      omega

theorem count_members_insert_new (n : Int) (k : Str) (v1 : Json) (kvs : List (Str × Json)) :
    count_members n (kv_insert_new k v1 kvs) = count_members n kvs + Json.count n v1 := by
  induction kvs with
  | nil => simp [kv_insert_new, count_members]
  | cons kv kvs ih =>
    obtain ⟨k1, w⟩ := kv
    by_cases h2 : str_lt k k1 = true
    · simp [kv_insert_new, h2, count_members]
      omega
    · simp [kv_insert_new, h2, count_members, ih]
      omega

theorem count_set_existing (n : Int) (j : Json) (k : Str) (v v1 : Json)
    (h : j.get k = some v) :
    Json.count n (j.set k v1) + Json.count n v = Json.count n j + Json.count n v1 := by
  cases j <;> simp [Json.get] at h
  rename_i kvs
  simp only [Json.set, kv_insert, h, Option.isSome_some, if_true, Json.count]
  exact count_members_replace n k v v1 kvs h

theorem count_set_le (n : Int) (j : Json) (k : Str) (v1 : Json) :
    Json.count n (j.set k v1) ≤ Json.count n j + Json.count n v1 := by
  cases j with
  | object kvs =>
    cases h : kv_find k kvs with
    | none =>
      simp only [Json.set, kv_insert, h, Json.count]
      simp [count_members_insert_new]
    | some v =>
      have := count_set_existing n (Json.object kvs) k v v1 h
      omega
  | null => simp [Json.set, Json.count, count_members]
  | boolean b => simp [Json.set, Json.count]
  | number i => simp [Json.set, Json.count]
  | string s => simp [Json.set, Json.count]
  | array xs => simp [Json.set, Json.count]

theorem count_modify_path_le (n : Int) (f : Json → Json) (c : Nat)
    (hf : ∀ o, Json.count n (f o) ≤ Json.count n o + c) (p : List Str) (j : Json) :
    Json.count n (Json.modify_path f p j) ≤ Json.count n j + c := by
  induction p generalizing j with
  | nil => exact hf j
  | cons k ks ih =>
    simp only [Json.modify_path]
    cases h : j.get k with
    | none => simp
    | some v =>
      simp only
      have h1 := count_set_existing n j k v (Json.modify_path f ks v) h
      have h2 := ih v
      omega

theorem count_set_or_make_list (n : Int) (o val : Json) :
    Json.count n (set_or_make_list o val) ≤ Json.count n o + Json.count n val := by
  unfold set_or_make_list
  split
  · omega
  · cases o <;> simp [Json.push_back, Json.count, count_items]

/-! ### Well-formed references under the updates of the parser -/

theorem to_int_of_range (i : Int) (h0 : -2147483648 ≤ i) (h1 : i < 2147483648) :
    to_int i = i := by
  unfold to_int
  omega

theorem refs_ok_items_iff (len : Nat) (xs : List Json) :
    refs_ok_items len xs = true ↔
      ∀ x ∈ xs, Json.refs_ok len x = true ∧ x ≠ Json.number NO_VALUE := by
  induction xs with
  | nil => simp [refs_ok_items]
  | cons x xs ih =>
    cases x with
    | number i =>
      simp only [refs_ok_items, Bool.and_eq_true, ih, List.mem_cons, forall_eq_or_imp,
        Json.refs_ok, NO_VALUE]
      simp only [Bool.or_eq_true, decide_eq_true_eq, Bool.and_eq_true, ne_eq, Json.number.injEq]
      constructor
      · rintro ⟨⟨h0, h1⟩, h2⟩
        exact ⟨⟨Or.inr ⟨h0, h1⟩, by omega⟩, h2⟩
      · rintro ⟨⟨h0, h1⟩, h2⟩
        refine ⟨?_, h2⟩
        rcases h0 with h0 | h0
        · exact absurd h0 h1
        · exact h0
    | null => simp [refs_ok_items, ih]
    | boolean b => simp [refs_ok_items, ih]
    | string s => simp [refs_ok_items, ih]
    | array ys => simp [refs_ok_items, ih]
    | object kvs => simp [refs_ok_items, ih]

theorem refs_ok_members_iff (len : Nat) (kvs : List (Str × Json)) :
    refs_ok_members len kvs = true ↔ ∀ kv ∈ kvs, Json.refs_ok len kv.2 = true := by
  induction kvs with
  | nil => simp [refs_ok_members]
  | cons kv kvs ih =>
    obtain ⟨k, v⟩ := kv
    simp only [refs_ok_members, Bool.and_eq_true, ih, List.mem_cons, forall_eq_or_imp]

theorem mem_kv_replace {β : Type} (k : Str) (v : β) (kvs : List (Str × β)) (kv : Str × β)
    (h : kv ∈ kv_replace k v kvs) : kv = (k, v) ∨ kv ∈ kvs := by
  induction kvs with
  | nil => simp [kv_replace] at h
  | cons e kvs ih =>
    obtain ⟨k1, v1⟩ := e
    by_cases h1 : k1 = k
    · simp [kv_replace, h1] at h
      rcases h with h | h
      · exact Or.inl h
      · exact Or.inr (List.mem_cons_of_mem _ h)
    · simp [kv_replace, h1] at h
      rcases h with h | h
      · exact Or.inr (h ▸ List.mem_cons_self _ _)
      · rcases ih h with h2 | h2
        · exact Or.inl h2
        · exact Or.inr (List.mem_cons_of_mem _ h2)

theorem mem_kv_insert_new {β : Type} (k : Str) (v : β) (kvs : List (Str × β)) (kv : Str × β)
    (h : kv ∈ kv_insert_new k v kvs) : kv = (k, v) ∨ kv ∈ kvs := by
  induction kvs with
  | nil => simpa [kv_insert_new] using h
  | cons e kvs ih =>
    obtain ⟨k1, v1⟩ := e
    by_cases h2 : str_lt k k1 = true
    · simp [kv_insert_new, h2] at h
      rcases h with h | h | h
      · exact Or.inl h
      · exact Or.inr (h ▸ List.mem_cons_self _ _)
      · exact Or.inr (List.mem_cons_of_mem _ h)
    · simp [kv_insert_new, h2] at h
      rcases h with h | h
      · exact Or.inr (h ▸ List.mem_cons_self _ _)
      · rcases ih h with h3 | h3
        · exact Or.inl h3
        · exact Or.inr (List.mem_cons_of_mem _ h3)

theorem mem_kv_insert {β : Type} (k : Str) (v : β) (kvs : List (Str × β)) (kv : Str × β)
    (h : kv ∈ kv_insert k v kvs) : kv = (k, v) ∨ kv ∈ kvs := by
  unfold kv_insert at h
  split at h
  · exact mem_kv_replace k v kvs kv h
  · exact mem_kv_insert_new k v kvs kv h

theorem mem_of_kv_find {β : Type} (k : Str) (v : β) (kvs : List (Str × β))
    (h : kv_find k kvs = some v) : (k, v) ∈ kvs := by
  induction kvs with
  | nil => simp [kv_find] at h
  | cons e kvs ih =>
    obtain ⟨k1, v1⟩ := e
    by_cases h1 : k1 = k
    · simp [kv_find, h1] at h
      subst h1 h
      exact List.mem_cons_self _ _
    · simp [kv_find, h1] at h
      exact List.mem_cons_of_mem _ (ih h)

theorem mem_of_mem_kv_erase {β : Type} (k : Str) (kvs : List (Str × β)) (kv : Str × β)
    (h : kv ∈ kv_erase k kvs) : kv ∈ kvs := by
  induction kvs with
  | nil => simp [kv_erase] at h
  | cons e kvs ih =>
    obtain ⟨k1, v1⟩ := e
    by_cases h1 : k1 = k
    · simp [kv_erase, h1] at h
      exact List.mem_cons_of_mem _ h
    · simp [kv_erase, h1] at h
      rcases h with h | h
      · exact h ▸ List.mem_cons_self _ _
      · exact List.mem_cons_of_mem _ (ih h)

theorem refs_ok_set (len : Nat) (j : Json) (k : Str) (v : Json)
    (hj : j.refs_ok len = true) (hv : v.refs_ok len = true) :
    (j.set k v).refs_ok len = true := by
  cases j with
  | object kvs =>
    simp only [Json.set, Json.refs_ok, refs_ok_members_iff] at hj ⊢
    intro kv hkv
    rcases mem_kv_insert k v kvs kv hkv with h | h
    · rw [h]; exact hv
    · exact hj kv h
  | null => simp [Json.set, Json.refs_ok, refs_ok_members, hv]
  | boolean b => exact hj
  | number i => exact hj
  | string s => exact hj
  | array xs => exact hj

theorem refs_ok_get (len : Nat) (j : Json) (k : Str) (v : Json)
    (hj : j.refs_ok len = true) (h : j.get k = some v) : v.refs_ok len = true := by
  cases j <;> simp [Json.get] at h
  rename_i kvs
  simp only [Json.refs_ok, refs_ok_members_iff] at hj
  exact hj _ (mem_of_kv_find k v kvs h)

theorem refs_ok_modify_path (len : Nat) (f : Json → Json)
    (hf : ∀ o, o.refs_ok len = true → (f o).refs_ok len = true) (p : List Str) (j : Json)
    (hj : j.refs_ok len = true) : (Json.modify_path f p j).refs_ok len = true := by
  induction p generalizing j with
  | nil => exact hf j hj
  | cons k ks ih =>
    simp only [Json.modify_path]
    cases h : j.get k with
    | none => exact hj
    | some v => exact refs_ok_set len j k _ hj (ih v (refs_ok_get len j k v hj h))

theorem refs_ok_mono (len len1 : Nat) (hle : len ≤ len1) (j : Json) :
    j.refs_ok len = true → j.refs_ok len1 = true := by
  induction j using Json.induction with
  | hnull => intro _; rfl
  | hbool b => intro _; rfl
  | hnum i =>
    simp only [Json.refs_ok, Bool.or_eq_true, decide_eq_true_eq, Bool.and_eq_true]
    rintro (h | ⟨h0, h1⟩)
    · exact Or.inl h
    · exact Or.inr ⟨h0, by omega⟩
  | hstr s => intro _; rfl
  | harr xs ih =>
    simp only [Json.refs_ok, refs_ok_items_iff]
    intro h x hx
    exact ⟨ih x hx (h x hx).1, (h x hx).2⟩
  | hobj kvs ih =>
    simp only [Json.refs_ok, refs_ok_members_iff]
    intro h kv hkv
    exact ih kv hkv (h kv hkv)

theorem refs_ok_set_or_make_list (len : Nat) (o val : Json) (ho : o.refs_ok len = true)
    (hval : val.refs_ok len = true) (hne : val ≠ Json.number NO_VALUE) :
    (set_or_make_list o val).refs_ok len = true := by
  unfold set_or_make_list
  split
  · exact hval
  · rename_i hc
    have hno : o ≠ Json.number NO_VALUE := by
      intro e
      subst e
      simp [Json.is_null, Json.is_number, Json.get_int, NO_VALUE, to_int] at hc
    have : (Json.null.push_back o).push_back val = Json.array [o, val] := rfl
    rw [this]
    simp only [Json.refs_ok, refs_ok_items_iff]
    intro x hx
    simp at hx
    rcases hx with rfl | rfl
    · exact ⟨ho, hno⟩
    · exact ⟨hval, hne⟩

theorem count_items_pos (n : Int) (xs : List Json) (h : 1 ≤ count_items n xs) :
    ∃ x ∈ xs, 1 ≤ Json.count n x := by
  induction xs with
  | nil => simp [count_items] at h
  | cons x xs ih =>
    simp only [count_items] at h
    by_cases hx : 1 ≤ Json.count n x
    · exact ⟨x, List.mem_cons_self _ _, hx⟩
    · obtain ⟨y, hy, hc⟩ := ih (by omega)
      exact ⟨y, List.mem_cons_of_mem _ hy, hc⟩

theorem count_members_pos (n : Int) (kvs : List (Str × Json)) (h : 1 ≤ count_members n kvs) :
    ∃ kv ∈ kvs, 1 ≤ Json.count n kv.2 := by
  induction kvs with
  | nil => simp [count_members] at h
  | cons kv kvs ih =>
    obtain ⟨k, v⟩ := kv
    simp only [count_members] at h
    by_cases hx : 1 ≤ Json.count n v
    · exact ⟨(k, v), List.mem_cons_self _ _, hx⟩
    · obtain ⟨y, hy, hc⟩ := ih (by omega)
      exact ⟨y, List.mem_cons_of_mem _ hy, hc⟩

theorem refs_ok_count (len : Nat) (n : Int) (j : Json) :
    j.refs_ok len = true → 1 ≤ Json.count n j → n = NO_VALUE ∨ (0 ≤ n ∧ n < len) := by
  induction j using Json.induction with
  | hnull => intro _ h; simp [Json.count] at h
  | hbool b => intro _ h; simp [Json.count] at h
  | hnum i =>
    intro h1 h2
    simp only [Json.count] at h2
    split at h2
    · rename_i e
      subst e
      simpa [Json.refs_ok] using h1
    · omega
  | hstr s => intro _ h; simp [Json.count] at h
  | harr xs ih =>
    intro h1 h2
    simp only [Json.refs_ok, refs_ok_items_iff] at h1
    simp only [Json.count] at h2
    obtain ⟨x, hx, hc⟩ := count_items_pos n xs h2
    exact ih x hx (h1 x hx).1 hc
  | hobj kvs ih =>
    intro h1 h2
    simp only [Json.refs_ok, refs_ok_members_iff] at h1
    simp only [Json.count] at h2
    obtain ⟨kv, hkv, hc⟩ := count_members_pos n kvs h2
    exact ih kv hkv (h1 kv hkv) hc

theorem refs_ok_fresh (len : Nat) (j : Json) (h : j.refs_ok len = true) :
    Json.count (len : Int) j = 0 := by
  by_contra hc
  rcases refs_ok_count len len j h (by omega) with h1 | ⟨_, h1⟩
  · simp [NO_VALUE] at h1
  · omega

/-! ### The invariant of the parser -/

theorem parse_short_names_wf (names : List Char) (st : ParseState)
    (h1 : st.obj.refs_ok st.args.length = true)
    (h2 : ∀ n : Int, n ≠ NO_VALUE → st.obj.count n ≤ 1) :
    (parse_short_names names st).obj.refs_ok (parse_short_names names st).args.length = true
    ∧ (∀ n : Int, n ≠ NO_VALUE → (parse_short_names names st).obj.count n ≤ 1)
    ∧ (parse_short_names names st).args = st.args := by
  induction names generalizing st with
  | nil => exact ⟨h1, h2, rfl⟩
  | cons c rest ih =>
    rw [parse_short_names]
    have := ih { st with obj := st.obj.set [c] (Json.number NO_VALUE), current_param := some [[c]] }
      (refs_ok_set _ _ _ _ h1 (by simp [Json.refs_ok]))
      (fun n hn => by
        have h3 := count_set_le n st.obj [c] (Json.number NO_VALUE)
        have h4 : Json.count n (Json.number NO_VALUE) = 0 := by
          simp [Json.count, Ne.symm hn]
        have := h2 n hn
        simp only at h3 ⊢
        omega)
    exact this

theorem parse_long_name_wf (len : Nat) (a : Str) (chars : List Char) (seen : Str) (st : LongState)
    (h1 : st.obj.refs_ok len = true)
    (h2 : ∀ n : Int, n ≠ NO_VALUE → st.obj.count n ≤ 1) :
    (parse_long_name a chars seen st).obj.refs_ok len = true
    ∧ (∀ n : Int, n ≠ NO_VALUE → (parse_long_name a chars seen st).obj.count n ≤ 1) := by
  induction chars generalizing seen st with
  | nil => exact ⟨h1, h2⟩
  | cons c rest ih =>
    rw [parse_long_name]
    split
    · exact ⟨h1, h2⟩
    · split
      · apply ih
        · simp only
          split
          · split <;> exact h1
          · exact refs_ok_modify_path len _
              (fun o ho => refs_ok_set _ _ _ _ ho (by simp [Json.refs_ok, refs_ok_members])) _ _ h1
        · intro n hn
          simp only
          split
          · split <;> exact h2 n hn
          · have := count_modify_path_le n (fun o => o.set st.current_name (Json.object [])) 0
              (fun o => by
                have := count_set_le n o st.current_name (Json.object [])
                simpa [Json.count, count_members] using this) st.current_obj st.obj
            have := h2 n hn
            simp only at *
            omega
      · exact ih _ _ h1 h2


theorem parse_value_wf (argv_i arg : Str) (assign_value : Bool) (st : ParseState)
    (hlen : st.args.length < 2147483648)
    (h1 : st.obj.refs_ok st.args.length = true)
    (h2 : ∀ n : Int, n ≠ NO_VALUE → st.obj.count n ≤ 1) :
    (parse_value argv_i arg assign_value st).obj.refs_ok
        (parse_value argv_i arg assign_value st).args.length = true
    ∧ (∀ n : Int, n ≠ NO_VALUE → (parse_value argv_i arg assign_value st).obj.count n ≤ 1)
    ∧ (parse_value argv_i arg assign_value st).args
        = st.args ++ (if assign_value then [] else [some arg]) := by
  have hto : to_int (st.args.length : Int) = st.args.length :=
    to_int_of_range _ (by omega) (by omega)
  cases assign_value with
  | true =>
    unfold parse_value
    cases hp : st.current_param with
    | none => simpa using ⟨h1, h2⟩
    | some p =>
      simp only [Bool.not_true, Bool.false_eq_true, if_false, if_true, List.append_nil]
      refine ⟨?_, ?_, trivial⟩
      · exact refs_ok_modify_path _ (fun o => set_or_make_list o (Json.string arg))
          (fun o ho => refs_ok_set_or_make_list _ o (Json.string arg) ho rfl (by simp)) _ _ h1
      · intro n hn
        have := count_modify_path_le n (fun o => set_or_make_list o (Json.string arg)) 0
          (fun o => by simpa [Json.count] using count_set_or_make_list n o (Json.string arg))
          p st.obj
        have := h2 n hn
        omega
  | false =>
    unfold parse_value
    cases hp : st.current_param with
    | none =>
      simp only [Bool.not_false, if_true, Bool.false_eq_true, if_false]
      refine ⟨?_, h2, trivial⟩
      simp only [List.length_append, List.length_singleton]
      exact refs_ok_mono _ _ (Nat.le_succ _) _ h1
    | some p =>
      simp only [Bool.not_false, if_true, Bool.false_eq_true, if_false, hto]
      refine ⟨?_, ?_, trivial⟩
      · simp only [List.length_append, List.length_singleton]
        refine refs_ok_modify_path _ _ (fun o ho => refs_ok_set_or_make_list _ o _ ho ?_ ?_) _ _
          (refs_ok_mono _ _ (Nat.le_succ _) _ h1)
        · simp [Json.refs_ok]
        · simp [NO_VALUE]
      · intro n hn
        by_cases hnl : n = (st.args.length : Int)
        · have := count_modify_path_le n
            (fun o => set_or_make_list o (Json.number (st.args.length : Int))) 1
            (fun o => by
              simpa [Json.count, hnl] using
                count_set_or_make_list n o (Json.number (st.args.length : Int)))
            p st.obj
          have h0 := refs_ok_fresh _ _ h1
          rw [← hnl] at h0
          omega
        · have := count_modify_path_le n
            (fun o => set_or_make_list o (Json.number (st.args.length : Int))) 0
            (fun o => by
              have := count_set_or_make_list n o (Json.number (st.args.length : Int))
              simpa [Json.count, Ne.symm hnl] using this)
            p st.obj
          have := h2 n hn
          omega

theorem parse_arg_wf (st : ParseState) (a : Str)
    (hlen : st.args.length < 2147483648)
    (h1 : st.obj.refs_ok st.args.length = true)
    (h2 : ∀ n : Int, n ≠ NO_VALUE → st.obj.count n ≤ 1) :
    (parse_arg st a).obj.refs_ok (parse_arg st a).args.length = true
    ∧ (∀ n : Int, n ≠ NO_VALUE → (parse_arg st a).obj.count n ≤ 1)
    ∧ (parse_arg st a).args = st.args ++ (if a.head? ≠ some '-' then [some a] else []) := by
  unfold parse_arg
  split
  · rename_i name
    obtain ⟨l1, l2⟩ := parse_long_name_wf st.args.length ('-' :: '-' :: name) name ['-', '-']
      { obj := st.obj, current_obj := [], current_name := [], errors := st.errors, value := none }
      h1 h2
    generalize parse_long_name ('-' :: '-' :: name) name ['-', '-']
      { obj := st.obj, current_obj := [], current_name := [], errors := st.errors
        value := none } = ls at l1 l2
    have k1 : (if ((ls.obj.get_path ls.current_obj).getD Json.null).contains ls.current_name
        then ls.obj
        else ls.obj.modify_path (fun o => o.set ls.current_name (Json.number NO_VALUE))
          ls.current_obj).refs_ok st.args.length = true := by
      split
      · exact l1
      · exact refs_ok_modify_path _ _
          (fun o ho => refs_ok_set _ _ _ _ ho (by simp [Json.refs_ok])) _ _ l1
    have k2 : ∀ n : Int, n ≠ NO_VALUE →
        (if ((ls.obj.get_path ls.current_obj).getD Json.null).contains ls.current_name
        then ls.obj
        else ls.obj.modify_path (fun o => o.set ls.current_name (Json.number NO_VALUE))
          ls.current_obj).count n ≤ 1 := by
      intro n hn
      split
      · exact l2 n hn
      · have := count_modify_path_le n
          (fun o => o.set ls.current_name (Json.number NO_VALUE)) 0
          (fun o => by
            have := count_set_le n o ls.current_name (Json.number NO_VALUE)
            simpa [Json.count, Ne.symm hn] using this) ls.current_obj ls.obj
        have := l2 n hn
        omega
    simp only
    cases hv : ls.value with
    | none => simpa using ⟨k1, k2⟩
    | some v =>
      simp only
      have := parse_value_wf ('-' :: '-' :: name) v true
        { obj := (if ((ls.obj.get_path ls.current_obj).getD Json.null).contains ls.current_name
            then ls.obj
            else ls.obj.modify_path (fun o => o.set ls.current_name (Json.number NO_VALUE))
              ls.current_obj)
          args := st.args
          current_param := some (ls.current_obj ++ [ls.current_name])
          errors := ls.errors } hlen k1 k2
      simpa using this
  · rename_i names _
    have := parse_short_names_wf names st h1 h2
    simpa using this
  · rename_i hn1 hn2
    have hb : a.head? ≠ some '-' := by
      intro e
      cases a with
      | nil => simp at e
      | cons c rest =>
        simp at e
        subst e
        exact hn2 rest rfl
    have := parse_value_wf a a false st hlen h1 h2
    simpa [hb] using this

theorem foldl_parse_arg_wf (l : List Str) (st : ParseState)
    (hlen : st.args.length + l.length < 2147483648)
    (h1 : st.obj.refs_ok st.args.length = true)
    (h2 : ∀ n : Int, n ≠ NO_VALUE → st.obj.count n ≤ 1) :
    (l.foldl parse_arg st).obj.refs_ok (l.foldl parse_arg st).args.length = true
    ∧ (∀ n : Int, n ≠ NO_VALUE → (l.foldl parse_arg st).obj.count n ≤ 1)
    ∧ (l.foldl parse_arg st).args
        = st.args ++ (l.filter (fun a => a.head? ≠ some '-')).map some := by
  induction l generalizing st with
  | nil => simpa using ⟨h1, h2⟩
  | cons a l ih =>
    obtain ⟨p1, p2, p3⟩ := parse_arg_wf st a (by simp at hlen; omega) h1 h2
    have hl : (parse_arg st a).args.length + l.length < 2147483648 := by
      rw [p3]
      simp only [List.length_append, List.length_cons] at hlen ⊢
      split <;> simp <;> omega
    obtain ⟨q1, q2, q3⟩ := ih (parse_arg st a) hl p1 p2
    refine ⟨q1, q2, ?_⟩
    rw [List.foldl_cons, q3, p3]
    by_cases hb : a.head? ≠ some '-'
    · simp [hb, List.filter_cons]
    · simp [hb, List.filter_cons]

theorem parse_cmdline_wf (argv : List Str) (errors : List Str) (hlen : argv.length < 2147483648) :
    (parse_cmdline argv errors).1.json.refs_ok (parse_cmdline argv errors).1.args.length = true
    ∧ (∀ n : Int, n ≠ NO_VALUE → (parse_cmdline argv errors).1.json.count n ≤ 1)
    ∧ (parse_cmdline argv errors).1.args = (bare_arguments argv).map some := by
  have := foldl_parse_arg_wf (argv.drop 1)
    { obj := Json.null, args := [], current_param := none, errors := errors }
    (by simp; omega) rfl (fun n _ => by simp [Json.count])
  simpa [parse_cmdline, bare_arguments] using this

/-! ### `match_config` is defined on well-formed references -/

theorem clear_all_length (is : List Nat) (args : List (Option Str)) :
    (clear_all is args).length = args.length := by
  induction is generalizing args with
  | nil => rfl
  | cons i is ih => rw [clear_all_cons, ih, List.length_set]

theorem clear_all_get_not_mem (is : List Nat) (args : List (Option Str)) (n : Nat)
    (h : n ∉ is) : (clear_all is args)[n]? = args[n]? := by
  induction is generalizing args with
  | nil => rfl
  | cons i is ih =>
    rw [clear_all_cons, ih _ (fun hm => h (List.mem_cons_of_mem _ hm))]
    have hne : i ≠ n := fun e => h (e ▸ List.mem_cons_self _ _)
    simp [List.getElem?_set, hne]

theorem clear_all_get_mem (is : List Nat) (args : List (Option Str)) (n : Nat)
    (h : n ∈ is) (hn : n < args.length) : (clear_all is args)[n]? = some none := by
  induction is generalizing args with
  | nil => simp at h
  | cons i is ih =>
    rw [clear_all_cons]
    by_cases hm : n ∈ is
    · exact ih _ hm (by simpa using hn)
    · have e : n = i := by
        rcases List.mem_cons.mp h with e | e
        · exact e
        · exact absurd e hm
      subst e
      rw [clear_all_get_not_mem _ _ _ hm]
      simp [List.getElem?_set, hn]

theorem item_refs_count (len : Nat) (hlen : len < 2147483648) (items : List Json)
    (h : refs_ok_items len items = true) (m : Nat) (hm : m ∈ item_refs items) :
    1 ≤ count_items (m : Int) items := by
  induction items with
  | nil => simp [item_refs] at hm
  | cons x xs ih =>
    have hx := (refs_ok_items_iff len (x :: xs)).mp h
    have hxs : refs_ok_items len xs = true :=
      (refs_ok_items_iff len xs).mpr (fun y hy => hx y (List.mem_cons_of_mem _ hy))
    cases x with
    | number i =>
      simp only [item_refs, List.mem_cons] at hm
      simp only [count_items, Json.count]
      rcases hm with e | e
      · have h1 := hx (Json.number i) (List.mem_cons_self _ _)
        simp [Json.refs_ok, NO_VALUE] at h1
        have hi : to_int i = i := to_int_of_range i (by omega) (by omega)
        rw [hi] at e
        have : i = (m : Int) := by omega
        simp [this]
      · have := ih hxs e
        omega
    | null => simp only [item_refs] at hm; simp only [count_items]; have := ih hxs hm; omega
    | boolean b => simp only [item_refs] at hm; simp only [count_items]; have := ih hxs hm; omega
    | string s => simp only [item_refs] at hm; simp only [count_items]; have := ih hxs hm; omega
    | array ys => simp only [item_refs] at hm; simp only [count_items]; have := ih hxs hm; omega
    | object kvs => simp only [item_refs] at hm; simp only [count_items]; have := ih hxs hm; omega

theorem value_refs_count (len : Nat) (hlen : len < 2147483648) (v : Json)
    (h : v.refs_ok len = true) (m : Nat) (hm : m ∈ value_refs v) :
    1 ≤ Json.count (m : Int) v := by
  cases v with
  | number i =>
    simp only [value_refs] at hm
    split at hm
    · rename_i hi
      simp at hm
      simp [Json.refs_ok] at h
      rcases h with h | ⟨h0, h1⟩
      · subst h
        exact absurd rfl hi
      · have hi : to_int i = i := to_int_of_range i (by omega) (by omega)
        rw [hi] at hm
        have : i = (m : Int) := by omega
        simp [Json.count, this]
    · simp at hm
  | array xs =>
    simp only [value_refs] at hm
    simp only [Json.count]
    exact item_refs_count len hlen xs (by simpa [Json.refs_ok] using h) m hm
  | null => simp [value_refs] at hm
  | boolean b => simp [value_refs] at hm
  | string s => simp [value_refs] at hm
  | object kvs => simp [value_refs] at hm

theorem member_refs_sub (x : ConfigObject) (key : Str) (v : Json) (sub : List Nat) (m : Nat)
    (hm : m ∈ member_refs x key v sub) : m ∈ sub ∨ m ∈ value_refs v := by
  unfold member_refs at hm
  split at hm
  · split at hm
    · simp at hm
    · split at hm
      · exact Or.inl hm
      · split at hm
        · simp at hm
        · exact Or.inr hm
  · simp at hm

theorem bound_refs_count (len : Nat) (hlen : len < 2147483648) (v : Json) :
    ∀ (x : ConfigObject), v.refs_ok len = true → ∀ m : Nat, m ∈ bound_refs x v →
      1 ≤ Json.count (m : Int) v := by
  induction v using Json.induction with
  | hnull => intro x _ m hm; simp [bound_refs] at hm
  | hbool b => intro x _ m hm; simp [bound_refs] at hm
  | hnum i => intro x _ m hm; simp [bound_refs] at hm
  | hstr s => intro x _ m hm; simp [bound_refs] at hm
  | harr xs _ => intro x _ m hm; simp [bound_refs] at hm
  | hobj kvs ih =>
    intro x h m hm
    simp only [bound_refs] at hm
    simp only [Json.count]
    simp only [Json.refs_ok, refs_ok_members_iff] at h
    have key : ∀ items : List (Str × Json), (∀ kv ∈ items, kv ∈ kvs) →
        m ∈ bound_refs_members x items → 1 ≤ count_members (m : Int) items := by
      intro items
      induction items with
      | nil => intro _ h0; simp [bound_refs_members] at h0
      | cons kv rest ihl =>
        obtain ⟨k, w⟩ := kv
        intro hsub h0
        rw [bound_refs_members, List.mem_append] at h0
        simp only [count_members]
        have hw := hsub (k, w) (List.mem_cons_self _ _)
        rcases h0 with h0 | h0
        · rcases member_refs_sub _ _ _ _ _ h0 with h1 | h1
          · split at h1
            · have := ih (k, w) hw _ (h _ hw) m h1
              simp only at this
              omega
            · simp at h1
          · have := value_refs_count len hlen w (h _ hw) m h1
            omega
        · have := ihl (fun kv hkv => hsub kv (List.mem_cons_of_mem _ hkv)) h0
          omega
    exact key kvs (fun _ h => h) hm


theorem args_at_of_get (args : List (Option Str)) (i : Int) (s : Str) (h0 : 0 ≤ i)
    (h : args[i.toNat]? = some (some s)) : args_at args i = some s := by
  simp [args_at, h0, h]

theorem match_list_items_total (x : ConfigObject) (context key : Str) (items : List Json)
    (index : Nat) (list : Json) (args : List (Option Str)) (errors : List Str)
    (hlen : args.length < 2147483648)
    (h1 : refs_ok_items args.length items = true)
    (h2 : ∀ n : Int, n ≠ NO_VALUE → count_items n items ≤ 1)
    (h3 : ∀ n : Nat, 1 ≤ count_items (n : Int) items → ∃ s, args[n]? = some (some s)) :
    ∃ r, match_list_items x context key items index list args errors = some r := by
  induction items generalizing index list args errors with
  | nil => exact ⟨_, rfl⟩
  | cons item rest ih =>
    have hx := (refs_ok_items_iff _ (item :: rest)).mp h1
    have hrest : refs_ok_items args.length rest = true :=
      (refs_ok_items_iff _ rest).mpr (fun y hy => hx y (List.mem_cons_of_mem _ hy))
    have h2r : ∀ n : Int, n ≠ NO_VALUE → count_items n rest ≤ 1 := fun n hn => by
      have := h2 n hn
      simp only [count_items] at this
      omega
    have h3r : ∀ n : Nat, 1 ≤ count_items (n : Int) rest → ∃ s, args[n]? = some (some s) :=
      fun n hn => h3 n (by simp only [count_items]; omega)
    cases item with
    | number i =>
      have hi := hx (Json.number i) (List.mem_cons_self _ _)
      simp [Json.refs_ok, NO_VALUE] at hi
      obtain ⟨hi1, hi2⟩ := hi
      have hr : 0 ≤ i ∧ i < args.length := by omega
      have hto : to_int i = i := to_int_of_range i (by omega) (by omega)
      obtain ⟨s, hs⟩ := h3 i.toNat (by
        have : ((i.toNat : Nat) : Int) = i := by omega
        simp [count_items, Json.count, this])
      simp only [match_list_items, Json.get_int, hto]
      rw [if_neg (by simpa [NO_VALUE] using hi2), args_at_of_get args i s hr.1 hs]
      simp only
      apply ih
      · simpa using hlen
      · simpa using hrest
      · exact h2r
      · intro n hn
        have hne : i.toNat ≠ n := by
          intro e
          have hu := h2 i (by simpa [NO_VALUE] using hi2)
          have : ((n : Nat) : Int) = i := by omega
          rw [this] at hn
          simp [count_items, Json.count] at hu
          omega
        rw [List.getElem?_set_ne hne]
        exact h3r n hn
    | null => simp only [match_list_items]; exact ih _ _ _ _ hlen hrest h2r h3r
    | boolean b => simp only [match_list_items]; exact ih _ _ _ _ hlen hrest h2r h3r
    | string s => simp only [match_list_items]; exact ih _ _ _ _ hlen hrest h2r h3r
    | array ys => simp only [match_list_items]; exact ih _ _ _ _ hlen hrest h2r h3r
    | object kvs => simp only [match_list_items]; exact ih _ _ _ _ hlen hrest h2r h3r

theorem match_item_total (x : ConfigObject) (key : Str) (v : Json) (ign : Bool) (context : Str)
    (sub : Option MatchResult) (st : MatchState)
    (hsub : v.is_object = true → ∀ o, nested_object x key = some o → ∃ r, sub = some r)
    (hlen : st.args.length < 2147483648)
    (h1 : v.refs_ok st.args.length = true)
    (h2 : ∀ n : Int, n ≠ NO_VALUE → Json.count n v ≤ 1)
    (h3 : ∀ n : Nat, 1 ≤ Json.count (n : Int) v → ∃ s, st.args[n]? = some (some s)) :
    ∃ r, match_item x key v ign context sub st = some r := by
  cases hf : find_param x key with
  | none => exact ⟨_, match_item_unknown _ _ _ _ _ _ _ hf⟩
  | some p =>
    by_cases hal : (v.is_array && !p.is_list) = true
    · simp at hal
      obtain ⟨ha, hl⟩ := hal
      cases v <;> simp [Json.is_array] at ha
      exact ⟨_, match_item_list_given _ _ _ _ _ _ _ _ hf hl⟩
    · by_cases ho : p.is_object = true
      · have hl : p.is_list = false := by
          cases p <;> simp [ConfigParam.is_object] at ho <;> rfl
        by_cases hv : v.is_object = true
        · obtain ⟨o, hno⟩ := nested_object_of_is_object _ _ _ hf ho
          obtain ⟨r, hr⟩ := hsub hv o hno
          cases v <;> simp [Json.is_object] at hv
          rw [match_item_nested_object _ _ _ _ _ _ _ _ hf ho, hr]
          exact ⟨_, rfl⟩
        · simp at hv
          have ha : v.is_array = false := by simpa [hl] using hal
          exact ⟨_, match_item_nested_value _ _ _ _ _ _ _ _ hf ho hv ha⟩
      · simp at ho
        by_cases hfl : p.is_flag = true
        · have hl : p.is_list = false := by
            cases p <;> simp [ConfigParam.is_flag] at hfl <;> rfl
          have ha : v.is_array = false := by simpa [hl] using hal
          exact ⟨_, match_item_flag _ _ _ _ _ _ _ _ hf hfl ha⟩
        · simp at hfl
          cases v with
          | string s => exact ⟨_, match_item_value_string _ _ _ _ _ _ _ _ hf hfl ho⟩
          | number i =>
            by_cases hi : to_int i = NO_VALUE
            · exact ⟨_, match_item_value_none _ _ _ _ _ _ _ _ hf hfl ho hi⟩
            · rw [match_item_value_ref _ _ _ _ _ _ _ _ hf hfl ho hi]
              simp [Json.refs_ok] at h1
              rcases h1 with h1 | ⟨h10, h11⟩
              · subst h1
                exact absurd rfl hi
              · have hto : to_int i = i := to_int_of_range i (by omega) (by omega)
                obtain ⟨s, hs⟩ := h3 i.toNat (by
                  have : ((i.toNat : Nat) : Int) = i := by omega
                  simp [Json.count, this])
                rw [hto, args_at_of_get _ i s h10 hs]
                exact ⟨_, rfl⟩
          | array items =>
            have hl : p.is_list = true := by simpa [Json.is_array] using hal
            rw [match_item_value_list _ _ _ _ _ _ _ _ hf hl]
            obtain ⟨r, hr⟩ := match_list_items_total x context key items 0 Json.null st.args
              st.errors hlen (by simpa [Json.refs_ok] using h1)
              (by simpa [Json.count] using h2) (by simpa [Json.count] using h3)
            rw [hr]
            exact ⟨_, rfl⟩
          | null => exact ⟨_, match_item_value_other x key Json.null _ _ _ _ _ hf hfl ho rfl rfl rfl⟩
          | boolean b =>
            exact ⟨_, match_item_value_other x key (Json.boolean b) _ _ _ _ _ hf hfl ho rfl rfl rfl⟩
          | object kvs =>
            exact ⟨_, match_item_value_other x key (Json.object kvs) _ _ _ _ _ hf hfl ho rfl rfl rfl⟩


theorem member_refs_count (len : Nat) (hlen : len < 2147483648) (x : ConfigObject) (key : Str)
    (v : Json) (h : v.refs_ok len = true) (m : Nat)
    (hm : m ∈ member_refs x key v (nested_refs x key v)) :
    1 ≤ Json.count (m : Int) v := by
  rcases member_refs_sub _ _ _ _ _ hm with h1 | h1
  · unfold nested_refs at h1
    split at h1
    · exact bound_refs_count len hlen v _ h m h1
    · simp at h1
  · exact value_refs_count len hlen v h m h1

theorem match_config_total (tree : Json) :
    ∀ (x : ConfigObject) (args : List (Option Str)) (ign : Bool) (context : Str)
      (errors : List Str),
      tree.is_object = true ∨ tree = Json.null →
      args.length < 2147483648 →
      tree.refs_ok args.length = true →
      (∀ n : Int, n ≠ NO_VALUE → Json.count n tree ≤ 1) →
      (∀ n : Nat, 1 ≤ Json.count (n : Int) tree → ∃ s, args[n]? = some (some s)) →
      ∃ r, match_config x tree args ign context errors = some r := by
  induction tree using Json.induction with
  | hnull => intro x args ign context errors _ _ _ _ _; exact ⟨_, match_config_null _ _ _ _ _⟩
  | hbool b => intro x args ign context errors ht; simp [Json.is_object] at ht
  | hnum i => intro x args ign context errors ht; simp [Json.is_object] at ht
  | hstr s => intro x args ign context errors ht; simp [Json.is_object] at ht
  | harr xs _ => intro x args ign context errors ht; simp [Json.is_object] at ht
  | hobj kvs ih =>
    intro x args ign context errors _ hlen h1 h2 h3
    simp only [Json.refs_ok, refs_ok_members_iff] at h1
    simp only [Json.count] at h2 h3
    have key : ∀ (items : List (Str × Json)), (∀ kv ∈ items, kv ∈ kvs) →
        ∀ (st : MatchState), st.args.length = args.length →
        (∀ n : Int, n ≠ NO_VALUE → count_members n items ≤ 1) →
        (∀ n : Nat, 1 ≤ count_members (n : Int) items → ∃ s, st.args[n]? = some (some s)) →
        ∃ r, match_object_items x items ign context st = some r := by
      intro items
      induction items with
      | nil => intro _ st _ _ _; exact ⟨_, match_object_items_nil _ _ _ _⟩
      | cons kv rest ihl =>
        obtain ⟨k, v⟩ := kv
        intro hsubset st hst u a
        have hv := hsubset (k, v) (List.mem_cons_self _ _)
        have hvok : v.refs_ok st.args.length = true := by rw [hst]; exact h1 _ hv
        have hvu : ∀ n : Int, n ≠ NO_VALUE → Json.count n v ≤ 1 := fun n hn => by
          have := u n hn
          simp only [count_members] at this
          omega
        have hva : ∀ n : Nat, 1 ≤ Json.count (n : Int) v → ∃ s, st.args[n]? = some (some s) :=
          fun n hn => a n (by simp only [count_members]; omega)
        have hstl : st.args.length < 2147483648 := by rw [hst]; exact hlen
        obtain ⟨⟨st1, v1⟩, hmi⟩ := match_item_total x k v ign context
          (object_sub x k v st.args ign context st.errors) st
          (fun hvo o ho => by
            rw [object_sub_of _ _ _ _ _ _ _ _ ho]
            exact ih (k, v) hv o st.args ign _ st.errors (Or.inl hvo) hstl hvok hvu hva)
          hstl hvok hvu hva
        have hargs := match_item_args x k v ign context _ st st1 v1
          (fun r hr hvo o ho => by
            rw [object_sub_of _ _ _ _ _ _ _ _ ho] at hr
            exact match_config_args v o st.args ign _ st.errors r (Or.inl hvo) hr) hmi
        obtain ⟨⟨st2, rest1⟩, hrest⟩ := ihl
          (fun kv hkv => hsubset kv (List.mem_cons_of_mem _ hkv)) st1
          (by rw [hargs, clear_all_length, hst])
          (fun n hn => by
            have := u n hn
            simp only [count_members] at this
            omega)
          (fun n hn => by
            have hnot : n ∉ member_refs x k v (nested_refs x k v) := by
              intro hm
              have c1 := member_refs_count _ hstl x k v hvok n hm
              have c2 := u (n : Int) (by simp [NO_VALUE])
              simp only [count_members] at c2
              omega
            rw [hargs, clear_all_get_not_mem _ _ _ hnot]
            exact a n (by simp only [count_members]; omega))
        rw [match_object_items_cons_eq, hmi]
        simp only [Option.some_bind, hrest]
        exact ⟨_, rfl⟩
    obtain ⟨⟨st, kvs1⟩, hm⟩ := key kvs (fun _ h => h)
      { matched := Json.null, matched_keys := [], args := args, errors := errors } rfl h2 h3
    rw [match_config_object_eq, hm]
    exact ⟨_, rfl⟩

/-! ### The root of the parsed tree is an object or null -/

theorem set_is_object (j : Json) (k : Str) (v : Json)
    (h : j.is_object = true ∨ j = Json.null) : (j.set k v).is_object = true := by
  rcases h with h | h
  · cases j <;> simp [Json.is_object] at h
    rfl
  · subst h
    rfl

theorem modify_path_root (f : Json → Json) (p : List Str) (j : Json)
    (h : j.is_object = true ∨ j = Json.null)
    (hf : p = [] → (f j).is_object = true ∨ f j = Json.null) :
    (Json.modify_path f p j).is_object = true ∨ Json.modify_path f p j = Json.null := by
  cases p with
  | nil => exact hf rfl
  | cons k ks =>
    simp only [Json.modify_path]
    cases hg : j.get k with
    | none => exact h
    | some v => exact Or.inl (set_is_object j k _ h)

theorem parse_short_names_root (names : List Char) (st : ParseState)
    (h1 : st.obj.is_object = true ∨ st.obj = Json.null)
    (h2 : st.current_param ≠ some []) :
    ((parse_short_names names st).obj.is_object = true ∨ (parse_short_names names st).obj = Json.null)
    ∧ (parse_short_names names st).current_param ≠ some [] := by
  induction names generalizing st with
  | nil => exact ⟨h1, h2⟩
  | cons c rest ih =>
    rw [parse_short_names]
    exact ih _ (Or.inl (set_is_object _ _ _ h1)) (by simp)

theorem parse_long_name_root (a : Str) (chars : List Char) (seen : Str) (st : LongState)
    (h1 : st.obj.is_object = true ∨ st.obj = Json.null) :
    (parse_long_name a chars seen st).obj.is_object = true
      ∨ (parse_long_name a chars seen st).obj = Json.null := by
  induction chars generalizing seen st with
  | nil => exact h1
  | cons c rest ih =>
    rw [parse_long_name]
    split
    · exact h1
    · split
      · apply ih
        simp only
        split
        · split <;> exact h1
        · exact modify_path_root _ _ _ h1 (fun _ => Or.inl (set_is_object _ _ _ h1))
      · exact ih _ _ h1

theorem parse_value_root (argv_i arg : Str) (assign_value : Bool) (st : ParseState)
    (h1 : st.obj.is_object = true ∨ st.obj = Json.null)
    (h2 : st.current_param ≠ some []) :
    ((parse_value argv_i arg assign_value st).obj.is_object = true
      ∨ (parse_value argv_i arg assign_value st).obj = Json.null)
    ∧ (parse_value argv_i arg assign_value st).current_param = none := by
  unfold parse_value
  cases hp : st.current_param with
  | none => cases assign_value <;> simp [h1, hp]
  | some p =>
    have hne : p ≠ [] := fun e => h2 (by rw [hp, e])
    have := modify_path_root
      (fun o => set_or_make_list o
        (if assign_value then Json.string arg else Json.number (to_int st.args.length)))
      p st.obj h1 (fun e => absurd e hne)
    cases assign_value <;> simpa using this

theorem parse_arg_root (st : ParseState) (a : Str)
    (h1 : st.obj.is_object = true ∨ st.obj = Json.null)
    (h2 : st.current_param ≠ some []) :
    ((parse_arg st a).obj.is_object = true ∨ (parse_arg st a).obj = Json.null)
    ∧ (parse_arg st a).current_param ≠ some [] := by
  unfold parse_arg
  split
  · rename_i name
    have l1 := parse_long_name_root ('-' :: '-' :: name) name ['-', '-']
      { obj := st.obj, current_obj := [], current_name := [], errors := st.errors, value := none }
      h1
    generalize parse_long_name ('-' :: '-' :: name) name ['-', '-']
      { obj := st.obj, current_obj := [], current_name := [], errors := st.errors
        value := none } = ls at l1
    have k1 : (if ((ls.obj.get_path ls.current_obj).getD Json.null).contains ls.current_name
        then ls.obj
        else ls.obj.modify_path (fun o => o.set ls.current_name (Json.number NO_VALUE))
          ls.current_obj).is_object = true ∨
        (if ((ls.obj.get_path ls.current_obj).getD Json.null).contains ls.current_name
        then ls.obj
        else ls.obj.modify_path (fun o => o.set ls.current_name (Json.number NO_VALUE))
          ls.current_obj) = Json.null := by
      split
      · exact l1
      · exact modify_path_root _ _ _ l1 (fun _ => Or.inl (set_is_object _ _ _ l1))
    simp only
    cases hv : ls.value with
    | none => exact ⟨k1, by simp⟩
    | some v =>
      simp only
      have := parse_value_root ('-' :: '-' :: name) v true
        { obj := (if ((ls.obj.get_path ls.current_obj).getD Json.null).contains ls.current_name
            then ls.obj
            else ls.obj.modify_path (fun o => o.set ls.current_name (Json.number NO_VALUE))
              ls.current_obj)
          args := st.args
          current_param := some (ls.current_obj ++ [ls.current_name])
          errors := ls.errors } k1 (by simp)
      exact ⟨this.1, by rw [this.2]; simp⟩
  · rename_i names _
    exact parse_short_names_root names st h1 h2
  · have := parse_value_root a a false st h1 h2
    exact ⟨this.1, by rw [this.2]; simp⟩

theorem parse_cmdline_root (argv : List Str) (errors : List Str) :
    (parse_cmdline argv errors).1.json.is_object = true
      ∨ (parse_cmdline argv errors).1.json = Json.null := by
  have key : ∀ (l : List Str) (st : ParseState),
      (st.obj.is_object = true ∨ st.obj = Json.null) → st.current_param ≠ some [] →
      ((l.foldl parse_arg st).obj.is_object = true ∨ (l.foldl parse_arg st).obj = Json.null) := by
    intro l
    induction l with
    | nil => intro st h1 _; exact h1
    | cons a l ih =>
      intro st h1 h2
      obtain ⟨p1, p2⟩ := parse_arg_root st a h1 h2
      exact ih _ p1 p2
  exact key (argv.drop 1) _ (Or.inr rfl) (by simp)

/-! ### The registry of the application itself -/

theorem base_find_param (key : Str) (p : ConfigParam)
    (h : find_param (Application.base false) key = some p) :
    p.is_flag = true ∧ p.is_object = false ∧ p.is_list = false := by
  have h1 := find_param_name_known _ _ _ h
  unfold ConfigObject.get_param at h1
  have h2 := List.mem_of_find?_eq_some h1
  have e : (Application.base false).params =
      [ConfigParam.FlagParam 'h' "help".toList "Shows this help.".toList false false] := rfl
  rw [e] at h2
  simp at h2
  subst h2
  exact ⟨rfl, rfl, rfl⟩

theorem base_nested_object (key : Str) : nested_object (Application.base false) key = none := by
  unfold nested_object
  cases h : find_param (Application.base false) key with
  | none => rfl
  | some p =>
    have := (base_find_param key p h).2.1
    cases p <;> simp [ConfigParam.is_object] at this <;> rfl

theorem base_bound_refs (tree : Json) : bound_refs (Application.base false) tree = [] := by
  cases tree with
  | object kvs =>
    simp only [bound_refs]
    induction kvs with
    | nil => rfl
    | cons kv rest ih =>
      obtain ⟨k, v⟩ := kv
      rw [bound_refs_members_cons_eq, ih]
      unfold member_refs
      cases h : find_param (Application.base false) k with
      | none => rfl
      | some p =>
        obtain ⟨h1, h2, h3⟩ := base_find_param k p h
        simp [h1, h2, h3, nested_refs, base_nested_object]
  | null => rfl
  | boolean b => rfl
  | number i => rfl
  | string s => rfl
  | array xs => rfl

/-! ### What one iteration of the loop of `match_config` does -/

theorem match_list_items_errors (x : ConfigObject) (context key : Str) (items : List Json)
    (index : Nat) (list : Json) (args : List (Option Str)) (errors : List Str)
    (r : Json × List (Option Str) × List Str)
    (h : match_list_items x context key items index list args errors = some r) :
    errors.length ≤ r.2.2.length := by
  induction items generalizing index list args errors with
  | nil =>
    simp [match_list_items] at h
    subst h
    exact Nat.le_refl _
  | cons item rest ih =>
    cases item with
    | number i =>
      simp only [match_list_items] at h
      split at h
      · contradiction
      · split at h
        · exact ih _ _ _ _ h
        · contradiction
    | string s => simp only [match_list_items] at h; exact ih _ _ _ _ h
    | null =>
      simp only [match_list_items] at h
      have := ih _ _ _ _ h
      simp at this
      omega
    | boolean b =>
      simp only [match_list_items] at h
      have := ih _ _ _ _ h
      simp at this
      omega
    | array xs =>
      simp only [match_list_items] at h
      have := ih _ _ _ _ h
      simp at this
      omega
    | object kvs =>
      simp only [match_list_items] at h
      have := ih _ _ _ _ h
      simp at this
      omega

theorem match_item_cases (x : ConfigObject) (key : Str) (v : Json) (ign : Bool) (context : Str)
    (sub : Option MatchResult) (st st1 : MatchState) (v1 : Json)
    (h : match_item x key v ign context sub st = some (st1, v1)) :
    (∃ e, st1 = { st with errors := st.errors ++ [e] } ∧ v1 = v)
    ∨ (st1 = st ∧ v1 = v ∧ ign = true)
    ∨ (∃ p val args1 errors1, find_param x key = some p
        ∧ st1 = { matched := st.matched.set p.name val
                  matched_keys := st.matched_keys ++ [key]
                  args := args1, errors := errors1 }
        ∧ ((v1 = v ∧ st.errors.length ≤ errors1.length)
          ∨ (v.is_object = true ∧ ∃ r o, nested_object x key = some o ∧ sub = some r
              ∧ v1 = r.config ∧ errors1 = r.errors))) := by
  cases hf : find_param x key with
  | none =>
    rw [match_item_unknown _ _ _ _ _ _ _ hf] at h
    simp at h
    obtain ⟨rfl, rfl⟩ := h
    cases ign
    · exact Or.inl ⟨_, rfl, rfl⟩
    · exact Or.inr (Or.inl ⟨rfl, rfl, rfl⟩)
  | some p =>
    by_cases hal : (v.is_array && !p.is_list) = true
    · simp at hal
      obtain ⟨ha, hl⟩ := hal
      cases v <;> simp [Json.is_array] at ha
      rw [match_item_list_given _ _ _ _ _ _ _ _ hf hl] at h
      simp at h
      obtain ⟨rfl, rfl⟩ := h
      exact Or.inl ⟨_, rfl, rfl⟩
    · by_cases ho : p.is_object = true
      · have hl : p.is_list = false := by
          cases p <;> simp [ConfigParam.is_object] at ho <;> rfl
        by_cases hv : v.is_object = true
        · obtain ⟨o, hno⟩ := nested_object_of_is_object _ _ _ hf ho
          have hv' := hv
          cases v <;> simp [Json.is_object] at hv
          rw [match_item_nested_object _ _ _ _ _ _ _ _ hf ho] at h
          cases sub with
          | none => simp at h
          | some r =>
            simp at h
            obtain ⟨rfl, rfl⟩ := h
            exact Or.inr (Or.inr ⟨p, _, _, _, rfl, rfl, Or.inr ⟨hv', r, o, hno, rfl, rfl, rfl⟩⟩)
        · simp at hv
          have ha : v.is_array = false := by simpa [hl] using hal
          rw [match_item_nested_value _ _ _ _ _ _ _ _ hf ho hv ha] at h
          simp at h
          obtain ⟨rfl, rfl⟩ := h
          exact Or.inl ⟨_, rfl, rfl⟩
      · simp at ho
        by_cases hfl : p.is_flag = true
        · have hl : p.is_list = false := by
            cases p <;> simp [ConfigParam.is_flag] at hfl <;> rfl
          have ha : v.is_array = false := by simpa [hl] using hal
          rw [match_item_flag _ _ _ _ _ _ _ _ hf hfl ha] at h
          simp at h
          obtain ⟨rfl, rfl⟩ := h
          exact Or.inr (Or.inr ⟨p, _, _, _, rfl, rfl, Or.inl ⟨rfl, Nat.le_refl _⟩⟩)
        · simp at hfl
          cases v with
          | string s =>
            rw [match_item_value_string _ _ _ _ _ _ _ _ hf hfl ho] at h
            simp at h
            obtain ⟨rfl, rfl⟩ := h
            exact Or.inr (Or.inr ⟨p, _, _, _, rfl, rfl, Or.inl ⟨rfl, Nat.le_refl _⟩⟩)
          | number i =>
            by_cases hi : to_int i = NO_VALUE
            · rw [match_item_value_none _ _ _ _ _ _ _ _ hf hfl ho hi] at h
              simp at h
              obtain ⟨rfl, rfl⟩ := h
              exact Or.inl ⟨_, rfl, rfl⟩
            · rw [match_item_value_ref _ _ _ _ _ _ _ _ hf hfl ho hi] at h
              cases ha : args_at st.args (to_int i) with
              | none => simp [ha] at h
              | some s =>
                simp [ha] at h
                obtain ⟨rfl, rfl⟩ := h
                exact Or.inr (Or.inr ⟨p, _, _, _, rfl, rfl, Or.inl ⟨rfl, Nat.le_refl _⟩⟩)
          | array items =>
            have hl : p.is_list = true := by simpa [Json.is_array] using hal
            rw [match_item_value_list _ _ _ _ _ _ _ _ hf hl] at h
            cases hr : match_list_items x context key items 0 Json.null st.args st.errors with
            | none => simp [hr] at h
            | some r =>
              simp [hr] at h
              obtain ⟨rfl, rfl⟩ := h
              exact Or.inr (Or.inr ⟨p, _, _, _, rfl, rfl,
                Or.inl ⟨rfl, match_list_items_errors _ _ _ _ _ _ _ _ _ hr⟩⟩)
          | null =>
            rw [match_item_value_other x key Json.null _ _ _ _ _ hf hfl ho rfl rfl rfl] at h
            simp at h
            obtain ⟨rfl, rfl⟩ := h
            exact Or.inl ⟨_, rfl, rfl⟩
          | boolean b =>
            rw [match_item_value_other x key (Json.boolean b) _ _ _ _ _ hf hfl ho rfl rfl rfl] at h
            simp at h
            obtain ⟨rfl, rfl⟩ := h
            exact Or.inl ⟨_, rfl, rfl⟩
          | object kvs =>
            rw [match_item_value_other x key (Json.object kvs) _ _ _ _ _ hf hfl ho rfl rfl rfl] at h
            simp at h
            obtain ⟨rfl, rfl⟩ := h
            exact Or.inl ⟨_, rfl, rfl⟩


/-! ### The tree and the error list after `match_config` -/

theorem count_members_erase (n : Int) (k : Str) (m : List (Str × Json)) :
    count_members n (kv_erase k m) ≤ count_members n m := by
  induction m with
  | nil => simp [kv_erase]
  | cons kv rest ih =>
    obtain ⟨k1, v1⟩ := kv
    by_cases h1 : k1 = k
    · simp [kv_erase, h1, count_members]
    · simp [kv_erase, h1, count_members, ih]

theorem count_members_erase_all (n : Int) (keys : List Str) (m : List (Str × Json)) :
    count_members n (keys.foldl (fun m k => kv_erase k m) m) ≤ count_members n m := by
  induction keys generalizing m with
  | nil => exact Nat.le_refl _
  | cons k keys ih =>
    simp only [List.foldl_cons]
    exact Nat.le_trans (ih _) (count_members_erase n k m)

theorem mem_of_mem_erase_all {β : Type} (keys : List Str) (m : List (Str × β)) (kv : Str × β)
    (h : kv ∈ keys.foldl (fun m k => kv_erase k m) m) : kv ∈ m := by
  induction keys generalizing m with
  | nil => exact h
  | cons k keys ih =>
    simp only [List.foldl_cons] at h
    exact mem_of_mem_kv_erase k m kv (ih _ h)

theorem erase_all_keys {β : Type} (m : List (Str × β)) :
    (m.map Prod.fst).foldl (fun m k => kv_erase k m) m = [] := by
  induction m with
  | nil => rfl
  | cons kv rest ih =>
    obtain ⟨k, v⟩ := kv
    simp only [List.map_cons, List.foldl_cons, kv_erase, if_true]
    exact ih

theorem match_config_facts (tree : Json) :
    ∀ (x : ConfigObject) (args : List (Option Str)) (ign : Bool) (context : Str)
      (errors : List Str) (r : MatchResult),
      tree.is_object = true ∨ tree = Json.null →
      match_config x tree args ign context errors = some r →
      errors.length ≤ r.errors.length
      ∧ (r.config.is_object = true ∨ r.config = Json.null)
      ∧ (∀ len, tree.refs_ok len = true → r.config.refs_ok len = true)
      ∧ (∀ n, Json.count n r.config ≤ Json.count n tree)
      ∧ (ign = false → r.errors.length = errors.length → r.config.empty = true) := by
  induction tree using Json.induction with
  | hnull =>
    intro x args ign context errors r _ h
    rw [match_config_null] at h
    simp at h
    subst h
    exact ⟨Nat.le_refl _, Or.inr rfl, fun _ h => h, fun _ => Nat.le_refl _, fun _ _ => rfl⟩
  | hbool b => intro x args ign context errors r ht; simp [Json.is_object] at ht
  | hnum i => intro x args ign context errors r ht; simp [Json.is_object] at ht
  | hstr s => intro x args ign context errors r ht; simp [Json.is_object] at ht
  | harr xs _ => intro x args ign context errors r ht; simp [Json.is_object] at ht
  | hobj kvs ih =>
    intro x args ign context errors r _ h
    have key : ∀ (items : List (Str × Json)), (∀ kv ∈ items, kv ∈ kvs) →
        ∀ (st st1 : MatchState) (items1 : List (Str × Json)),
        match_object_items x items ign context st = some (st1, items1) →
        st.errors.length ≤ st1.errors.length
        ∧ (∀ len, refs_ok_members len items = true → refs_ok_members len items1 = true)
        ∧ (∀ n, count_members n items1 ≤ count_members n items)
        ∧ items1.map Prod.fst = items.map Prod.fst
        ∧ (ign = false → st1.errors.length = st.errors.length →
            st1.matched_keys = st.matched_keys ++ items.map Prod.fst) := by
      intro items
      induction items with
      | nil =>
        intro _ st st1 items1 h0
        rw [match_object_items_nil] at h0
        simp at h0
        obtain ⟨rfl, rfl⟩ := h0
        exact ⟨Nat.le_refl _, fun _ h => h, fun _ => Nat.le_refl _, rfl, fun _ _ => by simp⟩
      | cons kv rest ihl =>
        intro hsubset st st2 items1 h0
        obtain ⟨k, v⟩ := kv
        obtain ⟨st1, v1, rest1, hmi, hrest, rfl⟩ := match_object_items_cons _ _ _ _ _ _ _ _ _ h0
        obtain ⟨q1, q2, q3, q4, q5⟩ :=
          ihl (fun kv hkv => hsubset kv (List.mem_cons_of_mem _ hkv)) _ _ _ hrest
        have hv := hsubset (k, v) (List.mem_cons_self _ _)
        -- facts about the head
        have head : st.errors.length ≤ st1.errors.length
            ∧ (∀ len, v.refs_ok len = true → v1.refs_ok len = true)
            ∧ (∀ n, Json.count n v1 ≤ Json.count n v)
            ∧ (ign = false → st1.errors.length = st.errors.length →
                st1.matched_keys = st.matched_keys ++ [k]) := by
          rcases match_item_cases _ _ _ _ _ _ _ _ _ hmi with
            ⟨e, rfl, rfl⟩ | ⟨rfl, rfl, hi⟩ | ⟨p, val, args1, errors1, hp, rfl, hc⟩
          · refine ⟨by simp, fun _ h => h, fun _ => Nat.le_refl _, fun _ he => ?_⟩
            simp at he
          · refine ⟨Nat.le_refl _, fun _ h => h, fun _ => Nat.le_refl _, fun hf _ => ?_⟩
            rw [hi] at hf
            exact absurd hf (by simp)
          · rcases hc with ⟨rfl, hle⟩ | ⟨hvo, r, o, hno, hsub, rfl, rfl⟩
            · exact ⟨hle, fun _ h => h, fun _ => Nat.le_refl _, fun _ _ => rfl⟩
            · rw [object_sub_of _ _ _ _ _ _ _ _ hno] at hsub
              obtain ⟨f1, _, f3, f4, _⟩ := ih (k, v) hv o st.args ign _ st.errors r
                (Or.inl hvo) hsub
              exact ⟨f1, f3, f4, fun _ _ => rfl⟩
        obtain ⟨g1, g2, g3, g4⟩ := head
        refine ⟨Nat.le_trans g1 q1, ?_, ?_, ?_, ?_⟩
        · intro len hl
          simp only [refs_ok_members, Bool.and_eq_true] at hl ⊢
          exact ⟨g2 len hl.1, q2 len hl.2⟩
        · intro n
          simp only [count_members]
          have := g3 n
          have := q3 n
          omega
        · simp [q4]
        · intro hf he
          have e1 : st1.errors.length = st.errors.length := by omega
          have e2 : st2.errors.length = st1.errors.length := by omega
          rw [q5 hf e2, g4 hf e1]
          simp
    rw [match_config_object_eq] at h
    cases hm : match_object_items x kvs ign context
        { matched := Json.null, matched_keys := [], args := args, errors := errors } with
    | none => rw [hm] at h; simp at h
    | some q =>
      obtain ⟨st, kvs1⟩ := q
      rw [hm] at h
      simp at h
      subst h
      obtain ⟨k1, k2, k3, k4, k5⟩ := key kvs (fun _ h => h) _ _ _ hm
      refine ⟨k1, Or.inl rfl, ?_, ?_, ?_⟩
      · intro len hl
        simp only [Json.refs_ok] at hl ⊢
        have := k2 len hl
        rw [refs_ok_members_iff] at this ⊢
        exact fun kv hkv => this kv (mem_of_mem_erase_all _ _ _ hkv)
      · intro n
        simp only [Json.count]
        exact Nat.le_trans (count_members_erase_all n _ _) (k3 n)
      · intro hf he
        have := k5 hf he
        simp only [List.nil_append] at this
        simp only
        rw [this, ← k4, erase_all_keys]
        rfl

/-! ### Free arguments -/

theorem free_from_eq (bound : List Nat) (l : List Str) (pre : List (Option Str)) :
    ((clear_all bound (pre ++ l.map some)).drop pre.length).filterMap id
      = free_from bound pre.length l := by
  induction l generalizing pre with
  | nil =>
    have : (clear_all bound (pre ++ List.map some [])).length = pre.length := by
      rw [clear_all_length]
      simp
    rw [List.drop_of_length_le (by omega)]
    rfl
  | cons t rest ih =>
    have hlen : pre.length < (clear_all bound (pre ++ List.map some (t :: rest))).length := by
      rw [clear_all_length]
      simp
    have e : pre ++ List.map some (t :: rest) = (pre ++ [some t]) ++ List.map some rest := by
      simp
    have ih' := ih (pre ++ [some t])
    rw [← e] at ih'
    simp only [List.length_append, List.length_singleton] at ih'
    rw [List.drop_eq_getElem_cons hlen, List.filterMap_cons]
    by_cases hb : pre.length ∈ bound
    · have hg := clear_all_get_mem bound (pre ++ List.map some (t :: rest)) pre.length hb
        (by simp)
      rw [List.getElem?_eq_getElem hlen] at hg
      simp only [Option.some.injEq] at hg
      rw [hg]
      simp only [free_from, hb, if_true, id]
      exact ih'
    · have hg := clear_all_get_not_mem bound (pre ++ List.map some (t :: rest)) pre.length hb
      rw [List.getElem?_eq_getElem hlen] at hg
      have h2 : (pre ++ List.map some (t :: rest))[pre.length]? = some (some t) := by
        rw [List.getElem?_append_right (Nat.le_refl _)]
        simp
      rw [h2] at hg
      simp only [Option.some.injEq] at hg
      rw [hg]
      simp only [free_from, hb, if_false, id]
      rw [ih']

theorem free_arguments_eq (bound : List Nat) (bare : List Str) :
    (clear_all bound (bare.map some)).filterMap id = free_arguments bare bound := by
  have := free_from_eq bound bare []
  simpa [free_arguments] using this

/-! ### The two passes of the application -/

theorem application_passes (x : ConfigObject) (argv : List Str)
    (hlen : argv.length < 2147483648) :
    ∃ r1 r2,
      match_config (Application.base false) (parse_cmdline argv []).1.json
        (parse_cmdline argv []).1.args true [] (parse_cmdline argv []).2 = some r1
      ∧ match_config x r1.config r1.args false [] r1.errors = some r2
      ∧ r2.args = clear_all (bound_refs x r1.config) ((bare_arguments argv).map some)
      ∧ (r2.errors.length = r1.errors.length → r2.config.empty = true) := by
  obtain ⟨w1, w2, w3⟩ := parse_cmdline_wf argv [] hlen
  have wroot := parse_cmdline_root argv []
  have hbare : (bare_arguments argv).length < 2147483648 := by
    unfold bare_arguments
    have := List.length_filter_le (fun a => decide (a.head? ≠ some '-')) (argv.drop 1)
    simp only [List.length_drop] at this
    omega
  have hal : (parse_cmdline argv []).1.args.length < 2147483648 := by
    rw [w3]
    simpa using hbare
  have havail : ∀ n : Nat, n < (parse_cmdline argv []).1.args.length →
      ∃ s, (parse_cmdline argv []).1.args[n]? = some (some s) := by
    intro n hn
    rw [w3] at hn ⊢
    simp only [List.length_map] at hn
    exact ⟨(bare_arguments argv)[n], by simp [List.getElem?_map, List.getElem?_eq_getElem hn]⟩
  have hin : ∀ (t : Json), t.refs_ok (parse_cmdline argv []).1.args.length = true →
      ∀ n : Nat, 1 ≤ Json.count (n : Int) t →
      ∃ s, (parse_cmdline argv []).1.args[n]? = some (some s) := by
    intro t ht n hn
    rcases refs_ok_count _ _ _ ht hn with h | ⟨_, h⟩
    · simp [NO_VALUE] at h
    · exact havail n (by omega)
  obtain ⟨r1, h1⟩ := match_config_total (parse_cmdline argv []).1.json (Application.base false)
    (parse_cmdline argv []).1.args true [] (parse_cmdline argv []).2 wroot hal w1 w2 (hin _ w1)
  have a1 := match_config_args _ _ _ _ _ _ _ wroot h1
  rw [base_bound_refs] at a1
  have a1' : r1.args = (parse_cmdline argv []).1.args := a1
  obtain ⟨_, f2, f3, f4, _⟩ := match_config_facts _ _ _ _ _ _ _ wroot h1
  have v1 : r1.config.refs_ok r1.args.length = true := by rw [a1']; exact f3 _ w1
  have v2 : ∀ n : Int, n ≠ NO_VALUE → Json.count n r1.config ≤ 1 :=
    fun n hn => Nat.le_trans (f4 n) (w2 n hn)
  obtain ⟨r2, h2⟩ := match_config_total r1.config x r1.args false [] r1.errors f2
    (by rw [a1']; exact hal) v1 v2 (by rw [a1']; exact hin _ (by rw [← a1']; exact v1))
  have a2 := match_config_args _ _ _ _ _ _ _ f2 h2
  obtain ⟨_, _, _, _, g5⟩ := match_config_facts _ _ _ _ _ _ _ f2 h2
  refine ⟨r1, r2, h1, h2, ?_, g5 rfl⟩
  rw [a2, a1', w3]


theorem application_new_eq (x : ConfigObject) (argv : List Str) (r1 r2 : MatchResult)
    (h1 : match_config (Application.base false) (parse_cmdline argv []).1.json
        (parse_cmdline argv []).1.args true [] (parse_cmdline argv []).2 = some r1)
    (h2 : match_config x r1.config r1.args false [] r1.errors = some r2)
    (h4 : r2.errors.length = r1.errors.length → r2.config.empty = true) :
    Application.new x argv = some
      (if (parse_cmdline argv []).2 ≠ [] then
        { app := { good_ := false, args_ := [], help_ := false, binary_ := argv.headD [] }
          x := x, cerr := (parse_cmdline argv []).2 }
      else if r1.errors ≠ [] then
        { app := { good_ := false, args_ := [], help_ := false, binary_ := argv.headD [] }
          x := x, cerr := r1.errors }
      else if r2.errors ≠ [] then
        { app := { good_ := false, args_ := []
                   help_ := Application.help_of ((Application.base false).configure r1.matched)
                   binary_ := argv.headD [] }
          x := x, cerr := r2.errors }
      else
        { app := { good_ := !Application.help_of ((Application.base false).configure r1.matched)
                   args_ := r2.args.filterMap id
                   help_ := Application.help_of ((Application.base false).configure r1.matched)
                   binary_ := argv.headD [] }
          x := x.configure r2.matched, cerr := [] }) := by
  unfold Application.new
  simp only [report_errors]
  by_cases e0 : (parse_cmdline argv []).2 = []
  · have b0 : (!(parse_cmdline argv []).2.isEmpty) = false := by rw [e0]; rfl
    rw [if_neg (by rw [b0]; simp), h1]
    simp only
    by_cases e1 : r1.errors = []
    · have b1 : (!r1.errors.isEmpty) = false := by rw [e1]; rfl
      rw [if_neg (by rw [b1]; simp), h2]
      simp only
      by_cases e2 : r2.errors = []
      · have b2 : (!r2.errors.isEmpty) = false := by rw [e2]; rfl
        have hem : r2.config.empty = true := h4 (by rw [e1, e2])
        rw [if_neg (by rw [b2]; simp), if_neg (by rw [hem]; simp)]
        simp [e0, e1, e2]
      · have b2 : (!r2.errors.isEmpty) = true := by
          cases h : r2.errors with
          | nil => exact absurd h e2
          | cons a l => rfl
        rw [if_pos b2]
        simp [e0, e1, e2]
    · have b1 : (!r1.errors.isEmpty) = true := by
        cases h : r1.errors with
        | nil => exact absurd h e1
        | cons a l => rfl
      rw [if_pos b1]
      simp [e0, e1]
  · have b0 : (!(parse_cmdline argv []).2.isEmpty) = true := by
      cases h : (parse_cmdline argv []).2 with
      | nil => exact absurd h e0
      | cons a l => rfl
    rw [if_pos b0]
    simp [e0]

theorem application_new_cases (x : ConfigObject) (argv : List Str)
    (hlen : argv.length < 2147483648) :
    ∃ r1 r2 run,
      match_config (Application.base false) (parse_cmdline argv []).1.json
        (parse_cmdline argv []).1.args true [] (parse_cmdline argv []).2 = some r1
      ∧ match_config x r1.config r1.args false [] r1.errors = some r2
      ∧ Application.new x argv = some run
      ∧ (((parse_cmdline argv []).2 ≠ [] ∨ r1.errors ≠ [] ∨ r2.errors ≠ []) →
          run.cerr ≠ [] ∧ run.x = x ∧ run.app.good_ = false ∧ run.app.args_ = [])
      ∧ (run.cerr = [] →
          (parse_cmdline argv []).2 = [] ∧ r1.errors = [] ∧ r2.errors = []
          ∧ run.x = x.configure r2.matched
          ∧ run.app.args_ = free_arguments (bare_arguments argv) (bound_refs x r1.config)) := by
  obtain ⟨r1, r2, h1, h2, h3, h4⟩ := application_passes x argv hlen
  refine ⟨r1, r2, _, h1, h2, application_new_eq x argv r1 r2 h1 h2 h4, ?_, ?_⟩
  · intro hd
    by_cases e0 : (parse_cmdline argv []).2 = []
    · by_cases e1 : r1.errors = []
      · by_cases e2 : r2.errors = []
        · rcases hd with h | h | h
          · exact absurd e0 h
          · exact absurd e1 h
          · exact absurd e2 h
        · simp [e0, e1, e2]
      · simp [e0, e1]
    · simp [e0]
  · intro hc
    by_cases e0 : (parse_cmdline argv []).2 = []
    · by_cases e1 : r1.errors = []
      · by_cases e2 : r2.errors = []
        · simp [e0, e1, e2, h3, free_arguments_eq]
        · simp [e0, e1, e2] at hc
      · simp [e0, e1] at hc
    · simp [e0] at hc

/-! ### The keys of an object under assignment -/

theorem keys_kv_replace {β : Type} (k : Str) (v : β) (kvs : List (Str × β)) :
    (kv_replace k v kvs).map Prod.fst = kvs.map Prod.fst := by
  induction kvs with
  | nil => rfl
  | cons kv rest ih =>
    obtain ⟨k1, v1⟩ := kv
    by_cases h : k1 = k
    · simp [kv_replace, h]
    · simp [kv_replace, h, ih]

theorem keys_kv_insert_new {β : Type} (k : Str) (v : β) (kvs : List (Str × β)) :
    ((kv_insert_new k v kvs).map Prod.fst).Perm (k :: kvs.map Prod.fst) := by
  induction kvs with
  | nil => simp [kv_insert_new]
  | cons kv rest ih =>
    obtain ⟨k1, v1⟩ := kv
    by_cases h : str_lt k k1 = true
    · simp [kv_insert_new, h]
    · simp only [kv_insert_new, h, Bool.false_eq_true, if_false, List.map_cons]
      exact (List.Perm.cons k1 ih).trans (List.Perm.swap k k1 _)

theorem kv_find_none_iff {β : Type} (k : Str) (kvs : List (Str × β)) :
    kv_find k kvs = none ↔ k ∉ kvs.map Prod.fst := by
  induction kvs with
  | nil => simp [kv_find]
  | cons kv rest ih =>
    obtain ⟨k1, v1⟩ := kv
    by_cases h : k1 = k
    · subst h
      simp only [kv_find, if_true, List.map_cons, List.mem_cons, true_or, not_true_eq_false,
        iff_false]
      exact Option.some_ne_none v1
    · simp only [kv_find, h, if_false, ih, List.map_cons, List.mem_cons, not_or]
      exact ⟨fun hh => ⟨Ne.symm h, hh⟩, fun hh => hh.2⟩

theorem keys_nodup_kv_insert {β : Type} (k : Str) (v : β) (kvs : List (Str × β))
    (h : (kvs.map Prod.fst).Nodup) : ((kv_insert k v kvs).map Prod.fst).Nodup := by
  unfold kv_insert
  cases hf : kv_find k kvs with
  | some w =>
    simp only [Option.isSome_some, if_true]
    rw [keys_kv_replace]
    exact h
  | none =>
    simp only [Option.isSome_none, Bool.false_eq_true, if_false]
    rw [(keys_kv_insert_new k v kvs).nodup_iff]
    exact List.nodup_cons.mpr ⟨(kv_find_none_iff k kvs).mp hf, h⟩

/-! ### Arguments unrelated to a parameter leave its entry alone -/

theorem tag_frame_set_other (x : ConfigObject) (tag : Str) (value obj : Json) (k : Str) (w : Json)
    (h : tag_frame x tag value obj) (hk : refers_to x tag k = false) :
    tag_frame x tag value (obj.set k w) := by
  have hne : k ≠ tag := by
    intro e
    simp [refers_to, e] at hk
  cases obj with
  | object kvs =>
    obtain ⟨h1, h2, h3⟩ := h
    refine ⟨?_, keys_nodup_kv_insert k w kvs h2, ?_⟩
    · rw [kv_find_insert]
      simp [hne, h1]
    · intro kv hkv hkt
      rcases mem_kv_insert k w kvs kv hkv with e | e
      · rw [e]
        exact hk
      · exact h3 kv e hkt
  | null => exact h.elim
  | boolean b => exact h.elim
  | number i => exact h.elim
  | string s => exact h.elim
  | array xs => exact h.elim

theorem tag_frame_set_tag (x : ConfigObject) (tag : Str) (value value1 obj : Json)
    (h : tag_frame x tag value obj) : tag_frame x tag value1 (obj.set tag value1) := by
  cases obj with
  | object kvs =>
    obtain ⟨h1, h2, h3⟩ := h
    refine ⟨?_, keys_nodup_kv_insert tag value1 kvs h2, ?_⟩
    · rw [kv_find_insert]
      simp
    · intro kv hkv hkt
      rcases mem_kv_insert tag value1 kvs kv hkv with e | e
      · rw [e] at hkt
        exact absurd rfl hkt
      · exact h3 kv e hkt
  | null => exact h.elim
  | boolean b => exact h.elim
  | number i => exact h.elim
  | string s => exact h.elim
  | array xs => exact h.elim

theorem tag_frame_modify_path (x : ConfigObject) (tag : Str) (value obj : Json) (f : Json → Json)
    (k : Str) (ks : List Str) (h : tag_frame x tag value obj)
    (hk : refers_to x tag k = false) :
    tag_frame x tag value (Json.modify_path f (k :: ks) obj) := by
  simp only [Json.modify_path]
  cases hg : obj.get k with
  | none => exact h
  | some v => exact tag_frame_set_other x tag value obj k _ h hk

theorem tag_frame_get (x : ConfigObject) (tag : Str) (value obj : Json)
    (h : tag_frame x tag value obj) : obj.get tag = some value ∧ obj.contains tag = true := by
  cases obj with
  | object kvs =>
    obtain ⟨h1, _, _⟩ := h
    simp [Json.get, Json.contains, h1]
  | null => exact h.elim
  | boolean b => exact h.elim
  | number i => exact h.elim
  | string s => exact h.elim
  | array xs => exact h.elim


theorem parse_short_names_frame (x : ConfigObject) (tag : Str) (value : Json)
    (names : List Char) (st : ParseState)
    (hn : ∀ c ∈ names, refers_to x tag [c] = false)
    (h1 : tag_frame x tag value st.obj)
    (h2 : ∀ p, st.current_param = some p → ∃ k ks, p = k :: ks ∧ refers_to x tag k = false) :
    tag_frame x tag value (parse_short_names names st).obj
    ∧ (∀ p, (parse_short_names names st).current_param = some p →
        ∃ k ks, p = k :: ks ∧ refers_to x tag k = false) := by
  induction names generalizing st with
  | nil => exact ⟨h1, h2⟩
  | cons c rest ih =>
    rw [parse_short_names]
    have hc := hn c (List.mem_cons_self _ _)
    apply ih _ (fun d hd => hn d (List.mem_cons_of_mem _ hd))
    · exact tag_frame_set_other x tag value st.obj [c] _ h1 hc
    · intro p hp
      simp at hp
      exact ⟨[c], [], hp.symm, hc⟩

theorem parse_long_name_frame (x : ConfigObject) (tag : Str) (value : Json) (a : Str)
    (chars : List Char) (seen : Str) (st : LongState)
    (hn : ∀ s ∈ long_segments chars st.current_name, refers_to x tag s = false)
    (h1 : tag_frame x tag value st.obj)
    (h2 : st.current_obj = [] ∨ ∃ k ks, st.current_obj = k :: ks ∧ refers_to x tag k = false) :
    tag_frame x tag value (parse_long_name a chars seen st).obj
    ∧ ((parse_long_name a chars seen st).current_obj = []
        ∨ ∃ k ks, (parse_long_name a chars seen st).current_obj = k :: ks
          ∧ refers_to x tag k = false)
    ∧ refers_to x tag (parse_long_name a chars seen st).current_name = false := by
  induction chars generalizing seen st with
  | nil =>
    rw [parse_long_name]
    exact ⟨h1, h2, hn _ (by simp [long_segments])⟩
  | cons c rest ih =>
    rw [parse_long_name]
    by_cases hc1 : c = '='
    · simp only [hc1, if_true]
      exact ⟨h1, h2, hn _ (by simp [long_segments, hc1])⟩
    · simp only [hc1, if_false]
      by_cases hc2 : c = '.'
      · simp only [hc2, if_true]
        have hseg : refers_to x tag st.current_name = false :=
          hn _ (by simp [long_segments, hc2])
        have hrest : ∀ s ∈ long_segments rest [], refers_to x tag s = false :=
          fun s hs => hn s (by simp [long_segments, hc2, hs])
        have hext : ∃ k ks, st.current_obj ++ [st.current_name] = k :: ks
            ∧ refers_to x tag k = false := by
          rcases h2 with e | ⟨k, ks, e, hk⟩
          · exact ⟨st.current_name, [], by rw [e]; rfl, hseg⟩
          · exact ⟨k, ks ++ [st.current_name], by rw [e]; rfl, hk⟩
        apply ih
        · exact hrest
        · simp only
          split
          · split <;> exact h1
          · rcases h2 with e | ⟨k, ks, e, hk⟩
            · rw [e]
              exact tag_frame_set_other x tag value st.obj _ _ h1 hseg
            · rw [e]
              exact tag_frame_modify_path x tag value st.obj _ k ks h1 hk
        · simp only
          split
          · split
            · exact Or.inr hext
            · exact h2
          · exact Or.inr hext
      · simp only [hc2, if_false]
        apply ih
        · intro s hs
          exact hn s (by simp [long_segments, hc1, hc2, hs])
        · exact h1
        · exact h2

theorem parse_value_frame (x : ConfigObject) (tag : Str) (value : Json) (argv_i arg : Str)
    (assign_value : Bool) (st : ParseState)
    (h1 : tag_frame x tag value st.obj)
    (h2 : ∀ p, st.current_param = some p → ∃ k ks, p = k :: ks ∧ refers_to x tag k = false) :
    tag_frame x tag value (parse_value argv_i arg assign_value st).obj
    ∧ (parse_value argv_i arg assign_value st).current_param = none := by
  unfold parse_value
  cases hp : st.current_param with
  | none => cases assign_value <;> simp [h1, hp]
  | some p =>
    obtain ⟨k, ks, e, hk⟩ := h2 p hp
    subst e
    have := tag_frame_modify_path x tag value st.obj
      (fun o => set_or_make_list o
        (if assign_value then Json.string arg else Json.number (to_int st.args.length)))
      k ks h1 hk
    cases assign_value <;> simpa using this

theorem parse_arg_frame (x : ConfigObject) (tag : Str) (value : Json) (st : ParseState) (a : Str)
    (ha : unrelated x tag a = true)
    (h1 : tag_frame x tag value st.obj)
    (h2 : ∀ p, st.current_param = some p → ∃ k ks, p = k :: ks ∧ refers_to x tag k = false) :
    tag_frame x tag value (parse_arg st a).obj
    ∧ (∀ p, (parse_arg st a).current_param = some p →
        ∃ k ks, p = k :: ks ∧ refers_to x tag k = false) := by
  unfold parse_arg
  split
  · rename_i name
    have hk : ∀ s ∈ long_segments name [], refers_to x tag s = false := by
      intro s hs
      simp only [unrelated, arg_keys, List.all_eq_true] at ha
      simpa using ha s hs
    obtain ⟨l1, l2, l3⟩ := parse_long_name_frame x tag value ('-' :: '-' :: name) name ['-', '-']
      { obj := st.obj, current_obj := [], current_name := [], errors := st.errors, value := none }
      hk h1 (Or.inl rfl)
    generalize parse_long_name ('-' :: '-' :: name) name ['-', '-']
      { obj := st.obj, current_obj := [], current_name := [], errors := st.errors
        value := none } = ls at l1 l2 l3
    have k1 : tag_frame x tag value
        (if ((ls.obj.get_path ls.current_obj).getD Json.null).contains ls.current_name
        then ls.obj
        else ls.obj.modify_path (fun o => o.set ls.current_name (Json.number NO_VALUE))
          ls.current_obj) := by
      split
      · exact l1
      · rcases l2 with e | ⟨k, ks, e, hk⟩
        · rw [e]
          exact tag_frame_set_other x tag value ls.obj _ _ l1 l3
        · rw [e]
          exact tag_frame_modify_path x tag value ls.obj _ k ks l1 hk
    have k2 : ∃ k ks, ls.current_obj ++ [ls.current_name] = k :: ks
        ∧ refers_to x tag k = false := by
      rcases l2 with e | ⟨k, ks, e, hk⟩
      · exact ⟨ls.current_name, [], by rw [e]; rfl, l3⟩
      · exact ⟨k, ks ++ [ls.current_name], by rw [e]; rfl, hk⟩
    simp only
    cases hv : ls.value with
    | none =>
      refine ⟨k1, ?_⟩
      intro p hp
      simp at hp
      rw [← hp]
      exact k2
    | some v =>
      simp only
      have := parse_value_frame x tag value ('-' :: '-' :: name) v true
        { obj := (if ((ls.obj.get_path ls.current_obj).getD Json.null).contains ls.current_name
            then ls.obj
            else ls.obj.modify_path (fun o => o.set ls.current_name (Json.number NO_VALUE))
              ls.current_obj)
          args := st.args
          current_param := some (ls.current_obj ++ [ls.current_name])
          errors := ls.errors } k1
        (by
          intro p hp
          simp at hp
          rw [← hp]
          exact k2)
      exact ⟨this.1, by rw [this.2]; simp⟩
  · rename_i names hnot
    have hk : ∀ c ∈ names, refers_to x tag [c] = false := by
      intro c hc
      have e : arg_keys ('-' :: names) = names.map (fun c => [c]) := by
        unfold arg_keys
        split
        · rename_i name heq
          simp at heq
          exact absurd heq (hnot name)
        · rename_i names1 _ heq
          simp at heq
          rw [heq]
        · rename_i hn1 hn2
          exact absurd rfl (hn2 names)
      simp only [unrelated, e, List.all_eq_true] at ha
      simpa using ha [c] (by simp [hc])
    exact parse_short_names_frame x tag value names st hk h1 h2
  · have := parse_value_frame x tag value a a false st h1 h2
    exact ⟨this.1, by rw [this.2]; simp⟩

theorem foldl_parse_arg_frame (x : ConfigObject) (tag : Str) (value : Json) (l : List Str)
    (st : ParseState) (hl : ∀ a ∈ l, unrelated x tag a = true)
    (h1 : tag_frame x tag value st.obj)
    (h2 : ∀ p, st.current_param = some p → ∃ k ks, p = k :: ks ∧ refers_to x tag k = false) :
    tag_frame x tag value (l.foldl parse_arg st).obj := by
  induction l generalizing st with
  | nil => exact h1
  | cons a l ih =>
    obtain ⟨p1, p2⟩ := parse_arg_frame x tag value st a (hl a (List.mem_cons_self _ _)) h1 h2
    exact ih _ (fun b hb => hl b (List.mem_cons_of_mem _ hb)) p1 p2

/-! ### Two occurrences of a parameter on the command line -/

theorem parse_value_at_key (argv_i arg key : Str) (st : ParseState) (v : Json)
    (hcp : st.current_param = some [key]) (hget : st.obj.get key = some v) :
    parse_value argv_i arg false st =
      { obj := st.obj.set key (set_or_make_list v (Json.number (to_int st.args.length)))
        args := st.args ++ [some arg]
        current_param := none
        errors :=
          if string_contains_true arg || string_contains_false arg then
            (if v.is_object then st.errors ++ [err_sub_param argv_i] else st.errors)
              ++ [err_use_assignment arg]
          else (if v.is_object then st.errors ++ [err_sub_param argv_i] else st.errors) } := by
  unfold parse_value
  simp [hcp, Json.get_path, hget, Json.modify_path]

theorem parse_two_occurrences (x : ConfigObject) (argv0 tag a b : Str) (mid : List Str)
    (hd : '.' ∉ tag) (he : '=' ∉ tag)
    (ha : a.head? ≠ some '-') (hb : b.head? ≠ some '-')
    (hmid : ∀ arg ∈ mid, unrelated x tag arg = true)
    (hlen : (argv0 :: ('-' :: '-' :: tag) :: a :: (mid ++ ['-' :: '-' :: tag, b])).length
      < 2147483648) :
    ∃ len : Nat, 0 < len
      ∧ tag_frame x tag (Json.array [Json.number 0, Json.number len])
          (parse_cmdline (argv0 :: ('-' :: '-' :: tag) :: a :: (mid ++ ['-' :: '-' :: tag, b]))
            []).1.json
      ∧ (parse_cmdline (argv0 :: ('-' :: '-' :: tag) :: a :: (mid ++ ['-' :: '-' :: tag, b]))
            []).1.args[0]? = some (some a)
      ∧ (parse_cmdline (argv0 :: ('-' :: '-' :: tag) :: a :: (mid ++ ['-' :: '-' :: tag, b]))
            []).1.args[len]? = some (some b)
      ∧ (len : Int) < 2147483648
      ∧ (parse_cmdline (argv0 :: ('-' :: '-' :: tag) :: a :: (mid ++ ['-' :: '-' :: tag, b]))
            []).1.args.length = len + 1 := by
  -- the state after `--tag a`
  have s1 : parse_arg (parse_arg
      { obj := Json.null, args := [], current_param := none, errors := [] }
      ('-' :: '-' :: tag)) a =
      { obj := Json.object [(tag, Json.number 0)], args := [some a], current_param := none
        errors := if string_contains_true a || string_contains_false a then
          [err_use_assignment a] else [] } := by
    rw [parse_arg_long_plain _ tag hd he, parse_arg_bare _ a ha]
    simp [parse_value, Json.contains, Json.set, Json.get_path, Json.get, kv_find,
      Json.modify_path, set_or_make_list, Json.is_null, Json.is_number, Json.get_int, to_int,
      NO_VALUE, kv_insert, kv_replace, kv_insert_new, Json.is_object]
  have f1 : tag_frame x tag (Json.number 0) (Json.object [(tag, Json.number 0)]) := by
    refine ⟨by simp [kv_find], by simp, ?_⟩
    intro kv hkv hne
    simp at hkv
    rw [hkv] at hne
    exact absurd rfl hne
  -- the state after the arguments in between
  obtain ⟨S1, hS1⟩ : ∃ S1, S1 = parse_arg (parse_arg
      { obj := Json.null, args := [], current_param := none, errors := [] }
      ('-' :: '-' :: tag)) a := ⟨_, rfl⟩
  rw [← hS1] at s1
  have o1 : S1.obj = Json.object [(tag, Json.number 0)] := by rw [s1]
  have f1' : tag_frame x tag (Json.number 0) S1.obj := by rw [o1]; exact f1
  have c1 : S1.current_param = none := by rw [s1]
  have a1 : S1.args = [some a] := by rw [s1]
  have fm := foldl_parse_arg_frame x tag (Json.number 0) mid S1 hmid f1'
    (fun p hp => by rw [c1] at hp; simp at hp)
  have wm := (foldl_parse_arg_wf mid S1
    (by
      rw [a1]
      simp only [List.length_cons, List.length_append, List.length_nil] at hlen ⊢
      omega)
    (by rw [o1, a1]; rfl)
    (by
      rw [o1]
      intro n hn
      simp only [Json.count, count_members]
      split <;> omega)).2.2
  generalize hSm : mid.foldl parse_arg S1 = Sm at fm wm
  have lenm : Sm.args.length ≤ mid.length + 1 := by
    rw [wm, a1]
    simp only [List.length_append, List.length_cons, List.length_nil, List.length_map]
    have := List.length_filter_le (fun a => decide (a.head? ≠ some '-')) mid
    omega
  have lenpos : 0 < Sm.args.length := by
    rw [wm, a1]
    simp
  have hbound : (Sm.args.length : Int) < 2147483648 := by
    simp only [List.length_cons, List.length_append, List.length_nil] at hlen
    omega
  have hto : to_int (Sm.args.length : Int) = Sm.args.length :=
    to_int_of_range _ (by omega) (by omega)
  obtain ⟨g1, g2⟩ := tag_frame_get x tag _ _ fm
  -- the second occurrence
  have s3 : parse_arg Sm ('-' :: '-' :: tag) =
      { obj := Sm.obj, args := Sm.args, current_param := some [tag], errors := Sm.errors } := by
    rw [parse_arg_long_plain _ tag hd he]
    simp [g2]
  have s4 : (parse_arg (parse_arg Sm ('-' :: '-' :: tag)) b).obj
        = Sm.obj.set tag (Json.array [Json.number 0, Json.number Sm.args.length])
      ∧ (parse_arg (parse_arg Sm ('-' :: '-' :: tag)) b).args = Sm.args ++ [some b] := by
    rw [s3, parse_arg_bare _ b hb, parse_value_at_key b b tag
      { obj := Sm.obj, args := Sm.args, current_param := some [tag], errors := Sm.errors }
      (Json.number 0) rfl g1]
    simp only [hto]
    refine ⟨?_, trivial⟩
    rfl
  have hfold : (parse_cmdline
      (argv0 :: ('-' :: '-' :: tag) :: a :: (mid ++ ['-' :: '-' :: tag, b])) []).1
      = { json := (parse_arg (parse_arg Sm ('-' :: '-' :: tag)) b).obj
          args := (parse_arg (parse_arg Sm ('-' :: '-' :: tag)) b).args } := by
    simp only [parse_cmdline, List.drop_succ_cons, List.drop_zero, List.foldl_cons,
      List.foldl_append, List.foldl_nil]
    rw [← hS1, hSm]
  refine ⟨Sm.args.length, lenpos, ?_, ?_, ?_, hbound, ?_⟩
  · rw [hfold, s4.1]
    exact tag_frame_set_tag x tag _ _ _ fm
  · rw [hfold, s4.2, wm, a1]
    simp
  · rw [hfold, s4.2]
    simp
  · rw [hfold, s4.2]
    simp

/-! ### What the loop of `match_config` binds for one key -/

theorem get_set (j : Json) (n k : Str) (val : Json)
    (h : j.is_object = true ∨ j = Json.null) :
    (j.set n val).get k = if n = k then some val else j.get k := by
  rcases h with h | h
  · cases j <;> simp [Json.is_object] at h
    simp only [Json.set, Json.get]
    exact kv_find_insert n k val _
  · subst h
    by_cases e : n = k <;> simp [Json.set, Json.get, kv_find, e]

theorem refers_to_name (x : ConfigObject) (tag key : Str) (p : ConfigParam)
    (h : refers_to x tag key = false) (hp : find_param x key = some p) : p.name ≠ tag := by
  intro e
  simp [refers_to, hp, e] at h

theorem match_object_items_keeps (x : ConfigObject) (tag : Str) (ign : Bool) (context : Str)
    (items : List (Str × Json)) :
    ∀ (st st1 : MatchState) (items1 : List (Str × Json)),
      match_object_items x items ign context st = some (st1, items1) →
      (∀ kv ∈ items, refers_to x tag kv.1 = false) →
      (st.matched.is_object = true ∨ st.matched = Json.null) →
      st1.matched.get tag = st.matched.get tag := by
  induction items with
  | nil =>
    intro st st1 items1 h _ _
    rw [match_object_items_nil] at h
    simp at h
    rw [← h.1]
  | cons kv rest ih =>
    obtain ⟨k, v⟩ := kv
    intro st st2 items1 h hk hs
    obtain ⟨st1, v1, rest1, hmi, hrest, _⟩ := match_object_items_cons _ _ _ _ _ _ _ _ _ h
    have hrk : ∀ kv ∈ rest, refers_to x tag kv.1 = false :=
      fun kv hkv => hk kv (List.mem_cons_of_mem _ hkv)
    have hkk := hk (k, v) (List.mem_cons_self _ _)
    rcases match_item_cases _ _ _ _ _ _ _ _ _ hmi with
      ⟨e, rfl, _⟩ | ⟨rfl, _, _⟩ | ⟨p, val, args1, errors1, hp, rfl, _⟩
    · have h1 := ih _ _ _ hrest hrk hs
      exact h1
    · exact ih _ _ _ hrest hrk hs
    · rw [ih _ _ _ hrest hrk (Or.inl (set_is_object _ _ _ hs))]
      simp only
      rw [get_set _ _ _ _ hs, if_neg (refers_to_name x tag k p hkk hp)]

theorem count_members_ge (n : Int) (k : Str) (v : Json) (items : List (Str × Json))
    (h : kv_find k items = some v) : Json.count n v ≤ count_members n items := by
  induction items with
  | nil => simp [kv_find] at h
  | cons kv rest ih =>
    obtain ⟨k1, v1⟩ := kv
    simp only [count_members]
    by_cases e : k1 = k
    · simp [kv_find, e] at h
      subst h
      omega
    · simp only [kv_find, e, if_false] at h
      have := ih h
      omega

theorem match_list_items_pair (x : ConfigObject) (context key a b : Str) (len : Nat)
    (args : List (Option Str)) (errors : List Str)
    (hlen : (len : Int) < 2147483648) (hpos : 0 < len)
    (ha : args[0]? = some (some a)) (hb : args[len]? = some (some b)) :
    match_list_items x context key [Json.number 0, Json.number len] 0 Json.null args errors
      = some (Json.array [Json.string a, Json.string b], (args.set 0 none).set len none,
          errors) := by
  have hto : to_int (len : Int) = len := to_int_of_range _ (by omega) hlen
  have h0 : to_int 0 = 0 := rfl
  have e0 : args_at args 0 = some a := args_at_of_get args 0 a (by omega) (by simpa using ha)
  have e1 : args_at (args.set 0 none) (len : Int) = some b :=
    args_at_of_get _ _ b (by omega) (by
      simp only [Int.toNat_ofNat]
      rw [List.getElem?_set_ne (by omega)]
      exact hb)
  have n0 : ¬ ((0 : Int) = NO_VALUE) := by decide
  have n1 : ¬ ((len : Int) = NO_VALUE) := by simp only [NO_VALUE]; omega
  have g0 : (Json.number 0).get_int = 0 := rfl
  have g1 : (Json.number (len : Int)).get_int = len := hto
  rw [match_list_items]
  simp only [g0]
  rw [if_neg n0, e0]
  simp only
  rw [match_list_items]
  simp only [g1]
  rw [if_neg n1]
  simp only [Int.toNat_zero]
  rw [e1]
  simp only [match_list_items, Json.push_back, Int.toNat_ofNat, List.nil_append,
    List.singleton_append]

theorem match_object_items_binds (x : ConfigObject) (tag a b : Str) (p : ConfigParam)
    (len : Nat) (ign : Bool) (context : Str)
    (hp : x.get_param tag = some p) (hl : p.is_list = true)
    (hlen : (len : Int) < 2147483648) (hpos : 0 < len)
    (items : List (Str × Json)) :
    ∀ (st st1 : MatchState) (items1 : List (Str × Json)),
      match_object_items x items ign context st = some (st1, items1) →
      (∀ kv ∈ items, kv.1 ≠ tag → refers_to x tag kv.1 = false) →
      (items.map Prod.fst).Nodup →
      kv_find tag items = some (Json.array [Json.number 0, Json.number len]) →
      (∀ n : Int, n ≠ NO_VALUE → count_members n items ≤ 1) →
      refs_ok_members st.args.length items = true →
      st.args.length < 2147483648 →
      st.args[0]? = some (some a) → st.args[len]? = some (some b) →
      (st.matched.is_object = true ∨ st.matched = Json.null) →
      st1.matched.get tag = some (Json.array [Json.string a, Json.string b]) := by
  have hfind : find_param x tag = some p := by simp [find_param, hp]
  have hname := get_param_name x tag p hp
  induction items with
  | nil => intro st st1 items1 _ _ _ hf; simp [kv_find] at hf
  | cons kv rest ih =>
    obtain ⟨k, v⟩ := kv
    intro st st2 items1 h hk hnd hf hu hok hal ha hb hs
    obtain ⟨st1, v1, rest1, hmi, hrest, _⟩ := match_object_items_cons _ _ _ _ _ _ _ _ _ h
    simp only [List.map_cons, List.nodup_cons] at hnd
    by_cases e : k = tag
    · subst e
      simp only [kv_find, if_true, Option.some.injEq] at hf
      subst hf
      rw [match_item_value_list _ _ _ _ _ _ _ _ hfind hl,
        match_list_items_pair x context k a b len st.args st.errors hlen hpos ha hb] at hmi
      simp at hmi
      have hrk : ∀ kv ∈ rest, refers_to x k kv.1 = false := by
        intro kv hkv
        apply hk kv (List.mem_cons_of_mem _ hkv)
        intro e
        exact hnd.1 (by rw [← e]; exact List.mem_map_of_mem _ hkv)
      rw [match_object_items_keeps x k ign context rest _ _ _ hrest hrk
        (by rw [← hmi.1]; exact Or.inl (set_is_object _ _ _ hs))]
      rw [← hmi.1]
      simp only
      rw [get_set _ _ _ _ hs, hname]
      simp
    · have hf' : kv_find tag rest = some (Json.array [Json.number 0, Json.number len]) := by
        simpa [kv_find, e] using hf
      have hkk := hk (k, v) (List.mem_cons_self _ _) e
      have hok' := hok
      simp only [refs_ok_members, Bool.and_eq_true] at hok'
      -- the references 0 and len belong to the entry of tag, not to this member
      have hc : ∀ n : Int, (n = 0 ∨ n = len) → Json.count n v = 0 := by
        intro n hn
        have h1 := count_members_ge n tag _ rest hf'
        have h2 := hu n (by rcases hn with r | r <;> simp [r, NO_VALUE])
        simp only [count_members] at h2
        have h3 : 1 ≤ Json.count n (Json.array [Json.number 0, Json.number (len : Int)]) := by
          rcases hn with r | r <;> simp [r, Json.count, count_items]
        omega
      have hargs := match_item_args x k v ign context _ st st1 v1
        (fun r hr hvo o ho => by
          rw [object_sub_of _ _ _ _ _ _ _ _ ho] at hr
          exact match_config_args v o st.args ign _ st.errors r (Or.inl hvo) hr) hmi
      have hnot : ∀ m : Nat, (m = 0 ∨ m = len) →
          m ∉ member_refs x k v (nested_refs x k v) := by
        intro m hm hmem
        have c1 := member_refs_count _ hal x k v hok'.1 m hmem
        have c2 := hc (m : Int) (by rcases hm with r | r <;> simp [r])
        omega
      have hs1 : st1.matched.is_object = true ∨ st1.matched = Json.null := by
        rcases match_item_cases _ _ _ _ _ _ _ _ _ hmi with
          ⟨_, rfl, _⟩ | ⟨rfl, _, _⟩ | ⟨_, _, _, _, _, rfl, _⟩
        · exact hs
        · exact hs
        · exact Or.inl (set_is_object _ _ _ hs)
      apply ih st1 st2 rest1 hrest
        (fun kv hkv => hk kv (List.mem_cons_of_mem _ hkv)) hnd.2 hf'
        (fun n hn => by
          have := hu n hn
          simp only [count_members] at this
          omega)
      · rw [hargs, clear_all_length]; exact hok'.2
      · rw [hargs, clear_all_length]; exact hal
      · rw [hargs, clear_all_get_not_mem _ _ _ (hnot 0 (Or.inl rfl))]; exact ha
      · rw [hargs, clear_all_get_not_mem _ _ _ (hnot len (Or.inr rfl))]; exact hb
      · exact hs1

/-! ### C5: repeated assignments -/

/-- C5 (evaluation at the failing input): three assignments `--p a --p b --p c`
tokenize to the nested list `[[0, 1], 2]`, not to a flat list of three items, and
`match_config` for a list parameter `p` then reports item 0 as unsupported and
binds `p` to `["c"]` only. -/
theorem C5_third_repetition_nests_the_list :
    (parse_cmdline ["prog".toList, "--p".toList, "a".toList, "--p".toList, "b".toList,
        "--p".toList, "c".toList] [])
      = ({ json := Json.object [("p".toList,
            Json.array [Json.array [Json.number 0, Json.number 1], Json.number 2])]
           args := [some "a".toList, some "b".toList, some "c".toList] }, [])
    ∧ match_config example_list
        (Json.object [("p".toList,
            Json.array [Json.array [Json.number 0, Json.number 1], Json.number 2])])
        [some "a".toList, some "b".toList, some "c".toList] false [] []
      = some { matched := Json.object [("p".toList, Json.array [Json.string "c".toList])]
               config := Json.object []
               args := [some "a".toList, some "b".toList, none]
               errors := [err_array_item example_list [] "p".toList 0
                 (Json.array [Json.number 0, Json.number 1])] } :=
  ⟨rfl, rfl⟩

/-! ### C6: nested path -/

/-- C6 (counterexample): tokenizing `--obj.a 1 --obj.b x` is not free of
diagnostics: the bare token `1` reads as a boolean literal and draws the
suggestion to use the assignment operator. -/
theorem C6_nested_path_counterexample :
    (parse_cmdline ["prog".toList, "--obj.a".toList, "1".toList, "--obj.b".toList, "x".toList] []).2
      ≠ [] := by
  have h : (parse_cmdline ["prog".toList, "--obj.a".toList, "1".toList, "--obj.b".toList,
      "x".toList] []).2 = [err_use_assignment "1".toList] := rfl
  rw [h]
  exact List.cons_ne_nil _ _

/-- C6 (amended): for a registry with an object parameter `obj` whose object
declares valued parameters `a` and `b`, tokenizing `--obj.a 1 --obj.b x` gives the
tree `obj ↦ (a ↦ TokenRef 0, b ↦ TokenRef 1)`, the tokens `1` and `x`, and exactly
one diagnostic, the suggestion for the bare boolean literal `1`; matching that
tree adds no diagnostic, binds `obj` to `a ↦ "1", b ↦ "x"`, empties the tree and
consumes both tokens, so no free argument remains. -/
theorem C6_nested_path_amended (x o : ConfigObject) (c : Char) (d : Str) (pa pb : ConfigParam)
    (hobj : x.get_param "obj".toList = some (ConfigParam.NestedParam c "obj".toList d o))
    (ha : o.get_param "a".toList = some pa) (haf : pa.is_flag = false) (hao : pa.is_object = false)
    (hb : o.get_param "b".toList = some pb) (hbf : pb.is_flag = false) (hbo : pb.is_object = false)
    (ignore_unknown_params : Bool) :
    parse_cmdline ["prog".toList, "--obj.a".toList, "1".toList, "--obj.b".toList, "x".toList] []
      = ({ json := Json.object [("obj".toList,
              Json.object [("a".toList, Json.number 0), ("b".toList, Json.number 1)])]
           args := [some "1".toList, some "x".toList] }, [err_use_assignment "1".toList])
    ∧ match_config x
        (Json.object [("obj".toList,
              Json.object [("a".toList, Json.number 0), ("b".toList, Json.number 1)])])
        [some "1".toList, some "x".toList] ignore_unknown_params [] []
      = some { matched := Json.object [("obj".toList,
                  Json.object [("a".toList, Json.string "1".toList),
                               ("b".toList, Json.string "x".toList)])]
               config := Json.object []
               args := [none, none]
               errors := [] }
    ∧ ([none, none] : List (Option Str)).filterMap id = [] :=
  ⟨rfl, match_nested_two_refs x o _ _ _ _ _ _ pa pb hobj
    (nested_object_of_get _ _ _ _ _ _ hobj) ha haf hao hb hbf hbo
    (by decide) rfl ignore_unknown_params [] [], rfl⟩

/-- C6 (amended) at the object `example_outer`. -/
theorem C6_nested_path_amended_witness :
    match_config example_outer
        (Json.object [("obj".toList,
              Json.object [("a".toList, Json.number 0), ("b".toList, Json.number 1)])])
        [some "1".toList, some "x".toList] false [] []
      = some { matched := Json.object [("obj".toList,
                  Json.object [("a".toList, Json.string "1".toList),
                               ("b".toList, Json.string "x".toList)])]
               config := Json.object []
               args := [none, none]
               errors := [] } :=
  (C6_nested_path_amended example_outer example_pair (Char.ofNat 0) []
    (ConfigParam.StringParam (Char.ofNat 0) "a".toList [] [] [])
    (ConfigParam.StringParam (Char.ofNat 0) "b".toList [] [] [])
    rfl rfl rfl rfl rfl rfl rfl false).2.1

/-! ### C8: command lines without parameter tokens -/

/-- C8: when no argument after `argv[0]` begins with a dash, `parse_cmdline`
returns the empty (null) tree and the arguments in their order as token list, and
`match_config` on that result, for every registry, returns an empty bound
configuration, leaves the error list and the token list as they are, so every
token is a free argument in the original order. -/
theorem C8_no_parameter_tokens (argv : List Str)
    (h : ∀ a ∈ argv.drop 1, a.head? ≠ some '-') (errors : List Str) :
    (parse_cmdline argv errors).1.json = Json.null
    ∧ (parse_cmdline argv errors).1.json.empty = true
    ∧ (parse_cmdline argv errors).1.args = (argv.drop 1).map some
    ∧ ∀ (cfgobj : ConfigObject) (ignore_unknown_params : Bool) (context : Str) (errs : List Str),
        match_config cfgobj (parse_cmdline argv errors).1.json (parse_cmdline argv errors).1.args
            ignore_unknown_params context errs
          = some { matched := Json.null, config := Json.null
                   args := (argv.drop 1).map some, errors := errs }
        ∧ ((argv.drop 1).map some).filterMap id = argv.drop 1 := by
  obtain ⟨h1, h2, _⟩ := foldl_parse_arg_bare (argv.drop 1) h
    { obj := Json.null, args := [], current_param := none, errors := errors } rfl
  have hj : (parse_cmdline argv errors).1.json = Json.null := h1
  have ha : (parse_cmdline argv errors).1.args = (argv.drop 1).map some := by
    simpa [parse_cmdline] using h2
  refine ⟨hj, by rw [hj]; rfl, ha, ?_⟩
  intro cfgobj b c e
  rw [hj, ha, match_config_null]
  exact ⟨rfl, filterMap_id_map_some _⟩

/-- C8 at the command line `prog in1 in2`. -/
theorem C8_no_parameter_tokens_witness :
    (∀ a ∈ ["prog".toList, "in1".toList, "in2".toList].drop 1, a.head? ≠ some '-')
    ∧ (parse_cmdline ["prog".toList, "in1".toList, "in2".toList] []).1.args
        = [some "in1".toList, some "in2".toList] :=
  ⟨by decide,
   (C8_no_parameter_tokens ["prog".toList, "in1".toList, "in2".toList] (by decide) []).2.2.1⟩

/-! ### C2: a bare token after a parameter is resolved by the schema -/

/-- C2: for a name `n` (without dot or assignment sign) and a bare token `t`, the
command line `--n t` parses to the tree `n ↦ TokenRef 0` with the one token `t`.
If the registry declares `n` as a flag, `match_config` binds `n` to `true` and
leaves `t` in the token list (a free argument); if it declares `n` as a valued
parameter (neither flag nor object), `match_config` binds `n` to the text of `t`
and marks the token consumed, so no free argument remains. -/
theorem C2_bare_token_after_parameter (x : ConfigObject) (argv0 n t : Str) (p : ConfigParam)
    (hd : '.' ∉ n) (he : '=' ∉ n) (ht : t.head? ≠ some '-') (hp : x.get_param n = some p)
    (ignore_unknown_params : Bool) (context : Str) (errors : List Str) :
    (parse_cmdline [argv0, '-' :: '-' :: n, t] []).1
        = { json := Json.object [(n, Json.number 0)], args := [some t] }
    ∧ (p.is_flag = true →
        match_config x (parse_cmdline [argv0, '-' :: '-' :: n, t] []).1.json
            (parse_cmdline [argv0, '-' :: '-' :: n, t] []).1.args
            ignore_unknown_params context errors
          = some { matched := Json.object [(n, Json.boolean true)], config := Json.object []
                   args := [some t], errors := errors }
        ∧ [some t].filterMap id = [t])
    ∧ (p.is_flag = false → p.is_object = false →
        match_config x (parse_cmdline [argv0, '-' :: '-' :: n, t] []).1.json
            (parse_cmdline [argv0, '-' :: '-' :: n, t] []).1.args
            ignore_unknown_params context errors
          = some { matched := Json.object [(n, Json.string t)], config := Json.object []
                   args := [none], errors := errors }
        ∧ ([none] : List (Option Str)).filterMap id = []) := by
  have hname := get_param_name x n p hp
  have hfind : find_param x n = some p := by simp [find_param, hp]
  rw [parse_cmdline_long_bare argv0 n t hd he ht]
  refine ⟨rfl, ?_, ?_⟩
  · intro hf
    refine ⟨?_, rfl⟩
    cases p <;> simp [ConfigParam.is_flag] at hf
    simp [match_config, match_object_items, nested_object, match_item, hfind, Json.is_array,
      ConfigParam.is_flag, Json.is_string, Json.set, kv_erase]
    simpa [ConfigParam.name] using hname
  · intro hf ho
    refine ⟨?_, rfl⟩
    cases p <;> simp [ConfigParam.is_flag, ConfigParam.is_object] at hf ho <;>
    simp [match_config, match_object_items, nested_object, match_item, hfind, Json.is_array,
      ConfigParam.is_flag, Json.is_string, Json.set, kv_erase, Json.get_int, to_int, NO_VALUE,
      args_at, Option.join] <;>
    simpa [ConfigParam.name] using hname

/-- C2 at the command line `prog --uint 5` with an unsigned parameter `uint`. -/
theorem C2_bare_token_after_parameter_witness :
    match_config
        (ConfigObject.mk "Test".toList [] [ConfigParam.UIntParam (Char.ofNat 0) "uint".toList [] 0 0] [])
        (parse_cmdline ["prog".toList, "--uint".toList, "5".toList] []).1.json
        (parse_cmdline ["prog".toList, "--uint".toList, "5".toList] []).1.args false [] []
      = some { matched := Json.object [("uint".toList, Json.string "5".toList)]
               config := Json.object [], args := [none], errors := [] } :=
  ((C2_bare_token_after_parameter
      (ConfigObject.mk "Test".toList [] [ConfigParam.UIntParam (Char.ofNat 0) "uint".toList [] 0 0] [])
      "prog".toList "uint".toList "5".toList
      (ConfigParam.UIntParam (Char.ofNat 0) "uint".toList [] 0 0)
      (by decide) (by decide) (by decide) rfl false [] []).2.2 rfl rfl).1

/-! ### Facts about `configure` -/

theorem configure_absent (json : Json) (p : ConfigParam) (h : json.contains p.name = false) :
    ConfigParam.configure json p = (p, false) := by
  cases p <;> simp [ConfigParam.name] at h <;> simp [ConfigParam.configure, h]

theorem configure_params_eq_map (json : Json) (ps : List ConfigParam) :
    configure_params json ps = ps.map (fun p => (ConfigParam.configure json p).1) := by
  induction ps with
  | nil => simp [configure_params]
  | cons p ps ih => simp [configure_params, ih]

theorem configure_params_absent (json : Json) (ps : List ConfigParam)
    (h : ∀ p ∈ ps, json.contains p.name = false) : configure_params json ps = ps := by
  induction ps with
  | nil => simp [configure_params]
  | cons p ps ih =>
    rw [configure_params, configure_absent json p (h p (List.mem_cons_self _ _)),
      ih (fun q hq => h q (List.mem_cons_of_mem _ hq))]

theorem configure_object_absent (json : Json) (x : ConfigObject)
    (h : ∀ p ∈ x.params, json.contains p.name = false) : x.configure json = x := by
  cases x with
  | mk t d ps sp =>
    rw [ConfigObject.configure, configure_params_absent json ps h]

theorem configure_object_fields (json : Json) (x : ConfigObject) :
    (x.configure json).type_name = x.type_name
    ∧ (x.configure json).short_params = x.short_params
    ∧ (x.configure json).params = x.params.map (fun p => (ConfigParam.configure json p).1) := by
  cases x with
  | mk t d ps sp =>
    rw [ConfigObject.configure, configure_params_eq_map]
    exact ⟨rfl, rfl, rfl⟩

theorem application_no_arguments (x : ConfigObject) (argv : List Str) (h : argv.drop 1 = []) :
    Application.new x argv =
      some { app := { good_ := true, args_ := [], help_ := false, binary_ := argv.headD [] }
             x := x, cerr := [] } := by
  have hp : parse_cmdline argv [] = ({ json := Json.null, args := [] }, []) := by
    simp [parse_cmdline, h]
  have hx : x.configure Json.null = x :=
    configure_object_absent _ _ (fun p _ => rfl)
  unfold Application.new
  simp only [hp, match_config_null, report_errors]
  simp [hx]
  exact ⟨rfl, rfl⟩

/-! ### C9: configure touches only the parameters named in the configuration -/

/-- C9: `configure` with a configuration that has no key for the name of a
parameter returns that parameter unchanged (and reports false); in
`ConfigObject::configure` every such parameter keeps its value, and an object
none of whose parameter names is a key is unchanged. An `Application` built from
a command line without arguments after `argv[0]` is good, has no free arguments
and leaves the target object, nested objects included, as it was. -/
theorem C9_configure_frame (json : Json) (x : ConfigObject) :
    (∀ p, json.contains p.name = false → ConfigParam.configure json p = (p, false))
    ∧ (∀ i p, x.params.get? i = some p → json.contains p.name = false →
        (x.configure json).params.get? i = some p)
    ∧ (x.configure json).params.length = x.params.length
    ∧ ((∀ p ∈ x.params, json.contains p.name = false) → x.configure json = x)
    ∧ (∀ argv : List Str, argv.drop 1 = [] →
        Application.new x argv =
          some { app := { good_ := true, args_ := [], help_ := false, binary_ := argv.headD [] }
                 x := x, cerr := [] }) := by
  refine ⟨configure_absent json, ?_, ?_, configure_object_absent json x,
    application_no_arguments x⟩
  · intro i p hi hp
    rw [(configure_object_fields json x).2.2]
    simp only [List.get?_eq_getElem?] at hi ⊢
    rw [List.getElem?_map, hi]
    simp [configure_absent json p hp]
  · rw [(configure_object_fields json x).2.2, List.length_map]

/-- C9 at the command line of the test case for defaults. -/
theorem C9_configure_frame_witness :
    Application.new example_Test ["<PATH>".toList] =
      some { app := { good_ := true, args_ := [], help_ := false, binary_ := "<PATH>".toList }
             x := example_Test, cerr := [] } :=
  (C9_configure_frame Json.null example_Test).2.2.2.2 ["<PATH>".toList] rfl


/-! ### C1: the free arguments of an accepted command line -/

/-- C1: for every command line (of a length that fits the `int` `argc`) the token
list of `parse_cmdline` is the list of bare arguments in their order, both match
passes and the constructor of `Application` are defined, and when no diagnostic was
printed (the command line is accepted) `args()` is the list of the bare arguments,
in their order, whose index the tree handed to the target object does not bind as
the value of a scalar or list parameter. -/
theorem C1_free_arguments (x : ConfigObject) (argv : List Str)
    (hlen : argv.length < 2147483648) :
    (parse_cmdline argv []).1.args = (bare_arguments argv).map some
    ∧ ∃ r1 run,
        match_config (Application.base false) (parse_cmdline argv []).1.json
          (parse_cmdline argv []).1.args true [] (parse_cmdline argv []).2 = some r1
        ∧ Application.new x argv = some run
        ∧ (run.cerr = [] →
            run.app.args_ = free_arguments (bare_arguments argv) (bound_refs x r1.config)) := by
  obtain ⟨r1, r2, run, h1, _, h3, _, h5⟩ := application_new_cases x argv hlen
  exact ⟨(parse_cmdline_wf argv [] hlen).2.2, r1, run, h1, h3, fun hc => (h5 hc).2.2.2.2⟩

/-- C1 at the command line of the test case that tells parameters from free
arguments. -/
theorem C1_free_arguments_witness :
    (parse_cmdline ["<PATH>".toList, "--bool".toList, "FREE1".toList, "--uint".toList,
        "5".toList, "FREE2".toList] []).1.args
      = (bare_arguments ["<PATH>".toList, "--bool".toList, "FREE1".toList, "--uint".toList,
        "5".toList, "FREE2".toList]).map some :=
  (C1_free_arguments example_Test ["<PATH>".toList, "--bool".toList, "FREE1".toList,
    "--uint".toList, "5".toList, "FREE2".toList] (by decide)).1

/-! ### C10: a diagnostic leaves the target object alone -/

/-- C10: for every command line (of a length that fits the `int` `argc`) both
match passes and the constructor of `Application` are defined, and if
`parse_cmdline` or one of the two `match_config` passes produced a diagnostic,
then the diagnostics are printed, the target object is returned as it was given,
`good()` is false and `args()` is empty. -/
theorem C10_failure_is_atomic (x : ConfigObject) (argv : List Str)
    (hlen : argv.length < 2147483648) :
    ∃ r1 r2 run,
      match_config (Application.base false) (parse_cmdline argv []).1.json
        (parse_cmdline argv []).1.args true [] (parse_cmdline argv []).2 = some r1
      ∧ match_config x r1.config r1.args false [] r1.errors = some r2
      ∧ Application.new x argv = some run
      ∧ (((parse_cmdline argv []).2 ≠ [] ∨ r1.errors ≠ [] ∨ r2.errors ≠ []) →
          run.cerr ≠ [] ∧ run.x = x ∧ run.app.good_ = false ∧ run.app.args_ = []) := by
  obtain ⟨r1, r2, run, h1, h2, h3, h4, _⟩ := application_new_cases x argv hlen
  exact ⟨r1, r2, run, h1, h2, h3, h4⟩

/-- C10 at the command line `prog --zzz 2`, whose parameter the target object
does not declare. -/
theorem C10_failure_is_atomic_witness :
    ∃ r1 r2 run,
      match_config (Application.base false)
        (parse_cmdline ["prog".toList, "--zzz".toList, "2".toList] []).1.json
        (parse_cmdline ["prog".toList, "--zzz".toList, "2".toList] []).1.args true []
        (parse_cmdline ["prog".toList, "--zzz".toList, "2".toList] []).2 = some r1
      ∧ match_config example_Test r1.config r1.args false [] r1.errors = some r2
      ∧ Application.new example_Test ["prog".toList, "--zzz".toList, "2".toList] = some run
      ∧ (((parse_cmdline ["prog".toList, "--zzz".toList, "2".toList] []).2 ≠ []
            ∨ r1.errors ≠ [] ∨ r2.errors ≠ []) →
          run.cerr ≠ [] ∧ run.x = example_Test ∧ run.app.good_ = false ∧ run.app.args_ = []) :=
  C10_failure_is_atomic example_Test ["prog".toList, "--zzz".toList, "2".toList] (by decide)

/-- The test case that tells parameters from free arguments, evaluated. -/
theorem application_test_free_arguments :
    (Application.new example_Test ["<PATH>".toList, "--bool".toList, "FREE1".toList,
        "--uint".toList, "5".toList, "FREE2".toList]).map (fun run => (run.app, run.cerr))
      = some ({ good_ := true, args_ := ["FREE1".toList, "FREE2".toList], help_ := false
                binary_ := "<PATH>".toList }, []) := rfl

/-- The command line `prog --zzz 2` against the test object, evaluated. -/
theorem application_test_unknown :
    (Application.new example_Test ["prog".toList, "--zzz".toList, "2".toList]).map
        (fun run => (run.app, run.cerr))
      = some ({ good_ := false, args_ := [], help_ := false, binary_ := "prog".toList },
          [err_unknown example_Test [] "zzz".toList]) := rfl

/-! ### C4: two occurrences of a list parameter -/

theorem member_refs_subset (x : ConfigObject) (k : Str) (v : Json) (kvs : List (Str × Json))
    (h : (k, v) ∈ kvs) (m : Nat) (hm : m ∈ member_refs x k v (nested_refs x k v)) :
    m ∈ bound_refs_members x kvs := by
  induction kvs with
  | nil => simp at h
  | cons kv rest ih =>
    obtain ⟨k1, v1⟩ := kv
    rw [bound_refs_members_cons_eq, List.mem_append]
    rcases List.mem_cons.mp h with e | e
    · simp only [Prod.mk.injEq] at e
      rw [← e.1, ← e.2]
      exact Or.inl hm
    · exact Or.inr (ih e)

theorem member_refs_list_pair (x : ConfigObject) (tag : Str) (p : ConfigParam) (len : Nat)
    (sub : List Nat) (hfind : find_param x tag = some p) (hl : p.is_list = true)
    (hlen : (len : Int) < 2147483648) :
    member_refs x tag (Json.array [Json.number 0, Json.number len]) sub = [0, len] := by
  have hto : to_int (len : Int) = len := to_int_of_range _ (by omega) hlen
  have h0 : to_int 0 = 0 := rfl
  simp [member_refs, hfind, hl, is_list_not_object p hl, is_list_not_flag p hl, Json.is_array,
    value_refs, item_refs, hto, h0]

/-- C4: let `tag` be a name (without dot or assignment sign) that the registry
declares as a list parameter, `a` and `b` bare tokens and `mid` arguments none of
which names `tag` or a key that resolves to the parameter `tag`. For the command
line `--tag a mid... --tag b`, `match_config` is defined on the parsed tree and
token list and binds `tag` to the list `[a, b]` in that order; `a` is the first and
`b` the last bare token of the command line, and both entries of the token list
are consumed (null) afterwards. -/
theorem C4_two_occurrences_accumulate (x : ConfigObject) (p : ConfigParam)
    (argv0 tag a b : Str) (mid : List Str)
    (ignore_unknown_params : Bool) (context : Str) (errors : List Str)
    (hp : x.get_param tag = some p) (hl : p.is_list = true)
    (hd : '.' ∉ tag) (he : '=' ∉ tag)
    (ha : a.head? ≠ some '-') (hb : b.head? ≠ some '-')
    (hmid : ∀ arg ∈ mid, unrelated x tag arg = true)
    (hlen : (argv0 :: ('-' :: '-' :: tag) :: a :: (mid ++ ['-' :: '-' :: tag, b])).length
      < 2147483648) :
    ∃ r last,
      match_config x
          (parse_cmdline (argv0 :: ('-' :: '-' :: tag) :: a :: (mid ++ ['-' :: '-' :: tag, b]))
            []).1.json
          (parse_cmdline (argv0 :: ('-' :: '-' :: tag) :: a :: (mid ++ ['-' :: '-' :: tag, b]))
            []).1.args
          ignore_unknown_params context errors = some r
      ∧ r.matched.get tag = some (Json.array [Json.string a, Json.string b])
      ∧ (bare_arguments (argv0 :: ('-' :: '-' :: tag) :: a :: (mid ++ ['-' :: '-' :: tag, b]))).length
          = last + 1
      ∧ 0 < last
      ∧ (bare_arguments (argv0 :: ('-' :: '-' :: tag) :: a :: (mid ++ ['-' :: '-' :: tag, b])))[0]?
          = some a
      ∧ (bare_arguments (argv0 :: ('-' :: '-' :: tag) :: a :: (mid ++ ['-' :: '-' :: tag, b])))[last]?
          = some b
      ∧ r.args[0]? = some none
      ∧ r.args[last]? = some none := by
  obtain ⟨len, hpos, hframe, ha0, hbl, hlt, hlast⟩ :=
    parse_two_occurrences x argv0 tag a b mid hd he ha hb hmid hlen
  obtain ⟨w1, w2, w3⟩ := parse_cmdline_wf _ [] hlen
  have hfind : find_param x tag = some p := by simp [find_param, hp]
  generalize (argv0 :: ('-' :: '-' :: tag) :: a :: (mid ++ ['-' :: '-' :: tag, b])) = argv
    at hframe ha0 hbl hlast w1 w2 w3 hlen
  have hal : (parse_cmdline argv []).1.args.length < 2147483648 := by
    rw [w3]
    unfold bare_arguments
    have := List.length_filter_le (fun a => decide (a.head? ≠ some '-')) (argv.drop 1)
    simp only [List.length_drop] at this
    simp only [List.length_map]
    omega
  generalize htree : (parse_cmdline argv []).1.json = tree at hframe w1 w2
  generalize hargs : (parse_cmdline argv []).1.args = args at ha0 hbl hlast w1 w3 hal
  cases tree with
  | object kvs =>
    obtain ⟨f1, f2, f3⟩ := hframe
    have havail : ∀ n : Nat, 1 ≤ Json.count (n : Int) (Json.object kvs) →
        ∃ s, args[n]? = some (some s) := by
      intro n hn
      rcases refs_ok_count _ _ _ w1 hn with h | ⟨_, h⟩
      · simp [NO_VALUE] at h
      · have hn' : n < (bare_arguments argv).length := by
          rw [w3] at h
          simpa using h
        exact ⟨(bare_arguments argv)[n], by
          rw [w3]
          simp [List.getElem?_map, List.getElem?_eq_getElem hn']⟩
    obtain ⟨r, hr⟩ := match_config_total (Json.object kvs) x args ignore_unknown_params context
      errors (Or.inl rfl) hal w1 w2 havail
    have hr' := hr
    rw [match_config_object_eq] at hr'
    obtain ⟨⟨st1, items1⟩, hloop, hres⟩ := Option.map_eq_some'.mp hr'
    have hbind := match_object_items_binds x tag a b p len ignore_unknown_params context hp hl
      hlt hpos kvs _ st1 items1 hloop f3 f2 f1
      (fun n hn => by simpa [Json.count] using w2 n hn)
      (by simpa [Json.refs_ok] using w1) hal ha0 hbl (Or.inr rfl)
    have hcons := match_config_args (Json.object kvs) x args ignore_unknown_params context
      errors r (Or.inl rfl) hr
    have hmem : ∀ m ∈ [0, len], m ∈ bound_refs x (Json.object kvs) := by
      intro m hm
      rw [← member_refs_list_pair x tag p len (nested_refs x tag _) hfind hl hlt] at hm
      simp only [bound_refs]
      exact member_refs_subset x tag _ kvs (mem_of_kv_find _ _ _ f1) m hm
    have hbare0 : (bare_arguments argv)[0]? = some a := by
      have := ha0
      rw [w3, List.getElem?_map] at this
      cases hh : (bare_arguments argv)[0]? <;> simp [hh] at this
      rw [this]
    have hbarel : (bare_arguments argv)[len]? = some b := by
      have := hbl
      rw [w3, List.getElem?_map] at this
      cases hh : (bare_arguments argv)[len]? <;> simp [hh] at this
      rw [this]
    refine ⟨r, len, hr, ?_, ?_, hpos, hbare0, hbarel, ?_, ?_⟩
    · rw [← hres]
      exact hbind
    · rw [← hlast, w3]
      simp
    · rw [hcons]
      exact clear_all_get_mem _ _ _ (hmem 0 (by simp)) (by omega)
    · rw [hcons]
      exact clear_all_get_mem _ _ _ (hmem len (by simp)) (by omega)
  | null => exact absurd hframe (by simp [tag_frame])
  | boolean _ => exact absurd hframe (by simp [tag_frame])
  | number _ => exact absurd hframe (by simp [tag_frame])
  | string _ => exact absurd hframe (by simp [tag_frame])
  | array _ => exact absurd hframe (by simp [tag_frame])

/-- C4 at the command line `prog --p a x --q y --p b` with a string list
parameter `p`. -/
theorem C4_two_occurrences_accumulate_witness :
    ∃ r last,
      match_config example_list
          (parse_cmdline ("prog".toList :: "--p".toList :: "a".toList ::
            (["x".toList, "--q".toList, "y".toList] ++ ["--p".toList, "b".toList])) []).1.json
          (parse_cmdline ("prog".toList :: "--p".toList :: "a".toList ::
            (["x".toList, "--q".toList, "y".toList] ++ ["--p".toList, "b".toList])) []).1.args
          false [] [] = some r
      ∧ r.matched.get "p".toList
          = some (Json.array [Json.string "a".toList, Json.string "b".toList])
      ∧ (bare_arguments ("prog".toList :: "--p".toList :: "a".toList ::
            (["x".toList, "--q".toList, "y".toList] ++ ["--p".toList, "b".toList]))).length
          = last + 1
      ∧ 0 < last
      ∧ (bare_arguments ("prog".toList :: "--p".toList :: "a".toList ::
            (["x".toList, "--q".toList, "y".toList] ++ ["--p".toList, "b".toList])))[0]?
          = some "a".toList
      ∧ (bare_arguments ("prog".toList :: "--p".toList :: "a".toList ::
            (["x".toList, "--q".toList, "y".toList] ++ ["--p".toList, "b".toList])))[last]?
          = some "b".toList
      ∧ r.args[0]? = some none
      ∧ r.args[last]? = some none :=
  C4_two_occurrences_accumulate example_list
    (ConfigParam.StringListParam (Char.ofNat 0) "p".toList [] [] [])
    "prog".toList "p".toList "a".toList "b".toList ["x".toList, "--q".toList, "y".toList]
    false [] [] rfl rfl (by decide) (by decide) (by decide) (by decide) (by decide) (by decide)

/-- The command line `prog --p a x --q y --p b` against a registry with the string
list parameter `p`, evaluated: `p` is bound to `[a, b]`, the tokens `a` and `b`
are consumed, `x` and `y` stay, and `q` is reported as unknown. -/
theorem two_occurrences_evaluated :
    match_config example_list
        (parse_cmdline ["prog".toList, "--p".toList, "a".toList, "x".toList, "--q".toList,
          "y".toList, "--p".toList, "b".toList] []).1.json
        (parse_cmdline ["prog".toList, "--p".toList, "a".toList, "x".toList, "--q".toList,
          "y".toList, "--p".toList, "b".toList] []).1.args false [] []
      = some { matched := Json.object [("p".toList,
                 Json.array [Json.string "a".toList, Json.string "b".toList])]
               config := Json.object [("q".toList, Json.number 2)]
               args := [none, some "x".toList, some "y".toList, none]
               errors := [err_unknown example_list [] "q".toList] } := rfl

/-! ### C3: the two assignment syntaxes -/

/-- C3: with a string parameter `x`, the command lines `prog --x v -x --x w` and
`prog --x=v -x --x w` differ only in the syntax of the first assignment. Both
are accepted without diagnostic and bind `x` to `w`, but the first leaves the
free argument `v` and the second leaves none: the short form `-x` overwrites the
entry of `x` in the tree, so the value assigned before it is dropped (a string in
the tree) or left unreferenced in the token list (a token). -/
theorem C3_assignment_syntaxes_diverge :
    (Application.new example_x ["prog".toList, "--x".toList, "v".toList, "-x".toList,
        "--x".toList, "w".toList]).map (fun run => (run.app, run.x, run.cerr))
      = some ({ good_ := true, args_ := ["v".toList], help_ := false, binary_ := "prog".toList },
          ConfigObject.mk "X".toList [] [ConfigParam.StringParam (Char.ofNat 0) "x".toList []
            "w".toList []] [],
          [])
    ∧ (Application.new example_x ["prog".toList, "--x=v".toList, "-x".toList,
        "--x".toList, "w".toList]).map (fun run => (run.app, run.x, run.cerr))
      = some ({ good_ := true, args_ := [], help_ := false, binary_ := "prog".toList },
          ConfigObject.mk "X".toList [] [ConfigParam.StringParam (Char.ofNat 0) "x".toList []
            "w".toList []] [],
          [])
    ∧ (parse_cmdline ["prog".toList, "--x".toList, "v".toList, "-x".toList,
        "--x".toList, "w".toList] []).1
      = { json := Json.object [("x".toList, Json.number 1)]
          args := [some "v".toList, some "w".toList] }
    ∧ (parse_cmdline ["prog".toList, "--x=v".toList, "-x".toList,
        "--x".toList, "w".toList] []).1
      = { json := Json.object [("x".toList, Json.number 0)], args := [some "w".toList] } :=
  ⟨rfl, rfl, rfl, rfl⟩

/-! ### Adapters that reject a value -/

theorem configure_rejected (json : Json) (p : ConfigParam)
    (h : (ConfigParam.configure json p).2 = false) : (ConfigParam.configure json p).1 = p := by
  revert h
  cases p <;> simp only [ConfigParam.configure] <;> repeat' split
  all_goals first
    | (intro _; rfl)
    | (intro h; exact absurd h (by simp))

/-! ### C11: an adapter that rejects its value -/

/-- C11, as stated, fails: the command line `prog --int=abc` binds the text `abc`
to the integer parameter `int`, whose adapter rejects it (`configure` returns
false), yet nothing is printed, the application is good and the target object is
as before. -/
theorem C11_adapter_rejection_counterexample :
    (match_config example_Test (Json.object [("int".toList, Json.string "abc".toList)]) []
        false [] []).map (fun r => (r.matched, r.errors))
      = some (Json.object [("int".toList, Json.string "abc".toList)], [])
    ∧ (ConfigParam.configure (Json.object [("int".toList, Json.string "abc".toList)])
        (ConfigParam.IntParam (Char.ofNat 0) "int".toList [] 0 0)).2 = false
    ∧ (Application.new example_Test ["prog".toList, "--int=abc".toList]).map
        (fun run => (run.app.good_, run.cerr, run.x))
      = some (true, [], example_Test) :=
  ⟨rfl, rfl, rfl⟩

/-- C11, amended: a parameter whose adapter rejects the configuration (`configure`
returns false) keeps its prior value, and `ConfigObject::configure` drops the
returned flag. For every command line (of a length that fits the `int` `argc`)
both match passes and the constructor of `Application` are defined, and when
neither `parse_cmdline` nor a match pass produced a diagnostic, nothing is
printed, the application is good unless help was requested, and the target
object is the one configured with the BoundConfiguration, in which every
parameter with a rejecting adapter is as before. -/
theorem C11_adapter_rejection_is_silent (x : ConfigObject) (argv : List Str)
    (hlen : argv.length < 2147483648) :
    ∃ r1 r2 run,
      match_config (Application.base false) (parse_cmdline argv []).1.json
        (parse_cmdline argv []).1.args true [] (parse_cmdline argv []).2 = some r1
      ∧ match_config x r1.config r1.args false [] r1.errors = some r2
      ∧ Application.new x argv = some run
      ∧ (r2.errors = [] →
          run.cerr = [] ∧ run.app.good_ = !run.app.help_
          ∧ run.x = x.configure r2.matched
          ∧ run.x.params = x.params.map (fun p => (ConfigParam.configure r2.matched p).1)
          ∧ ∀ p ∈ x.params, (ConfigParam.configure r2.matched p).2 = false →
              (ConfigParam.configure r2.matched p).1 = p) := by
  obtain ⟨r1, r2, h1, h2, _, h4⟩ := application_passes x argv hlen
  have hnew := application_new_eq x argv r1 r2 h1 h2 h4
  obtain ⟨e1, f2, _⟩ := match_config_facts _ _ _ _ _ _ _ (parse_cmdline_root argv []) h1
  obtain ⟨e2, _⟩ := match_config_facts _ _ _ _ _ _ _ f2 h2
  refine ⟨r1, r2, _, h1, h2, hnew, ?_⟩
  intro he
  have z2 : r2.errors.length = 0 := by rw [he]; rfl
  have z1 : r1.errors = [] := List.length_eq_zero.mp (by omega)
  have z0 : (parse_cmdline argv []).2 = [] := List.length_eq_zero.mp (by
    rw [z1] at e1
    simpa using e1)
  simp only [z0, z1, he, ne_eq, not_true_eq_false, if_false]
  exact ⟨trivial, trivial, trivial, (configure_object_fields _ _).2.2,
    fun p _ hp => configure_rejected _ p hp⟩

/-- C11 (amended) at the command line `prog --int=abc` and the test object. -/
theorem C11_adapter_rejection_is_silent_witness :
    ∃ r1 r2 run,
      match_config (Application.base false)
        (parse_cmdline ["prog".toList, "--int=abc".toList] []).1.json
        (parse_cmdline ["prog".toList, "--int=abc".toList] []).1.args true []
        (parse_cmdline ["prog".toList, "--int=abc".toList] []).2 = some r1
      ∧ match_config example_Test r1.config r1.args false [] r1.errors = some r2
      ∧ Application.new example_Test ["prog".toList, "--int=abc".toList] = some run
      ∧ (r2.errors = [] →
          run.cerr = [] ∧ run.app.good_ = !run.app.help_
          ∧ run.x = example_Test.configure r2.matched
          ∧ run.x.params
              = example_Test.params.map (fun p => (ConfigParam.configure r2.matched p).1)
          ∧ ∀ p ∈ example_Test.params, (ConfigParam.configure r2.matched p).2 = false →
              (ConfigParam.configure r2.matched p).1 = p) :=
  C11_adapter_rejection_is_silent example_Test ["prog".toList, "--int=abc".toList] (by decide)

/-! ### Keys bound by a pass without diagnostic -/

theorem contains_of_set (j : Json) (n k : Str) (val : Json)
    (h : j.is_object = true ∨ j = Json.null) :
    (j.set n val).contains k = (decide (n = k) || j.contains k) := by
  rcases h with h | h
  · cases j <;> simp [Json.is_object] at h
    simp only [Json.set, Json.contains]
    rw [kv_find_insert]
    by_cases e : n = k <;> simp [e]
  · subst h
    by_cases e : n = k <;> simp [Json.set, Json.contains, kv_find, e]

theorem match_item_matched_root (x : ConfigObject) (key : Str) (v : Json) (ign : Bool)
    (context : Str) (sub : Option MatchResult) (st st1 : MatchState) (v1 : Json)
    (h : match_item x key v ign context sub st = some (st1, v1))
    (hs : st.matched.is_object = true ∨ st.matched = Json.null) :
    (st1.matched.is_object = true ∨ st1.matched = Json.null)
    ∧ ∀ k, st.matched.contains k = true → st1.matched.contains k = true := by
  rcases match_item_cases _ _ _ _ _ _ _ _ _ h with
    ⟨_, rfl, _⟩ | ⟨rfl, _, _⟩ | ⟨_, _, _, _, _, rfl, _⟩
  · exact ⟨hs, fun _ h => h⟩
  · exact ⟨hs, fun _ h => h⟩
  · refine ⟨Or.inl (set_is_object _ _ _ hs), fun k hk => ?_⟩
    simp only
    rw [contains_of_set _ _ _ _ hs, hk]
    simp

theorem match_object_items_contains (x : ConfigObject) (ign : Bool) (context : Str)
    (items : List (Str × Json)) :
    ∀ (st st1 : MatchState) (items1 : List (Str × Json)),
      match_object_items x items ign context st = some (st1, items1) →
      (st.matched.is_object = true ∨ st.matched = Json.null) →
      st.errors.length ≤ st1.errors.length
      ∧ ∀ k, st.matched.contains k = true → st1.matched.contains k = true := by
  induction items with
  | nil =>
    intro st st1 items1 h _
    rw [match_object_items_nil] at h
    simp at h
    rw [← h.1]
    exact ⟨Nat.le_refl _, fun _ h => h⟩
  | cons kv rest ih =>
    obtain ⟨k, v⟩ := kv
    intro st st2 items1 h hs
    obtain ⟨st1, v1, rest1, hmi, hrest, _⟩ := match_object_items_cons _ _ _ _ _ _ _ _ _ h
    obtain ⟨a1, a2⟩ := match_item_matched_root _ _ _ _ _ _ _ _ _ hmi hs
    obtain ⟨b1, b2⟩ := ih _ _ _ hrest a1
    have hle : st.errors.length ≤ st1.errors.length := by
      rcases match_item_cases _ _ _ _ _ _ _ _ _ hmi with
        ⟨e, rfl, _⟩ | ⟨rfl, _, _⟩ | ⟨p, val, args1, errors1, hp, rfl, hc⟩
      · simp
      · exact Nat.le_refl _
      · rcases hc with ⟨_, hle⟩ | ⟨hvo, r, o, hno, hsub, _, rfl⟩
        · exact hle
        · rw [object_sub_of _ _ _ _ _ _ _ _ hno] at hsub
          exact (match_config_facts _ _ _ _ _ _ _ (Or.inl hvo) hsub).1
    exact ⟨Nat.le_trans hle b1, fun k hk => b2 k (a2 k hk)⟩

theorem match_object_items_bound (x : ConfigObject) (context : Str)
    (items : List (Str × Json)) :
    ∀ (st st1 : MatchState) (items1 : List (Str × Json)),
      match_object_items x items false context st = some (st1, items1) →
      (st.matched.is_object = true ∨ st.matched = Json.null) →
      st1.errors.length = st.errors.length →
      ∀ kv ∈ items, ∃ p, find_param x kv.1 = some p ∧ st1.matched.contains p.name = true := by
  induction items with
  | nil => intro _ _ _ _ _ _ kv hkv; simp at hkv
  | cons kv rest ih =>
    obtain ⟨k, v⟩ := kv
    intro st st2 items1 h hs he kv hkv
    obtain ⟨st1, v1, rest1, hmi, hrest, _⟩ := match_object_items_cons _ _ _ _ _ _ _ _ _ h
    obtain ⟨a1, _⟩ := match_item_matched_root _ _ _ _ _ _ _ _ _ hmi hs
    obtain ⟨b1, b2⟩ := match_object_items_contains _ _ _ _ _ _ _ hrest a1
    have hle : st.errors.length ≤ st1.errors.length ∧
        ∃ p, find_param x k = some p ∧ (st1.errors.length = st.errors.length →
          st1.matched.contains p.name = true) := by
      rcases match_item_cases _ _ _ _ _ _ _ _ _ hmi with
        ⟨e, rfl, _⟩ | ⟨_, _, hf⟩ | ⟨p, val, args1, errors1, hp, rfl, hc⟩
      · exfalso
        simp only [List.length_append, List.length_singleton] at b1
        omega
      · exact absurd hf (by simp)
      · have hc1 : st.errors.length ≤ errors1.length := by
          rcases hc with ⟨_, hle⟩ | ⟨hvo, r, o, hno, hsub, _, rfl⟩
          · exact hle
          · rw [object_sub_of _ _ _ _ _ _ _ _ hno] at hsub
            exact (match_config_facts _ _ _ _ _ _ _ (Or.inl hvo) hsub).1
        refine ⟨hc1, p, hp, fun _ => ?_⟩
        simp only
        rw [contains_of_set _ _ _ _ hs]
        simp
    obtain ⟨c1, p, hp, c2⟩ := hle
    rcases List.mem_cons.mp hkv with e | e
    · subst e
      exact ⟨p, hp, b2 _ (c2 (by omega))⟩
    · exact ih _ _ _ hrest a1 (by omega) kv e

/-! ### C12: the tree after a pass without diagnostic -/

/-- C12: for every registry and every tree that is an object or null, if
`match_config` with `ignore_unknown_params = false` returns and has appended no
diagnostic, then the tree is empty afterwards (the assertion in the constructor
of `Application` holds), and every key of the tree was resolved to a parameter
whose name has an entry in the BoundConfiguration. -/
theorem C12_tree_empty_after_match (x : ConfigObject) (tree : Json)
    (args : List (Option Str)) (context : Str) (errors : List Str) (r : MatchResult)
    (ht : tree.is_object = true ∨ tree = Json.null)
    (h : match_config x tree args false context errors = some r)
    (he : r.errors = errors) :
    r.config.empty = true
    ∧ ∀ k, tree.contains k = true →
        ∃ p, find_param x k = some p ∧ r.matched.contains p.name = true := by
  refine ⟨(match_config_facts tree x args false context errors r ht h).2.2.2.2 rfl
    (by rw [he]), ?_⟩
  intro k hk
  rcases ht with ht | ht
  · cases tree <;> simp [Json.is_object] at ht
    rename_i kvs
    rw [match_config_object_eq] at h
    obtain ⟨⟨st1, items1⟩, hloop, hres⟩ := Option.map_eq_some'.mp h
    simp only [Json.contains] at hk
    cases hf : kv_find k kvs with
    | none => rw [hf] at hk; simp at hk
    | some v =>
      have hmem := mem_of_kv_find _ _ _ hf
      obtain ⟨p, hp, hc⟩ := match_object_items_bound x context kvs _ st1 items1 hloop
        (Or.inr rfl) (by rw [← hres] at he; simp only at he; rw [he]) (k, v) hmem
      exact ⟨p, hp, by rw [← hres]; exact hc⟩
  · subst ht
    simp [Json.contains] at hk

/-- C12 at the tree of `--uint=5` and the test object. -/
theorem C12_tree_empty_after_match_witness :
    Json.empty (Json.object []) = true
    ∧ ∀ k, (Json.object [("uint".toList, Json.string "5".toList)]).contains k = true →
        ∃ p, find_param example_Test k = some p
          ∧ (Json.object [("uint".toList, Json.string "5".toList)]).contains p.name = true :=
  C12_tree_empty_after_match example_Test
    (Json.object [("uint".toList, Json.string "5".toList)]) [] [] []
    { matched := Json.object [("uint".toList, Json.string "5".toList)]
      config := Json.object [], args := [], errors := [] }
    (Or.inl rfl) rfl rfl

/-! ### Reading and writing through a key path -/

theorem get_path_append (p q : List Str) (j : Json) :
    j.get_path (p ++ q) = (j.get_path p).bind (fun w => w.get_path q) := by
  induction p generalizing j with
  | nil => simp [Json.get_path]
  | cons k ks ih =>
    simp only [List.cons_append, Json.get_path]
    cases j.get k with
    | none => rfl
    | some v => exact ih v

theorem is_object_of_get (j : Json) (k : Str) (v : Json) (h : j.get k = some v) :
    j.is_object = true := by
  cases j <;> simp [Json.get] at h
  rfl

theorem get_path_modify_path (f : Json → Json) (p : List Str) (j w : Json)
    (h : j.get_path p = some w) : (j.modify_path f p).get_path p = some (f w) := by
  induction p generalizing j with
  | nil =>
    simp only [Json.get_path, Option.some.injEq] at h
    simp [Json.get_path, Json.modify_path, h]
  | cons k ks ih =>
    simp only [Json.get_path] at h
    cases hg : j.get k with
    | none => rw [hg] at h; simp at h
    | some v =>
      rw [hg] at h
      simp only [Json.modify_path, hg, Json.get_path]
      rw [get_set _ _ _ _ (Or.inl (is_object_of_get _ _ _ hg))]
      simp only [if_true]
      exact ih v h

theorem contains_eq_get (j : Json) (k : Str) : j.contains k = (j.get k).isSome := by
  cases j <;> rfl

/-! ### The loop over a long parameter name, segment by segment -/

theorem parse_long_name_segment (a : Str) (n : Str) (hd : '.' ∉ n) (he : '=' ∉ n)
    (rest : List Char) (seen : Str) (st : LongState) :
    parse_long_name a (n ++ rest) seen st
      = parse_long_name a rest (seen ++ n) { st with current_name := st.current_name ++ n } := by
  induction n generalizing seen st with
  | nil => simp
  | cons c cs ih =>
    have hc1 : c ≠ '=' := fun e => he (by simp [e])
    have hc2 : c ≠ '.' := fun e => hd (by simp [e])
    simp only [List.cons_append]
    rw [parse_long_name, if_neg hc1, if_neg hc2,
      ih (fun h => hd (List.mem_cons_of_mem _ h)) (fun h => he (List.mem_cons_of_mem _ h))]
    simp

theorem get_path_nil_object (p : List Str) (hp : p ≠ []) :
    (Json.object []).get_path p = none := by
  cases p with
  | nil => exact absurd rfl hp
  | cons k ks => simp [Json.get_path, Json.get, kv_find]

theorem get_path_singleton (j : Json) (k : Str) : j.get_path [k] = j.get k := by
  simp only [Json.get_path]
  cases j.get k <;> rfl

theorem parse_long_name_path (a : Str) (last v : Str)
    (hlast : '.' ∉ last ∧ '=' ∉ last) (segs : List Str) :
    (∀ s ∈ segs, '.' ∉ s ∧ '=' ∉ s) →
    ∀ (seen : Str) (ls : LongState) (cur : Json),
      ls.current_name = [] →
      ls.obj.get_path ls.current_obj = some cur →
      (cur.is_object = true ∨ cur = Json.null) →
      (∀ pre, pre <+: segs → pre ≠ [] → ∀ w, cur.get_path pre = some w → w.is_object = true) →
      ∃ cur1,
        (parse_long_name a (segs.foldr (fun s acc => s ++ '.' :: acc) (last ++ '=' :: v))
            seen ls).value = some v
        ∧ (parse_long_name a (segs.foldr (fun s acc => s ++ '.' :: acc) (last ++ '=' :: v))
            seen ls).current_name = last
        ∧ (parse_long_name a (segs.foldr (fun s acc => s ++ '.' :: acc) (last ++ '=' :: v))
            seen ls).current_obj = ls.current_obj ++ segs
        ∧ (parse_long_name a (segs.foldr (fun s acc => s ++ '.' :: acc) (last ++ '=' :: v))
            seen ls).errors = ls.errors
        ∧ (parse_long_name a (segs.foldr (fun s acc => s ++ '.' :: acc) (last ++ '=' :: v))
            seen ls).obj.get_path (ls.current_obj ++ segs) = some cur1
        ∧ (cur1.is_object = true ∨ cur1 = Json.null)
        ∧ cur1.get last = cur.get_path (segs ++ [last]) := by
  induction segs with
  | nil =>
    intro _ seen ls cur hn hg hc _
    refine ⟨cur, ?_⟩
    simp only [List.foldr_nil, List.append_nil, List.nil_append]
    rw [parse_long_name_segment a last hlast.1 hlast.2, parse_long_name]
    simp only [if_true, hn, List.nil_append]
    exact ⟨trivial, trivial, trivial, trivial, hg, hc, (get_path_singleton _ _).symm⟩
  | cons s rest ih =>
    intro hsegs seen ls cur hn hg hc hnav
    have hs := hsegs s (List.mem_cons_self _ _)
    have hrest : ∀ t ∈ rest, '.' ∉ t ∧ '=' ∉ t :=
      fun t ht => hsegs t (List.mem_cons_of_mem _ ht)
    simp only [List.foldr_cons, List.append_assoc]
    rw [parse_long_name_segment a s hs.1 hs.2, parse_long_name,
      if_neg (by decide : ¬ ('.' = '=')), if_pos rfl]
    simp only [hn, List.nil_append, hg, Option.getD_some]
    by_cases hcon : cur.contains s = true
    · -- the key exists: by the hypothesis on the path it holds an object
      rw [if_pos hcon]
      rw [contains_eq_get] at hcon
      obtain ⟨w, hw⟩ := Option.isSome_iff_exists.mp hcon
      have hwo : w.is_object = true :=
        hnav [s] (by simp) (by simp) w (by rw [get_path_singleton]; exact hw)
      cases w with
      | object kvs =>
        simp only [hw]
        obtain ⟨cur1, h1, h2, h3, h4, h5, h6, h7⟩ := ih hrest (seen ++ s ++ ['.'])
          { obj := ls.obj, current_obj := ls.current_obj ++ [s], current_name := []
            errors := ls.errors, value := ls.value } (Json.object kvs) rfl
          (by
            simp only
            rw [get_path_append, hg]
            simp only [Option.some_bind]
            rw [get_path_singleton]
            exact hw)
          (Or.inl rfl)
          (fun pre hpre hne w1 hw1 =>
            hnav (s :: pre) (by simpa using hpre) (by simp) w1 (by
              simp only [Json.get_path, hw]
              exact hw1))
        refine ⟨cur1, h1, h2, ?_, h4, ?_, h6, ?_⟩
        · rw [h3]; simp
        · simpa using h5
        · rw [h7]
          simp only [List.cons_append, Json.get_path, hw]
          rfl
      | null => simp [Json.is_object] at hwo
      | boolean _ => simp [Json.is_object] at hwo
      | number _ => simp [Json.is_object] at hwo
      | string _ => simp [Json.is_object] at hwo
      | array _ => simp [Json.is_object] at hwo
    · -- the key is new: an empty object is created
      rw [if_neg hcon]
      have hget : cur.get s = none := by
        rw [contains_eq_get] at hcon
        simpa using hcon
      obtain ⟨cur1, h1, h2, h3, h4, h5, h6, h7⟩ := ih hrest (seen ++ s ++ ['.'])
        { obj := ls.obj.modify_path (fun o => o.set s (Json.object [])) ls.current_obj
          current_obj := ls.current_obj ++ [s], current_name := []
          errors := ls.errors, value := ls.value } (Json.object []) rfl
        (by
          simp only
          rw [get_path_append, get_path_modify_path _ _ _ _ hg]
          simp only [Option.some_bind]
          rw [get_path_singleton, get_set _ _ _ _ hc]
          simp)
        (Or.inl rfl)
        (fun pre _ hne w1 hw1 => by
          rw [get_path_nil_object pre hne] at hw1
          simp at hw1)
      refine ⟨cur1, h1, h2, ?_, h4, ?_, h6, ?_⟩
      · rw [h3]; simp
      · simpa using h5
      · rw [h7, get_path_nil_object _ (by simp)]
        simp only [List.cons_append, Json.get_path, hget]

/-! ### C13: explicit assignment in the long form -/

/-- C13: let `segs` and `last` be the segments of a name path (no segment holds a
dot or an assignment sign) and `v` any text, also one that begins with a dash,
holds a dot or an assignment sign, or is empty. In a state whose tree has an object
(or nothing) at every proper prefix of the path, the argument `--segs.last=v`
leaves at the path the value that `set_or_make_list` makes of the value held
there before (`NO_VALUE` when there was none) and the string `v`; the token list
is unchanged and no parameter is pending afterwards. -/
theorem C13_long_form_assignment (st : ParseState) (segs : List Str) (last v : Str)
    (hroot : st.obj.is_object = true ∨ st.obj = Json.null)
    (hsegs : ∀ s ∈ segs, '.' ∉ s ∧ '=' ∉ s) (hlast : '.' ∉ last ∧ '=' ∉ last)
    (hnav : ∀ pre, pre <+: segs → pre ≠ [] → ∀ w, st.obj.get_path pre = some w →
      w.is_object = true) :
    (parse_arg st ('-' :: '-' ::
        segs.foldr (fun s acc => s ++ '.' :: acc) (last ++ '=' :: v))).obj.get_path
        (segs ++ [last])
      = some (set_or_make_list
          ((st.obj.get_path (segs ++ [last])).getD (Json.number NO_VALUE)) (Json.string v))
    ∧ (parse_arg st ('-' :: '-' ::
        segs.foldr (fun s acc => s ++ '.' :: acc) (last ++ '=' :: v))).args = st.args
    ∧ (parse_arg st ('-' :: '-' ::
        segs.foldr (fun s acc => s ++ '.' :: acc) (last ++ '=' :: v))).current_param = none := by
  obtain ⟨cur1, h1, h2, h3, _, h5, h6, h7⟩ := parse_long_name_path
    ('-' :: '-' :: segs.foldr (fun s acc => s ++ '.' :: acc) (last ++ '=' :: v)) last v hlast
    segs hsegs ['-', '-']
    { obj := st.obj, current_obj := [], current_name := [], errors := st.errors, value := none }
    st.obj rfl rfl hroot hnav
  simp only [List.nil_append] at h3 h5
  simp only [parse_arg]
  generalize parse_long_name
    ('-' :: '-' :: segs.foldr (fun s acc => s ++ '.' :: acc) (last ++ '=' :: v))
    (segs.foldr (fun s acc => s ++ '.' :: acc) (last ++ '=' :: v)) ['-', '-']
    { obj := st.obj, current_obj := [], current_name := [], errors := st.errors, value := none }
    = ls at h1 h2 h3 h5
  simp only [h1, h2, h3, h5, Option.getD_some]
  by_cases hcon : cur1.contains last = true
  · rw [if_pos hcon]
    rw [contains_eq_get] at hcon
    obtain ⟨old, hold⟩ := Option.isSome_iff_exists.mp hcon
    have hp : ls.obj.get_path (segs ++ [last]) = some old := by
      rw [get_path_append, h5]
      simp only [Option.some_bind]
      rw [get_path_singleton]
      exact hold
    rw [← h7, hold]
    simp only [parse_value, hp, Option.getD_some, Bool.not_true, Bool.false_eq_true, if_false,
      if_true]
    exact ⟨get_path_modify_path _ _ _ _ hp, trivial, trivial⟩
  · rw [if_neg hcon]
    have hget : cur1.get last = none := by
      rw [contains_eq_get] at hcon
      simpa using hcon
    have hp : (ls.obj.modify_path (fun o => o.set last (Json.number NO_VALUE)) segs).get_path
        (segs ++ [last]) = some (Json.number NO_VALUE) := by
      rw [get_path_append, get_path_modify_path _ _ _ _ h5]
      simp only [Option.some_bind]
      rw [get_path_singleton, get_set _ _ _ _ h6]
      simp
    rw [← h7, hget]
    simp only [parse_value, hp, Option.getD_some, Option.getD_none, Bool.not_true,
      Bool.false_eq_true, if_false, if_true]
    exact ⟨get_path_modify_path _ _ _ _ hp, trivial, trivial⟩

/-- C13 at the argument `--obj.a=-1.5=x` in the state after `--obj.a 7`: the value
becomes the list of the token reference and the literal. -/
theorem C13_long_form_assignment_witness :
    (parse_arg
        { obj := Json.object [("obj".toList, Json.object [("a".toList, Json.number 0)])]
          args := [some "7".toList], current_param := none, errors := [] }
        "--obj.a=-1.5=x".toList).obj.get_path ["obj".toList, "a".toList]
      = some (Json.array [Json.number 0, Json.string "-1.5=x".toList])
    ∧ (parse_arg
        { obj := Json.object [("obj".toList, Json.object [("a".toList, Json.number 0)])]
          args := [some "7".toList], current_param := none, errors := [] }
        "--obj.a=-1.5=x".toList).args = [some "7".toList]
    ∧ (parse_arg
        { obj := Json.object [("obj".toList, Json.object [("a".toList, Json.number 0)])]
          args := [some "7".toList], current_param := none, errors := [] }
        "--obj.a=-1.5=x".toList).current_param = none :=
  C13_long_form_assignment
    { obj := Json.object [("obj".toList, Json.object [("a".toList, Json.number 0)])]
      args := [some "7".toList], current_param := none, errors := [] }
    ["obj".toList] "a".toList "-1.5=x".toList (Or.inl rfl) (by decide) (by decide)
    (fun pre hpre hne w hw => by
      rcases List.prefix_cons_iff.mp hpre with h | ⟨t, rfl, ht⟩
      · exact absurd h hne
      · rw [List.prefix_nil.mp ht] at hw
        simp only [Json.get_path, Json.get, kv_find, if_true, Option.some.injEq] at hw
        rw [← hw]
        rfl)

/-- The command lines `prog --a.b=-x.y`, `prog --n=` and `prog --n=1 --n=--m`,
evaluated: the text after the assignment sign is recorded as it is. -/
theorem long_form_assignment_evaluated :
    parse_cmdline ["prog".toList, "--a.b=-x.y".toList] []
      = ({ json := Json.object [("a".toList, Json.object [("b".toList,
            Json.string "-x.y".toList)])], args := [] }, [])
    ∧ parse_cmdline ["prog".toList, "--n=".toList] []
      = ({ json := Json.object [("n".toList, Json.string [])], args := [] }, [])
    ∧ parse_cmdline ["prog".toList, "--n=1".toList, "--n=--m".toList] []
      = ({ json := Json.object [("n".toList,
            Json.array [Json.string "1".toList, Json.string "--m".toList])], args := [] }, []) :=
  ⟨rfl, rfl, rfl⟩

/-! ### The loop over the characters of a short form -/

theorem parse_short_names_append (l1 l2 : List Char) (st : ParseState) :
    parse_short_names (l1 ++ l2) st = parse_short_names l2 (parse_short_names l1 st) := by
  induction l1 generalizing st with
  | nil => rfl
  | cons c cs ih => simp only [List.cons_append, parse_short_names]; exact ih _

theorem parse_short_names_fields (names : List Char) (st : ParseState) :
    (parse_short_names names st).args = st.args
    ∧ (parse_short_names names st).errors = st.errors
    ∧ (parse_short_names names st).current_param
        = (match names.getLast? with
            | some c => some [[c]]
            | none => st.current_param) := by
  induction names generalizing st with
  | nil => exact ⟨rfl, rfl, rfl⟩
  | cons c cs ih =>
    simp only [parse_short_names]
    obtain ⟨h1, h2, h3⟩ := ih
      { st with obj := st.obj.set [c] (Json.number NO_VALUE), current_param := some [[c]] }
    refine ⟨h1, h2, ?_⟩
    rw [h3]
    cases cs with
    | nil => rfl
    | cons d ds =>
      rw [List.getLast?_cons_cons, List.getLast?_eq_getLast (d :: ds) (by simp)]

theorem parse_short_names_get (names : List Char) (st : ParseState)
    (hroot : st.obj.is_object = true ∨ st.obj = Json.null) (k : Str) :
    ((parse_short_names names st).obj.is_object = true
      ∨ (parse_short_names names st).obj = Json.null)
    ∧ (parse_short_names names st).obj.get k
        = if k ∈ names.map (fun c => [c]) then some (Json.number NO_VALUE) else st.obj.get k := by
  induction names generalizing st with
  | nil => exact ⟨hroot, by simp [parse_short_names]⟩
  | cons c cs ih =>
    simp only [parse_short_names]
    obtain ⟨h1, h2⟩ := ih
      { st with obj := st.obj.set [c] (Json.number NO_VALUE), current_param := some [[c]] }
      (Or.inl (set_is_object _ _ _ hroot))
    refine ⟨h1, ?_⟩
    rw [h2]
    simp only [List.map_cons, List.mem_cons]
    by_cases hk : k ∈ cs.map (fun c => [c])
    · simp [hk]
    · simp only [hk, if_false, or_false]
      rw [get_set _ _ _ _ hroot]
      by_cases e : [c] = k
      · simp [e]
      · have e' : ¬ k = [c] := fun h => e h.symm
        simp [e, e']

/-! ### C14: an assignment sign in a short form -/

/-- C14, as stated, fails: the argument `-c=v` records the three keys `c`, `=` and
`v` without value, the last of them pending, and no literal `v` for the key `c`;
`--c=v` records the literal. -/
theorem C14_short_form_counterexample :
    (["-c=v".toList].foldl parse_arg
        { obj := Json.null, args := [], current_param := none, errors := [] })
      = { obj := Json.object [("=".toList, Json.number NO_VALUE),
            ("c".toList, Json.number NO_VALUE), ("v".toList, Json.number NO_VALUE)]
          args := [], current_param := some ["v".toList], errors := [] }
    ∧ (["--c=v".toList].foldl parse_arg
        { obj := Json.null, args := [], current_param := none, errors := [] })
      = { obj := Json.object [("c".toList, Json.string "v".toList)]
          args := [], current_param := none, errors := [] } :=
  ⟨rfl, rfl⟩

/-! ### C15: concatenated short names -/

theorem parse_arg_short (st : ParseState) (names : List Char)
    (h : names.head? ≠ some '-') : parse_arg st ('-' :: names) = parse_short_names names st := by
  unfold parse_arg
  split
  · rename_i name heq
    simp only [List.cons.injEq, true_and] at heq
    rw [heq] at h
    simp at h
  · rename_i names1 _ heq
    simp only [List.cons.injEq, true_and] at heq
    rw [← heq]
  · rename_i h1 h2
    exact absurd rfl (h2 names)

theorem foldl_parse_arg_short (cs : List Char) (h : ∀ c ∈ cs, c ≠ '-') (st : ParseState) :
    (cs.map (fun c => ['-', c])).foldl parse_arg st = parse_short_names cs st := by
  induction cs generalizing st with
  | nil => rfl
  | cons c cs ih =>
    simp only [List.map_cons, List.foldl_cons]
    rw [parse_arg_short st [c] (by simpa using h c (List.mem_cons_self _ _)),
      ih (fun d hd => h d (List.mem_cons_of_mem _ hd))]
    rfl

/-- C15: for characters `c1`, ..., `cn` none of which is the dash and for every
argument list around it, the one argument `-c1...cn` and the `n` arguments `-c1`,
..., `-cn` lead the loop of `parse_cmdline` from every state to the same state
(tree, token list, diagnostics and pending parameter), so `parse_cmdline` returns
the same result for both command lines. -/
theorem C15_concatenated_short_names (cs : List Char) (argv0 : Str) (before after : List Str)
    (st : ParseState) (errors : List Str) (h : ∀ c ∈ cs, c ≠ '-') (hne : cs ≠ []) :
    (before ++ ['-' :: cs] ++ after).foldl parse_arg st
      = (before ++ cs.map (fun c => ['-', c]) ++ after).foldl parse_arg st
    ∧ parse_cmdline (argv0 :: (before ++ ['-' :: cs] ++ after)) errors
      = parse_cmdline (argv0 :: (before ++ cs.map (fun c => ['-', c]) ++ after)) errors := by
  have key : ∀ s : ParseState, (before ++ ['-' :: cs] ++ after).foldl parse_arg s
      = (before ++ cs.map (fun c => ['-', c]) ++ after).foldl parse_arg s := by
    intro s
    simp only [List.foldl_append, List.foldl_cons, List.foldl_nil]
    rw [foldl_parse_arg_short cs h, parse_arg_short _ cs]
    cases cs with
    | nil => exact absurd rfl hne
    | cons c _ => simpa using h c (List.mem_cons_self _ _)
  refine ⟨key st, ?_⟩
  simp only [parse_cmdline, List.drop_succ_cons, List.drop_zero]
  rw [key]

/-- C15 at the command lines `prog in -xyz out` and `prog in -x -y -z out`. -/
theorem C15_concatenated_short_names_witness :
    parse_cmdline ["prog".toList, "in".toList, "-xyz".toList, "out".toList] []
      = parse_cmdline ["prog".toList, "in".toList, "-x".toList, "-y".toList, "-z".toList,
          "out".toList] [] :=
  (C15_concatenated_short_names "xyz".toList "prog".toList ["in".toList] ["out".toList]
    { obj := Json.null, args := [], current_param := none, errors := [] } []
    (by decide) (by decide)).2

/-! ### The key of a member and what the loop body does with it -/

theorem match_list_items_key (x : ConfigObject) (context k1 k2 : Str) (items : List Json) :
    ∀ (index : Nat) (list : Json) (args : List (Option Str)) (e1 e2 : List Str),
      e1.length = e2.length →
      (match_list_items x context k1 items index list args e1).map
          (fun r => (r.1, r.2.1, r.2.2.length))
        = (match_list_items x context k2 items index list args e2).map
          (fun r => (r.1, r.2.1, r.2.2.length)) := by
  induction items with
  | nil => intro index list args e1 e2 h; simp [match_list_items, h]
  | cons item rest ih =>
    intro index list args e1 e2 h
    cases item with
    | string s => simp only [match_list_items]; exact ih _ _ _ _ _ h
    | number i =>
      simp only [match_list_items]
      split
      · rfl
      · split
        · exact ih _ _ _ _ _ h
        · rfl
    | null => simp only [match_list_items]; exact ih _ _ _ _ _ (by simp [h])
    | boolean b => simp only [match_list_items]; exact ih _ _ _ _ _ (by simp [h])
    | array xs => simp only [match_list_items]; exact ih _ _ _ _ _ (by simp [h])
    | object kvs => simp only [match_list_items]; exact ih _ _ _ _ _ (by simp [h])

theorem match_item_key (x : ConfigObject) (k1 k2 : Str) (p : ConfigParam)
    (h1 : find_param x k1 = some p) (h2 : find_param x k2 = some p)
    (v : Json) (ign : Bool) (context : Str) (sub : Option MatchResult) (st : MatchState) :
    (match_item x k1 v ign context sub st).map
        (fun r => (r.1.matched, r.1.args, r.1.errors.length, r.2, r.1.matched_keys.length))
      = (match_item x k2 v ign context sub st).map
        (fun r => (r.1.matched, r.1.args, r.1.errors.length, r.2, r.1.matched_keys.length)) := by
  by_cases hl : p.is_list = true
  · cases v with
    | array items =>
      rw [match_item_value_list _ _ _ _ _ _ _ _ h1 hl,
        match_item_value_list _ _ _ _ _ _ _ _ h2 hl]
      have := match_list_items_key x context k1 k2 items 0 Json.null st.args st.errors st.errors
        rfl
      cases hr1 : match_list_items x context k1 items 0 Json.null st.args st.errors <;>
        cases hr2 : match_list_items x context k2 items 0 Json.null st.args st.errors <;>
        simp [hr1, hr2] at this ⊢
      exact ⟨by rw [this.1], this.2⟩
    | null => cases p <;> simp [ConfigParam.is_list] at hl <;>
        simp [match_item, h1, h2, Json.is_array, ConfigParam.is_flag, Json.is_string]
    | boolean b => cases p <;> simp [ConfigParam.is_list] at hl <;>
        simp [match_item, h1, h2, Json.is_array, ConfigParam.is_flag, Json.is_string]
    | number i =>
      cases p <;> simp [ConfigParam.is_list] at hl
      simp only [match_item, h1, h2, Json.is_array, ConfigParam.is_flag]
      repeat' split
      all_goals simp_all
    | string s => cases p <;> simp [ConfigParam.is_list] at hl <;>
        simp [match_item, h1, h2, Json.is_array, ConfigParam.is_flag, Json.is_string]
    | object kvs => cases p <;> simp [ConfigParam.is_list] at hl <;>
        simp [match_item, h1, h2, Json.is_array, ConfigParam.is_flag, Json.is_string]
  · have hl' : p.is_list = false := by simpa using hl
    cases p <;> simp [ConfigParam.is_list] at hl' <;>
      simp only [match_item, h1, h2, ConfigParam.is_list, ConfigParam.is_flag] <;>
      repeat' split
    all_goals first
      | rfl
      | (simp only [Option.map_some', Option.map_none', List.length_append,
          List.length_singleton]; done)
      | (exfalso; simp only [Json.is_array, Json.is_string, Json.is_object, Json.get_int,
          Bool.and_true, Bool.and_false, Bool.not_false, Bool.not_true, Bool.false_eq_true,
          not_true_eq_false, not_false_eq_true, ne_eq, reduceCtorEq] at *)

theorem parse_cmdline_short_bare (argv0 t : Str) (c : Char) (hc : c ≠ '-')
    (ht : t.head? ≠ some '-') :
    (parse_cmdline [argv0, ['-', c], t] []).1
      = { json := Json.object [([c], Json.number 0)], args := [some t] } := by
  simp only [parse_cmdline, List.drop_succ_cons, List.drop_zero, List.foldl_cons, List.foldl_nil]
  rw [parse_arg_short _ [c] (by simpa using hc), parse_arg_bare _ t ht]
  simp [parse_short_names, parse_value, Json.contains, Json.set, Json.get_path, Json.get,
    kv_find, Json.modify_path, set_or_make_list, Json.is_null, Json.is_number, Json.get_int,
    to_int, NO_VALUE, kv_insert, kv_replace, kv_insert_new, Json.is_object]

/-! ### C16: resolution by short name -/

/-- C16: let `c` be a character that is no declared long name but the short name
of the declared parameter `p`. Then the key `c` resolves to `p`, as the key
`p.name()` does, and the loop body of `match_config` does for the key `c` what it
does for the key `p.name()`: the same BoundConfiguration (entries are made under
`p.name()`), the same token list, the same value left in the tree, as many
diagnostics and as many keys to erase; the key noted for erasure is `c` itself.
For the command line `-c t` with a bare token `t`, a flag `p` is bound to `true`
under its long name and a valued parameter `p` to the text of `t` (which is
consumed), and the key `c` is erased from the tree. -/
theorem C16_short_name_resolution (x : ConfigObject) (c : Char) (p : ConfigParam)
    (hn : x.get_param [c] = none) (hs : x.get_param_short c = some p) :
    find_param x [c] = some p ∧ find_param x p.name = some p
    ∧ (∀ (v : Json) (ign : Bool) (context : Str) (sub : Option MatchResult) (st : MatchState),
        (match_item x [c] v ign context sub st).map
            (fun r => (r.1.matched, r.1.args, r.1.errors.length, r.2, r.1.matched_keys.length))
          = (match_item x p.name v ign context sub st).map
            (fun r => (r.1.matched, r.1.args, r.1.errors.length, r.2, r.1.matched_keys.length))
        ∧ ∀ st1 v1, match_item x [c] v ign context sub st = some (st1, v1) →
            st1.matched_keys = st.matched_keys ∨ st1.matched_keys = st.matched_keys ++ [[c]])
    ∧ (∀ (argv0 t : Str) (ign : Bool) (context : Str) (errors : List Str),
        c ≠ '-' → t.head? ≠ some '-' →
        (p.is_flag = true →
          match_config x (parse_cmdline [argv0, ['-', c], t] []).1.json
              (parse_cmdline [argv0, ['-', c], t] []).1.args ign context errors
            = some { matched := Json.object [(p.name, Json.boolean true)]
                     config := Json.object [], args := [some t], errors := errors })
        ∧ (p.is_flag = false → p.is_object = false →
          match_config x (parse_cmdline [argv0, ['-', c], t] []).1.json
              (parse_cmdline [argv0, ['-', c], t] []).1.args ign context errors
            = some { matched := Json.object [(p.name, Json.string t)]
                     config := Json.object [], args := [none], errors := errors })) := by
  have hf1 : find_param x [c] = some p := by simp [find_param, hn, hs]
  have hf2 : find_param x p.name = some p := by
    simp [find_param, get_param_short_name_known x c p hs]
  refine ⟨hf1, hf2, ?_, ?_⟩
  · intro v ign context sub st
    refine ⟨match_item_key x [c] p.name p hf1 hf2 v ign context sub st, ?_⟩
    intro st1 v1 h
    rcases match_item_keys _ _ _ _ _ _ _ _ _ h with ⟨_, h2, _⟩ | ⟨_, _, _, _, h3⟩
    · exact Or.inl h2
    · exact Or.inr h3
  · intro argv0 t ign context errors hc ht
    rw [parse_cmdline_short_bare argv0 t c hc ht]
    refine ⟨?_, ?_⟩
    · intro hf
      cases p <;> simp [ConfigParam.is_flag] at hf
      simp [match_config, match_object_items, nested_object, match_item, hf1, Json.is_array,
        ConfigParam.is_flag, Json.is_string, Json.set, kv_erase]
    · intro hf ho
      cases p <;> simp [ConfigParam.is_flag, ConfigParam.is_object] at hf ho <;>
      simp [match_config, match_object_items, nested_object, match_item, hf1, Json.is_array,
        ConfigParam.is_flag, Json.is_string, Json.set, kv_erase, Json.get_int, to_int, NO_VALUE,
        args_at, Option.join]

/-- C16 at the class `Addition` of examples/add.cpp and the command line `add -a 3`:
the value is bound under the long name `first`. -/
theorem C16_short_name_resolution_witness :
    match_config example_Addition (parse_cmdline ["add".toList, "-a".toList, "3".toList] []).1.json
        (parse_cmdline ["add".toList, "-a".toList, "3".toList] []).1.args false [] []
      = some { matched := Json.object [("first".toList, Json.string "3".toList)]
               config := Json.object [], args := [none], errors := [] } :=
  ((C16_short_name_resolution example_Addition 'a'
      (ConfigParam.IntParam 'a' "first".toList "The first summand.".toList 0 0) rfl rfl).2.2.2
    "add".toList "3".toList false [] [] (by decide) (by decide)).2 rfl rfl

/-- The command line `add -a 3 -b 4` of examples/add.cpp, evaluated: both summands
are set through their short names. -/
theorem application_add_short_names :
    (Application.new example_Addition ["add".toList, "-a".toList, "3".toList, "-b".toList,
        "4".toList]).map (fun run => (run.app, run.x, run.cerr))
      = some ({ good_ := true, args_ := [], help_ := false, binary_ := "add".toList },
          ConfigObject.mk "Addition".toList "Adds two numbers and prints the result".toList
            [ConfigParam.IntParam 'a' "first".toList "The first summand.".toList 3 0,
             ConfigParam.IntParam 'b' "second".toList "The second summand.".toList 4 0]
            [('a', "first".toList), ('b', "second".toList)],
          []) := rfl

/-! ### References to earlier tokens are not created later -/

theorem isdigit_not_isspace (c : Char) (h : isdigit c = true) : isspace c = false := by
  simp only [isdigit, Bool.and_eq_true, decide_eq_true_eq] at h
  simp only [isspace, Bool.or_eq_false_iff, decide_eq_false_iff_not, Bool.and_eq_false_imp,
    decide_eq_true_eq]
  omega

theorem takeWhile_append_of_all {α : Type} (p : α → Bool) (l r : List α)
    (h : ∀ a ∈ l, p a = true) : (l ++ r).takeWhile p = l ++ r.takeWhile p := by
  induction l with
  | nil => rfl
  | cons a l ih =>
    simp only [List.cons_append, List.takeWhile_cons, h a (List.mem_cons_self _ _), if_true]
    rw [ih (fun b hb => h b (List.mem_cons_of_mem _ hb))]

theorem dropWhile_append_of_all {α : Type} (p : α → Bool) (l r : List α)
    (h : ∀ a ∈ l, p a = true) : (l ++ r).dropWhile p = r.dropWhile p := by
  induction l with
  | nil => rfl
  | cons a l ih =>
    simp only [List.cons_append, List.dropWhile_cons, h a (List.mem_cons_self _ _), if_true]
    exact ih (fun b hb => h b (List.mem_cons_of_mem _ hb))

theorem scan_integer_digits (ds rest : Str) (hne : ds ≠ []) (hd : ∀ c ∈ ds, isdigit c = true)
    (hr : rest.head?.all (fun c => !isdigit c) = true) :
    scan_integer (ds ++ rest) = some (false, digits_value ds, rest) := by
  cases ds with
  | nil => exact absurd rfl hne
  | cons d ds =>
    have hd0 := hd d (List.mem_cons_self _ _)
    have hsp : isspace d = false := isdigit_not_isspace d hd0
    have hm : d ≠ '-' := by
      intro e
      rw [e] at hd0
      exact absurd hd0 (by decide)
    have hp : d ≠ '+' := by
      intro e
      rw [e] at hd0
      exact absurd hd0 (by decide)
    have htw : rest.takeWhile isdigit = [] := by
      cases rest with
      | nil => rfl
      | cons c cs =>
        simp only [List.head?_cons, Option.all_some, Bool.not_eq_true'] at hr
        simp [List.takeWhile_cons, hr]
    have hdw : rest.dropWhile isdigit = rest := by
      cases rest with
      | nil => rfl
      | cons c cs =>
        simp only [List.head?_cons, Option.all_some, Bool.not_eq_true'] at hr
        simp [List.dropWhile_cons, hr]
    have h1 : ((d :: ds) ++ rest).dropWhile isspace = (d :: ds) ++ rest := by
      simp [List.dropWhile_cons, hsp]
    unfold scan_integer
    simp only [h1]
    split
    · rename_i hemp
      exfalso
      split at hemp
      · rename_i heq
        simp only [List.cons_append, List.cons.injEq] at heq
        exact hm heq.1
      · rename_i heq
        simp only [List.cons_append, List.cons.injEq] at heq
        exact hp heq.1
      · simp [List.takeWhile_cons, hd0] at hemp
    · split
      · rename_i heq
        simp only [List.cons_append, List.cons.injEq] at heq
        exact absurd heq.1 hm
      · rename_i heq
        simp only [List.cons_append, List.cons.injEq] at heq
        exact absurd heq.1 hp
      · simp only [takeWhile_append_of_all isdigit (d :: ds) rest hd, htw, List.append_nil,
          dropWhile_append_of_all isdigit (d :: ds) rest hd, hdw]

theorem strtoull_digits (ds rest : Str) (hne : ds ≠ []) (hd : ∀ c ∈ ds, isdigit c = true)
    (hr : rest.head?.all (fun c => !isdigit c) = true)
    (hfit : digits_value ds < 18446744073709551616) :
    strtoull (ds ++ rest) = (digits_value ds, rest) := by
  unfold strtoull
  rw [scan_integer_digits ds rest hne hd hr]
  simp only [Bool.false_eq_true, if_false]
  rw [if_neg (by omega)]

/-! ### C18: byte sizes with a unit -/

/-- C18: for every decimal numeral `ds` (a non-empty run of digits) whose value `n`
fits in 64 bits and every unit letter `u` among K, M, G, T, P in either case, of
power `k` = 1, ..., 5, `parse_si_iec_string` accepts `ds u` with the value
`n * 1000^k` modulo `2^64`, and accepts `ds u i` and `ds u I` with the value
`n * 1024^k` modulo `2^64`. -/
theorem C18_byte_size_units (ds : Str) (u : Char) (k : Nat)
    (hne : ds ≠ []) (hd : ∀ c ∈ ds, isdigit c = true)
    (hfit : digits_value ds < 18446744073709551616)
    (hu : (u, k) ∈ [('K', 1), ('M', 2), ('G', 3), ('T', 4), ('P', 5),
      ('k', 1), ('m', 2), ('g', 3), ('t', 4), ('p', 5)]) :
    parse_si_iec_string (ds ++ [u])
      = (true, digits_value ds * 1000 ^ k % 18446744073709551616)
    ∧ parse_si_iec_string (ds ++ [u, 'i'])
      = (true, digits_value ds * 1024 ^ k % 18446744073709551616)
    ∧ parse_si_iec_string (ds ++ [u, 'I'])
      = (true, digits_value ds * 1024 ^ k % 18446744073709551616) := by
  have key : ∀ rest : Str, rest.head?.all (fun c => !isdigit c) = true →
      parse_si_iec_string (ds ++ rest) =
        ((let p1 := rest.dropWhile (fun c => c = ' ')
          let power : Nat :=
            if toupper (peek p1) = 'K' then 1
            else if toupper (peek p1) = 'M' then 2
            else if toupper (peek p1) = 'G' then 3
            else if toupper (peek p1) = 'T' then 4
            else if toupper (peek p1) = 'P' then 5
            else 0
          let p2 := if power ≠ 0 then p1.drop 1 else p1
          let iec : Bool := power ≠ 0 && toupper (peek p2) = 'I'
          let base : Nat := if iec then 1024 else 1000
          let p3 := if iec then p2.drop 1 else p2
          let out_v := (digits_value ds * base ^ power) % 18446744073709551616
          let p4 := if power = 0 && toupper (peek p3) = 'B' then p3.drop 1 else p3
          let p5 := p4.dropWhile (fun c => c = ' ')
          (p5.isEmpty, out_v)) : Bool × Nat) := by
    intro rest hr
    unfold parse_si_iec_string
    rw [strtoull_digits ds rest hne hd hr hfit]
  simp only [List.mem_cons, Prod.mk.injEq, List.mem_singleton, List.not_mem_nil, or_false] at hu
  rcases hu with h | h | h | h | h | h | h | h | h | h <;> obtain ⟨rfl, rfl⟩ := h <;>
    (refine ⟨?_, ?_, ?_⟩ <;> rw [key] <;> rfl)

/-- C18 at the strings of the documentation: `1Ki` gives 1024, `10K` gives 10000
and `10Ki` gives 10240. -/
theorem C18_byte_size_units_witness :
    parse_si_iec_string "1Ki".toList = (true, 1024)
    ∧ parse_si_iec_string "10K".toList = (true, 10000)
    ∧ parse_si_iec_string "10Ki".toList = (true, 10240) :=
  ⟨(C18_byte_size_units "1".toList 'K' 1 (by decide) (by decide) (by decide) (by decide)).2.1,
   (C18_byte_size_units "10".toList 'K' 1 (by decide) (by decide) (by decide) (by decide)).1,
   (C18_byte_size_units "10".toList 'K' 1 (by decide) (by decide) (by decide) (by decide)).2.1⟩

/-! ### C19: the string values of a flag -/

/-- C19 on the code: `FlagParam::configure` with the string value `s` sets the flag
to `string_contains_true s`, which compares without regard to case with `1`, `on`
and `true`. So the strings `on` and `TRUE`, which differ from `true` and `1`, set
the flag to true; `true` and `1` set it to true and `0`, `off`, `yes` and the empty
string set it to false. -/
theorem C19_flag_accepts_on :
    (∀ (c : Char) (n d s : Str) (ref dv : Bool),
      ConfigParam.configure (Json.object [(n, Json.string s)])
          (ConfigParam.FlagParam c n d ref dv)
        = (ConfigParam.FlagParam c n d (string_contains_true s) dv, true))
    ∧ string_contains_true "on".toList = true
    ∧ string_contains_true "TRUE".toList = true
    ∧ string_contains_true "On".toList = true
    ∧ string_contains_true "true".toList = true
    ∧ string_contains_true "1".toList = true
    ∧ string_contains_true "0".toList = false
    ∧ string_contains_true "off".toList = false
    ∧ string_contains_true "yes".toList = false
    ∧ string_contains_true [] = false
    ∧ (Application.new example_Test ["prog".toList, "--bool=on".toList]).map
        (fun run => (run.app.good_, run.x.get_param "bool".toList))
      = some (true, some (ConfigParam.FlagParam (Char.ofNat 0) "bool".toList [] true false)) := by
  refine ⟨?_, by decide, by decide, by decide, by decide, by decide, by decide, by decide,
    by decide, by decide, rfl⟩
  intro c n d s ref dv
  simp [ConfigParam.configure, Json.contains, Json.get, kv_find]

/-! ### Keys in the order of the map -/

theorem str_lt_irrefl (a : Str) : str_lt a a = false := by
  induction a with
  | nil => rfl
  | cons c cs ih => simp [str_lt, ih]

theorem str_lt_asymm (a b : Str) (h : str_lt a b = true) : str_lt b a = false := by
  induction a generalizing b with
  | nil => cases b <;> simp [str_lt] at h ⊢
  | cons c cs ih =>
    cases b with
    | nil => simp [str_lt] at h
    | cons d ds =>
      simp only [str_lt] at h ⊢
      by_cases h1 : c.toNat < d.toNat
      · have h2 : ¬ d.toNat < c.toNat := by omega
        simp [h1, h2]
      · by_cases h2 : d.toNat < c.toNat
        · simp [h1, h2] at h
        · simp only [h1, h2, if_false] at h ⊢
          exact ih ds h

theorem kv_insert_last {β : Type} (k : Str) (v : β) (m : List (Str × β))
    (h : ∀ kv ∈ m, str_lt kv.1 k = true) : kv_insert k v m = m ++ [(k, v)] := by
  have hfind : kv_find k m = none := by
    induction m with
    | nil => rfl
    | cons kv rest ih =>
      obtain ⟨k1, v1⟩ := kv
      have h1 := h (k1, v1) (List.mem_cons_self _ _)
      have hne : k1 ≠ k := by
        intro e
        rw [e, str_lt_irrefl] at h1
        exact absurd h1 (by simp)
      simp only [kv_find, hne, if_false]
      exact ih (fun kv hkv => h kv (List.mem_cons_of_mem _ hkv))
  have hnew : kv_insert_new k v m = m ++ [(k, v)] := by
    induction m with
    | nil => rfl
    | cons kv rest ih =>
      obtain ⟨k1, v1⟩ := kv
      have h1 := str_lt_asymm _ _ (h (k1, v1) (List.mem_cons_self _ _))
      simp only [kv_insert_new, h1, Bool.false_eq_true, if_false, List.cons_append]
      rw [ih (fun kv hkv => h kv (List.mem_cons_of_mem _ hkv))
        (by
          have := hfind
          obtain hne : k1 ≠ k := by
            intro e
            have h2 := h (k1, v1) (List.mem_cons_self _ _)
            rw [e, str_lt_irrefl] at h2
            exact absurd h2 (by simp)
          simpa [kv_find, hne] using this)]
  simp [kv_insert, hfind, hnew]

theorem keys_sorted_append (a : List Str) (k : Str) (b : List Str)
    (h : keys_sorted (a ++ k :: b) = true) : ∀ x ∈ a, str_lt x k = true := by
  induction a with
  | nil => intro x hx; simp at hx
  | cons y ys ih =>
    simp only [List.cons_append, keys_sorted, Bool.and_eq_true, List.all_eq_true] at h
    intro x hx
    rcases List.mem_cons.mp hx with e | e
    · rw [e]
      exact h.1 k (by simp)
    · exact ih h.2 x e

theorem set_last (j : Json) (done : List (Str × Json)) (k : Str) (v : Json)
    (hj : j = Json.object done ∨ (done = [] ∧ j = Json.null))
    (h : ∀ kv ∈ done, str_lt kv.1 k = true) :
    j.set k v = Json.object (done ++ [(k, v)]) := by
  rcases hj with rfl | ⟨rfl, rfl⟩
  · simp only [Json.set]
    rw [kv_insert_last k v done h]
  · rfl

/-! ### Lists of strings -/

theorem match_list_items_strings (x : ConfigObject) (context key : Str) (items : List Json)
    (h : items.all Json.is_string = true) :
    ∀ (index : Nat) (acc : List Json) (list : Json) (args : List (Option Str))
      (errors : List Str),
      (list = Json.array acc ∨ (acc = [] ∧ list = Json.null)) →
      ∃ list1, match_list_items x context key items index list args errors
          = some (list1, args, errors)
        ∧ (list1 = Json.array (acc ++ items) ∨ (acc ++ items = [] ∧ list1 = Json.null)) := by
  induction items with
  | nil =>
    intro index acc list args errors hl
    exact ⟨list, rfl, by simpa using hl⟩
  | cons item rest ih =>
    intro index acc list args errors hl
    simp only [List.all_cons, Bool.and_eq_true] at h
    obtain ⟨h0, hr⟩ := h
    cases item <;> simp [Json.is_string] at h0
    rename_i s
    simp only [match_list_items]
    obtain ⟨list1, h1, h2⟩ := ih hr (index + 1) (acc ++ [Json.string s])
      (list.push_back (Json.string s)) args errors
      (Or.inl (by
        rcases hl with rfl | ⟨rfl, rfl⟩
        · rfl
        · rfl))
    refine ⟨list1, h1, ?_⟩
    simpa using h2

/-! ### Matching a configuration in interchange form -/

theorem match_object_items_shape (x : ConfigObject) (ign : Bool) (context : Str)
    (items : List (Str × Json)) :
    (∀ kv ∈ items, ∀ (o : ConfigObject) (args : List (Option Str)) (ign : Bool)
        (context : Str) (errors : List Str), Json.shape_ok o kv.2 = true →
        match_config o kv.2 args ign context errors
          = some { matched := kv.2, config := Json.object [], args := args, errors := errors }) →
    ∀ (done : List (Str × Json)) (st : MatchState),
      keys_sorted ((done ++ items).map Prod.fst) = true →
      shape_members x items = true →
      (st.matched = Json.object done ∨ (done = [] ∧ st.matched = Json.null)) →
      ∃ st1 items1, match_object_items x items ign context st = some (st1, items1)
        ∧ (st1.matched = Json.object (done ++ items)
            ∨ (done ++ items = [] ∧ st1.matched = Json.null))
        ∧ st1.matched_keys = st.matched_keys ++ items.map Prod.fst
        ∧ st1.args = st.args ∧ st1.errors = st.errors
        ∧ items1.map Prod.fst = items.map Prod.fst := by
  induction items with
  | nil =>
    intro _ done st _ _ hm
    exact ⟨st, [], match_object_items_nil _ _ _ _, by simpa using hm, by simp, rfl, rfl, rfl⟩
  | cons kv rest ih =>
    obtain ⟨k, v⟩ := kv
    intro hP done st hs hsh hm
    have hlt : ∀ kv ∈ done, str_lt kv.1 k = true := by
      intro kv hkv
      exact keys_sorted_append (done.map Prod.fst) k (rest.map Prod.fst)
        (by simpa using hs) kv.1 (List.mem_map_of_mem _ hkv)
    simp only [shape_members, Bool.and_eq_true] at hsh
    obtain ⟨hv, hrest⟩ := hsh
    -- the iteration for the head binds the value as it is
    have head : ∃ st1 v1, match_item x k v ign context
          (object_sub x k v st.args ign context st.errors) st = some (st1, v1)
        ∧ st1.matched = Json.object (done ++ [(k, v)])
        ∧ st1.matched_keys = st.matched_keys ++ [k]
        ∧ st1.args = st.args ∧ st1.errors = st.errors := by
      cases hp : x.get_param k with
      | none => rw [hp] at hv; simp at hv
      | some p =>
        rw [hp] at hv
        have hname := get_param_name x k p hp
        have hfind : find_param x k = some p := by simp [find_param, hp]
        cases p with
        | FlagParam c n d ref dv =>
          cases v <;> simp at hv
          subst hv
          rw [match_item_flag x k (Json.boolean true) ign context _ st _ hfind rfl rfl]
          refine ⟨_, _, rfl, ?_, rfl, rfl, rfl⟩
          simp only [Json.is_string, Bool.false_eq_true, if_false, hname]
          exact set_last _ done k _ hm hlt
        | StringListParam c n d ref dv =>
          cases v <;> simp at hv
          rename_i its
          obtain ⟨hne, hall⟩ := hv
          obtain ⟨list1, h1, h2⟩ := match_list_items_strings x context k its
            (by simpa using hall) 0 [] Json.null st.args st.errors (Or.inr ⟨rfl, rfl⟩)
          rw [match_item_value_list _ _ _ _ _ _ _ _ hfind rfl, h1]
          have hl : list1 = Json.array its := by
            rcases h2 with h2 | ⟨h2, _⟩
            · simpa using h2
            · exact absurd (by simpa using h2) hne
          refine ⟨_, _, rfl, ?_, rfl, rfl, rfl⟩
          simp only [hname, hl]
          exact set_last _ done k _ hm hlt
        | NestedParam c n d o =>
          simp only at hv
          have hsub := hP (k, v) (List.mem_cons_self _ _) o st.args ign
            (sub_context context k) st.errors hv
          cases v <;> simp [Json.shape_ok] at hv
          rename_i kvs
          rw [match_item_nested_object _ _ _ _ _ _ _ _ hfind rfl,
            object_sub_of _ _ _ _ _ _ _ _ (nested_object_of_get x k c n d o hp), hsub]
          refine ⟨_, _, rfl, ?_, rfl, rfl, rfl⟩
          simp only [hname]
          exact set_last _ done k _ hm hlt
        | IntParam c n d ref dv =>
          cases v <;> simp [Json.is_string] at hv
          rw [match_item_value_string _ _ _ _ _ _ _ _ hfind rfl rfl]
          exact ⟨_, _, rfl, by simp only [hname]; exact set_last _ done k _ hm hlt, rfl, rfl, rfl⟩
        | UIntParam c n d ref dv =>
          cases v <;> simp [Json.is_string] at hv
          rw [match_item_value_string _ _ _ _ _ _ _ _ hfind rfl rfl]
          exact ⟨_, _, rfl, by simp only [hname]; exact set_last _ done k _ hm hlt, rfl, rfl, rfl⟩
        | BytesParam c n d ref dv =>
          cases v <;> simp [Json.is_string] at hv
          rw [match_item_value_string _ _ _ _ _ _ _ _ hfind rfl rfl]
          exact ⟨_, _, rfl, by simp only [hname]; exact set_last _ done k _ hm hlt, rfl, rfl, rfl⟩
        | StringParam c n d ref dv =>
          cases v <;> simp [Json.is_string] at hv
          rw [match_item_value_string _ _ _ _ _ _ _ _ hfind rfl rfl]
          exact ⟨_, _, rfl, by simp only [hname]; exact set_last _ done k _ hm hlt, rfl, rfl, rfl⟩
    obtain ⟨st1, v1, h1, h2, h3, h4, h5⟩ := head
    obtain ⟨st2, rest1, g1, g2, g3, g4, g5, g6⟩ := ih
      (fun kv hkv => hP kv (List.mem_cons_of_mem _ hkv)) (done ++ [(k, v)]) st1
      (by simpa using hs) hrest (Or.inl h2)
    refine ⟨st2, (k, v1) :: rest1, ?_, ?_, ?_, ?_, ?_, ?_⟩
    · rw [match_object_items_cons_eq, h1]
      simp only [Option.some_bind, g1, Option.map_some']
    · rcases g2 with g2 | ⟨g2, _⟩
      · exact Or.inl (by simpa using g2)
      · simp at g2
    · rw [g3, h3]; simp
    · rw [g4, h4]
    · rw [g5, h5]
    · simp [g6]

/-! ### C20: a configuration that does not come from the command line -/

/-- C20, as stated, fails in three places: a flag with the boolean `false` is
bound to `true`, an empty list for a list parameter is bound to `null`, and for an
empty tree the BoundConfiguration is `null`, not the empty object. -/
theorem C20_interchange_counterexample :
    (match_config example_Test (Json.object [("bool".toList, Json.boolean false)]) []
        false [] []).map (fun r => (r.matched, r.config, r.errors))
      = some (Json.object [("bool".toList, Json.boolean true)], Json.object [], [])
    ∧ (match_config example_Test (Json.object [("stringlist".toList, Json.array [])]) []
        false [] []).map (fun r => (r.matched, r.config, r.errors))
      = some (Json.object [("stringlist".toList, Json.null)], Json.object [], [])
    ∧ (match_config example_Test (Json.object []) [] false [] []).map
        (fun r => (r.matched, r.config, r.errors))
      = some (Json.null, Json.object [], []) :=
  ⟨rfl, rfl, rfl⟩

/-- C20, amended: for every registry `x` and every tree in interchange form for it
(a non-empty object with its keys in order, every key a declared long name, a flag
with the value `true`, a scalar with a string, a list parameter with a non-empty
list of strings, an object parameter with a tree in interchange form for its
object), `match_config` returns a BoundConfiguration equal to the tree, appends
no diagnostic, leaves the token list as it is and leaves the tree empty. -/
theorem C20_interchange_form (tree : Json) :
    ∀ (x : ConfigObject) (args : List (Option Str)) (ignore_unknown_params : Bool)
      (context : Str) (errors : List Str),
      Json.shape_ok x tree = true →
      match_config x tree args ignore_unknown_params context errors
        = some { matched := tree, config := Json.object [], args := args, errors := errors } := by
  induction tree using Json.induction with
  | hnull => intro x _ _ _ _ h; simp [Json.shape_ok] at h
  | hbool b => intro x _ _ _ _ h; simp [Json.shape_ok] at h
  | hnum i => intro x _ _ _ _ h; simp [Json.shape_ok] at h
  | hstr s => intro x _ _ _ _ h; simp [Json.shape_ok] at h
  | harr xs _ => intro x _ _ _ _ h; simp [Json.shape_ok] at h
  | hobj kvs ih =>
    intro x args ign context errors h
    simp only [Json.shape_ok, Bool.and_eq_true, Bool.not_eq_true', List.isEmpty_eq_false] at h
    obtain ⟨⟨hne, hs⟩, hm⟩ := h
    obtain ⟨st1, items1, h1, h2, h3, h4, h5, h6⟩ := match_object_items_shape x ign context kvs
      ih [] { matched := Json.null, matched_keys := [], args := args, errors := errors }
      (by simpa using hs) hm (Or.inr ⟨rfl, rfl⟩)
    rw [match_config_object_eq, h1]
    simp only [Option.map_some', List.nil_append] at h2 h3 ⊢
    have hmatched : st1.matched = Json.object kvs := by
      rcases h2 with h2 | ⟨h2, _⟩
      · exact h2
      · exact absurd h2 hne
    rw [hmatched, h3, h4, h5, ← h6, erase_all_keys]

/-- C20 (amended) at a configuration of the test object with a flag, a list and
a nested object. -/
theorem C20_interchange_form_witness :
    match_config example_Test
        (Json.object [("bool".toList, Json.boolean true),
          ("object".toList, Json.object [("x".toList, Json.boolean true)]),
          ("string".toList, Json.string "text".toList),
          ("stringlist".toList, Json.array [Json.string "X".toList, Json.string "Y".toList]),
          ("uint".toList, Json.string "5".toList)]) [] false [] []
      = some { matched := Json.object [("bool".toList, Json.boolean true),
                 ("object".toList, Json.object [("x".toList, Json.boolean true)]),
                 ("string".toList, Json.string "text".toList),
                 ("stringlist".toList,
                   Json.array [Json.string "X".toList, Json.string "Y".toList]),
                 ("uint".toList, Json.string "5".toList)]
               config := Json.object [], args := [], errors := [] } :=
  C20_interchange_form _ example_Test [] false [] [] (by decide)

/-! ### Facts about reading a configuration -/

theorem read_config_root (dst : Json) (p : ConfigParam)
    (h : dst.is_object = true ∨ dst = Json.null) :
    ((ConfigParam.read_config dst p).is_object = true ∨ ConfigParam.read_config dst p = Json.null)
    ∧ (dst.is_object = true → (ConfigParam.read_config dst p).is_object = true) := by
  cases p <;> simp only [ConfigParam.read_config]
  case NestedParam c n d o =>
    split
    · exact ⟨Or.inl (set_is_object _ _ _ h), fun _ => set_is_object _ _ _ h⟩
    · exact ⟨h, fun h1 => h1⟩
  all_goals exact ⟨Or.inl (set_is_object _ _ _ h), fun _ => set_is_object _ _ _ h⟩

theorem read_config_other (dst : Json) (p : ConfigParam) (k : Str)
    (h : dst.is_object = true ∨ dst = Json.null) (hk : p.name ≠ k) :
    (ConfigParam.read_config dst p).get k = dst.get k := by
  cases p <;> simp only [ConfigParam.read_config, ConfigParam.name] at hk ⊢
  case NestedParam c n d o =>
    split
    · rw [get_set _ _ _ _ h, if_neg hk]
    · rfl
  all_goals rw [get_set _ _ _ _ h, if_neg hk]

theorem read_config_own (dst : Json) (p : ConfigParam)
    (h : dst.is_object = true ∨ dst = Json.null) (hk : dst.get p.name = none) :
    (ConfigParam.read_config dst p).get p.name
      = (ConfigParam.read_config Json.null p).get p.name := by
  cases p <;> simp only [ConfigParam.read_config, ConfigParam.name] at hk ⊢
  case NestedParam c n d o =>
    split
    · rw [get_set _ _ _ _ h, get_set _ _ _ _ (Or.inr rfl), if_pos rfl, if_pos rfl]
    · rw [hk]; rfl
  all_goals rw [get_set _ _ _ _ h, get_set _ _ _ _ (Or.inr rfl), if_pos rfl, if_pos rfl]

theorem read_params_root (ps : List ConfigParam) (dst : Json)
    (h : dst.is_object = true ∨ dst = Json.null) :
    ((read_params dst ps).is_object = true ∨ read_params dst ps = Json.null)
    ∧ (dst.is_object = true → (read_params dst ps).is_object = true) := by
  induction ps generalizing dst with
  | nil => exact ⟨h, fun h1 => h1⟩
  | cons p ps ih =>
    simp only [read_params]
    obtain ⟨a1, a2⟩ := read_config_root dst p h
    obtain ⟨b1, b2⟩ := ih _ a1
    exact ⟨b1, fun h1 => b2 (a2 h1)⟩

theorem read_params_other (ps : List ConfigParam) (dst : Json) (k : Str)
    (h : dst.is_object = true ∨ dst = Json.null) (hk : ∀ p ∈ ps, p.name ≠ k) :
    (read_params dst ps).get k = dst.get k := by
  induction ps generalizing dst with
  | nil => rfl
  | cons p ps ih =>
    simp only [read_params]
    rw [ih _ (read_config_root dst p h).1 (fun q hq => hk q (List.mem_cons_of_mem _ hq)),
      read_config_other dst p k h (hk p (List.mem_cons_self _ _))]

theorem read_params_get (ps : List ConfigParam) (dst : Json)
    (h : dst.is_object = true ∨ dst = Json.null)
    (hn : (ps.map ConfigParam.name).Nodup) (hd : ∀ p ∈ ps, dst.get p.name = none) :
    ∀ p ∈ ps, (read_params dst ps).get p.name
      = (ConfigParam.read_config Json.null p).get p.name := by
  induction ps generalizing dst with
  | nil => intro p hp; simp at hp
  | cons q qs ih =>
    simp only [List.map_cons, List.nodup_cons] at hn
    intro p hp
    simp only [read_params]
    rcases List.mem_cons.mp hp with e | e
    · subst e
      rw [read_params_other qs _ p.name (read_config_root dst p h).1
        (fun r hr hrn => hn.1 (by rw [← hrn]; exact List.mem_map_of_mem _ hr)),
        read_config_own dst p h (hd p (List.mem_cons_self _ _))]
    · refine ih _ (read_config_root dst q h).1 hn.2 ?_ p e
      intro r hr
      rw [read_config_other dst q r.name h (fun hqn => hn.1 (by
        rw [hqn]; exact List.mem_map_of_mem _ hr))]
      exact hd r (List.mem_cons_of_mem _ hr)

theorem read_config_null (p : ConfigParam) :
    (ConfigParam.read_config Json.null p = Json.null)
      ↔ ∃ c n d o, p = ConfigParam.NestedParam c n d o ∧ o.config.is_null = true := by
  cases p <;> simp [ConfigParam.read_config, Json.set]
  case NestedParam c n d o =>
    by_cases h : o.config.is_null = true
    · simp only [h, Bool.not_true, Bool.false_eq_true, if_false, true_iff]
      exact ⟨c, n, d, o, ⟨rfl, rfl, rfl, rfl⟩, h⟩
    · simp only [h, Bool.not_false, if_true]
      simp only [Bool.not_eq_true] at h
      constructor
      · intro h1
        simp at h1
      · rintro ⟨_, _, _, _, ⟨_, _, _, rfl⟩, h2⟩
        rw [h] at h2
        simp at h2

theorem read_params_null (ps : List ConfigParam) :
    (read_params Json.null ps = Json.null)
      ↔ ∀ p ∈ ps, ∃ c n d o, p = ConfigParam.NestedParam c n d o ∧ o.config.is_null = true := by
  induction ps with
  | nil => simp [read_params]
  | cons p ps ih =>
    simp only [read_params, List.mem_cons, forall_eq_or_imp]
    by_cases hp : ConfigParam.read_config Json.null p = Json.null
    · rw [hp, ih]
      exact ⟨fun h => ⟨(read_config_null p).mp hp, h⟩, fun h => h.2⟩
    · constructor
      · intro h
        exfalso
        have h1 := (read_config_root Json.null p (Or.inr rfl)).1
        rcases h1 with h1 | h1
        · have h2 := (read_params_root ps _ (Or.inl h1)).2 h1
          rw [h] at h2
          simp [Json.is_object] at h2
        · exact hp h1
      · intro h
        exact absurd ((read_config_null p).mpr h.1) hp

theorem is_null_iff (j : Json) : j.is_null = true ↔ j = Json.null := by
  constructor
  · intro h
    cases j <;> first | rfl | exact absurd h (by simp [Json.is_null])
  · intro h
    rw [h]
    rfl

theorem kv_insert_ne_nil {β : Type} (k : Str) (v : β) (m : List (Str × β)) :
    kv_insert k v m ≠ [] := by
  cases m with
  | nil => simp [kv_insert, kv_find, kv_insert_new]
  | cons kv rest =>
    obtain ⟨k1, v1⟩ := kv
    simp only [kv_insert, kv_find, kv_replace, kv_insert_new]
    by_cases e : k1 = k
    · simp [e]
    · simp only [e, if_false]
      split
      · simp
      · split <;> simp

theorem set_not_empty (j : Json) (k : Str) (v : Json)
    (h : j.is_object = true ∨ j = Json.null) :
    (j.set k v).is_object = true ∧ (j.set k v).empty = false := by
  refine ⟨set_is_object _ _ _ h, ?_⟩
  rcases h with h | h
  · cases j <;> simp [Json.is_object] at h
    simp only [Json.set]
    have := kv_insert_ne_nil k v ‹List (Str × Json)›
    cases hm : kv_insert k v ‹List (Str × Json)› with
    | nil => exact absurd hm this
    | cons a b => rfl
  · subst h
    rfl

theorem read_config_full (dst : Json) (p : ConfigParam)
    (h : (dst.is_object = true ∧ dst.empty = false) ∨ dst = Json.null) :
    ((ConfigParam.read_config dst p).is_object = true
        ∧ (ConfigParam.read_config dst p).empty = false)
      ∨ ConfigParam.read_config dst p = Json.null := by
  have h0 : dst.is_object = true ∨ dst = Json.null := h.imp (fun a => a.1) id
  cases p <;> simp only [ConfigParam.read_config]
  case NestedParam c n d o =>
    split
    · exact Or.inl (set_not_empty _ _ _ h0)
    · exact h
  all_goals exact Or.inl (set_not_empty _ _ _ h0)

theorem read_params_full (ps : List ConfigParam) (dst : Json)
    (h : (dst.is_object = true ∧ dst.empty = false) ∨ dst = Json.null) :
    ((read_params dst ps).is_object = true ∧ (read_params dst ps).empty = false)
      ∨ read_params dst ps = Json.null := by
  induction ps generalizing dst with
  | nil => exact h
  | cons p ps ih =>
    simp only [read_params]
    exact ih _ (read_config_full dst p h)

theorem config_eq (x : ConfigObject) : x.config = read_params Json.null x.params := by
  cases x
  rfl

/-! ### C21: reading an object whose parameters hold their defaults -/

/-- C21, as stated, fails: the test object with every parameter at its default
reads as the tree of these defaults, not as an empty tree. -/
theorem C21_config_counterexample :
    example_Test.config
      = Json.object [("bool".toList, Json.boolean false), ("bytes".toList, Json.number 0),
          ("int".toList, Json.number 0),
          ("object".toList, Json.object [("x".toList, Json.boolean false)]),
          ("string".toList, Json.string []), ("stringlist".toList, Json.array []),
          ("uint".toList, Json.number 0)]
    ∧ example_Test.config.empty = false
    ∧ example_Test.configure Json.null = example_Test :=
  ⟨rfl, rfl, rfl⟩

/-- C21, amended: `config()` of an object (with pairwise different parameter
names) holds under the name of every parameter what `read_config` of that parameter
writes: the current value of a flag or valued parameter, default or not, and the
read of the member object of an object parameter, which is left out when that read
is empty. The result is empty (`null`) exactly when every parameter is an object
parameter whose member object reads as empty, and otherwise a non-empty object. -/
theorem C21_config_reads_values (x : ConfigObject) (h : names_differ x.params = true) :
    (∀ p ∈ x.params,
      x.config.get p.name = (ConfigParam.read_config Json.null p).get p.name)
    ∧ (∀ c n d ref dv, ConfigParam.FlagParam c n d ref dv ∈ x.params →
        x.config.get n = some (Json.boolean ref))
    ∧ (∀ c n d o, ConfigParam.NestedParam c n d o ∈ x.params →
        x.config.get n = if o.config.is_null then none else some o.config)
    ∧ (x.config.is_null = true
        ↔ ∀ p ∈ x.params, ∃ c n d o, p = ConfigParam.NestedParam c n d o
            ∧ o.config.is_null = true)
    ∧ (x.config = Json.null ∨ (x.config.is_object = true ∧ x.config.empty = false)) := by
  have hn : (x.params.map ConfigParam.name).Nodup := by simpa [names_differ] using h
  have hget := read_params_get x.params Json.null (Or.inr rfl) hn (fun _ _ => rfl)
  rw [config_eq]
  refine ⟨hget, ?_, ?_, ?_, ?_⟩
  · intro c n d ref dv hp
    have := hget _ hp
    simp only [ConfigParam.read_config, ConfigParam.name] at this
    rw [this]
    simp only [Json.set, Json.get, kv_find, if_true]
  · intro c n d o hp
    have := hget _ hp
    simp only [ConfigParam.name, ConfigParam.read_config] at this
    rw [this]
    by_cases ho : o.config.is_null = true
    · simp only [ho, Bool.not_true, Bool.false_eq_true, if_false, if_true, Json.get]
    · simp only [Bool.not_eq_true] at ho
      simp only [ho, Bool.not_false, if_true, Bool.false_eq_true, if_false, Json.set, Json.get,
        kv_find]
  · rw [← read_params_null]
    exact is_null_iff _
  · exact (read_params_full x.params Json.null (Or.inr rfl)).symm

/-- C21 (amended) at the test object: the flag `bool` is read with its value. -/
theorem C21_config_reads_values_witness :
    example_Test.config.get "bool".toList = some (Json.boolean false) :=
  (C21_config_reads_values example_Test (by decide)).2.1 _ _ _ _ _ (List.mem_cons_self _ _)

/-! ### Configuring with a configuration that was read -/

theorem get_set_null (n : Str) (v : Json) : (Json.null.set n v).get n = some v := by
  simp [Json.set, Json.get, kv_find]

theorem configure_read_flag (c : Char) (n d : Str) (ref ref1 dv : Bool) (json : Json)
    (h : json.get n = some (Json.boolean ref)) :
    (ConfigParam.configure json (ConfigParam.FlagParam c n d ref1 dv)).1
      = ConfigParam.FlagParam c n d ref dv := by
  simp [ConfigParam.configure, contains_eq_get, h]

theorem configure_read_int (c : Char) (n d : Str) (ref ref1 dv : Int) (json : Json)
    (h : json.get n = some (Json.number ref))
    (h1 : -2147483648 ≤ ref) (h2 : ref < 2147483648) :
    (ConfigParam.configure json (ConfigParam.IntParam c n d ref1 dv)).1
      = ConfigParam.IntParam c n d ref dv := by
  simp [ConfigParam.configure, contains_eq_get, h, to_int_of_range ref h1 h2]

theorem configure_read_uint (c : Char) (n d : Str) (ref ref1 dv : Nat) (json : Json)
    (h : json.get n = some (Json.number ref)) (h2 : ref < 4294967296) :
    (ConfigParam.configure json (ConfigParam.UIntParam c n d ref1 dv)).1
      = ConfigParam.UIntParam c n d ref dv := by
  have e : ((ref : Int) % 4294967296).toNat = ref := by omega
  simp [ConfigParam.configure, contains_eq_get, h, e]

theorem configure_read_bytes (c : Char) (n d : Str) (ref ref1 dv : Nat) (json : Json)
    (h : json.get n = some (Json.number ref)) (h2 : ref < 18446744073709551616) :
    (ConfigParam.configure json (ConfigParam.BytesParam c n d ref1 dv)).1
      = ConfigParam.BytesParam c n d ref dv := by
  have e : ((ref : Int) % 18446744073709551616).toNat = ref := by omega
  simp [ConfigParam.configure, contains_eq_get, h, e]

theorem configure_read_string (c : Char) (n d : Str) (ref ref1 dv : Str) (json : Json)
    (h : json.get n = some (Json.string ref)) :
    (ConfigParam.configure json (ConfigParam.StringParam c n d ref1 dv)).1
      = ConfigParam.StringParam c n d ref dv := by
  simp [ConfigParam.configure, contains_eq_get, h]

theorem string_items_map (l : List Str) : string_items (l.map Json.string) = some l := by
  induction l with
  | nil => rfl
  | cons s l ih => simp [string_items, ih]

theorem configure_read_list (c : Char) (n d : Str) (ref ref1 dv : List Str) (json : Json)
    (h : json.get n = some (Json.array (ref.map Json.string))) :
    (ConfigParam.configure json (ConfigParam.StringListParam c n d ref1 dv)).1
      = ConfigParam.StringListParam c n d ref dv := by
  simp [ConfigParam.configure, contains_eq_get, h, string_items_map]

theorem configure_read_all :
    ∀ o : ConfigObject, ∀ y : ConfigObject,
      ConfigObject.same_schema y o = true → o.wf = true →
      y.configure o.config = o ∧ (o.config = Json.null → y = o) :=
  @ConfigObject.rec
    (fun p => ∀ q : ConfigParam, ConfigParam.same_schema q p = true → p.wf = true →
      (∀ json : Json, json.get p.name = (ConfigParam.read_config Json.null p).get p.name →
        (ConfigParam.configure json q).1 = p)
      ∧ (ConfigParam.read_config Json.null p = Json.null → q = p))
    (fun o => ∀ y : ConfigObject, ConfigObject.same_schema y o = true → o.wf = true →
      y.configure o.config = o ∧ (o.config = Json.null → y = o))
    (fun ps => ∀ qs : List ConfigParam, same_schema_params qs ps = true → wf_params ps = true →
      (∀ json : Json,
        (∀ p ∈ ps, json.get p.name = (ConfigParam.read_config Json.null p).get p.name) →
        configure_params json qs = ps)
      ∧ ((∀ p ∈ ps, ConfigParam.read_config Json.null p = Json.null) → qs = ps))
    (by
      intro c n d ref dv q hq _
      cases q <;> simp [ConfigParam.same_schema] at hq
      obtain ⟨⟨⟨rfl, rfl⟩, rfl⟩, rfl⟩ := hq
      refine ⟨fun json hj => ?_, fun h => ?_⟩
      · simp only [ConfigParam.name, ConfigParam.read_config, get_set_null] at hj
        exact configure_read_flag _ _ _ _ _ _ _ hj
      · simp [ConfigParam.read_config, Json.set] at h)
    (by
      intro c n d ref dv q hq hw
      cases q <;> simp [ConfigParam.same_schema] at hq
      obtain ⟨⟨⟨rfl, rfl⟩, rfl⟩, rfl⟩ := hq
      simp only [ConfigParam.wf, Bool.and_eq_true, decide_eq_true_eq] at hw
      refine ⟨fun json hj => ?_, fun h => ?_⟩
      · simp only [ConfigParam.name, ConfigParam.read_config, get_set_null] at hj
        exact configure_read_int _ _ _ _ _ _ _ hj hw.1 hw.2
      · simp [ConfigParam.read_config, Json.set] at h)
    (by
      intro c n d ref dv q hq hw
      cases q <;> simp [ConfigParam.same_schema] at hq
      obtain ⟨⟨⟨rfl, rfl⟩, rfl⟩, rfl⟩ := hq
      simp only [ConfigParam.wf, decide_eq_true_eq] at hw
      refine ⟨fun json hj => ?_, fun h => ?_⟩
      · simp only [ConfigParam.name, ConfigParam.read_config, get_set_null] at hj
        exact configure_read_uint _ _ _ _ _ _ _ hj hw
      · simp [ConfigParam.read_config, Json.set] at h)
    (by
      intro c n d ref dv q hq hw
      cases q <;> simp [ConfigParam.same_schema] at hq
      obtain ⟨⟨⟨rfl, rfl⟩, rfl⟩, rfl⟩ := hq
      simp only [ConfigParam.wf, decide_eq_true_eq] at hw
      refine ⟨fun json hj => ?_, fun h => ?_⟩
      · simp only [ConfigParam.name, ConfigParam.read_config, get_set_null] at hj
        exact configure_read_bytes _ _ _ _ _ _ _ hj hw
      · simp [ConfigParam.read_config, Json.set] at h)
    (by
      intro c n d ref dv q hq _
      cases q <;> simp [ConfigParam.same_schema] at hq
      obtain ⟨⟨⟨rfl, rfl⟩, rfl⟩, rfl⟩ := hq
      refine ⟨fun json hj => ?_, fun h => ?_⟩
      · simp only [ConfigParam.name, ConfigParam.read_config, get_set_null] at hj
        exact configure_read_string _ _ _ _ _ _ _ hj
      · simp [ConfigParam.read_config, Json.set] at h)
    (by
      intro c n d ref dv q hq _
      cases q <;> simp [ConfigParam.same_schema] at hq
      obtain ⟨⟨⟨rfl, rfl⟩, rfl⟩, rfl⟩ := hq
      refine ⟨fun json hj => ?_, fun h => ?_⟩
      · simp only [ConfigParam.name, ConfigParam.read_config, get_set_null] at hj
        exact configure_read_list _ _ _ _ _ _ _ hj
      · simp [ConfigParam.read_config, Json.set] at h)
    (by
      intro c n d o ih q hq hw
      cases q <;> simp [ConfigParam.same_schema] at hq
      rename_i c1 n1 d1 o1
      obtain ⟨⟨⟨rfl, rfl⟩, rfl⟩, hs⟩ := hq
      simp only [ConfigParam.wf] at hw
      obtain ⟨i1, i2⟩ := ih o1 hs hw
      by_cases hnull : o.config = Json.null
      · have e := i2 hnull
        subst e
        refine ⟨fun json hj => ?_, fun _ => rfl⟩
        simp only [ConfigParam.name, ConfigParam.read_config, hnull, Json.is_null, Bool.not_true,
          Bool.false_eq_true, if_false] at hj
        have hj' : json.get n1 = none := hj
        simp [ConfigParam.configure, contains_eq_get, hj']
      · have hnn : o.config.is_null = false := by
          cases hc : o.config.is_null
          · rfl
          · exact absurd ((is_null_iff _).mp hc) hnull
        refine ⟨fun json hj => ?_, fun h => ?_⟩
        · simp only [ConfigParam.name, ConfigParam.read_config, hnn, Bool.not_false, if_true,
            get_set_null] at hj
          have hfull : o.config.is_object = true ∧ o.config.empty = false := by
            have := read_params_full o.params Json.null (Or.inr rfl)
            rw [← config_eq] at this
            rcases this with h1 | h1
            · exact h1
            · exact absurd h1 hnull
          simp [ConfigParam.configure, contains_eq_get, hj, hfull.1, hfull.2, i1]
        · simp [ConfigParam.read_config, hnn, Json.set] at h)
    (by
      intro t d ps sp ih y hy hw
      cases y with
      | mk t1 d1 qs sp1 =>
        simp only [ConfigObject.same_schema, Bool.and_eq_true, decide_eq_true_eq] at hy
        obtain ⟨⟨⟨rfl, rfl⟩, rfl⟩, hs⟩ := hy
        simp only [ConfigObject.wf, Bool.and_eq_true] at hw
        obtain ⟨i1, i2⟩ := ih qs hs hw.2
        have hn : (ps.map ConfigParam.name).Nodup := by simpa [names_differ] using hw.1
        refine ⟨?_, fun h => ?_⟩
        · simp only [ConfigObject.configure, ConfigObject.config]
          rw [i1 _ (read_params_get ps Json.null (Or.inr rfl) hn (fun _ _ => rfl))]
        · simp only [ConfigObject.config] at h
          rw [i2 (fun p hp => by
            obtain ⟨c, n, d, o, rfl, ho⟩ := (read_params_null ps).mp h p hp
            exact (read_config_null _).mpr ⟨c, n, d, o, rfl, ho⟩)])
    (by
      intro qs hq _
      cases qs <;> simp [same_schema_params] at hq
      exact ⟨fun _ _ => rfl, fun _ => rfl⟩)
    (by
      intro p ps ihp ihps qs hq hw
      cases qs with
      | nil => simp [same_schema_params] at hq
      | cons q qs =>
        simp only [same_schema_params, Bool.and_eq_true] at hq
        simp only [wf_params, Bool.and_eq_true] at hw
        obtain ⟨a1, a2⟩ := ihp q hq.1 hw.1
        obtain ⟨b1, b2⟩ := ihps qs hq.2 hw.2
        refine ⟨fun json hj => ?_, fun h => ?_⟩
        · simp only [configure_params]
          rw [a1 json (hj p (List.mem_cons_self _ _)),
            b1 json (fun r hr => hj r (List.mem_cons_of_mem _ hr))]
        · rw [a2 (h p (List.mem_cons_self _ _)),
            b2 (fun r hr => h r (List.mem_cons_of_mem _ hr))])

theorem same_schema_refl : ∀ o : ConfigObject, ConfigObject.same_schema o o = true :=
  @ConfigObject.rec
    (fun p => ConfigParam.same_schema p p = true)
    (fun o => ConfigObject.same_schema o o = true)
    (fun ps => same_schema_params ps ps = true)
    (by intro c n d ref dv; simp [ConfigParam.same_schema])
    (by intro c n d ref dv; simp [ConfigParam.same_schema])
    (by intro c n d ref dv; simp [ConfigParam.same_schema])
    (by intro c n d ref dv; simp [ConfigParam.same_schema])
    (by intro c n d ref dv; simp [ConfigParam.same_schema])
    (by intro c n d ref dv; simp [ConfigParam.same_schema])
    (by intro c n d o ih; simp [ConfigParam.same_schema, ih])
    (by intro t d ps sp ih; simp [ConfigObject.same_schema, ih])
    (by simp [same_schema_params])
    (by intro p ps ih1 ih2; simp [same_schema_params, ih1, ih2])

/-! ### C22: configuring with the configuration that was read -/

/-- C22: let `x` be an object in a state the source can hold (integers in the
range of their type, parameter names pairwise different) and `y` an object of the
same class, that is, equal to `x` up to the values of the variables. Configuring
`y` with the tree that `x.config()` returns makes `y` equal to `x`: every flag,
integer, unsigned, byte-size, string and string-list parameter and every member
object has the value that was read. In particular `x.configure(x.config())`
leaves `x` as it is. -/
theorem C22_read_then_configure (x y : ConfigObject)
    (hs : ConfigObject.same_schema y x = true) (hw : x.wf = true) :
    y.configure x.config = x ∧ x.configure x.config = x :=
  ⟨(configure_read_all x y hs hw).1, (configure_read_all x x (same_schema_refl x) hw).1⟩

/-- C22 at the test object: an object with all defaults is configured with the
read of an object whose parameters were set. -/
theorem C22_read_then_configure_witness :
    example_Test.configure
        (ConfigObject.mk "Test".toList "A test executable".toList
          [ConfigParam.FlagParam (Char.ofNat 0) "bool".toList [] true false,
           ConfigParam.IntParam (Char.ofNat 0) "int".toList [] (-5) 0,
           ConfigParam.UIntParam (Char.ofNat 0) "uint".toList [] 5 0,
           ConfigParam.BytesParam (Char.ofNat 0) "bytes".toList [] 1024 0,
           ConfigParam.StringParam (Char.ofNat 0) "string".toList [] "test".toList [],
           ConfigParam.StringListParam (Char.ofNat 0) "stringlist".toList []
             ["X".toList, "Y".toList] [],
           ConfigParam.NestedParam (Char.ofNat 0) "object".toList []
             (ConfigObject.mk "A".toList "Entity A".toList
               [ConfigParam.FlagParam (Char.ofNat 0) "x".toList [] true false] [])] []).config
      = ConfigObject.mk "Test".toList "A test executable".toList
          [ConfigParam.FlagParam (Char.ofNat 0) "bool".toList [] true false,
           ConfigParam.IntParam (Char.ofNat 0) "int".toList [] (-5) 0,
           ConfigParam.UIntParam (Char.ofNat 0) "uint".toList [] 5 0,
           ConfigParam.BytesParam (Char.ofNat 0) "bytes".toList [] 1024 0,
           ConfigParam.StringParam (Char.ofNat 0) "string".toList [] "test".toList [],
           ConfigParam.StringListParam (Char.ofNat 0) "stringlist".toList []
             ["X".toList, "Y".toList] [],
           ConfigParam.NestedParam (Char.ofNat 0) "object".toList []
             (ConfigObject.mk "A".toList "Entity A".toList
               [ConfigParam.FlagParam (Char.ofNat 0) "x".toList [] true false] [])] [] :=
  (C22_read_then_configure _ example_Test (by decide) (by decide)).1

/-! ### The registry after a declaration -/

theorem make_param_fields (x : ConfigObject) (p : ConfigParam) :
    (x.make_param p).params
      = (if (x.get_param p.name).isNone then x.params ++ [p] else x.params)
    ∧ (x.make_param p).short_params
      = (if p.has_short_name && (x.short_params.find? (fun e => e.1 = p.short_name)).isNone
          then x.short_params ++ [(p.short_name, p.name)] else x.short_params)
    ∧ (x.make_param p).type_name = x.type_name := by
  cases x
  exact ⟨rfl, rfl, rfl⟩

theorem get_param_isSome (x : ConfigObject) (n : Str) :
    (x.get_param n).isSome = true ↔ n ∈ x.params.map ConfigParam.name := by
  simp only [ConfigObject.get_param, List.find?_isSome, decide_eq_true_eq, List.mem_map]

theorem make_param_invariant (x : ConfigObject) (p : ConfigParam)
    (h1 : (x.params.map ConfigParam.name).Nodup)
    (h2 : (x.short_params.map Prod.fst).Nodup)
    (h3 : ∀ e ∈ x.short_params, e.1 ≠ Char.ofNat 0 ∧ (x.get_param e.2).isSome = true) :
    ((x.make_param p).params.map ConfigParam.name).Nodup
    ∧ ((x.make_param p).short_params.map Prod.fst).Nodup
    ∧ ∀ e ∈ (x.make_param p).short_params,
        e.1 ≠ Char.ofNat 0 ∧ ((x.make_param p).get_param e.2).isSome = true := by
  obtain ⟨f1, f2, _⟩ := make_param_fields x p
  have hsub : ∀ n, (x.get_param n).isSome = true → ((x.make_param p).get_param n).isSome = true := by
    intro n hn
    rw [get_param_isSome] at hn ⊢
    rw [f1]
    split
    · simp only [List.map_append, List.mem_append]
      exact Or.inl hn
    · exact hn
  have hown : ((x.make_param p).get_param p.name).isSome = true := by
    rw [get_param_isSome, f1]
    by_cases hc : (x.get_param p.name).isNone = true
    · simp [hc]
    · simp only [hc, Bool.false_eq_true, if_false]
      rw [← get_param_isSome]
      cases hg : x.get_param p.name with
      | none => simp [hg] at hc
      | some q => rfl
  refine ⟨?_, ?_, ?_⟩
  · rw [f1]
    by_cases hc : (x.get_param p.name).isNone = true
    · simp only [hc, if_true, List.map_append, List.map_cons, List.map_nil]
      refine List.Nodup.append h1 (by simp) ?_
      intro a ha hb
      simp only [List.mem_singleton] at hb
      subst hb
      have := (get_param_isSome x p.name).mpr ha
      cases hg : x.get_param p.name with
      | none => rw [hg] at this; simp at this
      | some q => rw [hg] at hc; simp at hc
    · simp only [hc]
      exact h1
  · rw [f2]
    split
    · rename_i hc
      simp only [Bool.and_eq_true, Option.isNone_iff_eq_none, List.find?_eq_none,
        decide_eq_true_eq] at hc
      simp only [List.map_append, List.map_cons, List.map_nil]
      refine List.Nodup.append h2 (by simp) ?_
      intro a ha hb
      simp only [List.mem_singleton] at hb
      subst hb
      obtain ⟨e, he, hea⟩ := List.mem_map.mp ha
      exact hc.2 e he hea
    · exact h2
  · intro e he
    rw [f2] at he
    split at he
    · rename_i hc
      simp only [Bool.and_eq_true] at hc
      rcases List.mem_append.mp he with h | h
      · exact ⟨(h3 e h).1, hsub _ (h3 e h).2⟩
      · simp only [List.mem_singleton] at h
        subst h
        refine ⟨?_, hown⟩
        simpa [ConfigParam.has_short_name] using hc.1
    · exact ⟨(h3 e he).1, hsub _ (h3 e he).2⟩

theorem foldl_make_param_invariant (decls : List ConfigParam) (x : ConfigObject)
    (h1 : (x.params.map ConfigParam.name).Nodup)
    (h2 : (x.short_params.map Prod.fst).Nodup)
    (h3 : ∀ e ∈ x.short_params, e.1 ≠ Char.ofNat 0 ∧ (x.get_param e.2).isSome = true) :
    ((decls.foldl ConfigObject.make_param x).params.map ConfigParam.name).Nodup
    ∧ ((decls.foldl ConfigObject.make_param x).short_params.map Prod.fst).Nodup
    ∧ ∀ e ∈ (decls.foldl ConfigObject.make_param x).short_params,
        e.1 ≠ Char.ofNat 0
          ∧ ((decls.foldl ConfigObject.make_param x).get_param e.2).isSome = true := by
  induction decls generalizing x with
  | nil => exact ⟨h1, h2, h3⟩
  | cons p ps ih =>
    obtain ⟨a, b, c⟩ := make_param_invariant x p h1 h2 h3
    exact ih (x.make_param p) a b c

/-! ### C23: the registry after a sequence of declarations -/

/-- C23, as stated, fails: after `param('a', "first", ...)` and
`param('a', "second", ...)` both parameters are registered with the short name `a`
(which resolves to `first`), and a second declaration of the name `first` is
dropped, its short name `c` now resolving to the first one; no declaration is
rejected. -/
theorem C23_registry_counterexample :
    ((ConfigObject.mk "X".toList [] [] []).make_param
        (ConfigParam.IntParam 'a' "first".toList [] 0 0)).make_param
        (ConfigParam.IntParam 'a' "second".toList [] 0 0)
      = ConfigObject.mk "X".toList []
          [ConfigParam.IntParam 'a' "first".toList [] 0 0,
           ConfigParam.IntParam 'a' "second".toList [] 0 0]
          [('a', "first".toList)]
    ∧ ((ConfigObject.mk "X".toList [] [] []).make_param
        (ConfigParam.IntParam 'a' "first".toList [] 0 0)).make_param
        (ConfigParam.StringParam 'c' "first".toList [] [] [])
      = ConfigObject.mk "X".toList []
          [ConfigParam.IntParam 'a' "first".toList [] 0 0]
          [('a', "first".toList), ('c', "first".toList)] :=
  ⟨rfl, rfl⟩

/-- C23, amended: after every sequence of declarations on a fresh object no two
registered parameters have the same long name, no short name is entered twice in
the map of short names, and every entry of that map has a short name other than
0 and the long name of a registered parameter. A declaration whose long name is
registered already leaves the registered parameters as they are, and one whose
short name is entered already leaves the map of short names as it is: no
declaration is rejected. -/
theorem C23_registry_invariant (type_name desc : Str) (decls : List ConfigParam) :
    ((decls.foldl ConfigObject.make_param
        (ConfigObject.mk type_name desc [] [])).params.map ConfigParam.name).Nodup
    ∧ ((decls.foldl ConfigObject.make_param
        (ConfigObject.mk type_name desc [] [])).short_params.map Prod.fst).Nodup
    ∧ (∀ e ∈ (decls.foldl ConfigObject.make_param
          (ConfigObject.mk type_name desc [] [])).short_params,
        e.1 ≠ Char.ofNat 0
        ∧ ((decls.foldl ConfigObject.make_param
            (ConfigObject.mk type_name desc [] [])).get_param e.2).isSome = true)
    ∧ (∀ (x : ConfigObject) (p : ConfigParam), (x.get_param p.name).isSome = true →
        (x.make_param p).params = x.params)
    ∧ (∀ (x : ConfigObject) (p : ConfigParam),
        (x.short_params.find? (fun e => e.1 = p.short_name)).isSome = true →
        (x.make_param p).short_params = x.short_params) := by
  obtain ⟨a, b, c⟩ := foldl_make_param_invariant decls (ConfigObject.mk type_name desc [] [])
    (by simp [ConfigObject.params]) (by simp [ConfigObject.short_params])
    (by simp [ConfigObject.short_params])
  refine ⟨a, b, c, ?_, ?_⟩
  · intro x p hp
    rw [(make_param_fields x p).1]
    cases hg : x.get_param p.name with
    | none => rw [hg] at hp; simp at hp
    | some q => simp
  · intro x p hp
    rw [(make_param_fields x p).2.1]
    cases hg : x.short_params.find? (fun e => e.1 = p.short_name) with
    | none => rw [hg] at hp; simp at hp
    | some q => simp

/-- C23 (amended) at the two declarations with the short name `a`: the long names
are different and the short name is entered once. -/
theorem C23_registry_invariant_witness :
    (([ConfigParam.IntParam 'a' "first".toList [] 0 0,
        ConfigParam.IntParam 'a' "second".toList [] 0 0].foldl ConfigObject.make_param
        (ConfigObject.mk "X".toList [] [] [])).params.map ConfigParam.name).Nodup
    ∧ (([ConfigParam.IntParam 'a' "first".toList [] 0 0,
        ConfigParam.IntParam 'a' "second".toList [] 0 0].foldl ConfigObject.make_param
        (ConfigObject.mk "X".toList [] [] [])).short_params.map Prod.fst).Nodup :=
  ⟨(C23_registry_invariant "X".toList []
      [ConfigParam.IntParam 'a' "first".toList [] 0 0,
       ConfigParam.IntParam 'a' "second".toList [] 0 0]).1,
   (C23_registry_invariant "X".toList []
      [ConfigParam.IntParam 'a' "first".toList [] 0 0,
       ConfigParam.IntParam 'a' "second".toList [] 0 0]).2.1⟩

/-! ### Comparison without regard to case -/

theorem iequals_iff (s t : Str) :
    iequals s t = true ↔ s.map Char.toLower = t.map Char.toLower := by
  induction s generalizing t with
  | nil =>
    cases t with
    | nil => simp [iequals]
    | cons d ds => simp [iequals]
  | cons c cs ih =>
    cases t with
    | nil => simp [iequals]
    | cons d ds =>
      simp only [iequals, List.map_cons, List.cons.injEq]
      by_cases h : c.toLower = d.toLower
      · simp [h, ih]
      · simp [h]

theorem boolean_literal_iff (a : Str) :
    (string_contains_true a || string_contains_false a) = true
      ↔ a.map Char.toLower ∈ ["true".toList, "false".toList, "on".toList, "off".toList,
          "1".toList, "0".toList] := by
  simp only [string_contains_true, string_contains_false, Bool.or_eq_true, iequals_iff,
    List.mem_cons, List.mem_singleton, List.not_mem_nil, or_false]
  have e1 : "1".toList.map Char.toLower = "1".toList := by decide
  have e2 : "on".toList.map Char.toLower = "on".toList := by decide
  have e3 : "true".toList.map Char.toLower = "true".toList := by decide
  have e4 : "0".toList.map Char.toLower = "0".toList := by decide
  have e5 : "off".toList.map Char.toLower = "off".toList := by decide
  have e6 : "false".toList.map Char.toLower = "false".toList := by decide
  rw [e1, e2, e3, e4, e5, e6]
  tauto

/-! ### C25: the suggestion for bare boolean literals -/

/-- C25, as stated, fails: in `prog --x 1` the parameter `x` is pending at the
token `1`, which becomes its value candidate, and the suggestion to use the
assignment operator is emitted all the same. -/
theorem C25_sanity_check_counterexample :
    (parse_arg { obj := Json.null, args := [], current_param := none, errors := [] }
        "--x".toList).current_param = some ["x".toList]
    ∧ parse_cmdline ["prog".toList, "--x".toList, "1".toList] []
      = ({ json := Json.object [("x".toList, Json.number 0)], args := [some "1".toList] },
          [err_use_assignment "1".toList]) :=
  ⟨rfl, rfl⟩

/-- C25, amended: for a bare argument `a` in any state of the loop, with or without
a pending parameter, `parse_cmdline` appends `a` to the token list, and it appends
the suggestion to use the assignment operator as the last diagnostic exactly when
`a` reads, without regard to case, as one of `true`, `false`, `on`, `off`, `1`,
`0` (the only other diagnostic of the step is the one for a pending parameter that
holds an object). -/
theorem C25_sanity_check (st : ParseState) (a : Str) (ha : a.head? ≠ some '-') :
    (parse_arg st a).args = st.args ++ [some a]
    ∧ (∃ before, (before = st.errors ∨ before = st.errors ++ [err_sub_param a])
        ∧ (before = st.errors ++ [err_sub_param a] → st.current_param ≠ none)
        ∧ (parse_arg st a).errors
          = before ++ (if a.map Char.toLower ∈ ["true".toList, "false".toList, "on".toList,
              "off".toList, "1".toList, "0".toList] then [err_use_assignment a] else [])) := by
  rw [parse_arg_bare st a ha]
  have hdec : (if (string_contains_true a || string_contains_false a) = true
        then [err_use_assignment a] else [])
      = (if a.map Char.toLower ∈ ["true".toList, "false".toList, "on".toList,
          "off".toList, "1".toList, "0".toList] then [err_use_assignment a] else []) := by
    by_cases h : (string_contains_true a || string_contains_false a) = true
    · rw [if_pos h, if_pos ((boolean_literal_iff a).mp h)]
    · rw [if_neg h, if_neg (fun h1 => h ((boolean_literal_iff a).mpr h1))]
  rw [← hdec]
  unfold parse_value
  cases hp : st.current_param with
  | none =>
    refine ⟨by simp, st.errors, Or.inl rfl, ?_, ?_⟩
    · intro h
      have := congrArg List.length h
      simp at this
    · by_cases h : (string_contains_true a || string_contains_false a) = true <;> simp [h]
  | some p =>
    refine ⟨by simp, ?_⟩
    by_cases ho : ((st.obj.get_path p).getD Json.null).is_object = true
    · refine ⟨st.errors ++ [err_sub_param a], Or.inr rfl, fun _ => by simp, ?_⟩
      by_cases h : (string_contains_true a || string_contains_false a) = true <;> simp [h, ho]
    · refine ⟨st.errors, Or.inl rfl, fun _ => by simp, ?_⟩
      by_cases h : (string_contains_true a || string_contains_false a) = true <;> simp [h, ho]

/-- C25 (amended) at the token `TRUE` with the parameter `x` pending. -/
theorem C25_sanity_check_witness :
    (parse_arg { obj := Json.object [("x".toList, Json.number NO_VALUE)], args := []
                 current_param := some ["x".toList], errors := [] } "TRUE".toList).args
      = [some "TRUE".toList] :=
  (C25_sanity_check { obj := Json.object [("x".toList, Json.number NO_VALUE)], args := []
                      current_param := some ["x".toList], errors := [] } "TRUE".toList
    (by decide)).1

/-! ### C26: a path through a key that holds a value -/

theorem parse_long_name_conflict (a : Str) (rest : List Char) (seen : Str) (ls : LongState)
    (val : Json)
    (hget : ((ls.obj.get_path ls.current_obj).getD Json.null).get ls.current_name = some val)
    (hval : val.is_object = false) :
    parse_long_name a ('.' :: rest) seen ls
      = parse_long_name a rest (seen ++ ['.'])
          { ls with errors := ls.errors ++ [err_already_assigned a seen], current_name := [] } := by
  rw [parse_long_name, if_neg (by decide : ¬ ('.' = '=')), if_pos rfl]
  simp only [contains_eq_get, hget, Option.isSome_some, if_true]
  cases val <;> first | rfl | (simp [Json.is_object] at hval)

/-- C26, as stated, fails: in `prog --a v --a.b w` the argument `--a.b` draws the
diagnostic, and then the key `b` is recorded at the root and made the pending
parameter, which takes the token `w`. -/
theorem C26_path_conflict_counterexample :
    parse_arg { obj := Json.object [("a".toList, Json.number 0)], args := [some "v".toList]
                current_param := none, errors := [] } "--a.b".toList
      = { obj := Json.object [("a".toList, Json.number 0), ("b".toList, Json.number NO_VALUE)]
          args := [some "v".toList], current_param := some ["b".toList]
          errors := [err_already_assigned "--a.b".toList "--a".toList] }
    ∧ parse_cmdline ["prog".toList, "--a".toList, "v".toList, "--a.b".toList, "w".toList] []
      = ({ json := Json.object [("a".toList, Json.number 0), ("b".toList, Json.number 1)]
           args := [some "v".toList, some "w".toList] },
          [err_already_assigned "--a.b".toList "--a".toList]) :=
  ⟨rfl, rfl⟩

/-- C26, amended: when the loop over a long name reaches a dot after a key that
holds a value other than an object, it appends the diagnostic, leaves the tree and
the current object as they are and goes on with the next segment there. So for a
root key `k` with such a value and a name `b` (both without dot and assignment
sign) the argument `--k.b` appends exactly this diagnostic, keeps every key of the
tree with its value, records `b` at the root without value unless it is there, and
makes `b` the pending parameter. -/
theorem C26_path_conflict_goes_on (st : ParseState) (k b : Str) (val : Json)
    (hk : '.' ∉ k ∧ '=' ∉ k) (hb : '.' ∉ b ∧ '=' ∉ b)
    (hget : st.obj.get k = some val) (hval : val.is_object = false) :
    parse_arg st ('-' :: '-' :: (k ++ '.' :: b))
      = { obj := if st.obj.contains b then st.obj else st.obj.set b (Json.number NO_VALUE)
          args := st.args
          current_param := some [b]
          errors := st.errors
            ++ [err_already_assigned ('-' :: '-' :: (k ++ '.' :: b)) ('-' :: '-' :: k)] }
    ∧ (∀ key v, st.obj.get key = some v →
        (parse_arg st ('-' :: '-' :: (k ++ '.' :: b))).obj.get key = some v) := by
  have hroot : st.obj.is_object = true := is_object_of_get _ _ _ hget
  have e : parse_arg st ('-' :: '-' :: (k ++ '.' :: b))
      = { obj := if st.obj.contains b then st.obj else st.obj.set b (Json.number NO_VALUE)
          args := st.args
          current_param := some [b]
          errors := st.errors
            ++ [err_already_assigned ('-' :: '-' :: (k ++ '.' :: b)) ('-' :: '-' :: k)] } := by
    simp only [parse_arg]
    rw [parse_long_name_segment _ k hk.1 hk.2,
      parse_long_name_conflict _ _ _ _ val (by simpa [Json.get_path] using hget) hval,
      parse_long_name_plain _ b hb.1 hb.2]
    simp [Json.get_path, Json.modify_path]
  refine ⟨e, ?_⟩
  intro key v hv
  rw [e]
  simp only
  split
  · exact hv
  · rename_i hc
    rw [get_set _ _ _ _ (Or.inl hroot)]
    by_cases hkb : b = key
    · subst hkb
      rw [contains_eq_get, hv] at hc
      simp at hc
    · rw [if_neg hkb]
      exact hv

/-- C26 (amended) at the argument `--a.b` in the state after `--a v`. -/
theorem C26_path_conflict_goes_on_witness :
    (parse_arg { obj := Json.object [("a".toList, Json.number 0)], args := [some "v".toList]
                 current_param := none, errors := [] } "--a.b".toList).current_param
      = some ["b".toList] :=
  congrArg ParseState.current_param
    (C26_path_conflict_goes_on
      { obj := Json.object [("a".toList, Json.number 0)], args := [some "v".toList]
        current_param := none, errors := [] } "a".toList "b".toList (Json.number 0)
      (by decide) (by decide) rfl rfl).1

/-! ### C27: a value for a key that holds an object -/

theorem set_or_make_list_object (m : List (Str × Json)) (value : Json) :
    set_or_make_list (Json.object m) value = Json.array [Json.object m, value] := by
  simp [set_or_make_list, Json.is_null, Json.is_number, Json.push_back]

theorem parse_value_object (argv_i arg : Str) (assign_value : Bool) (st : ParseState)
    (p : List Str) (m : List (Str × Json))
    (hcp : st.current_param = some p) (hget : st.obj.get_path p = some (Json.object m)) :
    (parse_value argv_i arg assign_value st).obj.get_path p
        = some (Json.array [Json.object m,
            if assign_value then Json.string arg else Json.number (to_int st.args.length)])
      ∧ (parse_value argv_i arg assign_value st).current_param = none
      ∧ (parse_value argv_i arg assign_value st).errors
        = st.errors ++ [err_sub_param argv_i]
          ++ (if !assign_value && (string_contains_true arg || string_contains_false arg)
              then [err_use_assignment arg] else []) := by
  unfold parse_value
  simp only [hcp, hget, Option.getD_some, Json.is_object, if_true]
  cases assign_value
  · simp only [Bool.not_false, if_true, Bool.true_and, Bool.false_eq_true, if_false]
    refine ⟨?_, trivial, ?_⟩
    · rw [get_path_modify_path _ _ _ _ hget, set_or_make_list_object]
    · split <;> simp
  · simp only [Bool.not_true, Bool.false_eq_true, if_false, if_true, Bool.false_and,
      List.append_nil]
    refine ⟨?_, trivial, trivial⟩
    rw [get_path_modify_path _ _ _ _ hget, set_or_make_list_object]

/-- C27, as stated, fails: in `prog --a.b v --a w` and in `prog --a.b v --a=w` the
diagnostic is emitted, and the key `a` then holds the list of the object and the
new value, no longer the object. -/
theorem C27_object_key_counterexample :
    parse_cmdline ["prog".toList, "--a.b".toList, "v".toList, "--a".toList, "w".toList] []
      = ({ json := Json.object [("a".toList,
              Json.array [Json.object [("b".toList, Json.number 0)], Json.number 1])]
           args := [some "v".toList, some "w".toList] },
          [err_sub_param "w".toList])
    ∧ parse_cmdline ["prog".toList, "--a.b".toList, "v".toList, "--a=w".toList] []
      = ({ json := Json.object [("a".toList,
              Json.array [Json.object [("b".toList, Json.number 0)],
                Json.string "w".toList])]
           args := [some "v".toList] },
          [err_sub_param "--a=w".toList]) :=
  ⟨rfl, rfl⟩

/-- C27, amended: when a value is supplied for a key that holds an object, the
diagnostic is emitted and the key then holds the list of that object and the new
value. For a bare argument `a` after a pending parameter at path `p` that holds
the object `m`, the value at `p` becomes the list of `m` and the index of `a`, the
diagnostic is the first one appended, and nothing is pending afterwards; for an
argument `--k=w` with a root key `k` that holds the object `m`, the key `k` then
holds the list of `m` and the text `w`, and the diagnostic is the only one
appended. -/
theorem C27_object_key_becomes_list (st : ParseState) (m : List (Str × Json)) :
    (∀ (p : List Str) (a : Str), a.head? ≠ some '-' →
      st.current_param = some p → st.obj.get_path p = some (Json.object m) →
      (parse_arg st a).obj.get_path p
          = some (Json.array [Json.object m, Json.number (to_int st.args.length)])
        ∧ (parse_arg st a).current_param = none
        ∧ (parse_arg st a).errors = st.errors ++ [err_sub_param a]
            ++ (if string_contains_true a || string_contains_false a
                then [err_use_assignment a] else []))
    ∧ (∀ (k w : Str), '.' ∉ k → '=' ∉ k → st.obj.get k = some (Json.object m) →
      (parse_arg st ('-' :: '-' :: (k ++ '=' :: w))).obj.get k
          = some (Json.array [Json.object m, Json.string w])
        ∧ (parse_arg st ('-' :: '-' :: (k ++ '=' :: w))).current_param = none
        ∧ (parse_arg st ('-' :: '-' :: (k ++ '=' :: w))).errors
          = st.errors ++ [err_sub_param ('-' :: '-' :: (k ++ '=' :: w))]) := by
  constructor
  · intro p a ha hcp hget
    rw [parse_arg_bare st a ha]
    have h := parse_value_object a a false st p m hcp hget
    simpa using h
  · intro k w hd he hget
    have e : parse_arg st ('-' :: '-' :: (k ++ '=' :: w))
        = parse_value ('-' :: '-' :: (k ++ '=' :: w)) w true
            { obj := st.obj, args := st.args, current_param := some [k], errors := st.errors } := by
      simp only [parse_arg]
      rw [parse_long_name_segment _ k hd he, parse_long_name, if_pos rfl]
      simp [Json.get_path, contains_eq_get, hget]
    rw [e]
    have h := parse_value_object ('-' :: '-' :: (k ++ '=' :: w)) w true
      { obj := st.obj, args := st.args, current_param := some [k], errors := st.errors }
      [k] m rfl (by rw [get_path_singleton]; exact hget)
    rw [get_path_singleton] at h
    simpa using h

/-- C27 (amended) at the argument `--a=w` in the state after `--a.b v`. -/
theorem C27_object_key_becomes_list_witness :
    (parse_arg { obj := Json.object [("a".toList, Json.object [("b".toList, Json.number 0)])]
                 args := [some "v".toList], current_param := none, errors := [] }
        "--a=w".toList).obj.get "a".toList
      = some (Json.array [Json.object [("b".toList, Json.number 0)], Json.string "w".toList]) :=
  ((C27_object_key_becomes_list
      { obj := Json.object [("a".toList, Json.object [("b".toList, Json.number 0)])]
        args := [some "v".toList], current_param := none, errors := [] }
      [("b".toList, Json.number 0)]).2 "a".toList "w".toList (by decide) (by decide) rfl).1

/-! ### C28: the short form and an entry that is already there -/

/-- C28: the short form does not leave an existing entry alone. For every
short-form argument and every character `c` in it, the root key `c` holds no value
after the argument, whatever it held before: in `prog --x v -x` the reference of
`x` to the token `v` is dropped, in `prog --x=v -x` the text `v`, in
`prog --x v --x w -x` the list and in `prog --x.y v -x` the object. -/
theorem C28_short_form_overwrites (st : ParseState) (names : List Char) (c : Char)
    (hroot : st.obj.is_object = true ∨ st.obj = Json.null)
    (hnames : names.head? ≠ some '-') (hc : c ∈ names) :
    (parse_arg st ('-' :: names)).obj.get [c] = some (Json.number NO_VALUE)
    ∧ (parse_cmdline ["prog".toList, "--x".toList, "v".toList, "-x".toList] []).1
        = { json := Json.object [("x".toList, Json.number NO_VALUE)]
            args := [some "v".toList] }
    ∧ (parse_cmdline ["prog".toList, "--x=v".toList, "-x".toList] []).1
        = { json := Json.object [("x".toList, Json.number NO_VALUE)], args := [] }
    ∧ (parse_cmdline ["prog".toList, "--x".toList, "v".toList, "--x".toList, "w".toList,
          "-x".toList] []).1
        = { json := Json.object [("x".toList, Json.number NO_VALUE)]
            args := [some "v".toList, some "w".toList] }
    ∧ (parse_cmdline ["prog".toList, "--x.y".toList, "v".toList, "-x".toList] []).1
        = { json := Json.object [("x".toList, Json.number NO_VALUE)]
            args := [some "v".toList] } := by
  refine ⟨?_, rfl, rfl, rfl, rfl⟩
  rw [parse_arg_short st names hnames, (parse_short_names_get names st hroot [c]).2,
    if_pos (List.mem_map.mpr ⟨c, hc, rfl⟩)]

/-- C28 at the argument `-x` in the state after `--x v`. -/
theorem C28_short_form_overwrites_witness :
    (parse_arg { obj := Json.object [("x".toList, Json.number 0)], args := [some "v".toList]
                 current_param := none, errors := [] } "-x".toList).obj.get "x".toList
      = some (Json.number NO_VALUE) :=
  (C28_short_form_overwrites
    { obj := Json.object [("x".toList, Json.number 0)], args := [some "v".toList]
      current_param := none, errors := [] } "x".toList 'x' (Or.inl rfl) (by decide)
    (by decide)).1

/-! ### C29: empty segments of a long name -/

/-- C29: an empty segment of a long name is not diagnosed, and the key that is the
empty string is created. The arguments `--`, `--=v`, `--a.`, `--.a` and `--a..b`
are parsed without any diagnostic; each of them leaves a key with the empty name
in the tree (at the root, or below `a`). -/
theorem C29_empty_segment_creates_key :
    parse_cmdline ["prog".toList, "--".toList] []
      = ({ json := Json.object [([], Json.number NO_VALUE)], args := [] }, [])
    ∧ parse_cmdline ["prog".toList, "--=v".toList] []
      = ({ json := Json.object [([], Json.string "v".toList)], args := [] }, [])
    ∧ parse_cmdline ["prog".toList, "--a.".toList] []
      = ({ json := Json.object [("a".toList, Json.object [([], Json.number NO_VALUE)])]
           args := [] }, [])
    ∧ parse_cmdline ["prog".toList, "--.a".toList] []
      = ({ json := Json.object [([], Json.object [("a".toList, Json.number NO_VALUE)])]
           args := [] }, [])
    ∧ parse_cmdline ["prog".toList, "--a..b".toList] []
      = ({ json := Json.object [("a".toList,
              Json.object [([], Json.object [("b".toList, Json.number NO_VALUE)])])]
           args := [] }, []) :=
  ⟨rfl, rfl, rfl, rfl, rfl⟩

/-! ### C30: an object parameter with a value that is no object -/

theorem kv_erase_eq_filter {β : Type} (k : Str) (l : List (Str × β))
    (h : (l.map Prod.fst).Nodup) :
    kv_erase k l = l.filter (fun kv => decide (kv.1 ≠ k)) := by
  induction l with
  | nil => rfl
  | cons kv rest ih =>
    obtain ⟨k1, v1⟩ := kv
    simp only [List.map_cons, List.nodup_cons] at h
    by_cases h1 : k1 = k
    · subst h1
      simp only [kv_erase, if_true]
      rw [List.filter_cons_of_neg (by simp)]
      symm
      rw [List.filter_eq_self]
      intro kv hkv
      have : kv.1 ≠ k1 := fun e => h.1 (e ▸ List.mem_map_of_mem Prod.fst hkv)
      simpa using this
    · simp only [kv_erase, if_neg h1]
      rw [List.filter_cons_of_pos (by simpa using h1), ih h.2]

theorem erase_all_eq_filter {β : Type} (keys : List Str) (l : List (Str × β))
    (h : (l.map Prod.fst).Nodup) :
    keys.foldl (fun m k => kv_erase k m) l = l.filter (fun kv => decide (kv.1 ∉ keys)) := by
  induction keys generalizing l with
  | nil => simp
  | cons k ks ih =>
    simp only [List.foldl_cons]
    have hn : ((kv_erase k l).map Prod.fst).Nodup := by
      rw [kv_erase_eq_filter k l h]
      exact h.sublist ((List.filter_sublist l).map Prod.fst)
    rw [ih _ hn, kv_erase_eq_filter k l h, List.filter_filter]
    congr 1
    funext kv
    simp only [List.mem_cons, not_or, ne_eq, decide_not, Bool.and_eq_true, Bool.not_eq_true',
      decide_eq_false_iff_not]
    by_cases a : kv.1 = k <;> by_cases b : kv.1 ∈ ks <;> simp [a, b]

theorem kv_replace_keys {β : Type} (k : Str) (v : β) (l : List (Str × β)) :
    (kv_replace k v l).map Prod.fst = l.map Prod.fst := by
  induction l with
  | nil => rfl
  | cons kv rest ih =>
    obtain ⟨k1, v1⟩ := kv
    by_cases h1 : k1 = k
    · simp [kv_replace, h1]
    · simp [kv_replace, h1, ih]

theorem kv_insert_new_keys {β : Type} (k : Str) (v : β) (l : List (Str × β)) :
    ((kv_insert_new k v l).map Prod.fst).Perm (k :: l.map Prod.fst) := by
  induction l with
  | nil => exact List.Perm.refl _
  | cons kv rest ih =>
    obtain ⟨k1, v1⟩ := kv
    by_cases h1 : str_lt k k1 = true
    · simp only [kv_insert_new, h1, if_true]
      exact List.Perm.refl _
    · simp only [kv_insert_new, h1, Bool.false_eq_true, if_false, List.map_cons]
      exact ((List.Perm.cons k1 ih).trans (List.Perm.swap k k1 _))

theorem kv_find_none_not_mem {β : Type} (k : Str) (l : List (Str × β))
    (h : kv_find k l = none) : k ∉ l.map Prod.fst := by
  induction l with
  | nil => simp
  | cons kv rest ih =>
    obtain ⟨k1, v1⟩ := kv
    by_cases h1 : k1 = k
    · simp [kv_find, h1] at h
    · simp only [kv_find, if_neg h1] at h
      simp only [List.map_cons, List.mem_cons, not_or]
      exact ⟨fun e => h1 e.symm, ih h⟩

theorem kv_insert_nodup {β : Type} (k : Str) (v : β) (l : List (Str × β))
    (h : (l.map Prod.fst).Nodup) : ((kv_insert k v l).map Prod.fst).Nodup := by
  unfold kv_insert
  cases hf : kv_find k l with
  | some w =>
    simp only [Option.isSome_some, if_true]
    rw [kv_replace_keys]
    exact h
  | none =>
    simp only [Option.isSome_none, Bool.false_eq_true, if_false]
    rw [(kv_insert_new_keys k v l).nodup_iff]
    exact List.nodup_cons.mpr ⟨kv_find_none_not_mem k l hf, h⟩

theorem keys_differ_set (j : Json) (k : Str) (v : Json) (h : j.keys_differ = true) :
    (j.set k v).keys_differ = true := by
  cases j with
  | object kvs =>
    simp only [Json.keys_differ, decide_eq_true_eq] at h
    simp only [Json.set, Json.keys_differ, decide_eq_true_eq]
    exact kv_insert_nodup k v kvs h
  | null => simp [Json.set, Json.keys_differ]
  | boolean b => exact h
  | number i => exact h
  | string s => exact h
  | array xs => exact h

theorem keys_differ_modify_path (f : Json → Json) (p : List Str) (j : Json)
    (h : j.keys_differ = true) (hf : p = [] → (f j).keys_differ = true) :
    (j.modify_path f p).keys_differ = true := by
  cases p with
  | nil => simpa [Json.modify_path] using hf rfl
  | cons k ks =>
    simp only [Json.modify_path]
    split
    · exact keys_differ_set _ _ _ h
    · exact h

theorem keys_differ_set_or_make_list (o val : Json) (hv : val.is_object = false) :
    (set_or_make_list o val).keys_differ = true := by
  unfold set_or_make_list
  split
  · cases val <;> simp [Json.is_object] at hv <;> rfl
  · cases o <;> rfl

/-! ### Consumption of tokens: the keys of the parsed tree differ -/

theorem parse_long_name_keys (a : Str) (chars : List Char) (seen : Str) (st : LongState)
    (h : st.obj.keys_differ = true) :
    (parse_long_name a chars seen st).obj.keys_differ = true := by
  induction chars generalizing seen st with
  | nil => simpa [parse_long_name] using h
  | cons c rest ih =>
    rw [parse_long_name]
    split
    · exact h
    · split
      · apply ih
        simp only
        split
        · split <;> exact h
        · exact keys_differ_modify_path _ _ _ h (fun _ => keys_differ_set _ _ _ h)
      · exact ih _ _ h

theorem parse_short_names_keys (names : List Char) (st : ParseState)
    (h : st.obj.keys_differ = true) : (parse_short_names names st).obj.keys_differ = true := by
  induction names generalizing st with
  | nil => exact h
  | cons c rest ih =>
    rw [parse_short_names]
    exact ih _ (keys_differ_set _ _ _ h)

theorem parse_value_keys (argv_i arg : Str) (assign_value : Bool) (st : ParseState)
    (h : st.obj.keys_differ = true) :
    (parse_value argv_i arg assign_value st).obj.keys_differ = true := by
  have key : ∀ p, (st.obj.modify_path (fun o => set_or_make_list o
      (if assign_value then Json.string arg else Json.number (to_int st.args.length))) p).keys_differ
        = true := fun p =>
    keys_differ_modify_path _ _ _ h
      (fun _ => keys_differ_set_or_make_list _ _ (by cases assign_value <;> rfl))
  unfold parse_value
  cases hc : st.current_param with
  | none => cases assign_value <;> exact h
  | some p => cases assign_value <;> exact key p

theorem parse_arg_keys (st : ParseState) (a : Str) (h : st.obj.keys_differ = true) :
    (parse_arg st a).obj.keys_differ = true := by
  unfold parse_arg
  split
  · rename_i name
    have h1 := parse_long_name_keys ('-' :: '-' :: name) name ['-', '-']
      { obj := st.obj, current_obj := [], current_name := [], errors := st.errors, value := none } h
    simp only
    split
    · apply parse_value_keys
      simp only
      split
      · exact h1
      · exact keys_differ_modify_path _ _ _ h1 (fun _ => keys_differ_set _ _ _ h1)
    · simp only
      split
      · exact h1
      · exact keys_differ_modify_path _ _ _ h1 (fun _ => keys_differ_set _ _ _ h1)
  · exact parse_short_names_keys _ _ h
  · exact parse_value_keys _ _ _ _ h

theorem foldl_parse_arg_keys (l : List Str) (st : ParseState) (h : st.obj.keys_differ = true) :
    (l.foldl parse_arg st).obj.keys_differ = true := by
  induction l generalizing st with
  | nil => exact h
  | cons a l ih => exact ih _ (parse_arg_keys st a h)

theorem parse_cmdline_keys (argv : List Str) (errors : List Str) :
    (parse_cmdline argv errors).1.json.keys_differ = true :=
  foldl_parse_arg_keys _ _ rfl

/-! ### Consumption of tokens: how often an index is bound -/

theorem item_refs_count_le (len : Nat) (hlen : len < 2147483648) (items : List Json)
    (h : refs_ok_items len items = true) (m : Nat) :
    List.count m (item_refs items) ≤ count_items (m : Int) items := by
  induction items with
  | nil => simp [item_refs]
  | cons x xs ih =>
    have hx := (refs_ok_items_iff len (x :: xs)).mp h
    have hxs : refs_ok_items len xs = true :=
      (refs_ok_items_iff len xs).mpr (fun y hy => hx y (List.mem_cons_of_mem _ hy))
    have := ih hxs
    cases x with
    | number i =>
      have h1 := hx (Json.number i) (List.mem_cons_self _ _)
      simp [Json.refs_ok, NO_VALUE] at h1
      have hi : to_int i = i := to_int_of_range i (by omega) (by omega)
      simp only [item_refs, count_items, Json.count, List.count_cons, hi]
      by_cases e : i = (m : Int)
      · simp [e]
        omega
      · have e1 : ¬ i.toNat = m := by omega
        simp [e, e1]
        omega
    | null => simp only [item_refs, count_items]; omega
    | boolean b => simp only [item_refs, count_items]; omega
    | string s => simp only [item_refs, count_items]; omega
    | array ys => simp only [item_refs, count_items]; omega
    | object kvs => simp only [item_refs, count_items]; omega

theorem value_refs_count_le (len : Nat) (hlen : len < 2147483648) (v : Json)
    (h : v.refs_ok len = true) (m : Nat) :
    List.count m (value_refs v) ≤ Json.count (m : Int) v := by
  cases v with
  | number i =>
    simp only [value_refs]
    split
    · rename_i hi
      simp [Json.refs_ok] at h
      rcases h with h | ⟨h0, h1⟩
      · subst h
        exact absurd rfl hi
      · have hi : to_int i = i := to_int_of_range i (by omega) (by omega)
        rw [hi]
        simp only [Json.count, List.count_cons, List.count_nil, Nat.zero_add]
        by_cases e : i = (m : Int)
        · simp [e]
        · have e1 : ¬ i.toNat = m := by omega
          simp [e1]
    · simp
  | array xs =>
    simp only [value_refs, Json.count]
    exact item_refs_count_le len hlen xs (by simpa [Json.refs_ok] using h) m
  | null => simp [value_refs]
  | boolean b => simp [value_refs]
  | string s => simp [value_refs]
  | object kvs => simp [value_refs]

theorem member_refs_count_sub (x : ConfigObject) (key : Str) (v : Json) (sub : List Nat)
    (m : Nat) :
    List.count m (member_refs x key v sub) ≤ List.count m sub
    ∨ List.count m (member_refs x key v sub) ≤ List.count m (value_refs v) := by
  unfold member_refs
  split
  · split
    · left; simp
    · split
      · left; exact Nat.le_refl _
      · split
        · left; simp
        · right; exact Nat.le_refl _
  · left; simp

theorem bound_refs_count_le (len : Nat) (hlen : len < 2147483648) (v : Json) :
    ∀ (x : ConfigObject), v.refs_ok len = true → ∀ m : Nat,
      List.count m (bound_refs x v) ≤ Json.count (m : Int) v := by
  induction v using Json.induction with
  | hnull => intro x _ m; simp [bound_refs]
  | hbool b => intro x _ m; simp [bound_refs]
  | hnum i => intro x _ m; simp [bound_refs]
  | hstr s => intro x _ m; simp [bound_refs]
  | harr xs _ => intro x _ m; simp [bound_refs]
  | hobj kvs ih =>
    intro x h m
    simp only [bound_refs, Json.count]
    simp only [Json.refs_ok, refs_ok_members_iff] at h
    have key : ∀ items : List (Str × Json), (∀ kv ∈ items, kv ∈ kvs) →
        List.count m (bound_refs_members x items) ≤ count_members (m : Int) items := by
      intro items
      induction items with
      | nil => intro _; simp [bound_refs_members]
      | cons kv rest ihl =>
        obtain ⟨k, w⟩ := kv
        intro hsub
        rw [bound_refs_members_cons_eq, List.count_append]
        simp only [count_members]
        have hw := hsub (k, w) (List.mem_cons_self _ _)
        have hrest := ihl (fun kv hkv => hsub kv (List.mem_cons_of_mem _ hkv))
        have hmem : List.count m (member_refs x k w (nested_refs x k w))
            ≤ Json.count (m : Int) w := by
          rcases member_refs_count_sub x k w (nested_refs x k w) m with h1 | h1
          · refine Nat.le_trans h1 ?_
            unfold nested_refs
            split
            · exact ih (k, w) hw _ (h _ hw) m
            · simp
          · exact Nat.le_trans h1 (value_refs_count_le len hlen w (h _ hw) m)
        omega
    exact key kvs (fun _ h => h)

theorem member_refs_count_le (len : Nat) (hlen : len < 2147483648) (x : ConfigObject)
    (key : Str) (v : Json) (h : v.refs_ok len = true) (m : Nat) :
    List.count m (member_refs x key v (nested_refs x key v)) ≤ Json.count (m : Int) v := by
  rcases member_refs_count_sub x key v (nested_refs x key v) m with h1 | h1
  · refine Nat.le_trans h1 ?_
    unfold nested_refs
    split
    · exact bound_refs_count_le len hlen v _ h m
    · simp
  · exact Nat.le_trans h1 (value_refs_count_le len hlen v h m)

/-! ### Consumption of tokens: a bound reference leaves the tree -/

theorem match_item_pushed (x : ConfigObject) (key : Str) (v : Json) (ign : Bool) (context : Str)
    (sub : Option MatchResult) (st st1 : MatchState) (v1 : Json)
    (hsub : ∀ r, sub = some r → v.is_object = true →
      ∀ n, Json.count n r.config ≤ Json.count n v)
    (h : match_item x key v ign context sub st = some (st1, v1)) :
    (st1.matched_keys = st.matched_keys ∧ v1 = v
        ∧ member_refs x key v (nested_refs x key v) = [])
    ∨ (st1.matched_keys = st.matched_keys ++ [key]
        ∧ ∀ n, Json.count n v1 ≤ Json.count n v) := by
  unfold member_refs
  cases hf : find_param x key with
  | none =>
    rw [match_item_unknown _ _ _ _ _ _ _ hf] at h
    simp at h
    obtain ⟨rfl, rfl⟩ := h
    left
    cases ign <;> exact ⟨rfl, rfl, rfl⟩
  | some p =>
    simp only
    by_cases hal : (v.is_array && !p.is_list) = true
    · simp only [hal, if_true]
      simp at hal
      obtain ⟨ha, hl⟩ := hal
      cases v <;> simp [Json.is_array] at ha
      rw [match_item_list_given _ _ _ _ _ _ _ _ hf hl] at h
      simp at h
      obtain ⟨rfl, rfl⟩ := h
      exact Or.inl ⟨rfl, rfl, trivial⟩
    · simp only [hal, if_false]
      by_cases ho : p.is_object = true
      · simp only [ho, if_true]
        obtain ⟨o, hno⟩ := nested_object_of_is_object _ _ _ hf ho
        rw [nested_refs_of _ _ _ _ hno]
        have hl : p.is_list = false := by
          cases p <;> simp [ConfigParam.is_object] at ho <;> rfl
        by_cases hv : v.is_object = true
        · have hv0 := hv
          cases v <;> simp [Json.is_object] at hv
          rw [match_item_nested_object _ _ _ _ _ _ _ _ hf ho] at h
          cases sub with
          | none => simp at h
          | some r =>
            simp at h
            obtain ⟨rfl, rfl⟩ := h
            exact Or.inr ⟨rfl, hsub r rfl hv0⟩
        · simp at hv
          have ha : v.is_array = false := by simpa [hl] using hal
          rw [match_item_nested_value _ _ _ _ _ _ _ _ hf ho hv ha] at h
          simp at h
          obtain ⟨rfl, rfl⟩ := h
          exact Or.inl ⟨rfl, rfl, bound_refs_not_object o v hv⟩
      · simp at ho
        simp only [ho, Bool.false_eq_true, if_false]
        by_cases hfl : p.is_flag = true
        · simp only [hfl, if_true]
          have hl : p.is_list = false := by
            cases p <;> simp [ConfigParam.is_flag] at hfl <;> rfl
          have ha : v.is_array = false := by simpa [hl] using hal
          rw [match_item_flag _ _ _ _ _ _ _ _ hf hfl ha] at h
          simp at h
          obtain ⟨rfl, rfl⟩ := h
          exact Or.inr ⟨rfl, fun _ => Nat.le_refl _⟩
        · simp at hfl
          simp only [hfl, Bool.false_eq_true, if_false]
          cases v with
          | string s =>
            rw [match_item_value_string _ _ _ _ _ _ _ _ hf hfl ho] at h
            simp at h
            obtain ⟨rfl, rfl⟩ := h
            exact Or.inr ⟨rfl, fun _ => Nat.le_refl _⟩
          | number i =>
            by_cases hi : to_int i = NO_VALUE
            · rw [match_item_value_none _ _ _ _ _ _ _ _ hf hfl ho hi] at h
              simp at h
              obtain ⟨rfl, rfl⟩ := h
              exact Or.inl ⟨rfl, rfl, by simp [value_refs, hi]⟩
            · rw [match_item_value_ref _ _ _ _ _ _ _ _ hf hfl ho hi] at h
              cases ha : args_at st.args (to_int i) with
              | none => simp [ha] at h
              | some s =>
                simp [ha] at h
                obtain ⟨rfl, rfl⟩ := h
                exact Or.inr ⟨rfl, fun _ => Nat.le_refl _⟩
          | array items =>
            have hl : p.is_list = true := by simpa [Json.is_array] using hal
            rw [match_item_value_list _ _ _ _ _ _ _ _ hf hl] at h
            cases hr : match_list_items x context key items 0 Json.null st.args st.errors with
            | none => simp [hr] at h
            | some r =>
              simp [hr] at h
              obtain ⟨rfl, rfl⟩ := h
              exact Or.inr ⟨rfl, fun _ => Nat.le_refl _⟩
          | null =>
            rw [match_item_value_other x key Json.null _ _ _ _ _ hf hfl ho rfl rfl rfl] at h
            simp at h
            obtain ⟨rfl, rfl⟩ := h
            exact Or.inl ⟨rfl, rfl, rfl⟩
          | boolean b =>
            rw [match_item_value_other x key (Json.boolean b) _ _ _ _ _ hf hfl ho rfl rfl rfl] at h
            simp at h
            obtain ⟨rfl, rfl⟩ := h
            exact Or.inl ⟨rfl, rfl, rfl⟩
          | object kvs =>
            rw [match_item_value_other x key (Json.object kvs) _ _ _ _ _ hf hfl ho rfl rfl rfl] at h
            simp at h
            obtain ⟨rfl, rfl⟩ := h
            exact Or.inl ⟨rfl, rfl, rfl⟩

theorem object_sub_count (x : ConfigObject) (key : Str) (v : Json) (args : List (Option Str))
    (ign : Bool) (context : Str) (errors : List Str) (r : MatchResult)
    (h : object_sub x key v args ign context errors = some r) (hv : v.is_object = true) :
    ∀ n, Json.count n r.config ≤ Json.count n v := by
  unfold object_sub at h
  split at h
  · exact (match_config_facts v _ _ _ _ _ _ (Or.inl hv) h).2.2.2.1
  · simp at h

theorem match_object_items_count (x : ConfigObject) (ign : Bool) (context : Str) (len : Nat)
    (hlen : len < 2147483648) (items : List (Str × Json)) :
    ∀ (st st1 : MatchState) (items1 : List (Str × Json)),
      match_object_items x items ign context st = some (st1, items1) →
      refs_ok_members len items = true →
      ∃ keys, st1.matched_keys = st.matched_keys ++ keys
        ∧ items1.map Prod.fst = items.map Prod.fst
        ∧ ∀ (K : List Str) (m : Nat), (∀ k ∈ keys, k ∈ K) →
            List.count m (bound_refs_members x items)
              + count_members (m : Int) (items1.filter (fun kv => decide (kv.1 ∉ K)))
            ≤ count_members (m : Int) items := by
  induction items with
  | nil =>
    intro st st1 items1 h _
    rw [match_object_items_nil] at h
    simp at h
    obtain ⟨rfl, rfl⟩ := h
    exact ⟨[], by simp, rfl, fun K m _ => by simp [bound_refs_members, count_members]⟩
  | cons kv rest ih =>
    obtain ⟨k, v⟩ := kv
    intro st st2 items1 h hok
    obtain ⟨st1, v1, rest1, hmi, hrest, rfl⟩ := match_object_items_cons _ _ _ _ _ _ _ _ _ h
    have hok1 := (refs_ok_members_iff len ((k, v) :: rest)).mp hok
    have hokr : refs_ok_members len rest = true :=
      (refs_ok_members_iff len rest).mpr (fun kv hkv => hok1 kv (List.mem_cons_of_mem _ hkv))
    have hv : v.refs_ok len = true := hok1 (k, v) (List.mem_cons_self _ _)
    obtain ⟨keys, e1, e2, e3⟩ := ih _ _ _ hrest hokr
    have hp := match_item_pushed x k v ign context _ st st1 v1
      (fun r hr hvo => object_sub_count x k v _ _ _ _ r hr hvo) hmi
    rcases hp with ⟨p1, p2, p3⟩ | ⟨p1, p2⟩
    · refine ⟨keys, by rw [e1, p1], by simp [e2], ?_⟩
      intro K m hK
      have := e3 K m hK
      rw [bound_refs_members_cons_eq, p3, List.nil_append, p2]
      by_cases hk : k ∈ K
      · rw [List.filter_cons_of_neg (by simpa using hk)]
        simp only [count_members]
        omega
      · rw [List.filter_cons_of_pos (by simpa using hk)]
        simp only [count_members]
        omega
    · refine ⟨k :: keys, by rw [e1, p1]; simp, by simp [e2], ?_⟩
      intro K m hK
      have := e3 K m (fun k1 hk1 => hK k1 (List.mem_cons_of_mem _ hk1))
      have hk : k ∈ K := hK k (List.mem_cons_self _ _)
      have hm := member_refs_count_le len hlen x k v hv m
      rw [bound_refs_members_cons_eq, List.count_append,
        List.filter_cons_of_neg (by simpa using hk)]
      simp only [count_members]
      omega

theorem match_config_count (x : ConfigObject) (tree : Json) (args : List (Option Str))
    (ign : Bool) (context : Str) (errors : List Str) (r : MatchResult) (len : Nat)
    (hlen : len < 2147483648)
    (hroot : tree.is_object = true ∨ tree = Json.null)
    (hkeys : tree.keys_differ = true) (hok : tree.refs_ok len = true)
    (h : match_config x tree args ign context errors = some r) :
    r.config.keys_differ = true
    ∧ ∀ m : Nat, List.count m (bound_refs x tree) + Json.count (m : Int) r.config
        ≤ Json.count (m : Int) tree := by
  rcases hroot with hroot | rfl
  · cases tree <;> simp [Json.is_object] at hroot
    rename_i kvs
    rw [match_config_object_eq] at h
    cases hm : match_object_items x kvs ign context
        { matched := Json.null, matched_keys := [], args := args, errors := errors } with
    | none => rw [hm] at h; simp at h
    | some q =>
      obtain ⟨st1, items1⟩ := q
      rw [hm] at h
      simp only [Option.map_some', Option.some.injEq] at h
      subst h
      simp only [Json.keys_differ, decide_eq_true_eq] at hkeys
      obtain ⟨keys, e1, e2, e3⟩ := match_object_items_count x ign context len hlen kvs _ _ _ hm
        (by simpa [Json.refs_ok] using hok)
      simp only [List.nil_append] at e1
      have hn1 : (items1.map Prod.fst).Nodup := by rw [e2]; exact hkeys
      simp only [e1]
      rw [erase_all_eq_filter keys items1 hn1]
      constructor
      · simp only [Json.keys_differ, decide_eq_true_eq]
        exact hn1.sublist ((List.filter_sublist items1).map Prod.fst)
      · intro m
        simp only [bound_refs, Json.count]
        exact e3 keys m (fun _ hk => hk)
  · rw [match_config_null] at h
    simp at h
    subst h
    exact ⟨rfl, fun m => by simp [bound_refs, Json.count]⟩

/-! ### C24: the consumption discipline over a sequence of calls -/

theorem keeps_tokens_clear_all (is : List Nat) (args : List (Option Str)) :
    keeps_tokens args (clear_all is args) := by
  refine ⟨clear_all_length is args, ?_, ?_⟩
  · intro n hn
    by_cases hm : n ∈ is
    · have hlt : n < args.length := by
        rcases Nat.lt_or_ge n args.length with h | h
        · exact h
        · rw [List.getElem?_eq_none h] at hn
          simp at hn
      exact clear_all_get_mem is args n hm hlt
    · rw [clear_all_get_not_mem is args n hm]
      exact hn
  · intro n s hn
    by_cases hm : n ∈ is
    · have hlt : n < args.length := by
        rcases Nat.lt_or_ge n args.length with h | h
        · exact h
        · rw [List.getElem?_eq_none (by rw [clear_all_length]; exact h)] at hn
          simp at hn
      rw [clear_all_get_mem is args n hm hlt] at hn
      simp at hn
    · rw [clear_all_get_not_mem is args n hm] at hn
      exact hn

theorem keeps_tokens_trans (a b c : List (Option Str)) (h1 : keeps_tokens a b)
    (h2 : keeps_tokens b c) : keeps_tokens a c :=
  ⟨h2.1.trans h1.1, fun n hn => h2.2.1 n (h1.2.1 n hn), fun n s hn => h1.2.2 n s (h2.2.2 n s hn)⟩

theorem match_calls_cons (x : ConfigObject) (ign : Bool) (context : Str)
    (rest : List (ConfigObject × Bool × Str)) (config : Json) (args : List (Option Str))
    (errors : List Str) (r : MatchResult) (rs : List MatchResult)
    (h1 : match_config x config args ign context errors = some r)
    (h2 : match_calls rest r.config r.args r.errors = some rs) :
    match_calls ((x, ign, context) :: rest) config args errors = some (r :: rs) := by
  rw [match_calls]
  simp only [h1, h2, Option.map_some']

theorem match_calls_discipline (calls : List (ConfigObject × Bool × Str)) :
    ∀ (tree : Json) (args : List (Option Str)) (errors : List Str),
      (tree.is_object = true ∨ tree = Json.null) →
      args.length < 2147483648 →
      tree.refs_ok args.length = true →
      (∀ n : Int, n ≠ NO_VALUE → Json.count n tree ≤ 1) →
      (∀ n : Nat, 1 ≤ Json.count (n : Int) tree → ∃ s, args[n]? = some (some s)) →
      tree.keys_differ = true →
      ∃ rs, match_calls calls tree args errors = some rs
        ∧ rs.length = calls.length
        ∧ List.Pairwise keeps_tokens (args :: rs.map MatchResult.args)
        ∧ (calls_refs calls tree rs).Nodup
        ∧ (∀ n ∈ calls_refs calls tree rs, ∃ s, args[n]? = some (some s))
        ∧ (args :: rs.map MatchResult.args).getLast?
            = some (clear_all (calls_refs calls tree rs) args) := by
  induction calls with
  | nil =>
    intro tree args errors _ _ _ _ _ _
    exact ⟨[], rfl, rfl, by simp, by simp [calls_refs], by simp [calls_refs],
      by simp [calls_refs, clear_all]⟩
  | cons c rest ih =>
    obtain ⟨x, ign, context⟩ := c
    intro tree args errors hroot hlen hok hcnt hav hkeys
    obtain ⟨r, h1⟩ := match_config_total tree x args ign context errors hroot hlen hok hcnt hav
    have a1 := match_config_args _ _ _ _ _ _ _ hroot h1
    obtain ⟨_, f2, f3, f4, _⟩ := match_config_facts _ _ _ _ _ _ _ hroot h1
    obtain ⟨g1, g2⟩ := match_config_count x tree args ign context errors r args.length hlen
      hroot hkeys hok h1
    have hl : r.args.length = args.length := by rw [a1, clear_all_length]
    have hone : ∀ m : Nat, Json.count (m : Int) tree ≤ 1 :=
      fun m => hcnt m (by simp [NO_VALUE])
    have hav1 : ∀ n : Nat, 1 ≤ Json.count (n : Int) r.config →
        ∃ s, r.args[n]? = some (some s) := by
      intro n hn
      have i1 := g2 n
      have i2 := hone n
      have hz : List.count n (bound_refs x tree) = 0 := by omega
      rw [a1, clear_all_get_not_mem _ _ _ (List.count_eq_zero.mp hz)]
      exact hav n (by omega)
    obtain ⟨rs, k1, k2, k3, k4, k5, k6⟩ := ih r.config r.args r.errors f2 (by rw [hl]; exact hlen)
      (by rw [hl]; exact f3 _ hok) (fun n hn => Nat.le_trans (f4 n) (hcnt n hn)) hav1 g1
    have hkeep : keeps_tokens args r.args := by
      rw [a1]
      exact keeps_tokens_clear_all _ _
    have htext : ∀ n ∈ bound_refs x tree, ∃ s, args[n]? = some (some s) := by
      intro n hn
      have i1 := g2 n
      have i2 : 1 ≤ List.count n (bound_refs x tree) := List.count_pos_iff.mpr hn
      exact hav n (by omega)
    refine ⟨r :: rs, match_calls_cons _ _ _ _ _ _ _ _ _ h1 k1, by simp [k2], ?_, ?_, ?_, ?_⟩
    · rw [List.map_cons, List.pairwise_cons]
      refine ⟨?_, k3⟩
      intro b hb
      rcases List.mem_cons.mp hb with e | e
      · rw [e]
        exact hkeep
      · exact keeps_tokens_trans _ _ _ hkeep ((List.pairwise_cons.mp k3).1 b e)
    · simp only [calls_refs]
      rw [List.nodup_append]
      refine ⟨?_, k4, ?_⟩
      · rw [List.nodup_iff_count_le_one]
        intro m
        have i1 := g2 m
        have i2 := hone m
        omega
      · intro n hn hn2
        obtain ⟨s, hs⟩ := htext n hn
        have hlt : n < args.length := by
          rcases Nat.lt_or_ge n args.length with h | h
          · exact h
          · rw [List.getElem?_eq_none h] at hs
            simp at hs
        obtain ⟨s2, hs2⟩ := k5 n hn2
        rw [a1, clear_all_get_mem _ _ _ hn hlt] at hs2
        simp at hs2
    · intro n hn
      simp only [calls_refs, List.mem_append] at hn
      rcases hn with hn | hn
      · exact htext n hn
      · obtain ⟨s, hs⟩ := k5 n hn
        exact ⟨s, hkeep.2.2 n s hs⟩
    · rw [List.map_cons, List.getLast?_cons_cons, k6]
      simp only [calls_refs]
      rw [clear_all_append, a1]

/-- C24: for every command line (of less than 2^31 arguments) and every sequence
of calls of `match_config` on the tree and the token list that `parse_cmdline`
produces (each call with its own object, flag and context, working on what the
call before it left), every call returns, and: between any earlier and any later
stage of the token list the length is the same, an entry consumed at the earlier
stage is consumed at the later one and an entry that holds text at the later
stage holds the same text at the earlier one; the indices bound as parameter
values over the whole sequence are pairwise different, so no token is the value
of two parameters, each of them held text in the token list of `parse_cmdline`,
and the final token list is the first one with exactly these entries consumed. -/
theorem C24_consumption_discipline (argv : List Str) (errors : List Str)
    (calls : List (ConfigObject × Bool × Str)) (hlen : argv.length < 2147483648) :
    ∃ rs,
      match_calls calls (parse_cmdline argv errors).1.json (parse_cmdline argv errors).1.args
        (parse_cmdline argv errors).2 = some rs
      ∧ rs.length = calls.length
      ∧ List.Pairwise keeps_tokens
          ((parse_cmdline argv errors).1.args :: rs.map MatchResult.args)
      ∧ (calls_refs calls (parse_cmdline argv errors).1.json rs).Nodup
      ∧ (∀ n ∈ calls_refs calls (parse_cmdline argv errors).1.json rs,
          ∃ s, (parse_cmdline argv errors).1.args[n]? = some (some s))
      ∧ ((parse_cmdline argv errors).1.args :: rs.map MatchResult.args).getLast?
          = some (clear_all (calls_refs calls (parse_cmdline argv errors).1.json rs)
              (parse_cmdline argv errors).1.args) := by
  obtain ⟨w1, w2, w3⟩ := parse_cmdline_wf argv errors hlen
  have hbare : (bare_arguments argv).length < 2147483648 := by
    unfold bare_arguments
    have := List.length_filter_le (fun a => decide (a.head? ≠ some '-')) (argv.drop 1)
    simp only [List.length_drop] at this
    omega
  have hal : (parse_cmdline argv errors).1.args.length < 2147483648 := by
    rw [w3]
    simpa using hbare
  have havail : ∀ n : Nat, 1 ≤ Json.count (n : Int) (parse_cmdline argv errors).1.json →
      ∃ s, (parse_cmdline argv errors).1.args[n]? = some (some s) := by
    intro n hn
    rcases refs_ok_count _ _ _ w1 hn with h | ⟨_, h⟩
    · simp [NO_VALUE] at h
    · have hn1 : n < (bare_arguments argv).length := by
        rw [w3] at h
        simp only [List.length_map] at h
        omega
      rw [w3]
      exact ⟨(bare_arguments argv)[n], by simp [List.getElem?_map, List.getElem?_eq_getElem hn1]⟩
  exact match_calls_discipline calls _ _ _ (parse_cmdline_root argv errors) hal w1 w2 havail
    (parse_cmdline_keys argv errors)

/-- C24 at the command line `prog --a v w --b u` and the two calls of the
constructor of `Application` for `example_pair`: both calls return. -/
theorem C24_consumption_discipline_witness :
    ∃ rs,
      match_calls [(Application.base false, true, []), (example_pair, false, [])]
        (parse_cmdline ["prog".toList, "--a".toList, "v".toList, "w".toList, "--b".toList,
          "u".toList] []).1.json
        (parse_cmdline ["prog".toList, "--a".toList, "v".toList, "w".toList, "--b".toList,
          "u".toList] []).1.args
        (parse_cmdline ["prog".toList, "--a".toList, "v".toList, "w".toList, "--b".toList,
          "u".toList] []).2 = some rs
      ∧ rs.length = 2 := by
  obtain ⟨rs, h1, h2, _⟩ := C24_consumption_discipline
    ["prog".toList, "--a".toList, "v".toList, "w".toList, "--b".toList, "u".toList] []
    [(Application.base false, true, []), (example_pair, false, [])] (by decide)
  exact ⟨rs, h1, h2⟩

/-! ### C37: texts without a number -/

/-- C37: `parse_si_iec_string` does not reject a text without a number. For the
empty text, `K`, `Ki`, `B` and a lone space, `strtoull` performs no conversion
(there is no numeral to scan), and `parse_si_iec_string` reports success with the
value 0: the test `p == nullptr` never holds, since `strtoull` sets the end pointer
to the start of the text when it converts nothing. -/
theorem C37_no_number_is_accepted :
    (scan_integer [] = none ∧ parse_si_iec_string [] = (true, 0))
    ∧ (scan_integer "K".toList = none ∧ parse_si_iec_string "K".toList = (true, 0))
    ∧ (scan_integer "Ki".toList = none ∧ parse_si_iec_string "Ki".toList = (true, 0))
    ∧ (scan_integer "B".toList = none ∧ parse_si_iec_string "B".toList = (true, 0))
    ∧ (scan_integer " ".toList = none ∧ parse_si_iec_string " ".toList = (true, 0)) :=
  ⟨⟨rfl, rfl⟩, ⟨rfl, rfl⟩, ⟨rfl, rfl⟩, ⟨rfl, rfl⟩, ⟨rfl, rfl⟩⟩

/-! ### C38: writing and reading a byte size -/

/-- C38, as stated, fails: the round trip fails for the values that
`make_si_iec_string` writes with the sixth unit. The value 10^18 is written as `1E` and the value 2^60 as `1Ei`
(for every bound of at least one iteration more than needed), and
`parse_si_iec_string` reports failure on both texts, with the value 1: its switch
over the unit letter has no case for `E`. -/
theorem C38_round_trip_fails_at_exa :
    make_si_iec_string 6 1000000000000000000 = some "1E".toList
    ∧ parse_si_iec_string "1E".toList = (false, 1)
    ∧ make_si_iec_string 6 1152921504606846976 = some "1Ei".toList
    ∧ parse_si_iec_string "1Ei".toList = (false, 1)
    ∧ make_si_iec_string 6 5000000000000000000 = some "5E".toList
    ∧ parse_si_iec_string "5E".toList = (false, 5) := by
  refine ⟨?_, ?_, ?_, ?_, ?_, ?_⟩ <;> decide

/-! ### C39: the division loops of `make_si_iec_string` -/

theorem divide_loop_spec (base : Nat) (hb : 2 ≤ base) (fuel : Nat) :
    ∀ (order v : Nat), 0 < v → v % base = 0 → v < base ^ (fuel + 1) →
      ∃ k, 1 ≤ k ∧ k ≤ fuel ∧ base ^ k ∣ v ∧ ¬ base ^ (k + 1) ∣ v
        ∧ divide_loop base fuel order v = some (order + k, v / base ^ k) := by
  induction fuel with
  | zero =>
    intro order v hv hm hlt
    exfalso
    simp only [Nat.zero_add, pow_one] at hlt
    have := Nat.le_of_dvd hv (Nat.dvd_of_mod_eq_zero hm)
    omega
  | succ fuel ih =>
    intro order v hv hm hlt
    have hbpos : 0 < base := by omega
    obtain ⟨q, hq⟩ := Nat.dvd_of_mod_eq_zero hm
    have hdiv : v / base = q := by rw [hq]; exact Nat.mul_div_cancel_left q hbpos
    have hqpos : 0 < q := by
      rcases Nat.eq_zero_or_pos q with h | h
      · rw [h] at hq; omega
      · exact h
    rw [divide_loop, hdiv]
    by_cases hc : q % base = 0
    · rw [if_pos ⟨hqpos, hc⟩]
      have hqlt : q < base ^ (fuel + 1) := by
        rw [hq, pow_succ' base (fuel + 1)] at hlt
        exact Nat.lt_of_mul_lt_mul_left hlt
      obtain ⟨k, k1, k2, k3, k4, k5⟩ := ih (order + 1) q hqpos hc hqlt
      refine ⟨k + 1, by omega, by omega, ?_, ?_, ?_⟩
      · rw [hq, pow_succ']
        exact Nat.mul_dvd_mul_left base k3
      · rw [hq, pow_succ' base (k + 1)]
        intro h
        exact k4 ((Nat.mul_dvd_mul_iff_left hbpos).mp h)
      · rw [k5, hq, pow_succ', Nat.mul_div_mul_left _ _ hbpos]
        simp only [Option.some.injEq, Prod.mk.injEq, and_true]
        omega
    · rw [if_neg (fun h => hc h.2)]
      refine ⟨1, Nat.le_refl _, by omega, ?_, ?_, ?_⟩
      · rw [pow_one]; exact Nat.dvd_of_mod_eq_zero hm
      · intro h
        rw [hq, pow_succ', pow_one] at h
        exact hc (Nat.mod_eq_zero_of_dvd ((Nat.mul_dvd_mul_iff_left hbpos).mp h))
      · rw [pow_one, hdiv]

theorem unit_at_eq (units : List Str) (order : Nat) (h1 : 1 ≤ order) (h6 : order ≤ 6) :
    unit_at units order = units.get? (order - 1) := by
  have e : (order + 18446744073709551616 - 1) % 18446744073709551616 = order - 1 := by omega
  unfold unit_at
  rw [e]

/-- C39: for every 64-bit value `v` and every bound on the iterations of at least
6, `make_si_iec_string` returns a text: neither loop runs out and no index leaves
the tables. For a positive multiple of 1000 the text is the decimal text of
`v / 1000^order` followed by `SI_UNITS[order - 1]`, for another positive multiple
of 1024 the decimal text of `v / 1024^order` followed by `IEC_UNITS[order - 1]`,
where `1 ≤ order ≤ 6` and `order` is the largest exponent such that the power of
the base divides `v`; for every other value it is the decimal text of `v`. -/
theorem C39_make_si_iec_string_total (v fuel : Nat) (hv : v < 18446744073709551616)
    (hfuel : 6 ≤ fuel) :
    (0 < v ∧ v % 1000 = 0 →
      ∃ order u, 1 ≤ order ∧ order ≤ 6 ∧ 1000 ^ order ∣ v ∧ ¬ 1000 ^ (order + 1) ∣ v
        ∧ SI_UNITS.get? (order - 1) = some u
        ∧ make_si_iec_string fuel v = some ((Nat.repr (v / 1000 ^ order)).toList ++ u))
    ∧ (¬ (0 < v ∧ v % 1000 = 0) → 0 < v ∧ v % 1024 = 0 →
      ∃ order u, 1 ≤ order ∧ order ≤ 6 ∧ 1024 ^ order ∣ v ∧ ¬ 1024 ^ (order + 1) ∣ v
        ∧ IEC_UNITS.get? (order - 1) = some u
        ∧ make_si_iec_string fuel v = some ((Nat.repr (v / 1024 ^ order)).toList ++ u))
    ∧ (¬ (0 < v ∧ v % 1000 = 0) → ¬ (0 < v ∧ v % 1024 = 0) →
      make_si_iec_string fuel v = some (Nat.repr v).toList) := by
  have bound : ∀ base : Nat, 1000 ≤ base → ∀ k, base ^ k ∣ v → 0 < v → k ≤ 6 := by
    intro base hbase k hk hpos
    by_contra hgt
    have h7 : 7 ≤ k := by omega
    have h1 : base ^ 7 ≤ base ^ k := Nat.pow_le_pow_right (by omega) h7
    have h2 : 1000 ^ 7 ≤ base ^ 7 := Nat.pow_le_pow_left hbase 7
    have h3 := Nat.le_of_dvd hpos hk
    have h4 : (1000 : Nat) ^ 7 = 1000000000000000000000 := by norm_num
    omega
  have lt_pow : ∀ base : Nat, 1000 ≤ base → v < base ^ (fuel + 1) := by
    intro base hbase
    have h1 : base ^ 7 ≤ base ^ (fuel + 1) := Nat.pow_le_pow_right (by omega) (by omega)
    have h2 : 1000 ^ 7 ≤ base ^ 7 := Nat.pow_le_pow_left hbase 7
    have h4 : (1000 : Nat) ^ 7 = 1000000000000000000000 := by norm_num
    omega
  have units : ∀ (l : List Str), l.length = 6 → ∀ order, 1 ≤ order → order ≤ 6 →
      ∃ u, l.get? (order - 1) = some u := by
    intro l hl order h1 h6
    exact ⟨l.get ⟨order - 1, by omega⟩, List.get?_eq_get _⟩
  refine ⟨?_, ?_, ?_⟩
  · intro hc
    obtain ⟨k, k1, _, k3, k4, k5⟩ := divide_loop_spec 1000 (by omega) fuel 0 v hc.1 hc.2
      (lt_pow 1000 (Nat.le_refl _))
    have k6 := bound 1000 (Nat.le_refl _) k k3 hc.1
    obtain ⟨u, hu⟩ := units SI_UNITS rfl k k1 k6
    refine ⟨k, u, k1, k6, k3, k4, hu, ?_⟩
    unfold make_si_iec_string
    rw [if_pos hc, k5]
    simp only [Nat.zero_add]
    rw [unit_at_eq _ _ k1 k6, hu]
    rfl
  · intro hn hc
    obtain ⟨k, k1, _, k3, k4, k5⟩ := divide_loop_spec 1024 (by omega) fuel 0 v hc.1 hc.2
      (lt_pow 1024 (by omega))
    have k6 := bound 1024 (by omega) k k3 hc.1
    obtain ⟨u, hu⟩ := units IEC_UNITS rfl k k1 k6
    refine ⟨k, u, k1, k6, k3, k4, hu, ?_⟩
    unfold make_si_iec_string
    rw [if_neg hn, if_pos hc, k5]
    simp only [Nat.zero_add]
    rw [unit_at_eq _ _ k1 k6, hu]
    rfl
  · intro hn1 hn2
    unfold make_si_iec_string
    rw [if_neg hn1, if_neg hn2]

/-- C39 at the value 3 * 1024^2, which is no multiple of 1000, and the bound 6. -/
theorem C39_make_si_iec_string_total_witness :
    ∃ order u, 1 ≤ order ∧ order ≤ 6 ∧ 1024 ^ order ∣ 3145728
      ∧ ¬ 1024 ^ (order + 1) ∣ 3145728
      ∧ IEC_UNITS.get? (order - 1) = some u
      ∧ make_si_iec_string 6 3145728 = some ((Nat.repr (3145728 / 1024 ^ order)).toList ++ u) :=
  (C39_make_si_iec_string_total 3145728 6 (by decide) (by decide)).2.1 (by decide) (by decide)

/-! ### C32: a list for a parameter that takes a single value -/

/-- C32: for every key that resolves to a parameter that is no list parameter (a
flag, a scalar or a nested object) and every list value, the loop body of
`match_config` appends exactly one diagnostic, the one that ends in `expects a
single value, but a list was given`, and changes nothing else: nothing is bound, no
key is marked matched (so the key is not erased), no token is consumed whatever
the list refers to, and the value stays as it is. A tree with this one member is
returned whole with the one diagnostic and the token list untouched. -/
theorem C32_list_for_single_value (cfgobj : ConfigObject) (key : Str) (items : List Json)
    (ign : Bool) (context : Str) (p : ConfigParam)
    (h : find_param cfgobj key = some p) (hl : p.is_list = false) :
    (∀ (sub : Option MatchResult) (st : MatchState),
      match_item cfgobj key (Json.array items) ign context sub st
        = some ({ matched := st.matched, matched_keys := st.matched_keys, args := st.args
                  errors := st.errors ++ [err_list_given cfgobj context key] },
            Json.array items))
    ∧ (∀ (args : List (Option Str)) (errors : List Str),
      match_config cfgobj (Json.object [(key, Json.array items)]) args ign context errors
        = some { matched := Json.null
                 config := Json.object [(key, Json.array items)]
                 args := args
                 errors := errors ++ [err_list_given cfgobj context key] })
    ∧ err_list_given cfgobj context key
        = "configuration parameter \"".toList ++ key ++ "\" for ".toList
          ++ print_error_context cfgobj context
          ++ " expects a single value, but a list was given".toList := by
  have key1 : ∀ (sub : Option MatchResult) (st : MatchState),
      match_item cfgobj key (Json.array items) ign context sub st
        = some ({ matched := st.matched, matched_keys := st.matched_keys, args := st.args
                  errors := st.errors ++ [err_list_given cfgobj context key] },
            Json.array items) :=
    fun sub st => match_item_list_given cfgobj key items ign context sub st p h hl
  refine ⟨key1, ?_, rfl⟩
  intro args errors
  rw [match_config_object_eq, match_object_items_cons_eq, key1, Option.some_bind,
    match_object_items_nil]
  rfl

/-- C32 at the string parameter `x` of `example_x` and the list of the tokens 0
and 1: both tokens stay in the token list. -/
theorem C32_list_for_single_value_witness :
    match_config example_x
        (Json.object [("x".toList, Json.array [Json.number 0, Json.number 1])])
        [some "v".toList, some "w".toList] false [] []
      = some { matched := Json.null
               config := Json.object [("x".toList, Json.array [Json.number 0, Json.number 1])]
               args := [some "v".toList, some "w".toList]
               errors := [err_list_given example_x [] "x".toList] } :=
  (C32_list_for_single_value example_x "x".toList [Json.number 0, Json.number 1] false []
    (ConfigParam.StringParam (Char.ofNat 0) "x".toList [] [] []) rfl rfl).2.1
    [some "v".toList, some "w".toList] []

/-! ### C33: a parameter without a value -/

/-- C33: for every key that resolves to a scalar or list parameter (neither a flag
nor a nested object) whose provisional value is `NO_VALUE`, the loop body of
`match_config` appends exactly one diagnostic, the one that ends in `expects a
value, but none was given`, and changes nothing else: no entry is bound, no key is
marked matched (so the key is not erased), no token is consumed, the value stays.
A tree with this one member is returned whole with the one diagnostic. This is the
tree that `parse_cmdline` produces for `--p` at the end of the command line, and
`--p` directly followed by another long parameter leaves `p` without value as
well. -/
theorem C33_missing_value (cfgobj : ConfigObject) (key : Str) (ign : Bool) (context : Str)
    (p : ConfigParam) (h : find_param cfgobj key = some p)
    (hf : p.is_flag = false) (ho : p.is_object = false) :
    (∀ (sub : Option MatchResult) (st : MatchState),
      match_item cfgobj key (Json.number NO_VALUE) ign context sub st
        = some ({ matched := st.matched, matched_keys := st.matched_keys, args := st.args
                  errors := st.errors ++ [err_no_value cfgobj context key] },
            Json.number NO_VALUE))
    ∧ (∀ (args : List (Option Str)) (errors : List Str),
      match_config cfgobj (Json.object [(key, Json.number NO_VALUE)]) args ign context errors
        = some { matched := Json.null
                 config := Json.object [(key, Json.number NO_VALUE)]
                 args := args
                 errors := errors ++ [err_no_value cfgobj context key] })
    ∧ err_no_value cfgobj context key
        = "configuration parameter \"".toList ++ key ++ "\" for ".toList
          ++ print_error_context cfgobj context
          ++ " expects a value, but none was given".toList
    ∧ (∀ argv0 : Str, '.' ∉ key → '=' ∉ key →
        parse_cmdline [argv0, '-' :: '-' :: key] []
          = ({ json := Json.object [(key, Json.number NO_VALUE)], args := [] }, [])
        ∧ ∀ q : Str, '.' ∉ q → '=' ∉ q →
          (parse_cmdline [argv0, '-' :: '-' :: key, '-' :: '-' :: q] []).1.json.get key
            = some (Json.number NO_VALUE)) := by
  have key1 : ∀ (sub : Option MatchResult) (st : MatchState),
      match_item cfgobj key (Json.number NO_VALUE) ign context sub st
        = some ({ matched := st.matched, matched_keys := st.matched_keys, args := st.args
                  errors := st.errors ++ [err_no_value cfgobj context key] },
            Json.number NO_VALUE) :=
    fun sub st => match_item_value_none cfgobj key NO_VALUE ign context sub st p h hf ho rfl
  refine ⟨key1, ?_, rfl, ?_⟩
  · intro args errors
    rw [match_config_object_eq, match_object_items_cons_eq, key1, Option.some_bind,
      match_object_items_nil]
    rfl
  · intro argv0 hd he
    have e1 : parse_arg { obj := Json.null, args := [], current_param := none, errors := [] }
        ('-' :: '-' :: key)
        = { obj := Json.object [(key, Json.number NO_VALUE)], args := []
            current_param := some [key], errors := [] } := by
      rw [parse_arg_long_plain _ key hd he]
      rfl
    constructor
    · simp only [parse_cmdline, List.drop_succ_cons, List.drop_zero, List.foldl_cons,
        List.foldl_nil, e1]
    · intro q hqd hqe
      simp only [parse_cmdline, List.drop_succ_cons, List.drop_zero, List.foldl_cons,
        List.foldl_nil, e1]
      rw [parse_arg_long_plain _ q hqd hqe]
      simp only
      split
      · simp [Json.get, kv_find]
      · rw [get_set (Json.object [(key, Json.number NO_VALUE)]) q key (Json.number NO_VALUE)
          (Or.inl rfl)]
        split
        · rfl
        · simp [Json.get, kv_find]

/-- C33 at the string parameter `x` of `example_x`. -/
theorem C33_missing_value_witness :
    match_config example_x (Json.object [("x".toList, Json.number NO_VALUE)]) [] false [] []
      = some { matched := Json.null
               config := Json.object [("x".toList, Json.number NO_VALUE)]
               args := []
               errors := [err_no_value example_x [] "x".toList] } :=
  (C33_missing_value example_x "x".toList false []
    (ConfigParam.StringParam (Char.ofNat 0) "x".toList [] [] []) rfl rfl rfl).2.1 [] []

/-! ### C31: an object parameter with an empty object -/

theorem match_config_empty_object (o : ConfigObject) (args : List (Option Str)) (ign : Bool)
    (context : Str) (errors : List Str) :
    match_config o (Json.object []) args ign context errors
      = some { matched := Json.null, config := Json.object [], args := args, errors := errors } := by
  rw [match_config_object_eq, match_object_items_nil]
  rfl

/-- C31, as stated, fails: for the object parameter `obj` of `example_outer` and
the tree that holds the empty object under `obj`, the bound configuration that
`match_config` returns has an entry `obj` (its value is null). -/
theorem C31_empty_nested_counterexample :
    match_config example_outer (Json.object [("obj".toList, Json.object [])]) [] false [] []
      = some { matched := Json.object [("obj".toList, Json.null)]
               config := Json.object [], args := [], errors := [] }
    ∧ (Json.object [("obj".toList, Json.null)]).contains "obj".toList = true :=
  ⟨rfl, rfl⟩

/-- C31, amended: for every key that resolves to a nested-object parameter `n` and
the empty object as its value, `match_config` makes the recursive call, which over
zero keys binds nothing, consumes no token and appends no diagnostic; the bound
configuration then holds an entry `n` whose value is null (the result of the
recursive call), and the key is erased from the tree. Applying a configuration
whose entry `n` is the empty object, or null, leaves the nested object as it
is. -/
theorem C31_empty_nested_object (cfgobj : ConfigObject) (key : Str) (ign : Bool)
    (context : Str) (c : Char) (n d : Str) (o : ConfigObject)
    (h : find_param cfgobj key = some (ConfigParam.NestedParam c n d o)) :
    (∀ (args : List (Option Str)) (errors : List Str),
      object_sub cfgobj key (Json.object []) args ign context errors
        = some { matched := Json.null, config := Json.object [], args := args
                 errors := errors })
    ∧ (∀ (st : MatchState),
      match_item cfgobj key (Json.object []) ign context none st = none)
    ∧ (∀ (args : List (Option Str)) (errors : List Str),
      match_config cfgobj (Json.object [(key, Json.object [])]) args ign context errors
        = some { matched := Json.object [(n, Json.null)]
                 config := Json.object []
                 args := args
                 errors := errors })
    ∧ (∀ json : Json, json.get n = some (Json.object []) ∨ json.get n = some Json.null →
      ConfigParam.configure json (ConfigParam.NestedParam c n d o)
        = (ConfigParam.NestedParam c n d o, true)) := by
  have hno : nested_object cfgobj key = some o := by simp [nested_object, h]
  have hsub : ∀ (args : List (Option Str)) (errors : List Str),
      object_sub cfgobj key (Json.object []) args ign context errors
        = some { matched := Json.null, config := Json.object [], args := args
                 errors := errors } := by
    intro args errors
    rw [object_sub_of _ _ _ _ _ _ _ _ hno, match_config_empty_object]
  refine ⟨hsub, ?_, ?_, ?_⟩
  · intro st
    rw [match_item_nested_object _ _ _ _ _ _ _ _ h rfl]
    rfl
  · intro args errors
    rw [match_config_object_eq, match_object_items_cons_eq,
      match_item_nested_object _ _ _ _ _ _ _ _ h rfl, hsub]
    simp only [Option.map_some', Option.some_bind, match_object_items_nil]
    simp [ConfigParam.name, Json.set, kv_erase]
  · intro json hj
    rcases hj with hj | hj
    · simp [ConfigParam.configure, contains_eq_get, hj, Json.is_object, Json.empty]
    · simp [ConfigParam.configure, contains_eq_get, hj, Json.is_object]

/-- C31 (amended) at the parameter `obj` of `example_outer`: applying the bound
configuration with the empty object for `obj` leaves the parameter as it is. -/
theorem C31_empty_nested_object_witness :
    ConfigParam.configure (Json.object [("obj".toList, Json.object [])])
        (ConfigParam.NestedParam (Char.ofNat 0) "obj".toList [] example_pair)
      = (ConfigParam.NestedParam (Char.ofNat 0) "obj".toList [] example_pair, true) :=
  (C31_empty_nested_object example_outer "obj".toList false [] (Char.ofNat 0) "obj".toList []
    example_pair rfl).2.2.2 (Json.object [("obj".toList, Json.object [])]) (Or.inl rfl)

/-! ### C34: a list parameter given once -/

theorem parse_cmdline_long_assign (argv0 n v : Str) (hd : '.' ∉ n) (he : '=' ∉ n) :
    parse_cmdline [argv0, '-' :: '-' :: (n ++ '=' :: v)] []
      = ({ json := Json.object [(n, Json.string v)], args := [] }, []) := by
  simp only [parse_cmdline, List.drop_succ_cons, List.drop_zero, List.foldl_cons, List.foldl_nil,
    parse_arg]
  rw [parse_long_name_segment _ n hd he, parse_long_name, if_pos rfl]
  simp [parse_value, Json.contains, Json.set, Json.get_path, Json.get, kv_find, Json.modify_path,
    set_or_make_list, Json.is_null, Json.is_number, Json.get_int, to_int, NO_VALUE, kv_insert,
    kv_replace, kv_insert_new, Json.is_object]

/-- C34, as stated, fails: with the string list parameter `p` of `example_list`,
the command line `prog --p 1` gives the value once, and `parse_cmdline` emits a
diagnostic for the token `1` (the suggestion to use the assignment sign), so the
application is not good and the parameter keeps its value. -/
theorem C34_single_occurrence_counterexample :
    (parse_cmdline ["prog".toList, "--p".toList, "1".toList] []).2
      = [err_use_assignment "1".toList]
    ∧ (Application.new example_list ["prog".toList, "--p".toList, "1".toList]).map
        (fun run => (run.app.good_, run.x, run.cerr))
      = some (false, example_list, [err_use_assignment "1".toList]) :=
  ⟨rfl, rfl⟩

/-- C34, amended: for a string list parameter `n` (a name without dot and
assignment sign) given once, as `--n v` with a bare token `v` or as `--n=v` with
any text `v`: `parse_cmdline` records the token reference 0 resp. the text and
emits no diagnostic, except for a bare token that reads as a boolean literal,
which draws the suggestion to use the assignment sign; `match_config` accepts the
lone scalar without diagnostic, binds `n` to the text `v`, erases the key and, in
the case of the token reference, consumes the token; applying the bound
configuration sets the parameter to the one-element list of `v`. -/
theorem C34_single_occurrence (x : ConfigObject) (argv0 n v : Str) (c : Char) (d : Str)
    (ref dv : List Str) (hd : '.' ∉ n) (he : '=' ∉ n)
    (hp : x.get_param n = some (ConfigParam.StringListParam c n d ref dv))
    (ignore_unknown_params : Bool) (context : Str) (errors : List Str) :
    (v.head? ≠ some '-' →
      parse_cmdline [argv0, '-' :: '-' :: n, v] []
        = ({ json := Json.object [(n, Json.number 0)], args := [some v] },
            if string_contains_true v || string_contains_false v
            then [err_use_assignment v] else [])
      ∧ match_config x (Json.object [(n, Json.number 0)]) [some v]
          ignore_unknown_params context errors
        = some { matched := Json.object [(n, Json.string v)], config := Json.object []
                 args := [none], errors := errors })
    ∧ parse_cmdline [argv0, '-' :: '-' :: (n ++ '=' :: v)] []
        = ({ json := Json.object [(n, Json.string v)], args := [] }, [])
    ∧ match_config x (Json.object [(n, Json.string v)]) []
          ignore_unknown_params context errors
        = some { matched := Json.object [(n, Json.string v)], config := Json.object []
                 args := [], errors := errors }
    ∧ ConfigParam.configure (Json.object [(n, Json.string v)])
          (ConfigParam.StringListParam c n d ref dv)
        = (ConfigParam.StringListParam c n d [v] dv, true) := by
  have hfind : find_param x n = some (ConfigParam.StringListParam c n d ref dv) := by
    simp [find_param, hp]
  refine ⟨fun hv => ⟨parse_cmdline_long_bare argv0 n v hd he hv, ?_⟩,
    parse_cmdline_long_assign argv0 n v hd he, ?_, ?_⟩
  · simp [match_config, match_object_items, nested_object, match_item, hfind, Json.is_array,
      ConfigParam.is_flag, ConfigParam.is_list, Json.is_string, Json.set, kv_erase, Json.get_int,
      to_int, NO_VALUE, args_at, Option.join, ConfigParam.name]
  · simp [match_config, match_object_items, nested_object, match_item, hfind, Json.is_array,
      ConfigParam.is_flag, ConfigParam.is_list, Json.is_string, Json.set, kv_erase,
      ConfigParam.name]
  · simp [ConfigParam.configure, Json.contains, Json.get, kv_find]

/-- C34 (amended) at the parameter `p` of `example_list` and the token `v`. -/
theorem C34_single_occurrence_witness :
    match_config example_list (Json.object [("p".toList, Json.number 0)]) [some "v".toList]
        false [] []
      = some { matched := Json.object [("p".toList, Json.string "v".toList)]
               config := Json.object [], args := [none], errors := [] } :=
  ((C34_single_occurrence example_list "prog".toList "p".toList "v".toList (Char.ofNat 0) []
    [] [] (by decide) (by decide) rfl false [] []).1 (by decide)).2

/-! ### The outcome of the loop body, member by member -/

theorem match_list_items_prefix (x : ConfigObject) (context key : Str) (items : List Json)
    (index : Nat) (list : Json) (args : List (Option Str)) (errors : List Str)
    (r : Json × List (Option Str) × List Str)
    (h : match_list_items x context key items index list args errors = some r) :
    ∃ b, r.2.2 = errors ++ b := by
  induction items generalizing index list args errors with
  | nil =>
    simp [match_list_items] at h
    subst h
    exact ⟨[], by simp⟩
  | cons item rest ih =>
    cases item with
    | number i =>
      simp only [match_list_items] at h
      split at h
      · contradiction
      · split at h
        · exact ih _ _ _ _ h
        · contradiction
    | string s => simp only [match_list_items] at h; exact ih _ _ _ _ h
    | null =>
      simp only [match_list_items] at h
      obtain ⟨b, hb⟩ := ih _ _ _ _ h
      exact ⟨[_] ++ b, by rw [hb, List.append_assoc]⟩
    | boolean c =>
      simp only [match_list_items] at h
      obtain ⟨b, hb⟩ := ih _ _ _ _ h
      exact ⟨[_] ++ b, by rw [hb, List.append_assoc]⟩
    | array xs =>
      simp only [match_list_items] at h
      obtain ⟨b, hb⟩ := ih _ _ _ _ h
      exact ⟨[_] ++ b, by rw [hb, List.append_assoc]⟩
    | object kvs =>
      simp only [match_list_items] at h
      obtain ⟨b, hb⟩ := ih _ _ _ _ h
      exact ⟨[_] ++ b, by rw [hb, List.append_assoc]⟩

theorem match_item_outcome (x : ConfigObject) (key : Str) (v : Json) (ign : Bool)
    (context : Str) (sub : Option MatchResult) (st st1 : MatchState) (v1 : Json)
    (hsub : ∀ r, sub = some r → v.is_object = true → ∃ b, r.errors = st.errors ++ b)
    (h : match_item x key v ign context sub st = some (st1, v1)) :
    (member_binds x key v = false
        ∧ st1 = { st with errors := st.errors ++ member_diagnostic x context key v ign }
        ∧ v1 = v)
    ∨ (member_binds x key v = true
        ∧ st1.matched_keys = st.matched_keys ++ [key]
        ∧ (∃ b, st1.errors = st.errors ++ b)
        ∧ ∃ p val, find_param x key = some p ∧ st1.matched = st.matched.set p.name val) := by
  unfold member_binds member_diagnostic
  cases hf : find_param x key with
  | none =>
    rw [match_item_unknown _ _ _ _ _ _ _ hf] at h
    simp at h
    obtain ⟨rfl, rfl⟩ := h
    left
    cases ign <;> simp
  | some p =>
    simp only
    by_cases hal : (v.is_array && !p.is_list) = true
    · simp only [hal, if_true]
      simp at hal
      obtain ⟨ha, hl⟩ := hal
      cases v <;> simp [Json.is_array] at ha
      rw [match_item_list_given _ _ _ _ _ _ _ _ hf hl] at h
      simp at h
      obtain ⟨rfl, rfl⟩ := h
      exact Or.inl ⟨trivial, rfl, rfl⟩
    · simp only [hal, if_false]
      by_cases ho : p.is_object = true
      · simp only [ho, if_true]
        have hl : p.is_list = false := by
          cases p <;> simp [ConfigParam.is_object] at ho <;> rfl
        by_cases hv : v.is_object = true
        · have hv0 := hv
          cases v <;> simp [Json.is_object] at hv
          rw [match_item_nested_object _ _ _ _ _ _ _ _ hf ho] at h
          cases sub with
          | none => simp at h
          | some r =>
            simp at h
            obtain ⟨rfl, rfl⟩ := h
            exact Or.inr ⟨hv0, rfl, hsub r rfl hv0, p, _, rfl, rfl⟩
        · simp at hv
          have ha : v.is_array = false := by simpa [hl] using hal
          rw [match_item_nested_value _ _ _ _ _ _ _ _ hf ho hv ha] at h
          simp at h
          obtain ⟨rfl, rfl⟩ := h
          exact Or.inl ⟨hv, rfl, rfl⟩
      · simp at ho
        simp only [ho, Bool.false_eq_true, if_false]
        by_cases hfl : p.is_flag = true
        · simp only [hfl, if_true]
          have hl : p.is_list = false := by
            cases p <;> simp [ConfigParam.is_flag] at hfl <;> rfl
          have ha : v.is_array = false := by simpa [hl] using hal
          rw [match_item_flag _ _ _ _ _ _ _ _ hf hfl ha] at h
          simp at h
          obtain ⟨rfl, rfl⟩ := h
          exact Or.inr ⟨trivial, rfl, ⟨[], by simp⟩, p, _, rfl, rfl⟩
        · simp at hfl
          simp only [hfl, Bool.false_eq_true, if_false]
          cases v with
          | string s =>
            rw [match_item_value_string _ _ _ _ _ _ _ _ hf hfl ho] at h
            simp at h
            obtain ⟨rfl, rfl⟩ := h
            exact Or.inr ⟨rfl, rfl, ⟨[], by simp⟩, p, _, rfl, rfl⟩
          | number i =>
            by_cases hi : to_int i = NO_VALUE
            · rw [match_item_value_none _ _ _ _ _ _ _ _ hf hfl ho hi] at h
              simp at h
              obtain ⟨rfl, rfl⟩ := h
              exact Or.inl ⟨by simp [hi], rfl, rfl⟩
            · rw [match_item_value_ref _ _ _ _ _ _ _ _ hf hfl ho hi] at h
              cases ha : args_at st.args (to_int i) with
              | none => simp [ha] at h
              | some s =>
                simp [ha] at h
                obtain ⟨rfl, rfl⟩ := h
                exact Or.inr ⟨by simp [hi], rfl, ⟨[], by simp⟩, p, _, rfl, rfl⟩
          | array items =>
            have hl : p.is_list = true := by simpa [Json.is_array] using hal
            rw [match_item_value_list _ _ _ _ _ _ _ _ hf hl] at h
            cases hr : match_list_items x context key items 0 Json.null st.args st.errors with
            | none => simp [hr] at h
            | some r =>
              simp [hr] at h
              obtain ⟨rfl, rfl⟩ := h
              exact Or.inr ⟨rfl, rfl, match_list_items_prefix _ _ _ _ _ _ _ _ _ hr,
                p, _, rfl, rfl⟩
          | null =>
            rw [match_item_value_other x key Json.null _ _ _ _ _ hf hfl ho rfl rfl rfl] at h
            simp at h
            obtain ⟨rfl, rfl⟩ := h
            exact Or.inl ⟨rfl, rfl, rfl⟩
          | boolean b =>
            rw [match_item_value_other x key (Json.boolean b) _ _ _ _ _ hf hfl ho rfl rfl rfl] at h
            simp at h
            obtain ⟨rfl, rfl⟩ := h
            exact Or.inl ⟨rfl, rfl, rfl⟩
          | object kvs =>
            rw [match_item_value_other x key (Json.object kvs) _ _ _ _ _ hf hfl ho rfl rfl rfl] at h
            simp at h
            obtain ⟨rfl, rfl⟩ := h
            exact Or.inl ⟨rfl, rfl, rfl⟩

/-! ### The diagnostics of a call, member by member -/

theorem match_config_prefix (tree : Json) :
    ∀ (x : ConfigObject) (args : List (Option Str)) (ign : Bool) (context : Str)
      (errors : List Str) (r : MatchResult),
      tree.is_object = true ∨ tree = Json.null →
      match_config x tree args ign context errors = some r →
      ∃ b, r.errors = errors ++ b := by
  induction tree using Json.induction with
  | hnull =>
    intro x args ign context errors r _ h
    rw [match_config_null] at h
    simp at h
    subst h
    exact ⟨[], by simp⟩
  | hbool b => intro x args ign context errors r ht; simp [Json.is_object] at ht
  | hnum i => intro x args ign context errors r ht; simp [Json.is_object] at ht
  | hstr s => intro x args ign context errors r ht; simp [Json.is_object] at ht
  | harr xs _ => intro x args ign context errors r ht; simp [Json.is_object] at ht
  | hobj kvs ih =>
    intro x args ign context errors r _ h
    have key : ∀ (items : List (Str × Json)), (∀ kv ∈ items, kv ∈ kvs) →
        ∀ (st st1 : MatchState) (items1 : List (Str × Json)),
        match_object_items x items ign context st = some (st1, items1) →
        ∃ b, st1.errors = st.errors ++ b := by
      intro items
      induction items with
      | nil =>
        intro _ st st1 items1 h0
        rw [match_object_items_nil] at h0
        simp at h0
        obtain ⟨rfl, rfl⟩ := h0
        exact ⟨[], by simp⟩
      | cons kv rest ihl =>
        intro hsubset st st2 items1 h0
        obtain ⟨k, v⟩ := kv
        obtain ⟨st1, v1, rest1, hmi, hrest, rfl⟩ := match_object_items_cons _ _ _ _ _ _ _ _ _ h0
        obtain ⟨b2, hb2⟩ := ihl (fun kv hkv => hsubset kv (List.mem_cons_of_mem _ hkv)) _ _ _ hrest
        have hv := hsubset (k, v) (List.mem_cons_self _ _)
        have hsub : ∀ r, object_sub x k v st.args ign context st.errors = some r →
            v.is_object = true → ∃ b, r.errors = st.errors ++ b := by
          intro r hr hvo
          unfold object_sub at hr
          split at hr
          · exact ih (k, v) hv _ _ _ _ _ _ (Or.inl hvo) hr
          · simp at hr
        rcases match_item_outcome x k v ign context _ st st1 v1 hsub hmi with
          ⟨_, rfl, _⟩ | ⟨_, _, ⟨b1, hb1⟩, _⟩
        · exact ⟨member_diagnostic x context k v ign ++ b2, by rw [hb2, List.append_assoc]⟩
        · exact ⟨b1 ++ b2, by rw [hb2, hb1, List.append_assoc]⟩
    rw [match_config_object_eq] at h
    cases hm : match_object_items x kvs ign context
        { matched := Json.null, matched_keys := [], args := args, errors := errors } with
    | none => rw [hm] at h; simp at h
    | some q =>
      obtain ⟨st, kvs1⟩ := q
      rw [hm] at h
      simp at h
      subst h
      exact key kvs (fun _ h => h) _ _ _ hm

theorem object_sub_prefix (x : ConfigObject) (key : Str) (v : Json) (args : List (Option Str))
    (ign : Bool) (context : Str) (errors : List Str) (r : MatchResult)
    (h : object_sub x key v args ign context errors = some r) (hv : v.is_object = true) :
    ∃ b, r.errors = errors ++ b := by
  unfold object_sub at h
  split at h
  · exact match_config_prefix v _ _ _ _ _ _ (Or.inl hv) h
  · simp at h

theorem match_object_items_blocks (x : ConfigObject) (ign : Bool) (context : Str)
    (items : List (Str × Json)) :
    ∀ (st st1 : MatchState) (items1 : List (Str × Json)),
      match_object_items x items ign context st = some (st1, items1) →
      (st.matched.is_object = true ∨ st.matched = Json.null) →
      ∃ keys blocks, st1.matched_keys = st.matched_keys ++ keys
        ∧ st1.errors = st.errors ++ blocks.flatten
        ∧ List.Forall₂ (fun kv block => member_binds x kv.1 kv.2 = false →
            block = member_diagnostic x context kv.1 kv.2 ign) items blocks
        ∧ (∀ k, k ∈ keys ↔ ∃ kv ∈ items, kv.1 = k ∧ member_binds x kv.1 kv.2 = true)
        ∧ (∀ kv ∈ items, member_binds x kv.1 kv.2 = false → kv ∈ items1)
        ∧ items1.map Prod.fst = items.map Prod.fst
        ∧ (∀ kv ∈ items, member_binds x kv.1 kv.2 = true →
            ∃ p, find_param x kv.1 = some p ∧ st1.matched.contains p.name = true) := by
  induction items with
  | nil =>
    intro st st1 items1 h _
    rw [match_object_items_nil] at h
    simp at h
    obtain ⟨rfl, rfl⟩ := h
    exact ⟨[], [], (List.append_nil _).symm, (List.append_nil _).symm, List.Forall₂.nil,
      fun k => ⟨fun hk => absurd hk (List.not_mem_nil _),
        fun hk => absurd hk.choose_spec.1 (List.not_mem_nil _)⟩,
      fun kv hkv => absurd hkv (List.not_mem_nil _), rfl,
      fun kv hkv => absurd hkv (List.not_mem_nil _)⟩
  | cons kv rest ih =>
    obtain ⟨k, v⟩ := kv
    intro st st2 items1 h hs
    obtain ⟨st1, v1, rest1, hmi, hrest, rfl⟩ := match_object_items_cons _ _ _ _ _ _ _ _ _ h
    obtain ⟨a1, a2⟩ := match_item_matched_root _ _ _ _ _ _ _ _ _ hmi hs
    obtain ⟨keys, blocks, e1, e2, e3, e4, e5, e6, e7⟩ := ih _ _ _ hrest a1
    obtain ⟨_, c2⟩ := match_object_items_contains _ _ _ _ _ _ _ hrest a1
    rcases match_item_outcome x k v ign context _ st st1 v1
        (fun r hr hvo => object_sub_prefix x k v _ _ _ _ r hr hvo) hmi with
      ⟨hb, rfl, hv1⟩ | ⟨hb, hk, ⟨b1, hb1⟩, p, val, hp, hm⟩
    · have hv2 := hv1.symm
      subst hv2
      refine ⟨keys, member_diagnostic x context k v ign :: blocks, e1, ?_,
        List.Forall₂.cons (fun _ => rfl) e3, ?_, ?_, by simp [e6], ?_⟩
      · rw [e2]
        simp
      · intro k1
        rw [e4 k1]
        constructor
        · rintro ⟨kv, hkv, h1, h2⟩
          exact ⟨kv, List.mem_cons_of_mem _ hkv, h1, h2⟩
        · rintro ⟨kv, hkv, h1, h2⟩
          rcases List.mem_cons.mp hkv with e | e
          · subst e
            rw [hb] at h2
            simp at h2
          · exact ⟨kv, e, h1, h2⟩
      · intro kv hkv hnb
        rcases List.mem_cons.mp hkv with e | e
        · subst e
          exact List.mem_cons_self _ _
        · exact List.mem_cons_of_mem _ (e5 kv e hnb)
      · intro kv hkv hbd
        rcases List.mem_cons.mp hkv with e | e
        · subst e
          rw [hb] at hbd
          simp at hbd
        · exact e7 kv e hbd
    · refine ⟨k :: keys, b1 :: blocks, by rw [e1, hk]; simp, ?_,
        List.Forall₂.cons (fun hnb => by rw [hb] at hnb; simp at hnb) e3, ?_, ?_,
        by simp [e6], ?_⟩
      · rw [e2, hb1]
        simp
      · intro k1
        simp only [List.mem_cons]
        rw [e4 k1]
        constructor
        · rintro (rfl | ⟨kv, hkv, h1, h2⟩)
          · exact ⟨(k1, v), Or.inl rfl, rfl, hb⟩
          · exact ⟨kv, Or.inr hkv, h1, h2⟩
        · rintro ⟨kv, hkv | hkv, h1, h2⟩
          · subst hkv
            exact Or.inl h1.symm
          · exact Or.inr ⟨kv, hkv, h1, h2⟩
      · intro kv hkv hnb
        rcases List.mem_cons.mp hkv with e | e
        · subst e
          rw [hb] at hnb
          simp at hnb
        · exact List.mem_cons_of_mem _ (e5 kv e hnb)
      · intro kv hkv hbd
        rcases List.mem_cons.mp hkv with e | e
        · subst e
          refine ⟨p, hp, c2 _ ?_⟩
          rw [hm, contains_of_set _ _ _ _ hs]
          simp
        · exact e7 kv e hbd

theorem kv_find_of_mem {β : Type} (k : Str) (v : β) (l : List (Str × β))
    (hn : (l.map Prod.fst).Nodup) (h : (k, v) ∈ l) : kv_find k l = some v := by
  induction l with
  | nil => simp at h
  | cons kv rest ih =>
    obtain ⟨k1, v1⟩ := kv
    simp only [List.map_cons, List.nodup_cons] at hn
    rcases List.mem_cons.mp h with e | e
    · simp only [Prod.mk.injEq] at e
      obtain ⟨rfl, rfl⟩ := e
      simp [kv_find]
    · have hne : k1 ≠ k := fun e1 => hn.1 (e1 ▸ List.mem_map_of_mem Prod.fst e)
      simp only [kv_find, if_neg hne]
      exact ih hn.2 e

/-! ### C35: diagnostics accumulate, matching goes on -/

theorem forall₂_imp_mem {α β : Type} (R S : α → β → Prop) (l1 : List α) (l2 : List β)
    (h : List.Forall₂ R l1 l2) (himp : ∀ a b, a ∈ l1 → R a b → S a b) :
    List.Forall₂ S l1 l2 := by
  induction h with
  | nil => exact List.Forall₂.nil
  | cons hab _ ih =>
    exact List.Forall₂.cons (himp _ _ (List.mem_cons_self _ _) hab)
      (ih (fun a b ha hr => himp a b (List.mem_cons_of_mem _ ha) hr))

theorem match_config_members (x : ConfigObject) (kvs : List (Str × Json))
    (args : List (Option Str)) (ign : Bool) (context : Str) (errors : List Str)
    (r : MatchResult) (hkeys : (Json.object kvs).keys_differ = true)
    (h : match_config x (Json.object kvs) args ign context errors = some r) :
    ∃ blocks, r.errors = errors ++ blocks.flatten
      ∧ List.Forall₂ (fun kv block =>
          (member_binds x kv.1 kv.2 = false →
            block = member_diagnostic x context kv.1 kv.2 ign ∧ r.config.get kv.1 = some kv.2)
          ∧ (member_binds x kv.1 kv.2 = true →
            r.config.contains kv.1 = false
            ∧ ∃ p, find_param x kv.1 = some p ∧ r.matched.contains p.name = true)) kvs blocks := by
  simp only [Json.keys_differ, decide_eq_true_eq] at hkeys
  rw [match_config_object_eq] at h
  cases hm : match_object_items x kvs ign context
      { matched := Json.null, matched_keys := [], args := args, errors := errors } with
  | none => rw [hm] at h; simp at h
  | some q =>
    obtain ⟨st1, items1⟩ := q
    rw [hm] at h
    simp only [Option.map_some', Option.some.injEq] at h
    subst h
    obtain ⟨keys, blocks, e1, e2, e3, e4, e5, e6, e7⟩ :=
      match_object_items_blocks x ign context kvs _ _ _ hm (Or.inr rfl)
    simp only [List.nil_append] at e1
    have hn1 : (items1.map Prod.fst).Nodup := by rw [e6]; exact hkeys
    refine ⟨blocks, e2, forall₂_imp_mem _ _ _ _ e3 ?_⟩
    intro kv block hkv hR
    obtain ⟨k, v⟩ := kv
    simp only [e1]
    constructor
    · intro hnb
      refine ⟨hR hnb, ?_⟩
      have hk : k ∉ keys := by
        intro hk
        obtain ⟨kv1, hkv1, hk1, hb1⟩ := (e4 k).mp hk
        obtain ⟨k1, w⟩ := kv1
        simp only at hk1
        subst hk1
        have f1 := kv_find_of_mem k1 v kvs hkeys hkv
        have f2 := kv_find_of_mem k1 w kvs hkeys hkv1
        rw [f1] at f2
        simp only [Option.some.injEq] at f2
        subst f2
        rw [hnb] at hb1
        simp at hb1
      simp only [Json.get]
      rw [kv_find_erase_all _ _ _ hk]
      exact kv_find_of_mem k v items1 hn1 (e5 (k, v) hkv hnb)
    · intro hbd
      refine ⟨?_, e7 (k, v) hkv hbd⟩
      have hk : k ∈ keys := (e4 k).mpr ⟨(k, v), hkv, rfl, hbd⟩
      rw [contains_eq_get]
      simp only [Json.get]
      rw [erase_all_eq_filter keys items1 hn1]
      have hnone : kv_find k (items1.filter (fun kv => decide (kv.1 ∉ keys))) = none := by
        rw [kv_find_none_iff]
        intro hmem
        obtain ⟨kv2, hkv2, hk2⟩ := List.mem_map.mp hmem
        have := (List.mem_filter.mp hkv2).2
        simp only [decide_eq_true_eq] at this
        rw [hk2] at this
        exact this hk
      rw [hnone]
      rfl

/-- C35: for every tree whose references are well formed (keys pairwise
different, every index in range, held at most once and pointing at a token that
is not consumed) and every registry, `match_config` with `ignore_unknown_params`
false returns, and its diagnostics are the old ones followed by one block per key
of the tree, in the order of the keys. The block of a key that resolves to no
parameter is exactly the one unknown-parameter diagnostic for it, so `k`
unresolved keys yield exactly `k` such diagnostics; the block of any other key
that is not bound is the one diagnostic of its case, and the key stays in the
tree with its value. Every key that resolves and has a value of a form its
parameter takes is bound (its parameter has an entry in the bound configuration)
and erased from the tree, whatever the diagnostics of the other keys. -/
theorem C35_diagnostics_accumulate (x : ConfigObject) (kvs : List (Str × Json))
    (args : List (Option Str)) (context : Str) (errors : List Str)
    (hkeys : (Json.object kvs).keys_differ = true)
    (hlen : args.length < 2147483648)
    (hok : (Json.object kvs).refs_ok args.length = true)
    (hcnt : ∀ n : Int, n ≠ NO_VALUE → Json.count n (Json.object kvs) ≤ 1)
    (hav : ∀ n : Nat, 1 ≤ Json.count (n : Int) (Json.object kvs) →
      ∃ s, args[n]? = some (some s)) :
    ∃ r blocks, match_config x (Json.object kvs) args false context errors = some r
      ∧ r.errors = errors ++ blocks.flatten
      ∧ List.Forall₂ (fun kv block =>
          (find_param x kv.1 = none →
            block = [err_unknown x context kv.1] ∧ r.config.get kv.1 = some kv.2)
          ∧ (member_binds x kv.1 kv.2 = false →
            block = member_diagnostic x context kv.1 kv.2 false
            ∧ r.config.get kv.1 = some kv.2)
          ∧ (member_binds x kv.1 kv.2 = true →
            r.config.contains kv.1 = false
            ∧ ∃ p, find_param x kv.1 = some p ∧ r.matched.contains p.name = true)) kvs blocks := by
  obtain ⟨r, hr⟩ := match_config_total (Json.object kvs) x args false context errors
    (Or.inl rfl) hlen hok hcnt hav
  obtain ⟨blocks, b1, b2⟩ := match_config_members x kvs args false context errors r hkeys hr
  refine ⟨r, blocks, hr, b1, forall₂_imp_mem _ _ _ _ b2 ?_⟩
  intro kv block _ hR
  refine ⟨fun hf => ?_, hR.1, hR.2⟩
  have hnb : member_binds x kv.1 kv.2 = false := by simp [member_binds, hf]
  have := hR.1 hnb
  simpa [member_diagnostic, hf] using this

/-- C35 at the object `example_Test` and the tree of the keys `bool` (a flag),
`yyy` and `zzz` (both unknown), with one token: the call returns and its
diagnostics are blocks, one per key. -/
theorem C35_diagnostics_accumulate_witness :
    ∃ (r : MatchResult) (blocks : List (List Str)),
      match_config example_Test
        (Json.object [("bool".toList, Json.number NO_VALUE), ("yyy".toList, Json.string "s".toList),
          ("zzz".toList, Json.number 0)])
        [some "1".toList] false [] [] = some r
      ∧ r.errors = [] ++ blocks.flatten := by
  obtain ⟨r, blocks, h1, h2, _⟩ := C35_diagnostics_accumulate example_Test
    [("bool".toList, Json.number NO_VALUE), ("yyy".toList, Json.string "s".toList),
      ("zzz".toList, Json.number 0)]
    [some "1".toList] [] [] (by decide) (by decide) rfl
    (by
      intro n hn
      simp only [Json.count, count_members, NO_VALUE] at hn ⊢
      split <;> split <;> omega)
    (by
      intro n hn
      simp only [Json.count, count_members, NO_VALUE] at hn
      have h0 : n = 0 := by
        split at hn <;> split at hn <;> omega
      subst h0
      exact ⟨"1".toList, rfl⟩)
  exact ⟨r, blocks, h1, h2⟩

/-! ### C40: the keys of the help flag -/

theorem forall₂_of_mem {α β : Type} (R : α → β → Prop) (l1 : List α) (l2 : List β)
    (h : List.Forall₂ R l1 l2) (a : α) (ha : a ∈ l1) : ∃ b ∈ l2, R a b := by
  induction h with
  | nil => exact absurd ha (List.not_mem_nil _)
  | cons hab _ ih =>
    rcases List.mem_cons.mp ha with e | e
    · subst e
      exact ⟨_, List.mem_cons_self _ _, hab⟩
    · obtain ⟨b, hb, hr⟩ := ih e
      exact ⟨b, List.mem_cons_of_mem _ hb, hr⟩

theorem match_config_config_keys (x : ConfigObject) (kvs : List (Str × Json))
    (args : List (Option Str)) (ign : Bool) (context : Str) (errors : List Str)
    (r : MatchResult) (h : match_config x (Json.object kvs) args ign context errors = some r)
    (k : Str) (hk : r.config.contains k = true) : k ∈ kvs.map Prod.fst := by
  rw [match_config_object_eq] at h
  cases hm : match_object_items x kvs ign context
      { matched := Json.null, matched_keys := [], args := args, errors := errors } with
  | none => rw [hm] at h; simp at h
  | some q =>
    obtain ⟨st1, items1⟩ := q
    rw [hm] at h
    simp only [Option.map_some', Option.some.injEq] at h
    subst h
    obtain ⟨keys, blocks, _, _, _, _, _, e6, _⟩ :=
      match_object_items_blocks x ign context kvs _ _ _ hm (Or.inr rfl)
    rw [contains_eq_get] at hk
    simp only [Json.get] at hk
    cases hf : kv_find k (st1.matched_keys.foldl (fun m k => kv_erase k m) items1) with
    | none => rw [hf] at hk; simp at hk
    | some v =>
      have hmem := mem_of_mem_erase_all _ _ _ (mem_of_kv_find _ _ _ hf)
      rw [← e6]
      exact List.mem_map.mpr ⟨(k, v), hmem, rfl⟩

theorem match_object_items_names (x : ConfigObject) (ign : Bool) (context : Str)
    (items : List (Str × Json)) :
    ∀ (st st1 : MatchState) (items1 : List (Str × Json)),
      match_object_items x items ign context st = some (st1, items1) →
      (st.matched.is_object = true ∨ st.matched = Json.null) →
      ∀ nm, st1.matched.contains nm = true →
        st.matched.contains nm = true
        ∨ ∃ kv ∈ items, ∃ p, find_param x kv.1 = some p ∧ p.name = nm := by
  induction items with
  | nil =>
    intro st st1 items1 h _ nm hnm
    rw [match_object_items_nil] at h
    simp at h
    obtain ⟨rfl, rfl⟩ := h
    exact Or.inl hnm
  | cons kv rest ih =>
    obtain ⟨k, v⟩ := kv
    intro st st2 items1 h hs nm hnm
    obtain ⟨st1, v1, rest1, hmi, hrest, _⟩ := match_object_items_cons _ _ _ _ _ _ _ _ _ h
    obtain ⟨a1, _⟩ := match_item_matched_root _ _ _ _ _ _ _ _ _ hmi hs
    rcases ih _ _ _ hrest a1 nm hnm with h1 | ⟨kv, hkv, p, hp, hpn⟩
    · rcases match_item_keys _ _ _ _ _ _ _ _ _ hmi with ⟨m1, _, _⟩ | ⟨p, val, hp, m1, _⟩
      · rw [m1] at h1
        exact Or.inl h1
      · rw [m1, contains_of_set _ _ _ _ hs] at h1
        simp only [Bool.or_eq_true, decide_eq_true_eq] at h1
        rcases h1 with h1 | h1
        · exact Or.inr ⟨(k, v), List.mem_cons_self _ _, p, hp, h1⟩
        · exact Or.inl h1
    · exact Or.inr ⟨kv, List.mem_cons_of_mem _ hkv, p, hp, hpn⟩

theorem match_config_names (x : ConfigObject) (tree : Json) (args : List (Option Str))
    (ign : Bool) (context : Str) (errors : List Str) (r : MatchResult)
    (hroot : tree.is_object = true ∨ tree = Json.null)
    (h : match_config x tree args ign context errors = some r) (nm : Str)
    (hnm : r.matched.contains nm = true) :
    ∃ key p, tree.contains key = true ∧ find_param x key = some p ∧ p.name = nm := by
  rcases hroot with hroot | rfl
  · cases tree <;> simp [Json.is_object] at hroot
    rename_i kvs
    rw [match_config_object_eq] at h
    cases hm : match_object_items x kvs ign context
        { matched := Json.null, matched_keys := [], args := args, errors := errors } with
    | none => rw [hm] at h; simp at h
    | some q =>
      obtain ⟨st1, items1⟩ := q
      rw [hm] at h
      simp only [Option.map_some', Option.some.injEq] at h
      subst h
      rcases match_object_items_names x ign context kvs _ _ _ hm (Or.inr rfl) nm hnm with
        h1 | ⟨kv, hkv, p, hp, hpn⟩
      · simp [Json.contains] at h1
      · refine ⟨kv.1, p, ?_, hp, hpn⟩
        rw [contains_eq_get]
        simp only [Json.get]
        cases hf : kv_find kv.1 kvs with
        | some w => rfl
        | none =>
          exact absurd (List.mem_map_of_mem Prod.fst hkv) ((kv_find_none_iff _ _).mp hf)
  · rw [match_config_null] at h
    simp at h
    subst h
    simp [Json.contains] at hnm

theorem base_pass_erases (tree : Json) (args : List (Option Str)) (errors : List Str)
    (r : MatchResult) (key : Str) (p : ConfigParam)
    (hroot : tree.is_object = true ∨ tree = Json.null)
    (hkeys : tree.keys_differ = true)
    (hfind : find_param (Application.base false) key = some p)
    (h : match_config (Application.base false) tree args true [] errors = some r)
    (herr : r.errors = errors) : r.config.contains key = false := by
  rcases hroot with hroot | rfl
  · cases tree <;> simp [Json.is_object] at hroot
    rename_i kvs
    cases hc : r.config.contains key with
    | false => rfl
    | true =>
      exfalso
      have hmem := match_config_config_keys _ _ _ _ _ _ _ h key hc
      obtain ⟨kv, hkv, hk⟩ := List.mem_map.mp hmem
      obtain ⟨blocks, b1, b2⟩ := match_config_members _ kvs args true [] errors r hkeys h
      obtain ⟨block, hblock, hR⟩ := forall₂_of_mem _ _ _ b2 kv hkv
      rw [hk] at hR
      obtain ⟨pf, _, pl⟩ := base_find_param key p hfind
      cases hb : member_binds (Application.base false) key kv.2 with
      | true =>
        rw [(hR.2 hb).1] at hc
        simp at hc
      | false =>
        have hd := (hR.1 hb).1
        have hne : block ≠ [] := by
          rw [hd]
          simp only [member_diagnostic, hfind]
          split
          · simp
          · split <;> simp
        have hfl : blocks.flatten ≠ [] := by
          intro e
          rw [List.flatten_eq_nil_iff] at e
          exact hne (e block hblock)
        rw [herr] at b1
        have : blocks.flatten = [] := by
          have := congrArg List.length b1
          simp only [List.length_append] at this
          exact List.length_eq_zero.mp (by omega)
        exact hfl this
  · rw [match_config_null] at h
    simp at h
    subst h
    rfl

/-- C40, as stated, fails: the object `example_help` declares a flag with the long
name `help` and the short name `x`, and the command line `prog -x` is accepted and
sets this flag. The command line `prog --help` is read by the driver: it sets the
help flag of the application and leaves the flag of the object as it is. -/
theorem C40_help_keys_counterexample :
    (Application.new example_help ["prog".toList, "-x".toList]).map
        (fun run => (run.app.good_, run.cerr, run.x.get_param "help".toList))
      = some (true, [], some (ConfigParam.FlagParam 'x' "help".toList [] true false))
    ∧ (Application.new example_help ["prog".toList, "--help".toList]).map
        (fun run => (run.app.good_, run.app.help_, run.cerr, run.x.get_param "help".toList))
      = some (false, true, [], some (ConfigParam.FlagParam 'x' "help".toList [] false false)) :=
  ⟨rfl, rfl⟩

/-- C40, amended: for every command line (of less than 2^31 arguments) both match
passes of the constructor of `Application` return, and when the command line is
accepted (nothing is printed), the tree that the pass for the target object
receives holds neither the root key `help` nor the root key `h`: the pass of the
driver has matched and erased them. So every entry of the bound configuration of
the target comes from a root key other than `help` and `h` that resolves to the
parameter of that name, and a parameter of the target that no key other than
`help` and `h` resolves to (one named `help` without a short name other than `h`)
gets no entry and keeps its value. -/
theorem C40_help_keys_reserved (x : ConfigObject) (argv : List Str)
    (hlen : argv.length < 2147483648) :
    ∃ r1 r2 run,
      match_config (Application.base false) (parse_cmdline argv []).1.json
        (parse_cmdline argv []).1.args true [] (parse_cmdline argv []).2 = some r1
      ∧ match_config x r1.config r1.args false [] r1.errors = some r2
      ∧ Application.new x argv = some run
      ∧ (run.cerr = [] →
          r1.config.contains "help".toList = false
          ∧ r1.config.contains "h".toList = false
          ∧ run.x = x.configure r2.matched
          ∧ (∀ nm, r2.matched.contains nm = true →
              ∃ key p, key ≠ "help".toList ∧ key ≠ "h".toList
                ∧ r1.config.contains key = true ∧ find_param x key = some p ∧ p.name = nm)
          ∧ (∀ p : ConfigParam,
              (∀ key q, find_param x key = some q → q.name = p.name →
                key = "help".toList ∨ key = "h".toList) →
              ConfigParam.configure r2.matched p = (p, false))) := by
  obtain ⟨r1, r2, run, h1, h2, h3, _, h5⟩ := application_new_cases x argv hlen
  refine ⟨r1, r2, run, h1, h2, h3, ?_⟩
  intro hc
  obtain ⟨e0, e1, _, e3, _⟩ := h5 hc
  have wroot := parse_cmdline_root argv []
  have wkeys := parse_cmdline_keys argv []
  obtain ⟨_, f2, _, _, _⟩ := match_config_facts _ _ _ _ _ _ _ wroot h1
  have a1 : r1.config.contains "help".toList = false :=
    base_pass_erases _ _ _ r1 "help".toList
      (ConfigParam.FlagParam 'h' "help".toList "Shows this help.".toList false false)
      wroot wkeys rfl h1 (by rw [e0, e1])
  have a2 : r1.config.contains "h".toList = false :=
    base_pass_erases _ _ _ r1 "h".toList
      (ConfigParam.FlagParam 'h' "help".toList "Shows this help.".toList false false)
      wroot wkeys rfl h1 (by rw [e0, e1])
  have names : ∀ nm, r2.matched.contains nm = true →
      ∃ key p, key ≠ "help".toList ∧ key ≠ "h".toList
        ∧ r1.config.contains key = true ∧ find_param x key = some p ∧ p.name = nm := by
    intro nm hnm
    obtain ⟨key, p, k1, k2, k3⟩ := match_config_names x r1.config r1.args false [] r1.errors r2
      f2 h2 nm hnm
    refine ⟨key, p, ?_, ?_, k1, k2, k3⟩
    · intro e
      rw [e, a1] at k1
      simp at k1
    · intro e
      rw [e, a2] at k1
      simp at k1
  refine ⟨a1, a2, e3, names, ?_⟩
  intro p hp
  apply configure_absent
  cases hcn : r2.matched.contains p.name with
  | false => rfl
  | true =>
    exfalso
    obtain ⟨key, q, n1, n2, _, n4, n5⟩ := names p.name hcn
    rcases hp key q n4 n5 with e | e
    · exact n1 e
    · exact n2 e

/-- C40 (amended) at the command line `prog --help` and the object `example_help`:
both passes return. -/
theorem C40_help_keys_reserved_witness :
    ∃ r1 r2 run,
      match_config (Application.base false)
        (parse_cmdline ["prog".toList, "--help".toList] []).1.json
        (parse_cmdline ["prog".toList, "--help".toList] []).1.args true []
        (parse_cmdline ["prog".toList, "--help".toList] []).2 = some r1
      ∧ match_config example_help r1.config r1.args false [] r1.errors = some r2
      ∧ Application.new example_help ["prog".toList, "--help".toList] = some run := by
  obtain ⟨r1, r2, run, h1, h2, h3, _⟩ :=
    C40_help_keys_reserved example_help ["prog".toList, "--help".toList] (by decide)
  exact ⟨r1, r2, run, h1, h2, h3⟩

/-! ### C36: token references are well formed -/

theorem digitChar_digit (r : Nat) (h : r < 10) :
    isdigit (Nat.digitChar r) = true ∧ (Nat.digitChar r).toNat - 48 = r := by
  interval_cases r <;> exact ⟨by decide, by decide⟩

theorem digits_value_append (l : List Char) (d : Char) :
    digits_value (l ++ [d]) = 10 * digits_value l + (d.toNat - 48) := by
  simp [digits_value, List.foldl_append]

theorem toDigitsCore_digits (fuel : Nat) :
    ∀ (n : Nat) (ds : List Char), n < fuel →
      ∃ l, Nat.toDigitsCore 10 fuel n ds = l ++ ds ∧ l ≠ []
        ∧ (∀ c ∈ l, isdigit c = true) ∧ digits_value l = n := by
  induction fuel with
  | zero => intro n ds h; omega
  | succ fuel ih =>
    intro n ds h
    obtain ⟨d1, d2⟩ := digitChar_digit (n % 10) (Nat.mod_lt _ (by decide))
    rw [Nat.toDigitsCore]
    by_cases h0 : n / 10 = 0
    · simp only [h0, if_true]
      refine ⟨[Nat.digitChar (n % 10)], rfl, by simp, ?_, ?_⟩
      · intro c hc
        simp only [List.mem_singleton] at hc
        rw [hc]
        exact d1
      · have := digits_value_append [] (Nat.digitChar (n % 10))
        simp only [List.nil_append] at this
        rw [this, d2]
        have e : digits_value [] = 0 := rfl
        rw [e]
        omega
    · simp only [h0, if_false]
      obtain ⟨l, e1, _, e3, e4⟩ := ih (n / 10) (Nat.digitChar (n % 10) :: ds) (by omega)
      refine ⟨l ++ [Nat.digitChar (n % 10)], by rw [e1]; simp, by simp, ?_, ?_⟩
      · intro c hc
        rcases List.mem_append.mp hc with hc | hc
        · exact e3 c hc
        · simp only [List.mem_singleton] at hc
          rw [hc]
          exact d1
      · rw [digits_value_append, e4, d2]
        omega

theorem repr_digits (n : Nat) :
    (Nat.repr n).toList ≠ [] ∧ (∀ c ∈ (Nat.repr n).toList, isdigit c = true)
      ∧ digits_value (Nat.repr n).toList = n := by
  obtain ⟨l, e1, e2, e3, e4⟩ := toDigitsCore_digits (n + 1) n [] (Nat.lt_succ_self n)
  have e : (Nat.repr n).toList = l := by
    show Nat.toDigits 10 n = l
    rw [Nat.toDigits, e1, List.append_nil]
  rw [e]
  exact ⟨e2, e3, e4⟩

theorem parse_si_iec_digits (ds rest : Str) (hne : ds ≠ []) (hd : ∀ c ∈ ds, isdigit c = true)
    (hfit : digits_value ds < 18446744073709551616)
    (hr : rest.head?.all (fun c => !isdigit c) = true) :
    parse_si_iec_string (ds ++ rest) =
      ((let p1 := rest.dropWhile (fun c => c = ' ')
        let power : Nat :=
          if toupper (peek p1) = 'K' then 1
          else if toupper (peek p1) = 'M' then 2
          else if toupper (peek p1) = 'G' then 3
          else if toupper (peek p1) = 'T' then 4
          else if toupper (peek p1) = 'P' then 5
          else 0
        let p2 := if power ≠ 0 then p1.drop 1 else p1
        let iec : Bool := power ≠ 0 && toupper (peek p2) = 'I'
        let base : Nat := if iec then 1024 else 1000
        let p3 := if iec then p2.drop 1 else p2
        let out_v := (digits_value ds * base ^ power) % 18446744073709551616
        let p4 := if power = 0 && toupper (peek p3) = 'B' then p3.drop 1 else p3
        let p5 := p4.dropWhile (fun c => c = ' ')
        (p5.isEmpty, out_v)) : Bool × Nat) := by
  unfold parse_si_iec_string
  rw [strtoull_digits ds rest hne hd hr hfit]

/-! ### C38: the round trip below the sixth unit -/

theorem parse_repr_unit (q : Nat) (hq : q < 18446744073709551616) :
    parse_si_iec_string (Nat.repr q).toList = (true, q)
    ∧ (∀ k u, (k, u) ∈ [(1, "K".toList), (2, "M".toList), (3, "G".toList), (4, "T".toList),
          (5, "P".toList)] →
        parse_si_iec_string ((Nat.repr q).toList ++ u)
          = (true, q * 1000 ^ k % 18446744073709551616))
    ∧ (∀ k u, (k, u) ∈ [(1, "Ki".toList), (2, "Mi".toList), (3, "Gi".toList),
          (4, "Ti".toList), (5, "Pi".toList)] →
        parse_si_iec_string ((Nat.repr q).toList ++ u)
          = (true, q * 1024 ^ k % 18446744073709551616)) := by
  obtain ⟨d1, d2, d3⟩ := repr_digits q
  have key := fun rest hr => parse_si_iec_digits (Nat.repr q).toList rest d1 d2
    (by rw [d3]; exact hq) hr
  simp only [d3] at key
  refine ⟨?_, ?_, ?_⟩
  · have := key [] rfl
    rw [List.append_nil] at this
    rw [this]
    simp only [List.dropWhile_nil, peek, List.headD_nil]
    have e : q * 1000 ^ 0 % 18446744073709551616 = q := by
      rw [pow_zero, Nat.mul_one, Nat.mod_eq_of_lt hq]
    simpa [toupper] using e
  · intro k u hu
    simp only [List.mem_cons, Prod.mk.injEq, List.mem_singleton, List.not_mem_nil, or_false] at hu
    rcases hu with h | h | h | h | h <;> obtain ⟨rfl, rfl⟩ := h <;>
      (rw [key] <;> rfl)
  · intro k u hu
    simp only [List.mem_cons, Prod.mk.injEq, List.mem_singleton, List.not_mem_nil, or_false] at hu
    rcases hu with h | h | h | h | h <;> obtain ⟨rfl, rfl⟩ := h <;>
      (rw [key] <;> rfl)

/-- C38, amended: for every 64-bit value `v` that `make_si_iec_string` writes
without a unit or with one of the units up to `P` and `Pi` (every value that is
neither a positive multiple of 1000^6 nor, when it is no multiple of 1000, a
positive multiple of 1024^6), `make_si_iec_string` returns a text (for every bound
of at least 6 on the iterations) and `parse_si_iec_string` accepts this text with
the value `v`. -/
theorem C38_round_trip_below_exa (v fuel : Nat) (hv : v < 18446744073709551616)
    (hfuel : 6 ≤ fuel) (h1000 : ¬ (0 < v ∧ 1000 ^ 6 ∣ v))
    (h1024 : ¬ (0 < v ∧ v % 1000 ≠ 0 ∧ 1024 ^ 6 ∣ v)) :
    ∃ t, make_si_iec_string fuel v = some t ∧ parse_si_iec_string t = (true, v) := by
  have lt_pow : ∀ base : Nat, 1000 ≤ base → v < base ^ (fuel + 1) := by
    intro base hbase
    have h1 : base ^ 7 ≤ base ^ (fuel + 1) := Nat.pow_le_pow_right (by omega) (by omega)
    have h2 : 1000 ^ 7 ≤ base ^ 7 := Nat.pow_le_pow_left hbase 7
    have h4 : (1000 : Nat) ^ 7 = 1000000000000000000000 := by norm_num
    omega
  have bound : ∀ base : Nat, 1000 ≤ base → ∀ k, base ^ k ∣ v → 0 < v → k ≤ 6 := by
    intro base hbase k hk hpos
    by_contra hgt
    have h7 : 7 ≤ k := by omega
    have h1 : base ^ 7 ≤ base ^ k := Nat.pow_le_pow_right (by omega) h7
    have h2 : 1000 ^ 7 ≤ base ^ 7 := Nat.pow_le_pow_left hbase 7
    have h3 := Nat.le_of_dvd hpos hk
    have h4 : (1000 : Nat) ^ 7 = 1000000000000000000000 := by norm_num
    omega
  by_cases hc : 0 < v ∧ v % 1000 = 0
  · obtain ⟨k, k1, _, k3, _, k5⟩ := divide_loop_spec 1000 (by omega) fuel 0 v hc.1 hc.2
      (lt_pow 1000 (Nat.le_refl _))
    have k6 := bound 1000 (Nat.le_refl _) k k3 hc.1
    have k7 : k ≠ 6 := fun e => h1000 ⟨hc.1, e ▸ k3⟩
    have hq : v / 1000 ^ k < 18446744073709551616 :=
      Nat.lt_of_le_of_lt (Nat.div_le_self _ _) hv
    have hval : v / 1000 ^ k * 1000 ^ k % 18446744073709551616 = v := by
      rw [Nat.div_mul_cancel k3, Nat.mod_eq_of_lt hv]
    have hm : ∀ u, unit_at SI_UNITS k = some u →
        make_si_iec_string fuel v = some ((Nat.repr (v / 1000 ^ k)).toList ++ u) := by
      intro u hu
      unfold make_si_iec_string
      rw [if_pos hc, k5]
      simp only [Nat.zero_add]
      rw [hu]
      rfl
    have hp := (parse_repr_unit (v / 1000 ^ k) hq).2.1 k
    rw [hval] at hp
    have h5 : k = 1 ∨ k = 2 ∨ k = 3 ∨ k = 4 ∨ k = 5 := by omega
    rcases h5 with e | e | e | e | e <;> subst e
    · exact ⟨_, hm "K".toList rfl, hp _ (by simp)⟩
    · exact ⟨_, hm "M".toList rfl, hp _ (by simp)⟩
    · exact ⟨_, hm "G".toList rfl, hp _ (by simp)⟩
    · exact ⟨_, hm "T".toList rfl, hp _ (by simp)⟩
    · exact ⟨_, hm "P".toList rfl, hp _ (by simp)⟩
  · by_cases hc2 : 0 < v ∧ v % 1024 = 0
    · obtain ⟨k, k1, _, k3, _, k5⟩ := divide_loop_spec 1024 (by omega) fuel 0 v hc2.1 hc2.2
        (lt_pow 1024 (by omega))
      have k6 := bound 1024 (by omega) k k3 hc2.1
      have hn1000 : v % 1000 ≠ 0 := fun e => hc ⟨hc2.1, e⟩
      have k7 : k ≠ 6 := fun e => h1024 ⟨hc2.1, hn1000, e ▸ k3⟩
      have hq : v / 1024 ^ k < 18446744073709551616 :=
        Nat.lt_of_le_of_lt (Nat.div_le_self _ _) hv
      have hval : v / 1024 ^ k * 1024 ^ k % 18446744073709551616 = v := by
        rw [Nat.div_mul_cancel k3, Nat.mod_eq_of_lt hv]
      have hm : ∀ u, unit_at IEC_UNITS k = some u →
          make_si_iec_string fuel v = some ((Nat.repr (v / 1024 ^ k)).toList ++ u) := by
        intro u hu
        unfold make_si_iec_string
        rw [if_neg hc, if_pos hc2, k5]
        simp only [Nat.zero_add]
        rw [hu]
        rfl
      have hp := (parse_repr_unit (v / 1024 ^ k) hq).2.2 k
      rw [hval] at hp
      have h5 : k = 1 ∨ k = 2 ∨ k = 3 ∨ k = 4 ∨ k = 5 := by omega
      rcases h5 with e | e | e | e | e <;> subst e
      · exact ⟨_, hm "Ki".toList rfl, hp _ (by simp)⟩
      · exact ⟨_, hm "Mi".toList rfl, hp _ (by simp)⟩
      · exact ⟨_, hm "Gi".toList rfl, hp _ (by simp)⟩
      · exact ⟨_, hm "Ti".toList rfl, hp _ (by simp)⟩
      · exact ⟨_, hm "Pi".toList rfl, hp _ (by simp)⟩
    · refine ⟨(Nat.repr v).toList, ?_, (parse_repr_unit v hv).1⟩
      unfold make_si_iec_string
      rw [if_neg hc, if_neg hc2]

/-- C38 (amended) at the value 3 * 1024^2 and the bound 6. -/
theorem C38_round_trip_below_exa_witness :
    ∃ t, make_si_iec_string 6 3145728 = some t ∧ parse_si_iec_string t = (true, 3145728) :=
  C38_round_trip_below_exa 3145728 6 (by decide) (by decide) (by norm_num) (by norm_num)

/-! ### C7: unknown parameters -/

theorem unknown_not_bound (cfgobj : ConfigObject) (k : Str) (kvs : List (Str × Json))
    (args : List (Option Str)) (ign : Bool) (context : Str) (errors : List Str)
    (r : MatchResult) (hlong : cfgobj.get_param k = none)
    (hr : match_config cfgobj (Json.object kvs) args ign context errors = some r) :
    r.matched.contains k = false := by
  rw [match_config] at hr
  split at hr
  · rename_i st kvs1 hm
    simp at hr
    subst hr
    obtain ⟨h1, _, _⟩ := match_object_items_keys _ _ _ _ _ _ _ hm
    cases hc : st.matched.contains k with
    | false => rfl
    | true =>
      rcases h1 k hc with h | h
      · simp [Json.contains] at h
      · exact absurd hlong h
  · contradiction

theorem unknown_stays (cfgobj : ConfigObject) (k : Str) (kvs : List (Str × Json)) (v : Json)
    (args : List (Option Str)) (ign : Bool) (context : Str) (errors : List Str)
    (r : MatchResult) (hfind : find_param cfgobj k = none) (hk : kv_find k kvs = some v)
    (hr : match_config cfgobj (Json.object kvs) args ign context errors = some r) :
    r.config.get k = some v := by
  rw [match_config] at hr
  split at hr
  · rename_i st kvs1 hm
    simp at hr
    subst hr
    obtain ⟨_, h2, h3⟩ := match_object_items_keys _ _ _ _ _ _ _ hm
    simp only [Json.get]
    rw [kv_find_erase_all, h3 k hfind, hk]
    intro hmem
    rcases h2 k hmem with h | h
    · simp at h
    · exact h hfind
  · contradiction

/-- C7: when the registry resolves the key `k` neither by name nor, for a key of
one character, by short name: the loop iteration of `match_config` for `k`
appends exactly one diagnostic (the unknown parameter message) when
`ignore_unknown_params` is false and none when it is true, and changes nothing
else. Every call of `match_config` that returns on a tree holding `k` leaves no
entry `k` in the bound configuration and `k` with its value in the tree. The call
on the tree with the one member `k` returns the tree whole, binds nothing, leaves
the token list as it is and appends the one diagnostic, or none when unknown
parameters are ignored. On every tree with well-formed token references the call
returns, its diagnostics are the old ones followed by one block per key in the
order of the keys, and the block of `k` is exactly the one diagnostic, or empty
when unknown parameters are ignored; the consumed tokens are those bound under the
other keys, since `k` binds no token whatever its value. -/
theorem C7_unknown_parameter (cfgobj : ConfigObject) (k : Str)
    (hlong : cfgobj.get_param k = none)
    (hshort : ∀ c, k = [c] → cfgobj.get_param_short c = none) :
    (∀ (v : Json) (context : Str) (sub : Option MatchResult) (st : MatchState),
        match_item cfgobj k v false context sub st
          = some ({ st with errors := st.errors ++ [err_unknown cfgobj context k] }, v)
        ∧ match_item cfgobj k v true context sub st = some (st, v))
    ∧ (∀ (kvs : List (Str × Json)) (v : Json) (args : List (Option Str))
        (ignore_unknown_params : Bool) (context : Str) (errors : List Str) (r : MatchResult),
        kv_find k kvs = some v →
        match_config cfgobj (Json.object kvs) args ignore_unknown_params context errors = some r →
        r.matched.contains k = false ∧ r.config.get k = some v)
    ∧ (∀ (v : Json) (args : List (Option Str)) (ignore_unknown_params : Bool)
        (context : Str) (errors : List Str),
        match_config cfgobj (Json.object [(k, v)]) args ignore_unknown_params context errors
          = some { matched := Json.null
                   config := Json.object [(k, v)]
                   args := args
                   errors := if ignore_unknown_params then errors
                     else errors ++ [err_unknown cfgobj context k] })
    ∧ (∀ (kvs : List (Str × Json)) (args : List (Option Str))
        (ignore_unknown_params : Bool) (context : Str) (errors : List Str),
        (Json.object kvs).keys_differ = true →
        args.length < 2147483648 →
        (Json.object kvs).refs_ok args.length = true →
        (∀ n : Int, n ≠ NO_VALUE → Json.count n (Json.object kvs) ≤ 1) →
        (∀ n : Nat, 1 ≤ Json.count (n : Int) (Json.object kvs) →
          ∃ s, args[n]? = some (some s)) →
        ∃ r blocks,
          match_config cfgobj (Json.object kvs) args ignore_unknown_params context errors
            = some r
          ∧ r.errors = errors ++ blocks.flatten
          ∧ List.Forall₂ (fun kv block => kv.1 = k →
              block = (if ignore_unknown_params then [] else [err_unknown cfgobj context k])
              ∧ r.config.get k = some kv.2) kvs blocks
          ∧ r.matched.contains k = false
          ∧ r.args = clear_all (bound_refs cfgobj (Json.object kvs)) args)
    ∧ (∀ (v : Json) (sub : List Nat), member_refs cfgobj k v sub = []) := by
  have hfind := find_param_none_of cfgobj k hlong hshort
  have body : ∀ (v : Json) (ign : Bool) (context : Str) (sub : Option MatchResult)
      (st : MatchState), match_item cfgobj k v ign context sub st
        = some (if ign then st
            else { st with errors := st.errors ++ [err_unknown cfgobj context k] }, v) :=
    fun v ign context sub st => match_item_unknown cfgobj k v ign context sub st hfind
  refine ⟨fun v context sub st => ⟨?_, ?_⟩, ?_, ?_, ?_, ?_⟩
  · simpa using body v false context sub st
  · simpa using body v true context sub st
  · intro kvs v args ign context errors r hk hr
    exact ⟨unknown_not_bound cfgobj k kvs args ign context errors r hlong hr,
      unknown_stays cfgobj k kvs v args ign context errors r hfind hk hr⟩
  · intro v args ign context errors
    rw [match_config_object_eq, match_object_items_cons_eq, body, Option.some_bind,
      match_object_items_nil]
    cases ign <;> rfl
  · intro kvs args ign context errors hkeys hlen hok hcnt hav
    obtain ⟨r, hr⟩ := match_config_total (Json.object kvs) cfgobj args ign context errors
      (Or.inl rfl) hlen hok hcnt hav
    obtain ⟨blocks, b1, b2⟩ := match_config_members cfgobj kvs args ign context errors r hkeys hr
    refine ⟨r, blocks, hr, b1, forall₂_imp_mem _ _ _ _ b2 ?_,
      unknown_not_bound cfgobj k kvs args ign context errors r hlong hr,
      match_config_args _ _ _ _ _ _ _ (Or.inl rfl) hr⟩
    intro kv block _ hR hk
    have hnb : member_binds cfgobj kv.1 kv.2 = false := by
      rw [hk]
      simp [member_binds, hfind]
    obtain ⟨c1, c2⟩ := hR.1 hnb
    rw [hk] at c1 c2
    refine ⟨?_, c2⟩
    rw [c1]
    simp [member_diagnostic, hfind]
  · intro v sub
    simp [member_refs, hfind]

/-- C7 at the key `zzz` of the tree of `--zzz 1` and the object `example_Test`: the
loop body and the call of `match_config` append the one diagnostic and leave the
token and the key. -/
theorem C7_unknown_parameter_witness :
    match_item example_Test "zzz".toList (Json.number 0) false [] none
        { matched := Json.null, matched_keys := [], args := [some "1".toList], errors := [] }
      = some ({ matched := Json.null, matched_keys := [], args := [some "1".toList]
                errors := [err_unknown example_Test [] "zzz".toList] }, Json.number 0)
    ∧ match_config example_Test (Json.object [("zzz".toList, Json.number 0)])
        [some "1".toList] false [] []
      = some { matched := Json.null
               config := Json.object [("zzz".toList, Json.number 0)]
               args := [some "1".toList]
               errors := [err_unknown example_Test [] "zzz".toList] } :=
  ⟨((C7_unknown_parameter example_Test "zzz".toList rfl (fun c h => by simp at h)).1
      (Json.number 0) [] none
      { matched := Json.null, matched_keys := [], args := [some "1".toList], errors := [] }).1,
   (C7_unknown_parameter example_Test "zzz".toList rfl (fun c h => by simp at h)).2.2.1
      (Json.number 0) [some "1".toList] false [] []⟩

/-! ### C14: the short form with an assignment sign, on absent keys -/

/-- C14, amended: for every character `c` other than the dash and every text `v`,
the argument `-c=v` is read as the short names `c`, `=` and the characters of `v`.
In a state whose tree holds none of these keys at the root, each of them is
recorded at the root without value (`NO_VALUE`), no text is recorded, every key
that the tree held keeps its value and no other key appears, nothing is appended
to the token list or the diagnostics, and the last character of the argument is
the pending parameter. -/
theorem C14_short_form_reads_names (st : ParseState) (c : Char) (v : Str)
    (hc : c ≠ '-') (hroot : st.obj.is_object = true ∨ st.obj = Json.null)
    (habs : ∀ d ∈ c :: '=' :: v, st.obj.contains [d] = false) :
    (∀ d ∈ c :: '=' :: v,
        (parse_arg st ('-' :: c :: '=' :: v)).obj.get [d] = some (Json.number NO_VALUE))
    ∧ (∀ k w, st.obj.get k = some w →
        (parse_arg st ('-' :: c :: '=' :: v)).obj.get k = some w)
    ∧ (∀ k, k ∉ (c :: '=' :: v).map (fun d => [d]) →
        (parse_arg st ('-' :: c :: '=' :: v)).obj.get k = st.obj.get k)
    ∧ (parse_arg st ('-' :: c :: '=' :: v)).args = st.args
    ∧ (parse_arg st ('-' :: c :: '=' :: v)).errors = st.errors
    ∧ (parse_arg st ('-' :: c :: '=' :: v)).current_param
        = some [[(c :: '=' :: v).getLast (by simp)]] := by
  have hp : parse_arg st ('-' :: c :: '=' :: v) = parse_short_names (c :: '=' :: v) st :=
    parse_arg_short st (c :: '=' :: v) (by simpa using hc)
  rw [hp]
  obtain ⟨h1, h2, h3⟩ := parse_short_names_fields (c :: '=' :: v) st
  have hget := fun k => (parse_short_names_get (c :: '=' :: v) st hroot k).2
  refine ⟨?_, ?_, ?_, h1, h2, ?_⟩
  · intro d hd
    rw [hget, if_pos (List.mem_map.mpr ⟨d, hd, rfl⟩)]
  · intro k w hk
    have hn : k ∉ (c :: '=' :: v).map (fun d => [d]) := by
      intro hm
      obtain ⟨d, hd, e⟩ := List.mem_map.mp hm
      have := habs d hd
      rw [e, contains_eq_get, hk] at this
      simp at this
    rw [hget, if_neg hn]
    exact hk
  · intro k hn
    rw [hget, if_neg hn]
  · rw [h3, List.getLast?_eq_getLast _ (by simp)]

/-- C14 (amended) at the argument `-c=v` as the first argument. -/
theorem C14_short_form_reads_names_witness :
    (parse_arg { obj := Json.null, args := [], current_param := none, errors := [] }
        "-c=v".toList).obj.get "c".toList = some (Json.number NO_VALUE)
    ∧ (parse_arg { obj := Json.null, args := [], current_param := none, errors := [] }
        "-c=v".toList).args = []
    ∧ (parse_arg { obj := Json.null, args := [], current_param := none, errors := [] }
        "-c=v".toList).current_param = some [['v']] :=
  ⟨(C14_short_form_reads_names
      { obj := Json.null, args := [], current_param := none, errors := [] } 'c' "v".toList
      (by decide) (Or.inr rfl) (fun _ _ => rfl)).1 'c' (List.mem_cons_self _ _),
   (C14_short_form_reads_names
      { obj := Json.null, args := [], current_param := none, errors := [] } 'c' "v".toList
      (by decide) (Or.inr rfl) (fun _ _ => rfl)).2.2.2.1,
   (C14_short_form_reads_names
      { obj := Json.null, args := [], current_param := none, errors := [] } 'c' "v".toList
      (by decide) (Or.inr rfl) (fun _ _ => rfl)).2.2.2.2.2⟩

end oocmd
